import Mathlib

/-!
# Stu execution engine: a shallow embedding

The definitions below embed `src/execution.hh` (class `Execution`: the graph of
target executions, `execute`, `execute_children`, `deploy`, `unlink`,
`get_execution`, `find_cycle`, `raise`, `finished`, `waited`, `wait`,
`remove_if_existing`, `read_variable`, `read_dynamics`, `main`), and, in the
sections named after them, `src/flags.hh` (`flag_get_index`, `flags_format`),
`src/error.hh` (`Place::as_argv0`) and `src/rule.hh` (`Rule::instantiate`,
`Rule_Set::get`, `Rule_Set::add`).

Conventions of the embedding:

* `Execution *` pointers are indices into `World.nodes`; objects are never freed.
* Static members of `Execution` and the append-only record of file-system
  actions form the `World`; every function of the source that reads or writes
  them is a state transformer `M α`.
* A C++ `throw` is the outcome `Outcome.thrown`, `exit` is `Outcome.exited`, a
  null dereference is `Outcome.undef`; `assert` is compiled out (NDEBUG).
* Diagnostic output (`print_*`, `operator<<` on places, `explain_*`, verbose
  output) does not change the state and is left out.
* System calls (`stat`, `lstat`, `open`/`read`, `fork`, `wait`, the clock) and
  the parser are oracles of the environment `Env`, functions of the current
  `World`.
* Recursion through the execution graph is bounded by a fuel argument; running
  out of fuel is the outcome `Outcome.timeout`.
-/

namespace Stu

/-! ## Flags -/

/-- The C++ type `Flags` is `unsigned`; values are kept below `2 ^ 32`. -/
abbrev Flags := Nat

/-- Bitwise complement `~f` of a 32-bit `unsigned`. -/
def flags_not (f : Flags) : Flags := (f % 2 ^ 32) ^^^ (2 ^ 32 - 1)

/-- Modelled from the spec: the flag constants used by `execution.hh`
(`F_EXISTENCE`, `F_OPTIONAL`, `F_TRIVIAL`, `F_READ`, `F_VARIABLE`,
`F_OVERRIDETRIVIAL`, `F_COUNT`) are declared in a header that is absent from
`src/`.  They are taken as parameters; `F_COUNT` is the number of transitive
flags ("the first three flags are transitive"), small enough for
`(1 << F_COUNT) - 1` to be computed in an `int`. -/
structure FlagConsts where
  F_EXISTENCE : Flags
  F_OPTIONAL : Flags
  F_TRIVIAL : Flags
  F_READ : Flags
  F_VARIABLE : Flags
  F_OVERRIDETRIVIAL : Flags
  F_COUNT : Nat
  F_COUNT_le : F_COUNT ≤ 30

/-- The mask `(1 << F_COUNT) - 1`. -/
def FlagConsts.mask (F : FlagConsts) : Flags := (1 <<< F.F_COUNT) - 1

/-- The values of the flag constants of Stu: the transitive flags existence,
optional and trivial are bits 0 to 2, followed by read, variable and
override-trivial. -/
def stuFlags : FlagConsts :=
  { F_EXISTENCE := 1, F_OPTIONAL := 2, F_TRIVIAL := 4, F_READ := 8,
    F_VARIABLE := 16, F_OVERRIDETRIVIAL := 32, F_COUNT := 3,
    F_COUNT_le := by decide }

/-! ## Flag stacks -/

/-- Modelled from the spec: class `Stack` (`link.hh`) is absent from `src/`.
"A bounded stack of bit sets over the flag set, one level per dynamic-nesting
depth": `levels[j]` is the bit set at level `j` (`0` = lowest), and a stack of
depth `k` has `k + 1` levels.  Every level holds flags of the flag set only,
that is bits below `F_COUNT`. -/
structure Stack where
  levels : List Flags
deriving DecidableEq, Repr

namespace Stack

/-- `Stack()`: depth zero, the single level is zero. -/
def empty : Stack := ⟨[0]⟩

/-- `Stack(k, 0)`: depth `k`, all levels zero. -/
def zero (k : Nat) : Stack := ⟨List.replicate (k + 1) 0⟩

/-- `get_k()`: the depth. -/
def get_k (s : Stack) : Nat := s.levels.length - 1

/-- `get(j)`: the bits at level `j`. -/
def get (s : Stack) (j : Nat) : Flags := s.levels.getD j 0

/-- `get_lowest()`. -/
def get_lowest (s : Stack) : Flags := s.get 0

/-- `get_highest()`. -/
def get_highest (s : Stack) : Flags := s.get s.get_k

/-- Apply `f` to level `j`. -/
def modifyLevel (s : Stack) (j : Nat) (f : Flags → Flags) : Stack :=
  ⟨s.levels.modify f j⟩

/-- `add_lowest(flags)`: OR bits of the flag set into the lowest level. -/
def add_lowest (F : FlagConsts) (s : Stack) (flags : Flags) : Stack :=
  s.modifyLevel 0 (fun x => x ||| (flags &&& F.mask))

/-- `add_highest(flags)`: OR bits of the flag set into the highest level. -/
def add_highest (F : FlagConsts) (s : Stack) (flags : Flags) : Stack :=
  s.modifyLevel s.get_k (fun x => x ||| (flags &&& F.mask))

/-- `rem_highest(flags)`: clear bits in the highest level. -/
def rem_highest (s : Stack) (flags : Flags) : Stack :=
  s.modifyLevel s.get_k (fun x => x &&& flags_not flags)

/-- `add(stack)`: levelwise OR. -/
def add (s t : Stack) : Stack :=
  ⟨s.levels.zipWith (fun x y => x ||| y) t.levels⟩

/-- `add_neg(stack)`: at every level, OR in the flags that are *not* in the
argument. -/
def add_neg (F : FlagConsts) (s t : Stack) : Stack :=
  ⟨(List.range s.levels.length).map
      (fun j => s.get j ||| (flags_not (t.get j) &&& F.mask))⟩

/-- `add_highest_neg(flags)`: OR the flags that are *not* in the argument into
the highest level. -/
def add_highest_neg (F : FlagConsts) (s : Stack) (flags : Flags) : Stack :=
  s.modifyLevel s.get_k (fun x => x ||| (flags_not flags &&& F.mask))

/-- `add_one_neg(flags)`: for a stack of depth zero, OR the flags that are
*not* in the argument into the single level. -/
def add_one_neg (F : FlagConsts) (s : Stack) (flags : Flags) : Stack :=
  s.modifyLevel 0 (fun x => x ||| (flags_not flags &&& F.mask))

/-- `push()`: one more level; the new lowest level is zero. -/
def push (s : Stack) : Stack := ⟨0 :: s.levels⟩

/-- `pop()`: drop the lowest level. -/
def pop (s : Stack) : Stack := ⟨s.levels.tail⟩

end Stack

/-- The loop of `Execution::finished(Stack)`:
`for (j = 0; j <= done.get_k(); ++j) to_do_aggregate |= ~done.get(j) & ~avoid.get(j)`,
run for `n` iterations from `j = 0`. -/
def to_do_aggregate (done avoid : Stack) : Nat → Flags
  | 0 => 0
  | n + 1 => to_do_aggregate done avoid n |||
      (flags_not (done.get n) &&& flags_not (avoid.get n))

/-- `Execution::finished(Stack avoid)` as a function of the `done` stack. -/
def finished_stack (F : FlagConsts) (done avoid : Stack) : Bool :=
  (to_do_aggregate done avoid (done.get_k + 1)) &&& F.mask == 0

/-! ## Timestamps -/

/-- Modelled from the spec: class `Timestamp` (`timestamp.hh`) is absent from
`src/`.  "Opaque comparable instants", with the distinguished value
`Timestamp::UNDEFINED` (`none`). -/
abbrev Timestamp := Option Nat

/-- `Timestamp::defined()`. -/
def Timestamp.defined (t : Timestamp) : Bool := t.isSome

/-- `operator<` on timestamps; the source only applies it to defined
timestamps. -/
def Timestamp.lt (a b : Timestamp) : Bool :=
  match a, b with
  | some x, some y => decide (x < y)
  | _, _ => false

/-- The order in which the spec reads timestamps: an undefined timestamp is
earlier than every defined one. -/
def Timestamp.le (a b : Timestamp) : Prop :=
  match a, b with
  | none, _ => True
  | some _, none => False
  | some x, some y => x ≤ y

/-- Strictly earlier, in the spec's reading: an undefined timestamp is earlier
than every defined one. -/
def Timestamp.earlier (a b : Timestamp) : Prop :=
  match a, b with
  | none, some _ => True
  | some x, some y => x < y
  | _, none => False

/-! ## Targets, dependencies, rules, links -/

/-- The two base kinds of target. -/
inductive Base where
  | FILE
  | TRANSIENT
deriving DecidableEq, Repr

/-- Modelled from the spec: class `Type` (`target.hh`) is absent from `src/`.
"`kind` is one of `File`, `Transient`, or `Dynamic(base_kind, depth≥1)`":
a base kind and a dynamic depth, depth `0` for a non-dynamic target. -/
structure TType where
  base : Base
  depth : Nat
deriving DecidableEq, Repr

namespace TType

/-- `Type::FILE`. -/
def FILE : TType := ⟨Base.FILE, 0⟩

/-- `Type::TRANSIENT`. -/
def TRANSIENT : TType := ⟨Base.TRANSIENT, 0⟩

/-- `Type::DYNAMIC_FILE`: a file target under one dynamic wrapper. -/
def DYNAMIC_FILE : TType := ⟨Base.FILE, 1⟩

/-- `get_dynamic_depth()`. -/
def get_dynamic_depth (t : TType) : Nat := t.depth

/-- `is_dynamic()`. -/
def is_dynamic (t : TType) : Bool := decide (0 < t.depth)

/-- `is_any_file()`. -/
def is_any_file (t : TType) : Bool := decide (t.base = Base.FILE)

/-- `is_any_transient()`. -/
def is_any_transient (t : TType) : Bool := decide (t.base = Base.TRANSIENT)

/-- `get_base()`. -/
def get_base (t : TType) : TType := ⟨t.base, 0⟩

end TType

/-- Modelled from the spec: class `Target` (`target.hh`) is absent from `src/`.
"A pair `(kind, name)`; equality is structural." -/
structure Target where
  type : TType
  name : String
deriving DecidableEq, Repr

/-- Modelled from the spec: the `Dependency` classes (`dependency.hh`) are
absent from `src/`.  "A *Direct* dependency (file or transient target with
flags), a *Dynamic* wrapper (flags plus an inner dependency)"; a direct
dependency has an optional variable name (`name`, empty when not given), and
`unparametrized` tells whether its target name is free of parameters.  Places
are only used for diagnostics and are left out. -/
inductive Dependency where
  | direct (flags : Flags) (target : Target) (name : String) (unparametrized : Bool)
  | dynamic (flags : Flags) (dependency : Dependency)
deriving DecidableEq, Repr

namespace Dependency

/-- `get_flags()`. -/
def get_flags : Dependency → Flags
  | direct f _ _ _ => f
  | dynamic f _ => f

/-- `add_flags(flags)`: OR into the top-level flags. -/
def add_flags : Dependency → Flags → Dependency
  | direct f t n u, g => direct (f ||| g) t n u
  | dynamic f d, g => dynamic (f ||| g) d

/-- `has_flags(flags)`. -/
def has_flags (d : Dependency) (g : Flags) : Bool := d.get_flags &&& g != 0

/-- The number of `Dynamic_Dependency` wrappers. -/
def dynamic_depth : Dependency → Nat
  | direct _ _ _ _ => 0
  | dynamic _ d => d.dynamic_depth + 1

/-- The innermost direct dependency: its target. -/
def base_target : Dependency → Target
  | direct _ t _ _ => t
  | dynamic _ d => d.base_target

/-- The explicit variable name of the innermost direct dependency. -/
def base_name : Dependency → String
  | direct _ _ n _ => n
  | dynamic _ d => d.base_name

/-- `is_unparametrized()`. -/
def is_unparametrized : Dependency → Bool
  | direct _ _ _ u => u
  | dynamic _ d => d.is_unparametrized

/-- `get_single_target().unparametrized()`: the base target, its type raised
by the number of dynamic wrappers. -/
def get_single_target (d : Dependency) : Target :=
  ⟨⟨d.base_target.type.base, d.base_target.type.depth + d.dynamic_depth⟩, d.base_target.name⟩

/-- Whether `dynamic_pointer_cast <Direct_Dependency>` succeeds. -/
def is_direct : Dependency → Bool
  | direct _ _ _ _ => true
  | dynamic _ _ => false

end Dependency

/-- `Stack(shared_ptr <Dependency>)`: one level per dynamic wrapper, the flags
of the outermost wrapper at the highest level and those of the direct dependency
at the lowest. -/
def Stack.ofDependency (F : FlagConsts) : Dependency → Stack
  | Dependency.direct f _ _ _ => Stack.add_lowest F Stack.empty f
  | Dependency.dynamic f d =>
      ⟨(Stack.ofDependency F d).levels ++ [f &&& F.mask]⟩

/-- Modelled from the spec: the fields of class `Rule` that `execution.hh`
uses.  (`rule.hh` under `src/` declares a single-target `Rule`; `execution.hh`
is written against the multi-target one.)  "One or more targets, an ordered
list of dependencies, an optional command, and three flavor flags."  `id` is the
identity of the rule object (`shared_ptr` equality). -/
structure Rule where
  id : Nat
  place_param_targets : List Target
  dependencies : List Dependency
  has_command : Bool
  is_hardcode : Bool
  is_copy : Bool
  redirect_index : Int
deriving DecidableEq, Repr

/-- Modelled from the spec: class `Link` (`link.hh`) is absent from `src/`.
"Per-edge record: `avoid`, `flags`, `place`, `dependency`"; the place is only
used for diagnostics and is left out.  `dependency` is `none` for the null
pointer. -/
structure Link where
  avoid : Stack
  flags : Flags
  dependency : Option Dependency
deriving DecidableEq, Repr

/-- `Link(shared_ptr <Dependency>)`. -/
def Link.ofDependency (F : FlagConsts) (d : Dependency) : Link :=
  ⟨Stack.ofDependency F d, d.get_flags, some d⟩

/-- `Link(dependency, flags, place)`. -/
def Link.ofDependencyFlags (F : FlagConsts) (d : Dependency) (flags : Flags) : Link :=
  ⟨Stack.ofDependency F d, flags, some d⟩

/-- `Link::add(avoid, flags)`. -/
def Link.add (l : Link) (avoid : Stack) (flags : Flags) : Link :=
  { l with avoid := l.avoid.add avoid, flags := l.flags ||| flags }

/-- Modelled from the spec: class `Job` (`job.hh`) is absent from `src/`.
"Starts one child process or one file copy, tracks pid, waits on status." -/
inductive Job where
  | fresh
  | started (pid : Int)
  | waited
deriving DecidableEq, Repr

/-- `Job::started()`. -/
def Job.is_started : Job → Bool
  | Job.started _ => true
  | _ => false

/-- `Job::started_or_waited()`. -/
def Job.started_or_waited : Job → Bool
  | Job.fresh => false
  | _ => true

/-! ## Association lists (`std::map`, `std::unordered_map`) -/

/-- `m.find(k)`. -/
def amap_find {κ ν : Type} [DecidableEq κ] : List (κ × ν) → κ → Option ν
  | [], _ => none
  | (k1, v) :: rest, k => if k1 = k then some v else amap_find rest k

/-- `m.count(k) != 0`. -/
def amap_has {κ ν : Type} [DecidableEq κ] (m : List (κ × ν)) (k : κ) : Bool :=
  (amap_find m k).isSome

/-- `m[k] = v`: replace the value of an existing key, else add the pair. -/
def amap_set {κ ν : Type} [DecidableEq κ] : List (κ × ν) → κ → ν → List (κ × ν)
  | [], k, v => [(k, v)]
  | (k1, v1) :: rest, k, v =>
      if k1 = k then (k, v) :: rest else (k1, v1) :: amap_set rest k v

/-- `m.insert({k, v})`: add the pair unless the key is present. -/
def amap_insert {κ ν : Type} [DecidableEq κ] (m : List (κ × ν)) (k : κ) (v : ν) :
    List (κ × ν) :=
  if amap_has m k then m else m ++ [(k, v)]

/-- `m.insert(first, last)`: insert the pairs of another map. -/
def amap_insert_all {κ ν : Type} [DecidableEq κ] (m : List (κ × ν)) :
    List (κ × ν) → List (κ × ν)
  | [] => m
  | (k, v) :: rest => amap_insert_all (amap_insert m k v) rest

/-- `m.erase(k)`. -/
def amap_erase {κ ν : Type} [DecidableEq κ] (m : List (κ × ν)) (k : κ) : List (κ × ν) :=
  m.filter (fun p => decide (p.1 ≠ k))

/-! ## Execution nodes and the world -/

/-- The fields of class `Execution`.  `children` and the keys of `parents` are
node indices. -/
structure Execution where
  targets : List Target
  rule : Option Rule
  param_rule : Option Nat
  children : List Nat
  parents : List (Nat × Link)
  job : Job
  buf_default : List Link
  buf_trivial : List Link
  timestamps_old : List Timestamp
  mapping_parameter : List (String × String)
  mapping_variable : List (String × String)
  error : Nat
  done : Stack
  timestamp : Timestamp
  need_build : Bool
  checked : Bool
  exists_ : Int
deriving DecidableEq, Repr

/-- The state of a node before its constructor body runs; also the value read
through an index that is not allocated. -/
def Execution.blank : Execution :=
  { targets := [], rule := none, param_rule := none, children := [], parents := [],
    job := Job.fresh, buf_default := [], buf_trivial := [], timestamps_old := [],
    mapping_parameter := [], mapping_variable := [], error := 0, done := Stack.empty,
    timestamp := none, need_build := false, checked := false, exists_ := 0 }

/-- `get_dynamic_depth()`: the dynamic depth, or -1 for the root execution. -/
def Execution.get_dynamic_depth (e : Execution) : Int :=
  match e.targets with
  | [] => -1
  | t :: _ => (t.type.get_dynamic_depth : Int)

/-- `is_dynamic()`. -/
def Execution.is_dynamic (e : Execution) : Bool :=
  match e.targets with
  | [] => false
  | t :: _ => t.type.is_dynamic

/-- `Execution::finished(Stack avoid)`. -/
def Execution.finished (F : FlagConsts) (e : Execution) (avoid : Stack) : Bool :=
  finished_stack F e.done avoid

/-- An action on the file system or the process table, recorded in order. -/
inductive Action where
  | remove_file (name : String)
  | write_content (name : String)
  | start_job (node : Nat) (mapping : List (String × String))
  | start_copy (node : Nat)
deriving DecidableEq, Repr

/-- The execution graph together with the static members of `Execution`. -/
structure World where
  nodes : List Execution
  executions_by_target : List (Target × Nat)
  executions_by_pid : List (Int × Nat)
  transients : List (String × Timestamp)
  timestamp_last : Timestamp
  jobs : Int
  worked : Bool
  actions : List Action
deriving DecidableEq, Repr

/-- Dereference a node pointer. -/
def World.node (w : World) (i : Nat) : Execution := w.nodes.getD i Execution.blank

/-- Update the node behind a pointer. -/
def World.modify (w : World) (i : Nat) (f : Execution → Execution) : World :=
  { w with nodes := w.nodes.modify f i }

/-- The result of `stat`. -/
inductive Stat where
  | ok (mtime : Nat)
  | enoent
  | failure
deriving DecidableEq, Repr

/-- What the parser makes of a dynamic-dependency file:
`Parse::parse_tokens_file` may throw (`tokens_error`), then
`Build::get_expression_list` fills `dependencies` and may throw (`list_error`);
`input` tells whether an input redirection was found. -/
structure Parsed where
  tokens_error : Option Nat
  list_error : Option Nat
  dependencies : List Dependency
  input : Bool

/-- The program's surroundings: flag constants, options, the rule set (which
does not change during `main`), and the oracles for system calls. -/
structure Env where
  F : FlagConsts
  option_keep_going : Bool
  option_no_delete : Bool
  option_question : Bool
  order_random : Bool
  order_vec : Bool
  /-- `rule_set.get(target, param_rule, mapping)`: throws an error code, or
  returns the instantiated rule (or null), the identity of the original rule
  and the parameter mapping. -/
  rule_set_get : Target → Except Nat (Option (Rule × Nat × List (String × String)))
  stat : World → String → Stat
  /-- `lstat` followed by `S_ISLNK`: `none` when `lstat` fails. -/
  lstat_is_link : World → String → Option Bool
  /-- `Timestamp::now()`. -/
  now : World → Nat
  /-- `Timestamp::startup`. -/
  startup : Nat
  /-- The pid returned by `job.start` or `job.start_copy` for a node
  (negative on failure). -/
  job_start : World → Nat → Int
  /-- `Job::wait(&status)`: the pid and the status. -/
  job_wait : World → Int × Int
  /-- `job.waited(status, pid)`: whether the status is a success. -/
  status_success : Int → Bool
  /-- The content of a file as read by `open`, `fstat`, `read` and `close`;
  `none` on failure. -/
  read_file : World → String → Option (List Char)
  /-- The file created by `write_content`: whether `fopen`, the writes and
  `fclose` succeed, in this order. -/
  write_file : World → String → Bool × Bool × Bool
  parse_dynamic : World → String → Parsed
  random_number : World → Nat → Nat

/-! ## The state-and-exception monad -/

/-- How a call ends. -/
inductive Outcome (α : Type) where
  | ret (a : α)
  | thrown (e : Nat)
  | exited (code : Nat)
  | undef
  | timeout
deriving DecidableEq, Repr

/-- A computation over the world. -/
def M (α : Type) : Type := World → Outcome α × World

namespace M

/-- Return a value. -/
def pure {α : Type} (a : α) : M α := fun w => (Outcome.ret a, w)

/-- Sequence two computations; every outcome but `ret` ends the sequence. -/
def bind {α β : Type} (m : M α) (f : α → M β) : M β := fun w =>
  match m w with
  | (Outcome.ret a, w1) => f a w1
  | (Outcome.thrown e, w1) => (Outcome.thrown e, w1)
  | (Outcome.exited c, w1) => (Outcome.exited c, w1)
  | (Outcome.undef, w1) => (Outcome.undef, w1)
  | (Outcome.timeout, w1) => (Outcome.timeout, w1)

/-- Read the world. -/
def get : M World := fun w => (Outcome.ret w, w)

/-- Change the world. -/
def update (f : World → World) : M Unit := fun w => (Outcome.ret (), f w)

/-- `throw e`. -/
def throw {α : Type} (e : Nat) : M α := fun w => (Outcome.thrown e, w)

/-- `exit(code)`. -/
def exit {α : Type} (c : Nat) : M α := fun w => (Outcome.exited c, w)

/-- A null pointer is dereferenced. -/
def undef {α : Type} : M α := fun w => (Outcome.undef, w)

/-- The fuel is used up. -/
def timeout {α : Type} : M α := fun w => (Outcome.timeout, w)

/-- `try m catch (int e) handler(e)`. -/
def tryCatch {α : Type} (m : M α) (handler : Nat → M α) : M α := fun w =>
  match m w with
  | (Outcome.thrown e, w1) => handler e w1
  | r => r

end M

instance : Monad M where
  pure := M.pure
  bind := M.bind

/-- Read the node behind a pointer. -/
def getNode (i : Nat) : M Execution := fun w => (Outcome.ret (w.node i), w)

/-- Update the node behind a pointer. -/
def modifyNode (i : Nat) (f : Execution → Execution) : M Unit :=
  M.update (fun w => w.modify i f)

/-! ## Error codes (`error.hh`) -/

/-- `ERROR_BUILD`. -/
def ERROR_BUILD : Nat := 1

/-- `ERROR_LOGICAL`. -/
def ERROR_LOGICAL : Nat := 2

/-- `ERROR_FATAL`. -/
def ERROR_FATAL : Nat := 4

/-- `Execution::raise(int error_)`: `error |= error_; if (! option_keep_going)
throw error;`. -/
def raise (env : Env) (self : Nat) (error_ : Nat) : M Unit := do
  modifyNode self (fun e => { e with error := e.error ||| error_ })
  if env.option_keep_going then
    pure ()
  else do
    let e ← getNode self
    M.throw e.error

/-! ## Cycle detection -/

/-- `Execution::same_rule(execution_a, execution_b)`. -/
def same_rule (w : World) (a b : Nat) : Bool :=
  (w.node a).param_rule != none &&
  (w.node b).param_rule != none &&
  (w.node a).get_dynamic_depth == (w.node b).get_dynamic_depth &&
  (w.node a).param_rule == (w.node b).param_rule

/-- The loop `for (auto &i: path.back()->parents)` of
`find_cycle(path, child, link)`; `recurse` is the recursive call. -/
def find_cycle_loop (recurse : List Nat → Option Bool) (w : World) (path : List Nat) :
    List (Nat × Link) → Option Bool
  | [] => some false
  | (next, _) :: rest =>
    if (w.node next).param_rule = none then
      find_cycle_loop recurse w path rest
    else
      match recurse (path ++ [next]) with
      | none => none
      | some true => some true
      | some false => find_cycle_loop recurse w path rest

/-- `Execution::find_cycle(path, child, link)`; `none` when the fuel runs
out. -/
def find_cycle_path (w : World) (child : Nat) : Nat → List Nat → Option Bool
  | 0, _ => none
  | fuel + 1, path =>
    if same_rule w (path.getLastD 0) child then
      some true
    else
      find_cycle_loop (find_cycle_path w child fuel) w path
        (w.node (path.getLastD 0)).parents

/-- `Execution::find_cycle(parent, child, link)`. -/
def find_cycle (fuel : Nat) (w : World) (parent child : Nat) : Option Bool :=
  if (w.node parent).param_rule = none then
    some false
  else if (w.node child).param_rule = none then
    some false
  else
    find_cycle_path w child fuel [parent]

/-! ## Construction of executions -/

/-- The dependency pushed for one dependency of the rule in the constructor:
for a transient target, the flags of the lowest level of the link are added and
one `Dynamic_Dependency` is wrapped around it per dynamic level. -/
def wrap_dynamic (avoid : Stack) (dep : Dependency) : Nat → Dependency
  | 0 => dep
  | i + 1 => Dependency.dynamic (avoid.get (i + 1)) (wrap_dynamic avoid dep i)

/-- The loop `for (auto &dependency: rule->dependencies)` of the constructor:
the dependency objects of the rule after the loop (`add_flags` changes them in
place) and the links pushed to `buf_default`. -/
def constructor_dependencies (F : FlagConsts) (target_ : Target) (link : Link) :
    List Dependency → List Dependency × List Link
  | [] => ([], [])
  | dependency :: rest =>
    let r := constructor_dependencies F target_ link rest
    if target_.type.is_any_transient then
      let dep := dependency.add_flags link.avoid.get_lowest
      (dep :: r.1,
        Link.ofDependency F (wrap_dynamic link.avoid dep target_.type.get_dynamic_depth) :: r.2)
    else
      (dependency :: r.1, Link.ofDependency F dependency :: r.2)

/-- The `else` branch of the constructor ("there is no rule"). -/
def constructor_no_rule (env : Env) (self : Nat) (target_ : Target) (link : Link) : M Unit := do
  let w ← M.get
  let rule_not_found ←
    if target_.type = TType.FILE then
      if link.flags &&& env.F.F_OPTIONAL = 0 then
        match env.stat w target_.name with
        | Stat.ok _ => (pure false : M Bool)
        | Stat.enoent => do
          modifyNode self (fun e => { e with error := e.error ||| ERROR_BUILD })
          pure true
        | Stat.failure => do
          raise env self ERROR_BUILD
          modifyNode self (fun e => { e with error := e.error ||| ERROR_BUILD })
          pure true
      else pure false
    else if target_.type = TType.TRANSIENT then pure true
    else pure false
  if rule_not_found then raise env self ERROR_BUILD else pure ()

/-- `Execution::Execution(Target target_, Link &&link, Execution *parent)`,
as called by `new`; returns the pointer to the new object.  An error thrown by
`rule_set.get` leaves before the object is registered anywhere. -/
def Execution.create (env : Env) (target_ : Target) (link : Link) (parent : Nat) : M Nat := do
  let key : Target :=
    if target_.type = TType.FILE ∨ target_.type = TType.TRANSIENT then target_
    else ⟨target_.type.get_base, target_.name⟩
  match env.rule_set_get key with
  | Except.error e => M.throw e
  | Except.ok found =>
    let rule : Option Rule := found.map (fun r => r.1)
    let targets : List Target :=
      if target_.type = TType.FILE ∨ target_.type = TType.TRANSIENT then
        match rule with
        | none => [target_]
        | some r => r.place_param_targets
      else [target_]
    let w ← M.get
    let self := w.nodes.length
    let e0 : Execution :=
      { Execution.blank with
        done := Stack.zero target_.type.get_dynamic_depth
        rule := rule
        param_rule := found.map (fun r => r.2.1)
        mapping_parameter := (found.map (fun r => r.2.2)).getD []
        targets := targets
        parents := [(parent, link)] }
    M.update (fun w => { w with
      nodes := w.nodes ++ [e0]
      executions_by_target :=
        targets.foldl (fun m t => amap_set m t self) w.executions_by_target })
    match rule with
    | some r =>
      if target_.type.is_dynamic && target_.type.is_any_file then
        constructor_no_rule env self target_ link
      else
        let ds := constructor_dependencies env.F target_ link r.dependencies
        modifyNode self (fun e => { e with
          rule := some { r with dependencies := ds.1 }
          buf_default := e.buf_default ++ ds.2 })
    | none => constructor_no_rule env self target_ link
    pure self

/-- `Execution::Execution(const vector <shared_ptr <Dependency> > &)`: the
root execution. -/
def Execution.root (F : FlagConsts) (dependencies_ : List Dependency) : Execution :=
  { Execution.blank with buf_default := dependencies_.map (Link.ofDependency F) }

/-- `Execution::initialize(Stack avoid)`. -/
def initialize_execution (env : Env) (self : Nat) (avoid : Stack) : M Unit := do
  let e ← getNode self
  match e.targets with
  | [] => pure ()
  | target :: _ =>
    if target.type.is_dynamic then
      let flags_child : Flags :=
        if target.type.is_any_file then avoid.get_lowest ||| env.F.F_READ
        else avoid.get_lowest
      let dependency_child :=
        Dependency.direct flags_child ⟨target.type.get_base, target.name⟩ "" true
      modifyNode self (fun e => { e with
        buf_default := e.buf_default ++
          [Link.ofDependencyFlags env.F dependency_child flags_child] })
    else pure ()

/-- The first part of `Execution::get_execution`: look the target up in
`executions_by_target`; connect the parent to the execution found (adding the
flags when they are already connected), or create a new execution. -/
def get_execution_connect (env : Env) (target : Target) (link : Link) (parent : Nat) :
    M Nat := do
  let w ← M.get
  match amap_find w.executions_by_target target with
  | some execution =>
    match amap_find (w.node execution).parents parent with
    | some l =>
      modifyNode execution (fun e => { e with
        parents := amap_set e.parents parent (l.add link.avoid link.flags) })
      pure execution
    | none =>
      modifyNode execution (fun e => { e with parents := amap_set e.parents parent link })
      pure execution
  | none => Execution.create env target link parent

/-- `Execution::get_execution(target, link, parent)`: `none` is the null
pointer. -/
def get_execution (env : Env) (fuel : Nat) (target : Target) (link : Link) (parent : Nat) :
    M (Option Nat) := do
  let execution ← get_execution_connect env target link parent
  let w ← M.get
  match find_cycle fuel w parent execution with
  | none => M.timeout
  | some true => do
    raise env parent ERROR_LOGICAL
    pure none
  | some false => do
    initialize_execution env execution link.avoid
    pure (some execution)

/-! ## Variable dependencies -/

/-- The characters of `" \n\t\f\r\v"`. -/
def is_space (c : Char) : Bool :=
  c = ' ' || c = '\n' || c = '\t' || c = '\x0c' || c = '\r' || c = '\x0b'

/-- `string::npos`, the largest `size_t`. -/
def npos : Nat := 2 ^ 64 - 1

/-- The index of the first character that is not white space, if there is
one. -/
def first_not_space : List Char → Option Nat
  | [] => none
  | c :: rest => if is_space c then (first_not_space rest).map (fun i => i + 1) else some 0

/-- `s.find_first_not_of(" \n\t\f\r\v")`: `npos` when every character is
white space. -/
def find_first_not_of (s : List Char) : Nat :=
  match first_not_space s with
  | some i => i
  | none => npos

/-- `s.find_last_not_of(" \n\t\f\r\v")`: `npos` when every character is
white space. -/
def find_last_not_of (s : List Char) : Nat :=
  match first_not_space s.reverse with
  | some i => s.length - 1 - i
  | none => npos

/-- `s.erase(pos, len)`: remove `min(len, size - pos)` characters from position
`pos` on. -/
def string_erase (s : List Char) (pos len : Nat) : List Char :=
  s.take pos ++ s.drop (pos + min len (s.length - pos))

/-- The two `erase` calls of `read_variable`:
`content.erase(0, content.find_first_not_of(...));
content.erase(content.find_last_not_of(...) + 1);` with `size_t` arithmetic. -/
def read_variable_trim (content : List Char) : List Char :=
  let c1 := string_erase content 0 (find_first_not_of content)
  string_erase c1 ((find_last_not_of c1 + 1) % 2 ^ 64) npos

/-- The spec's `trim_ascii_ws`: every leading and every trailing white-space
character removed. -/
def trim_ascii_ws (s : List Char) : List Char :=
  ((s.dropWhile is_space).reverse.dropWhile is_space).reverse

/-- `Execution::read_variable(variable_name, content, dependency)`: returns the
variable name and the content on success (`true`), `none` on failure
(`false`). -/
def read_variable (env : Env) (self : Nat) (dependency : Option Dependency) :
    M (Option (String × String)) := do
  match dependency with
  | some (Dependency.direct flags target0 name u) =>
    let target := (Dependency.direct flags target0 name u).get_single_target
    let w ← M.get
    match env.read_file w target.name with
    | none => do
      raise env self ERROR_BUILD
      pure none
    | some content =>
      let variable_name := if name = "" then target.name else name
      pure (some (variable_name, String.mk (read_variable_trim content)))
  | _ => M.undef

/-! ## Dynamic dependencies -/

/-- The loop `for (Type k= target.type - 1; k.is_dynamic(); --k)` of
`read_dynamics`, run `n` times. -/
def read_dynamics_wrap : Stack → Dependency → Nat → Dependency
  | _, dependency, 0 => dependency
  | avoid_this, dependency, n + 1 =>
    read_dynamics_wrap avoid_this.pop
      (Dependency.dynamic avoid_this.pop.get_lowest dependency) n

/-- The body of the loop `for (auto &j: dependencies)` of `read_dynamics`. -/
def read_dynamics_dependency (env : Env) (self : Nat) (target : Target) (avoid : Stack)
    (input : Bool) (j : Dependency) : M Unit := do
  if !j.is_unparametrized then
    raise env self ERROR_LOGICAL
  else if (j.get_flags &&& env.F.F_VARIABLE == env.F.F_VARIABLE) &&
      target.type.is_dynamic && target.type != TType.DYNAMIC_FILE then
    raise env self ERROR_LOGICAL
  else do
    let avoid_this := avoid.pop
    let dependency := j.add_flags avoid_this.get_lowest
    let dependency := read_dynamics_wrap avoid_this dependency (target.type.depth - 1)
    modifyNode self (fun e => { e with
      buf_default := e.buf_default ++ [Link.ofDependency env.F dependency] })
    if input then raise env self ERROR_LOGICAL else pure ()

/-- Run an action for every element of a list, in order. -/
def for_each {α : Type} (f : α → M Unit) : List α → M Unit
  | [] => pure ()
  | a :: rest => do
    f a
    for_each f rest

/-- `Execution::read_dynamics(Stack avoid, dependency_this)`. -/
def read_dynamics (env : Env) (self : Nat) (avoid : Stack)
    (dependency_this : Option Dependency) : M Unit :=
  match dependency_this with
  | none => M.undef
  | some d =>
    let target := d.get_single_target
    M.tryCatch
      (do
        let w ← M.get
        let parsed := env.parse_dynamic w target.name
        match parsed.tokens_error with
        | some e => M.throw e
        | none => do
          match parsed.list_error with
          | some e => raise env self e
          | none => pure ()
          for_each (read_dynamics_dependency env self target avoid parsed.input)
            parsed.dependencies)
      (fun e => raise env self e)

/-! ## `unlink` -/

/-- `unlink`, "Propagate dynamic dependencies". -/
def unlink_read (env : Env) (parent child : Nat) (dependency_parent : Option Dependency)
    (avoid_parent : Stack) (flags_child : Flags) : M Unit := do
  if flags_child &&& env.F.F_READ ≠ 0 then
    let c ← getNode child
    let do_read : Bool :=
      if c.error ≠ 0 then false
      else if flags_child &&& env.F.F_OPTIONAL ≠ 0 then
        (if c.exists_ ≤ 0 then false else true)
      else true
    if do_read then read_dynamics env parent avoid_parent dependency_parent else pure ()
  else pure ()

/-- `unlink`, "Propagate timestamp". -/
def unlink_timestamp (env : Env) (parent child : Nat) (flags_child : Flags) : M Unit := do
  if flags_child &&& env.F.F_EXISTENCE = 0 ∧ flags_child &&& env.F.F_READ = 0 then
    let c ← getNode child
    let p ← getNode parent
    if c.timestamp.defined then
      if !p.timestamp.defined then
        modifyNode parent (fun e => { e with timestamp := c.timestamp })
      else if Timestamp.lt p.timestamp c.timestamp then
        modifyNode parent (fun e => { e with timestamp := c.timestamp })
      else pure ()
    else pure ()
  else pure ()

/-- `unlink`, "Propagate variable dependencies". -/
def unlink_variable (env : Env) (parent child : Nat) (dependency_child : Option Dependency)
    (flags_child : Flags) : M Unit := do
  let c ← getNode child
  if flags_child &&& env.F.F_VARIABLE ≠ 0 ∧ c.exists_ > 0 then
    let r ← read_variable env child dependency_child
    match r with
    | some (variable_name, content) =>
      modifyNode parent (fun e => { e with
        mapping_variable := amap_set e.mapping_variable variable_name content })
    | none => pure ()
  else pure ()

/-- Whether `dynamic_pointer_cast <Direct_Dependency> (dependency)` succeeds
and the dependency's target has type `Type::TRANSIENT`. -/
def is_direct_transient : Option Dependency → Bool
  | some (Dependency.direct _ target _ _) => target.type == TType.TRANSIENT
  | _ => false

/-- Whether `dynamic_pointer_cast <Direct_Dependency> (dependency)` succeeds
and the dependency's target has type `Type::FILE`. -/
def is_direct_file : Option Dependency → Bool
  | some (Dependency.direct _ target _ _) => target.type == TType.FILE
  | _ => false

/-- `unlink`, "Propagate variables over transient targets without commands and
dynamic targets". -/
def unlink_mapping (parent child : Nat) (dependency_child : Option Dependency) : M Unit := do
  let c ← getNode child
  let no_command : Bool :=
    match c.rule with
    | some r => !r.has_command
    | none => false
  if c.is_dynamic || (is_direct_transient dependency_child && no_command) then
    modifyNode parent (fun e => { e with
      mapping_variable := amap_insert_all e.mapping_variable c.mapping_variable })
  else pure ()

/-- `unlink`, "Propagate attributes" and "Remove the links between them". -/
def unlink_attributes (env : Env) (parent child : Nat) (flags_child : Flags) : M Unit := do
  let c ← getNode child
  modifyNode parent (fun e => { e with error := e.error ||| c.error })
  if c.need_build ∧ flags_child &&& env.F.F_EXISTENCE = 0 ∧ flags_child &&& env.F.F_READ = 0 then
    modifyNode parent (fun e => { e with need_build := true })
  else pure ()
  modifyNode parent (fun e => { e with children := e.children.erase child })
  modifyNode child (fun e => { e with parents := amap_erase e.parents parent })

/-- `Execution::unlink(parent, child, dependency_parent, avoid_parent,
dependency_child, avoid_child, flags_child)`. -/
def unlink (env : Env) (parent child : Nat) (dependency_parent : Option Dependency)
    (avoid_parent : Stack) (dependency_child : Option Dependency) (_avoid_child : Stack)
    (flags_child : Flags) : M Unit := do
  unlink_read env parent child dependency_parent avoid_parent flags_child
  unlink_timestamp env parent child flags_child
  unlink_variable env parent child dependency_child flags_child
  unlink_mapping parent child dependency_child
  unlink_attributes env parent child flags_child

/-! ## After the job: `remove_if_existing`, `waited`, `wait` -/

/-- The loop of `remove_if_existing` from index `i` on; `removed` is the
variable of the source. -/
def remove_if_existing_loop (env : Env) (self : Nat) :
    Nat → List Target → Bool → M Bool
  | _, [], removed => pure removed
  | i, target :: rest, removed => do
    if target.type ≠ TType.FILE then
      remove_if_existing_loop env self (i + 1) rest removed
    else
      let w ← M.get
      match env.stat w target.name with
      | Stat.ok mtime =>
        match (w.node self).timestamps_old.get? i with
        | none => M.undef
        | some timestamp_old =>
          if !timestamp_old.defined || Timestamp.lt timestamp_old (some mtime) then do
            M.update (fun w => { w with
              actions := w.actions ++ [Action.remove_file target.name] })
            remove_if_existing_loop env self (i + 1) rest true
          else
            remove_if_existing_loop env self (i + 1) rest removed
      | _ => remove_if_existing_loop env self (i + 1) rest removed

/-- `Execution::remove_if_existing(bool output)`. -/
def remove_if_existing (env : Env) (self : Nat) (_output : Bool) : M Bool := do
  if env.option_no_delete then
    pure false
  else do
    let e ← getNode self
    remove_if_existing_loop env self 0 e.targets false

/-- The body of the loop over the targets in `waited`, for a successful
command. -/
def waited_target (env : Env) (self : Nat) (target : Target) : M Unit := do
  if target.type ≠ TType.FILE then
    pure ()
  else
    let w ← M.get
    match env.stat w target.name with
    | Stat.ok mtime => do
      let timestamp_file : Timestamp := some mtime
      let e ← getNode self
      if !e.timestamp.defined || Timestamp.lt e.timestamp timestamp_file then
        modifyNode self (fun e => { e with timestamp := timestamp_file })
      else pure ()
      if Timestamp.lt timestamp_file (some env.startup) then
        let w ← M.get
        match env.lstat_is_link w target.name with
        | none => raise env self ERROR_BUILD
        | some is_link =>
          if is_link then pure ()
          else
            match e.rule with
            | none => M.undef
            | some _ => raise env self ERROR_BUILD
      else pure ()
    | _ => do
      modifyNode self (fun e => { e with exists_ := -1 })
      let e ← getNode self
      match e.rule with
      | none => M.undef
      | some r => if r.has_command then raise env self ERROR_BUILD else M.undef

/-- `Execution::waited(int pid, int status)`. -/
def waited (env : Env) (self : Nat) (pid : Int) (status : Int) : M Unit := do
  modifyNode self (fun e => { e with done := e.done.add_one_neg env.F 0 })
  M.update (fun w => { w with executions_by_pid := amap_erase w.executions_by_pid pid })
  let e ← getNode self
  if e.exists_ < 0 then modifyNode self (fun e => { e with exists_ := 0 }) else pure ()
  modifyNode self (fun e => { e with job := Job.waited })
  if env.status_success status then
    modifyNode self (fun e => { e with exists_ := 1 })
    for_each (waited_target env self) e.targets
  else do
    let _ ← remove_if_existing env self true
    raise env self ERROR_BUILD

/-- `Execution::wait()`. -/
def wait (env : Env) : M Unit := do
  let w ← M.get
  let pid := (env.job_wait w).1
  let status := (env.job_wait w).2
  M.update (fun w => { w with timestamp_last := some (env.now w) })
  let w ← M.get
  match amap_find w.executions_by_pid pid with
  | none => pure ()
  | some execution => do
    waited env execution pid status
    M.update (fun w => { w with jobs := w.jobs + 1 })

/-! ## `deploy`, `execute_children`, `execute` -/

/-- The type of `Execution::execute(parent, link)` as called on a node:
node, parent (`none` for the null pointer), link. -/
abbrev ExecuteFn : Type := Nat → Option Nat → Link → M Bool

/-- `children.insert(child)` on an `unordered_set`. -/
def children_insert (children : List Nat) (child : Nat) : List Nat :=
  if child ∈ children then children else children ++ [child]

/-- The end of `deploy` and of the loop body of `execute_children`, after the
child was executed and returned `false`:
`if (jobs == 0) return ...; if (child->finished(avoid_child)) unlink(...)`.
Returns whether `jobs == 0` was hit. -/
def after_child (env : Env) (self child : Nat) (link : Link)
    (dependency_child : Option Dependency) (avoid_child : Stack) (flags_child : Flags) :
    M Bool := do
  let w ← M.get
  if w.jobs = 0 then
    pure true
  else do
    let c ← getNode child
    if c.finished env.F avoid_child then
      unlink env self child link.dependency link.avoid dependency_child avoid_child flags_child
    else pure ()
    pure false

/-- `Execution::deploy(link, link_child)`; `execute` is the method called on the
child. -/
def deploy (env : Env) (execute : ExecuteFn) (fuel : Nat) (self : Nat)
    (link link_child : Link) : M Bool := do
  match link_child.dependency with
  | none => M.undef
  | some dep =>
    let target_child := dep.get_single_target
    let e ← getNode self
    let carry : Option Bool :=
      if e.targets.isEmpty then some false
      else link.dependency.map (fun d => d.get_single_target.type == TType.TRANSIENT)
    match carry with
    | none => M.undef
    | some transient =>
      let flags_child := link_child.flags
      let flags_child_additional : Flags := if transient then link.flags else 0
      let avoid_child : Stack :=
        if transient then link_child.avoid.add_highest env.F link.flags else link_child.avoid
      let flags_child_new := flags_child ||| flags_child_additional
      if flags_child_new &&& env.F.F_EXISTENCE ≠ 0 ∧ flags_child_new &&& env.F.F_OPTIONAL ≠ 0 then do
        raise env self ERROR_LOGICAL
        pure false
      else if flags_child &&& env.F.F_VARIABLE ≠ 0 ∧
          flags_child_additional &&&
            (env.F.F_EXISTENCE ||| env.F.F_OPTIONAL ||| env.F.F_TRIVIAL) ≠ 0 then do
        raise env self ERROR_LOGICAL
        pure false
      else do
        let flags_child := flags_child_new
        let found ← get_execution env fuel target_child
          ⟨avoid_child, flags_child, link_child.dependency⟩ self
        match found with
        | none => pure false
        | some child => do
          modifyNode self (fun e => { e with children := children_insert e.children child })
          let r ← execute child (some self) ⟨avoid_child, flags_child, link_child.dependency⟩
          if r then
            pure true
          else do
            let _ ← after_child env self child link link_child.dependency avoid_child flags_child
            pure false

/-- `swap(v[p_last], v[p_random])`. -/
def vector_swap (v : List Nat) (p_last p_random : Nat) : List Nat :=
  (v.set p_last (v.getD p_random 0)).set p_random (v.getD p_last 0)

/-- The loop `while (! executions_children_vector.empty())` of
`execute_children`; the first argument bounds the number of iterations and is
the length of the vector. -/
def execute_children_loop (env : Env) (execute : ExecuteFn) (self : Nat) (link : Link) :
    Nat → List Nat → M Int
  | 0, _ => pure (-1)
  | n + 1, v => do
    let w ← M.get
    let v1 : List Nat :=
      if env.order_vec then
        vector_swap v (v.length - 1) (env.random_number w v.length % v.length)
      else v
    match v1.getLast? with
    | none => pure (-1)
    | some child =>
      let c ← getNode child
      match amap_find c.parents self with
      | none => M.undef
      | some back =>
        let avoid_child := back.avoid
        let flags_child : Flags :=
          if is_direct_transient link.dependency then back.flags ||| link.flags else back.flags
        let dependency_child := back.dependency
        let r ← execute child (some self) ⟨avoid_child, flags_child, dependency_child⟩
        if r then
          pure 1
        else do
          let stop ← after_child env self child link dependency_child avoid_child flags_child
          if stop then pure 0
          else execute_children_loop env execute self link n v1.dropLast

/-- `Execution::execute_children(link)`: -1 continue, 0 return false, 1 return
true. -/
def execute_children (env : Env) (execute : ExecuteFn) (self : Nat) (link : Link) : M Int := do
  let e ← getNode self
  execute_children_loop env execute self link e.children.length e.children

/-- `int ret= execute_children(link); if (ret >= 0) return ret;`: the value
returned by `execute`, or `none` to go on. -/
def execute_continue (env : Env) (execute : ExecuteFn) (self : Nat) (link : Link) :
    M (Option Bool) := do
  let ret ← execute_children env execute self link
  if ret ≥ 0 then pure (some (decide (ret ≠ 0))) else pure none

/-- `execute`: "Should children even be started?  Check whether this is an
optional dependency and if it is, return when the file does not exist." -/
def execute_optional (env : Env) (self : Nat) (link : Link) : M (Option Bool) := do
  match link.dependency with
  | some (Dependency.direct _ target _ _) =>
    if link.flags &&& env.F.F_OPTIONAL ≠ 0 ∧ target.type = TType.FILE then
      let w ← M.get
      match env.stat w target.name with
      | Stat.ok _ => do
        modifyNode self (fun e => { e with exists_ := 1 })
        pure none
      | Stat.enoent => do
        modifyNode self (fun e => { e with exists_ := -1 })
        modifyNode self (fun e => { e with
          done := e.done.add_highest_neg env.F link.avoid.get_highest })
        pure (some false)
      | Stat.failure => do
        modifyNode self (fun e => { e with exists_ := -1 })
        raise env self ERROR_BUILD
        modifyNode self (fun e => { e with done := e.done.add_neg env.F link.avoid })
        pure (some false)
    else pure none
  | _ => pure none

/-- `done.add_neg(link.avoid); return false;`. -/
def done_return (env : Env) (self : Nat) (link : Link) : M (Option Bool) := do
  modifyNode self (fun e => { e with done := e.done.add_neg env.F link.avoid })
  pure (some false)

/-- The first-pass loop of `execute`: `while (! buf_default.empty())`; the
first argument bounds the number of iterations. -/
def execute_pass1 (env : Env) (deploy_child : Link → M Bool) (self : Nat) :
    Nat → M (Option Bool)
  | 0 => do
    let e ← getNode self
    if e.buf_default.isEmpty then pure none else M.timeout
  | n + 1 => do
    let e ← getNode self
    match e.buf_default with
    | [] => pure none
    | link_child :: rest => do
      modifyNode self (fun e => { e with buf_default := rest })
      let link_child_overridetrivial : Link :=
        { link_child with
          avoid := link_child.avoid.add_highest env.F env.F.F_OVERRIDETRIVIAL
          flags := link_child.flags ||| env.F.F_OVERRIDETRIVIAL }
      modifyNode self (fun e => { e with
        buf_trivial := e.buf_trivial ++ [link_child_overridetrivial] })
      let r ← deploy_child link_child
      if r then
        pure (some true)
      else do
        let w ← M.get
        if w.jobs = 0 then pure (some false) else execute_pass1 env deploy_child self n

/-- The second-pass loop of `execute`: `while (! buf_trivial.empty())`. -/
def execute_pass2 (deploy_child : Link → M Bool) (self : Nat) : Nat → M (Option Bool)
  | 0 => do
    let e ← getNode self
    if e.buf_trivial.isEmpty then pure none else M.timeout
  | n + 1 => do
    let e ← getNode self
    match e.buf_trivial with
    | [] => pure none
    | link_child :: rest => do
      modifyNode self (fun e => { e with buf_trivial := rest })
      let r ← deploy_child link_child
      if r then
        pure (some true)
      else do
        let w ← M.get
        if w.jobs = 0 then pure (some false) else execute_pass2 deploy_child self n

/-- The body of the loop over the targets in the existence check of `execute`,
for target `i`; `some false` is `return false`. -/
def execute_probe_target (env : Env) (self : Nat) (link : Link) (no_execution : Bool)
    (i : Nat) (target : Target) : M (Option Bool) := do
  if target.type ≠ TType.FILE then
    pure none
  else
    let w ← M.get
    let ret_stat := env.stat w target.name
    match ret_stat with
    | Stat.ok mtime =>
      modifyNode self (fun e => { e with timestamps_old := e.timestamps_old.set i (some mtime) })
    | _ => modifyNode self (fun e => { e with exists_ := -1 })
    let e ← getNode self
    match ret_stat with
    | Stat.ok mtime => do
      if !e.need_build && e.timestamp.defined && Timestamp.lt (some mtime) e.timestamp
          && !no_execution then
        modifyNode self (fun e => { e with need_build := true })
      else pure ()
      pure none
    | Stat.enoent => do
      let go_on ←
        if !e.need_build then
          if link.flags &&& env.F.F_OPTIONAL = 0 then do
            modifyNode self (fun e => { e with need_build := true })
            pure true
          else do
            modifyNode self (fun e => { e with
              done := e.done.add_one_neg env.F env.F.F_OPTIONAL })
            pure false
        else pure true
      if !go_on then
        pure (some false)
      else if no_execution then do
        modifyNode self (fun e => { e with
          done := e.done.add_one_neg env.F link.avoid.get_lowest })
        raise env self ERROR_BUILD
        pure (some false)
      else pure none
    | Stat.failure => do
      raise env self ERROR_BUILD
      modifyNode self (fun e => { e with
        done := e.done.add_one_neg env.F link.avoid.get_lowest })
      pure (some false)

/-- The loop `for (unsigned i= 0; i < targets.size(); ++i)` of the existence
check, from index `i` on. -/
def execute_probe_loop (env : Env) (self : Nat) (link : Link) (no_execution : Bool) :
    Nat → List Target → M (Option Bool)
  | _, [] => pure none
  | i, target :: rest => do
    let r ← execute_probe_target env self link no_execution i target
    match r with
    | some b => pure (some b)
    | none => execute_probe_loop env self link no_execution (i + 1) rest

/-- The loop `for (Timestamp timestamp_old_i: timestamps_old)` that folds the
old timestamps into `timestamp`. -/
def execute_fold_timestamps (self : Nat) : List Timestamp → M Unit
  | [] => pure ()
  | timestamp_old_i :: rest => do
    let e ← getNode self
    if timestamp_old_i.defined &&
        (!e.timestamp.defined || Timestamp.lt e.timestamp timestamp_old_i) then
      modifyNode self (fun e => { e with timestamp := timestamp_old_i })
    else pure ()
    execute_fold_timestamps self rest

/-- `execute`: "Check existence of file", from `timestamps_old.assign` to the
end of `if (! checked)`. -/
def execute_probe (env : Env) (self : Nat) (link : Link) (no_execution : Bool) :
    M (Option Bool) := do
  modifyNode self (fun e => { e with
    timestamps_old := List.replicate e.targets.length none })
  let e ← getNode self
  if !e.checked then
    modifyNode self (fun e => { e with checked := true })
    modifyNode self (fun e => { e with exists_ := 1 })
    let r ← execute_probe_loop env self link no_execution 0 e.targets
    match r with
    | some b => pure (some b)
    | none => do
      let e ← getNode self
      execute_fold_timestamps self e.timestamps_old
      pure none
  else pure none

/-- `execute`: the check of the transient targets, `if (! need_build)` with
its two loops. -/
def execute_transients (self : Nat) (no_execution : Bool) : M Unit := do
  let e ← getNode self
  let w ← M.get
  if !e.need_build then
    let has_file := e.targets.any (fun t => t.type == TType.FILE)
    match e.targets.find? (fun t => t.type == TType.TRANSIENT && !amap_has w.transients t.name) with
    | some _ =>
      if !no_execution && !has_file then
        modifyNode self (fun e => { e with need_build := true })
      else pure ()
    | none => pure ()
  else pure ()

/-- `Execution::write_content(filename, command)`. -/
def write_content (env : Env) (self : Nat) (filename : String) : M Unit := do
  let w ← M.get
  let r := env.write_file w filename
  M.update (fun w => { w with actions := w.actions ++ [Action.write_content filename] })
  if !r.1 then
    raise env self ERROR_BUILD
    M.undef
  else do
    if !r.2.1 then raise env self ERROR_BUILD else pure ()
    if !r.2.2 then raise env self ERROR_BUILD else pure ()
    modifyNode self (fun e => { e with exists_ := 1 })

/-- The loop of `execute` that enters the transient targets into
`transients` with the current time. -/
def execute_stamp_transients (env : Env) : List Target → M Unit
  | [] => pure ()
  | target :: rest => do
    if target.type ≠ TType.TRANSIENT then
      execute_stamp_transients env rest
    else do
      M.update (fun w => { w with
        transients := amap_set w.transients target.name (some (env.now w)) })
      execute_stamp_transients env rest

/-- `execute`: from `worked= true` to the end, "The file must be created
now". -/
def execute_run (env : Env) (self : Nat) (link : Link) : M Bool := do
  M.update (fun w => { w with worked := true })
  let e ← getNode self
  match e.rule with
  | none => M.undef
  | some rule =>
    if rule.is_hardcode then do
      modifyNode self (fun e => { e with done := e.done.add_one_neg env.F 0 })
      match e.targets with
      | [] => M.undef
      | target :: _ =>
        write_content env self target.name
        pure false
    else do
      execute_stamp_transients env e.targets
      let mapping := amap_insert_all (amap_insert_all [] e.mapping_parameter) e.mapping_variable
      modifyNode self (fun e => { e with mapping_parameter := [], mapping_variable := [] })
      if !rule.is_copy && !rule.has_command then
        M.undef
      else do
        let w ← M.get
        let pid := env.job_start w self
        M.update (fun w => { w with
          actions := w.actions ++
            [if rule.is_copy then Action.start_copy self else Action.start_job self mapping] })
        if pid < 0 then do
          raise env self ERROR_BUILD
          modifyNode self (fun e => { e with done := e.done.add_neg env.F link.avoid })
          pure false
        else do
          modifyNode self (fun e => { e with job := Job.started pid })
          M.update (fun w => { w with
            executions_by_pid := amap_set w.executions_by_pid pid self })
          M.update (fun w => { w with jobs := w.jobs - 1 })
          let w ← M.get
          if env.order_random then pure (decide (w.jobs > 0)) else pure false

/-- Run `phase`; when it returns a value, that is the value returned by
`execute`, otherwise go on with `rest`. -/
def or_else (phase : M (Option Bool)) (rest : M Bool) : M Bool := do
  let r ← phase
  match r with
  | some b => pure b
  | none => rest

/-- The end of `execute`, from the test `if (! need_build)` ("The file does not
have to be built") on: without `need_build` the node is marked done; with it
the second pass runs, and then the command is started. -/
def execute_rebuild (env : Env) (deploy_child : Link → M Bool) (fuel : Nat) (self : Nat)
    (link : Link) (no_execution : Bool) : M Bool := do
  let e ← getNode self
  if !e.need_build then
    or_else (done_return env self link) (pure false)
  else
    or_else (execute_pass2 deploy_child self fuel) (do
      if no_execution then
        or_else (done_return env self link) (pure false)
      else if env.option_question then
        M.exit ERROR_BUILD
      else
        execute_run env self link)

/-- The part of `execute` after the first pass and the continuation of the
children: from "Some dependencies are still running" on. -/
def execute_build (env : Env) (deploy_child : Link → M Bool) (fuel : Nat) (self : Nat)
    (link : Link) : M Bool := do
  let e ← getNode self
  if e.children.length ≠ 0 then
    pure false
  else if e.error ≠ 0 then
    or_else (done_return env self link) (pure false)
  else if e.targets.isEmpty ∨ e.get_dynamic_depth ≠ 0 then
    or_else (done_return env self link) (pure false)
  else if e.job.started_or_waited then
    pure false
  else
    let no_execution : Bool :=
      match e.rule with
      | some r => !r.has_command && !r.is_copy
      | none => false
    or_else (execute_probe env self link no_execution) (do
      execute_transients self no_execution
      execute_rebuild env deploy_child fuel self link no_execution)

/-- `Execution::execute(parent, link)`, with `execute` the method called on
the children. -/
def execute_body (env : Env) (execute : ExecuteFn) (fuel : Nat) (self : Nat)
    (_parent : Option Nat) (link0 : Link) : M Bool := do
  let link : Link :=
    if link0.flags &&& env.F.F_OVERRIDETRIVIAL ≠ 0 then
      { link0 with
        flags := link0.flags &&& flags_not env.F.F_TRIVIAL
        avoid := link0.avoid.rem_highest env.F.F_TRIVIAL }
    else link0
  let e ← getNode self
  if e.finished env.F link.avoid then
    pure false
  else
    or_else
      (if !env.order_random then execute_continue env execute self link else pure none)
      (or_else (execute_optional env self link)
        (if link.flags &&& env.F.F_TRIVIAL ≠ 0 then
          or_else (done_return env self link) (pure false)
        else
          or_else (execute_pass1 env (deploy env execute fuel self link) self fuel)
            (or_else
              (if env.order_random then execute_continue env execute self link else pure none)
              (execute_build env (deploy env execute fuel self link) fuel self link))))

/-- `Execution::execute`, the recursion through the graph bounded by the
fuel. -/
def execute (env : Env) : Nat → ExecuteFn
  | 0 => fun _ _ _ => M.timeout
  | fuel + 1 => execute_body env (execute env fuel) fuel

/-! ## `main` -/

/-- The loop of `Execution::finished()`:
`for (j = 0; j <= done.get_k(); ++j) to_do_aggregate |= ~done.get(j)`. -/
def to_do_aggregate_all (done : Stack) : Nat → Flags
  | 0 => 0
  | n + 1 => to_do_aggregate_all done n ||| flags_not (done.get n)

/-- `Execution::finished()`. -/
def Execution.finished_all (F : FlagConsts) (e : Execution) : Bool :=
  (to_do_aggregate_all e.done (e.done.get_k + 1)) &&& F.mask == 0

/-- `job_terminate_all()`, as far as it acts on files: `remove_if_existing(false)`
for every running execution. -/
def job_terminate_all (env : Env) : M Unit := do
  let w ← M.get
  for_each (fun p => do
    let _ ← remove_if_existing env p.2 false
    pure ()) w.executions_by_pid

/-- `do r= execution_root->execute(nullptr, move(link)); while (r);`. -/
def main_execute (env : Env) (fuel : Nat) (root : Nat) (link : Link) : Nat → M Unit
  | 0 => M.timeout
  | n + 1 => do
    let r ← execute env fuel root none link
    if r then main_execute env fuel root link n else pure ()

/-- The loop `while (! execution_root->finished())` of `main`. -/
def main_loop (env : Env) (fuel : Nat) (root : Nat) : Nat → M Unit
  | 0 => M.timeout
  | n + 1 => do
    let r ← getNode root
    if r.finished_all env.F then
      pure ()
    else do
      main_execute env fuel root ⟨Stack.empty, 0, none⟩ fuel
      let w ← M.get
      if w.executions_by_pid.length ≠ 0 then wait env else pure ()
      main_loop env fuel root n

/-- `Execution::main(dependencies)`. -/
def main (env : Env) (fuel : Nat) (dependencies : List Dependency) : M Unit := do
  M.update (fun w => { w with timestamp_last := some (env.now w) })
  let w ← M.get
  let execution_root := w.nodes.length
  M.update (fun w => { w with nodes := w.nodes ++ [Execution.root env.F dependencies] })
  let error ← M.tryCatch
    (do
      main_loop env fuel execution_root fuel
      let r ← getNode execution_root
      pure r.error)
    (fun e => do
      let w ← M.get
      if w.executions_by_pid.length ≠ 0 then job_terminate_all env else pure ()
      if e = ERROR_FATAL then M.exit ERROR_FATAL else pure e)
  if error ≠ 0 then M.throw error else pure ()

/-- The world when the program starts, with `jobs` the value of the `-j`
option. -/
def World.initial (jobs : Int) : World :=
  { nodes := [], executions_by_target := [], executions_by_pid := [], transients := [],
    timestamp_last := none, jobs := jobs, worked := false, actions := [] }

/-! ## Atomic steps and invariants -/

/-- The atomic changes of the world made by the functions that neither start
nor reap a job: they leave `jobs` and `executions_by_pid` alone, and change the
`error`, `done` and `timestamp` of a node only by an OR of an error code or of
another node's error, by one of the `add_*neg` operations, and by a timestamp
that is not earlier.  `C` holds of the error codes that are ORed in. -/
inductive Step0 (C : Nat → Prop) : World → World → Prop
  | frame (w : World) (i : Nat) (f : Execution → Execution)
      (h : ∀ e, (f e).error = e.error ∧ (f e).done = e.done ∧ (f e).timestamp = e.timestamp) :
      Step0 C w (w.modify i f)
  | statics (w w1 : World) (hn : w1.nodes = w.nodes) (hj : w1.jobs = w.jobs)
      (hp : w1.executions_by_pid = w.executions_by_pid) : Step0 C w w1
  | alloc (w w1 : World) (e0 : Execution) (hn : w1.nodes = w.nodes ++ [e0])
      (he : e0.error = 0) (ht : e0.timestamp = none) (hd : ∀ k, e0.done.get k = 0)
      (hj : w1.jobs = w.jobs) (hp : w1.executions_by_pid = w.executions_by_pid) : Step0 C w w1
  | error_or (w : World) (i x : Nat) (hx : C x) :
      Step0 C w (w.modify i (fun e => { e with error := e.error ||| x }))
  | error_from (w : World) (i j : Nat) :
      Step0 C w (w.modify i (fun e => { e with error := e.error ||| (w.node j).error }))
  | done_add_neg (w : World) (i : Nat) (F : FlagConsts) (avoid : Stack) :
      Step0 C w (w.modify i (fun e => { e with done := e.done.add_neg F avoid }))
  | done_add_highest_neg (w : World) (i : Nat) (F : FlagConsts) (flags : Flags) :
      Step0 C w (w.modify i (fun e => { e with done := e.done.add_highest_neg F flags }))
  | done_add_one_neg (w : World) (i : Nat) (F : FlagConsts) (flags : Flags) :
      Step0 C w (w.modify i (fun e => { e with done := e.done.add_one_neg F flags }))
  | timestamp (w : World) (i : Nat) (t : Timestamp)
      (h : Timestamp.le (w.node i).timestamp t) :
      Step0 C w (w.modify i (fun e => { e with timestamp := t }))

/-- The atomic changes of the world made by any function of `Execution`: those
of `Step0`, and changes of the static members. -/
inductive Step (C : Nat → Prop) : World → World → Prop
  | base (w w1 : World) (h : Step0 C w w1) : Step C w w1
  | statics (w w1 : World) (hn : w1.nodes = w.nodes) : Step C w w1

/-- Every run of `m` from a world in `I` ends, whatever the outcome, in a world
in `I`. -/
structure Keeps (I : World → Prop) {α : Type} (m : M α) : Prop where
  run : ∀ w, I w → I (m w).2

/-- The error codes thrown by the parser satisfy `C`. -/
def Env.parse_codes (env : Env) (C : Nat → Prop) : Prop :=
  ∀ w name e, (env.parse_dynamic w name).tokens_error = some e ∨
    (env.parse_dynamic w name).list_error = some e → C e

/-- Whenever `m` throws, the thrown value and the world it leaves satisfy `P`. -/
structure Throws (P : Nat → World → Prop) {α : Type} (m : M α) : Prop where
  run : ∀ w e, (m w).1 = Outcome.thrown e → P e (m w).2


/-! ## Concrete inputs

The rule file `A: A { command }` (a rule that depends on its own target), run
with target `A`, one job and the keep-going option. -/

/-- The file target `A`. -/
def targetA : Target := ⟨TType.FILE, "A"⟩

/-- The dependency `A`, without flags. -/
def depA : Dependency := Dependency.direct 0 targetA "" true

/-- The rule `A: A { command }`. -/
def ruleA : Rule :=
  { id := 7
    place_param_targets := [targetA]
    dependencies := [depA]
    has_command := true
    is_hardcode := false
    is_copy := false
    redirect_index := -1 }

/-- Keep-going is set, the order is depth-first, the rule set holds `ruleA`, and
no file exists. -/
def envA : Env :=
  { F := stuFlags
    option_keep_going := true
    option_no_delete := false
    option_question := false
    order_random := false
    order_vec := false
    rule_set_get := fun t =>
      if t = targetA then Except.ok (some (ruleA, 7, [])) else Except.ok none
    stat := fun _ _ => Stat.enoent
    lstat_is_link := fun _ _ => none
    now := fun _ => 100
    startup := 50
    job_start := fun _ _ => 5
    job_wait := fun _ => (5, 0)
    status_success := fun s => s == 0
    read_file := fun _ _ => none
    write_file := fun _ _ => (true, true, true)
    parse_dynamic := fun _ _ => ⟨none, none, [], false⟩
    random_number := fun _ _ => 0 }

/-- The link that `main` passes to the root execution. -/
def rootLink : Link := ⟨Stack.empty, 0, none⟩

/-- The world of `main` before the first call of `execute`: the root execution
with the dependency `A` in its buffer. -/
def worldA : World := { World.initial 1 with nodes := [Execution.root stuFlags [depA]] }

/-- The world after the first call `execution_root->execute(nullptr, link)`. -/
def worldA1 : World := (execute envA 3 0 none rootLink worldA).2

/-- Edge symmetry of the execution graph: `E` is a key of `C.parents` if and
only if `C` is a member of `E.children`. -/
def edge_symmetric (w : World) : Prop :=
  ∀ E C, amap_has (w.node C).parents E = true ↔ C ∈ (w.node E).children

/-- The link of the dependency `A`. -/
def linkA : Link := Link.ofDependency stuFlags depA

/-- The world after the root has connected to the execution of `A`. -/
def worldA2 : World := (get_execution envA 3 targetA linkA 0 worldA).2

/-- The world after the execution of `A` has connected to itself as its own
child, before the cycle check. -/
def worldA3 : World := (get_execution_connect envA targetA linkA 1 worldA2).2

/-! ## Hoare triples and the job budget -/

/-- The postcondition of a run: `Q` of the value and the world after a normal
return, `E` of the world after any other outcome. -/
def post {α : Type} (Q : α → World → Prop) (E : World → Prop) (r : Outcome α × World) : Prop :=
  match r.1 with
  | Outcome.ret a => Q a r.2
  | _ => E r.2

/-- From a world in `P`, the computation `m` returns a value and a world in
`Q`, or ends otherwise in a world in `E`. -/
structure Triple {α : Type} (P : World → Prop) (m : M α) (Q : α → World → Prop)
    (E : World → Prop) : Prop where
  run : ∀ w, P w → post Q E (m w)

/-- A property of the world that only depends on `jobs` and
`executions_by_pid`. -/
def JobsPred (I : World → Prop) : Prop :=
  ∀ w w1, w1.jobs = w.jobs → w1.executions_by_pid = w.executions_by_pid → I w → I w1

/-- The job budget for the `-j` value `J`: the counter of free slots is not
negative, and free slots and running jobs add up to `J`; the keys of the map
`executions_by_pid` are distinct. -/
def job_budget (J : Int) (w : World) : Prop :=
  0 ≤ w.jobs ∧ w.jobs + w.executions_by_pid.length = J ∧
    (w.executions_by_pid.map Prod.fst).Nodup

/-- The job budget holds and a slot is free. -/
def job_ready (J : Int) (w : World) : Prop := job_budget J w ∧ 1 ≤ w.jobs

/-- The process spawner returns an error or a pid that is not the pid of a
running job. -/
def Env.fresh_pids (env : Env) : Prop :=
  ∀ w i, env.job_start w i < 0 ∨ amap_find w.executions_by_pid (env.job_start w i) = none

/-- `Job::wait` returns the pid of a running job. -/
def Env.wait_registered (env : Env) : Prop :=
  ∀ w, w.executions_by_pid ≠ [] → amap_has w.executions_by_pid (env.job_wait w).1 = true

/-- The contract of `execute` (and `deploy`) for the job budget: called with a
free slot, it keeps the budget whatever the outcome, and a slot is free again
when it returns `true`. -/
def ExecSpec (J : Int) (m : M Bool) : Prop :=
  Triple (job_ready J) m (fun r w => job_budget J w ∧ (r = true → job_ready J w))
    (job_budget J)

/-- The contract of a phase of `execute`: as `ExecSpec`, and a slot is free
when the phase says to go on. -/
def PhaseSpec (J : Int) (m : M (Option Bool)) : Prop :=
  Triple (job_ready J) m (fun r w => job_budget J w ∧ (r ≠ some false → job_ready J w))
    (job_budget J)

/-! ## A failing command with `-j 1` -/

/-- The file target `B`. -/
def targetB : Target := ⟨TType.FILE, "B"⟩

/-- The dependency `B`, without flags. -/
def depB : Dependency := Dependency.direct 0 targetB "" true

/-- The rule `B: { command }`. -/
def ruleB : Rule :=
  { id := 8
    place_param_targets := [targetB]
    dependencies := []
    has_command := true
    is_hardcode := false
    is_copy := false
    redirect_index := -1 }

/-- A pid greater than every pid in the map. -/
def next_pid (m : List (Int × Nat)) : Int :=
  m.foldr (fun p a => max p.1 a) 0 + 1

/-- Keep-going is off, the rule set holds `ruleB`, no file exists, the spawner
hands out new pids, and every command fails. -/
def envB : Env :=
  { F := stuFlags
    option_keep_going := false
    option_no_delete := false
    option_question := false
    order_random := false
    order_vec := false
    rule_set_get := fun t =>
      if t = targetB then Except.ok (some (ruleB, 8, [])) else Except.ok none
    stat := fun _ _ => Stat.enoent
    lstat_is_link := fun _ _ => none
    now := fun _ => 100
    startup := 50
    job_start := fun w _ => next_pid w.executions_by_pid
    job_wait := fun w =>
      match w.executions_by_pid with
      | [] => (0, 1)
      | p :: _ => (p.1, 1)
    status_success := fun s => s == 0
    read_file := fun _ _ => none
    write_file := fun _ _ => (true, true, true)
    parse_dynamic := fun _ _ => ⟨none, none, [], false⟩
    random_number := fun _ _ => 0 }

/-- The world of `main` with `-j 1` before the first call of `execute`: the
root execution with the dependency `B` in its buffer. -/
def worldB : World := { World.initial 1 with nodes := [Execution.root stuFlags [depB]] }

/-- The world after the first call `execution_root->execute(nullptr, link)`. -/
def worldB1 : World := (execute envB 3 0 none rootLink worldB).2

/-! ## A variable dependency -/

/-- The file target `f`. -/
def targetF : Target := ⟨TType.FILE, "f"⟩

/-- The variable dependency `$[f]`. -/
def depF : Dependency := Dependency.direct 16 targetF "" true

/-- As `envA`, with every file holding the content `"  hello world\t\n"`. -/
def envF : Env := { envA with read_file := fun _ _ => some "  hello world\t\n".toList }

/-- A parent (node 0) and the finished execution of `f` (node 1), whose file
exists. -/
def worldF : World :=
  { World.initial 1 with
    nodes := [Execution.blank, { Execution.blank with targets := [targetF], exists_ := 1 }] }

/-! ## Returned values -/

/-- Whenever `m` returns, the value returned satisfies `P`. -/
structure Returns {α : Type} (P : α → Prop) (m : M α) : Prop where
  run : ∀ w a, (m w).1 = Outcome.ret a → P a

/-! ## `flags.hh`: the characters of the flags -/

/-- `I_PERSISTENT`. -/
def I_PERSISTENT : Nat := 0

/-- `I_OPTIONAL`. -/
def I_OPTIONAL : Nat := 1

/-- `I_TRIVIAL`. -/
def I_TRIVIAL : Nat := 2

/-- `I_DYNAMIC`. -/
def I_DYNAMIC : Nat := 3

/-- `I_CONCATENATE`. -/
def I_CONCATENATE : Nat := 4

/-- `I_VARIABLE`. -/
def I_VARIABLE : Nat := 5

/-- `I_OVERRIDE_TRIVIAL`. -/
def I_OVERRIDE_TRIVIAL : Nat := 6

/-- `I_NEWLINE_SEPARATED`. -/
def I_NEWLINE_SEPARATED : Nat := 7

/-- `I_NUL_SEPARATED`. -/
def I_NUL_SEPARATED : Nat := 8

/-- `C_ALL`, the total number of flags. -/
def C_ALL : Nat := 9

/-- The characters of the string literal of `FLAGS_CHARS` before its
terminating NUL. -/
def FLAGS_CHARS : List Char := "pot`$*n0".toList

/-- `FLAGS_CHARS[i]`: a character of the literal, the terminating NUL at the
index after the last one, and nothing beyond the array. -/
def FLAGS_CHARS_at (i : Nat) : Option Char :=
  if i < FLAGS_CHARS.length then FLAGS_CHARS.get? i
  else if i = FLAGS_CHARS.length then some (Char.ofNat 0)
  else none

/-- `flag_get_index(char c)`; the default case, a failed assertion, returns
0. -/
def flag_get_index (c : Char) : Nat :=
  if c = 'p' then I_PERSISTENT
  else if c = 'o' then I_OPTIONAL
  else if c = 't' then I_TRIVIAL
  else if c = 'n' then I_NEWLINE_SEPARATED
  else if c = '0' then I_NUL_SEPARATED
  else 0

/-- Modelled from the spec: `frmt("-%c ", c)` (`text.hh`), the `printf`
format written to a C string: a NUL character ends the string. -/
def frmt_flag (c : Char) : List Char :=
  if c = Char.ofNat 0 then ['-'] else ['-', c, ' ']

/-- The loop `for (int i= 0; i < C_ALL; ++i)` of `flags_format`, run for the
indices `i`, ..., `i + n - 1`. -/
def flags_format_loop (flags : Nat) : Nat → Nat → List Char
  | _, 0 => []
  | i, n + 1 =>
    (if flags &&& (1 <<< i) ≠ 0 then
      match FLAGS_CHARS_at i with
      | some c => frmt_flag c
      | none => []
    else []) ++ flags_format_loop flags (i + 1) n

/-- `flags_format(Flags flags)`. -/
def flags_format (flags : Nat) : List Char := flags_format_loop flags 0 C_ALL

/-! ## `error.hh`: places -/

/-- `Place::Type`. -/
inductive PlaceType where
  | EMPTY
  | INPUT_FILE
  | ARGUMENT
  | OPTION
  | ENV_OPTIONS
deriving DecidableEq, Repr

/-- The fields of class `Place`; `line` is an `unsigned`. -/
structure Place where
  type : PlaceType
  text : List Char
  line : Nat
  column : Nat

/-- `s.c_str()` read as a C string: the characters before the first NUL. -/
def c_str (s : List Char) : List Char := s.takeWhile (fun c => c != Char.ofNat 0)

/-- `Place::get_filename_str()`. -/
def Place.get_filename_str (p : Place) : List Char :=
  if p.text = [] then "<stdin>".toList else c_str p.text

/-- Modelled from the spec: `frmt("%s%s:%u", a, s, line)` (`text.hh`), the
`printf` format: two strings, a colon, and an `unsigned` in decimal. -/
def frmt_argv0 (a s : List Char) (line : Nat) : List Char :=
  a ++ s ++ [':'] ++ Nat.toDigits 10 (line % 2 ^ 32)

/-- `Place::as_argv0()`; the default and `EMPTY` cases, a failed assertion,
fall through to the case `ARGUMENT`. -/
def Place.as_argv0 (p : Place) : List Char :=
  match p.type with
  | PlaceType.INPUT_FILE =>
    let s := p.get_filename_str
    frmt_argv0 (if s.head? = some '-' then "file ".toList else []) s p.line
  | _ => []

/-- A place in the file `-x`, line 12. -/
def placeX : Place := ⟨PlaceType.INPUT_FILE, "-x".toList, 12, 0⟩

/-! ## `rule.hh`: the rule set -/

namespace Rules

/-- A `map <string, string>` of parameter values. -/
abbrev Mapping : Type := List (String × String)

/-- Modelled from the spec: class `Param_Name` (`token.hh`) is absent from
`src/`.  A name with parameters: the texts between the parameters and the
names of the parameters; a name without parameters has the single text that is
the name. -/
structure Param_Name where
  texts : List String
  parameters : List String
deriving DecidableEq, Repr

/-- `get_n()`: the number of parameters. -/
def Param_Name.get_n (p : Param_Name) : Nat := p.parameters.length

/-- `unparametrized()`: the name, for a name without parameters. -/
def Param_Name.unparametrized (p : Param_Name) : String := p.texts.headD ""

/-- Modelled from the spec: class `Place_Param_Target` (`token.hh`): a type and a
parametrized name (the place is only used for diagnostics). -/
structure Place_Param_Target where
  type : TType
  place_param_name : Param_Name
deriving DecidableEq, Repr

/-- `Place_Param_Target::unparametrized()`. -/
def Place_Param_Target.unparametrized (t : Place_Param_Target) : Target :=
  ⟨t.type, t.place_param_name.unparametrized⟩

/-- Class `Rule` of `rule.hh` (places left out; `has_command` tells whether
`command` is not null). -/
structure Rule where
  place_param_target : Place_Param_Target
  dependencies : List Dependency
  has_command : Bool
  filename : Param_Name
  is_hardcode : Bool
  redirect_output : Bool
  is_copy : Bool
deriving DecidableEq, Repr

/-- The functions of `token.hh` and `dependency.hh` that `rule.hh` calls:
`Param_Name::match(name, mapping, anchoring)` (`none` when the name does not
match), `Param_Name::anchoring_dominates(a, b)`, and the `instantiate` methods
of dependencies, targets and names. -/
structure NameOps where
  name_match : Param_Name → String → Option (Mapping × List Int)
  anchoring_dominates : List Int → List Int → Bool
  instantiate_dependency : Dependency → Mapping → Dependency
  instantiate_target : Place_Param_Target → Mapping → Place_Param_Target
  instantiate_name : Param_Name → Mapping → Param_Name

/-- `Rule::instantiate(rule, mapping)`. -/
def Rule.instantiate (ops : NameOps) (rule : Rule) (mapping : Mapping) : Rule :=
  if rule.place_param_target.place_param_name.get_n = 0 then
    rule
  else
    { place_param_target := ops.instantiate_target rule.place_param_target mapping
      dependencies := rule.dependencies.map (fun d => ops.instantiate_dependency d mapping)
      has_command := rule.has_command
      filename := ops.instantiate_name rule.filename mapping
      is_hardcode := rule.is_hardcode
      redirect_output := rule.redirect_output
      is_copy := rule.is_copy }

/-- Class `Rule_Set`: the unparametrized rules by target and the parametrized
rules. -/
structure Rule_Set where
  rules_unparametrized : List (Target × Rule)
  rules_parametrized : List Rule

/-- An element of the vectors `rules_best`, `mappings_best` and
`anchorings_best` of `Rule_Set::get`, which always have the same length. -/
abbrev Best : Type := Rule × Mapping × List Int

/-- The relation between two matches that `Rule_Set::get` tests:
`anchoring_dominates` of their anchorings. -/
def dominates (ops : NameOps) (a b : Best) : Bool :=
  ops.anchoring_dominates a.2.2 b.2.2

/-- The end of the body of the loop of `Rule_Set::get`, for a matching rule
`x`: `goto dont_add` when a best rule dominates it; `k= 0` when it dominates
all best rules; then `resize(k+1)` and the assignment at index `k`. -/
def best_step {β : Type} (d : β → β → Bool) (best : List β) (x : β) : List β :=
  if best.any (fun b => d b x) then best
  else if best.all (fun b => d x b) then [x]
  else best ++ [x]

/-- The loop `for (auto &i: rules_parametrized)` of `Rule_Set::get`. -/
def Rule_Set.get_loop (ops : NameOps) (target : Target) : List Rule → List Best → List Best
  | [], best => best
  | i :: rest, best =>
    if target.type ≠ i.place_param_target.type then
      Rule_Set.get_loop ops target rest best
    else
      match ops.name_match i.place_param_target.place_param_name target.name with
      | none => Rule_Set.get_loop ops target rest best
      | some (mapping, anchoring) =>
        Rule_Set.get_loop ops target rest (best_step (dominates ops) best (i, mapping, anchoring))

/-- `Rule_Set::get(target, rule_original, mapping_out)`: the error thrown, or
the rule returned (`none` for the null pointer) with the values of
`rule_original` and `mapping_out` after the call. -/
def Rule_Set.get (ops : NameOps) (rs : Rule_Set) (target : Target)
    (rule_original : Option Rule) (mapping_out : Mapping) :
    Except Nat (Option Rule × Option Rule × Mapping) :=
  match amap_find rs.rules_unparametrized target with
  | some rule => Except.ok (some rule, some rule, mapping_out)
  | none =>
    match Rule_Set.get_loop ops target rs.rules_parametrized [] with
    | [] => Except.ok (none, rule_original, mapping_out)
    | [b] => Except.ok (some (Rule.instantiate ops b.1 b.2.1), some b.1, b.2.1)
    | _ :: _ :: _ => Except.error ERROR_LOGICAL

/-- `Rule_Set::add(rules_)`: the error thrown, if any, and the rule set when
the call ends. -/
def Rule_Set.add (rs : Rule_Set) : List Rule → Option Nat × Rule_Set
  | [] => (none, rs)
  | rule :: rest =>
    if rule.place_param_target.place_param_name.get_n = 0 then
      let target := rule.place_param_target.unparametrized
      if amap_has rs.rules_unparametrized target then
        (some ERROR_LOGICAL, rs)
      else
        Rule_Set.add { rs with
          rules_unparametrized := amap_set rs.rules_unparametrized target rule } rest
    else
      Rule_Set.add { rs with rules_parametrized := rs.rules_parametrized ++ [rule] } rest

/-- The rules of the target's type whose name matches, in the order of the
rule set, with their mapping and anchoring. -/
def matching (ops : NameOps) (target : Target) (rules : List Rule) : List Best :=
  rules.filterMap (fun i =>
    if target.type = i.place_param_target.type then
      (ops.name_match i.place_param_target.place_param_name target.name).map
        (fun m => (i, m.1, m.2))
    else none)

/-- The elements of a list that no element of the list dominates. -/
def nondominated {β : Type} (d : β → β → Bool) (l : List β) : List β :=
  l.filter (fun e => l.all (fun y => !d y e))

/-- Anchoring dominance is a strict partial order: irreflexive and
transitive. -/
def NameOps.strict_order (ops : NameOps) : Prop :=
  (∀ a, ops.anchoring_dominates a a = false) ∧
  ∀ a b c, ops.anchoring_dominates a b = true → ops.anchoring_dominates b c = true →
    ops.anchoring_dominates a c = true

/-- The invariant of the loop of `Rule_Set::get` after the matches `p` have
been processed. -/
structure BestInv {β : Type} (d : β → β → Bool) (p best : List β) : Prop where
  sub : List.Sublist (nondominated d p) best
  mem : ∀ b ∈ best, b ∈ p
  cover : ∀ y ∈ p, y ∈ best ∨ ∃ z ∈ best, d z y = true
  two : 2 ≤ best.length → 2 ≤ (nondominated d p).length

end Rules

/-! ## A rule set with two parametrized rules -/

namespace Rules

/-- A name matches when its first text is a prefix of the target name; the
mapping binds `x` to the rest of the name, and the anchoring is the length of the
prefix.  A longer prefix dominates a shorter one; instantiation leaves
dependencies, targets and names as they are. -/
def opsP : NameOps :=
  { name_match := fun p name =>
      if (p.texts.headD "").toList.isPrefixOf name.toList then
        some ([("x", String.mk (name.toList.drop (p.texts.headD "").length))],
          [((p.texts.headD "").length : Int)])
      else none
    anchoring_dominates := fun a b => decide (b.headD 0 < a.headD 0)
    instantiate_dependency := fun d _ => d
    instantiate_target := fun t _ => t
    instantiate_name := fun n _ => n }

/-- The rule `a$x: ;`. -/
def ruleP1 : Rule :=
  { place_param_target := ⟨TType.FILE, ⟨["a", ""], ["x"]⟩⟩
    dependencies := []
    has_command := false
    filename := ⟨[""], []⟩
    is_hardcode := false
    redirect_output := false
    is_copy := false }

/-- The rule `ab$x: ;`. -/
def ruleP2 : Rule :=
  { place_param_target := ⟨TType.FILE, ⟨["ab", ""], ["x"]⟩⟩
    dependencies := []
    has_command := false
    filename := ⟨[""], []⟩
    is_hardcode := false
    redirect_output := false
    is_copy := false }

/-- The rule set with the rules `a$x` and `ab$x`. -/
def rulesP : Rule_Set := ⟨[], [ruleP1, ruleP2]⟩

end Rules

/-! ## The parents relation -/

/-- `b` is a parent of `a`: a key of `a.parents`. -/
def parent_edge (w : World) (a b : Nat) : Prop := b ∈ (w.node a).parents.map Prod.fst

/-- The parents relation has no cycle. -/
def parents_acyclic (w : World) : Prop := ∀ n, ¬ Relation.TransGen (parent_edge w) n n

/-- A parent back-edge to a node with a non-null `param_rule`, the edges that
`find_cycle` follows. -/
def cycle_edge (w : World) (a b : Nat) : Prop :=
  parent_edge w a b ∧ (w.node b).param_rule ≠ none

/-! ## A transient target behind an optional dependency -/

/-- The transient target `@t`. -/
def targetT : Target := ⟨TType.TRANSIENT, "t"⟩

/-- The rule `@t: A`, without a command. -/
def ruleT : Rule :=
  { id := 9
    place_param_targets := [targetT]
    dependencies := [depA]
    has_command := false
    is_hardcode := false
    is_copy := false
    redirect_index := -1 }

/-- The dependency `-o @t`. -/
def depT : Dependency := Dependency.direct 2 targetT "" true

/-- As `envA`, with the rule set holding `ruleT` only. -/
def envT : Env :=
  { envA with
    rule_set_get := fun t =>
      if t = targetT then Except.ok (some (ruleT, 9, [])) else Except.ok none }

/-- The world of `main` before the first call of `execute`: the root execution
with the dependency `-o @t` in its buffer. -/
def worldT : World := { World.initial 1 with nodes := [Execution.root stuFlags [depT]] }

/-! ## A trivial dependency that is built in the second pass -/

/-- The file target `B`, which exists and has no rule. -/
def targetB2 : Target := ⟨TType.FILE, "B2"⟩

/-- The file target `C`. -/
def targetC : Target := ⟨TType.FILE, "C"⟩

/-- The rule `A: B2 -t C { command }`. -/
def ruleA2 : Rule :=
  { id := 10
    place_param_targets := [targetA]
    dependencies := [Dependency.direct 0 targetB2 "" true, Dependency.direct 4 targetC "" true]
    has_command := true
    is_hardcode := false
    is_copy := false
    redirect_index := -1 }

/-- The rule `C: { command }`. -/
def ruleC : Rule :=
  { id := 11
    place_param_targets := [targetC]
    dependencies := []
    has_command := true
    is_hardcode := false
    is_copy := false
    redirect_index := -1 }

/-- One job at a time, keep-going; the file `A` exists with modification time
10 and no command changes it, `B2` exists with modification time 20, and `C`
exists with modification time 60 once its command (node 3) has been waited for;
the command of `C` succeeds and every other command fails. -/
def envC : Env :=
  { envA with
    rule_set_get := fun t =>
      if t = targetA then Except.ok (some (ruleA2, 10, []))
      else if t = targetC then Except.ok (some (ruleC, 11, []))
      else Except.ok none
    stat := fun w name =>
      if name = "A" then Stat.ok 10
      else if name = "B2" then Stat.ok 20
      else if name = "C" ∧ (w.node 3).job = Job.waited then Stat.ok 60
      else Stat.enoent
    job_start := fun _ node => 100 + node
    job_wait := fun w =>
      match w.executions_by_pid with
      | [] => (0, 1)
      | p :: _ => (p.1, if p.2 = 3 then 0 else 1) }

/-- The world after the first call of `execute` on the root: the command of
`C` runs. -/
def worldC1 : World := (execute envC 5 0 none rootLink worldA).2

/-- The world after the command of `C` has been waited for. -/
def worldC2 : World := (wait envC worldC1).2

/-- The world after the second call of `execute` on the root: the command of
`A` runs. -/
def worldC3 : World := (execute envC 5 0 none rootLink worldC2).2

/-- The world after the command of `A` has failed and been waited for. -/
def worldC4 : World := (wait envC worldC3).2

/-- A node for the file `A` whose dependencies have the timestamp 10, the
modification time of `A` in `envC`. -/
def worldTie : World :=
  { World.initial 1 with
    nodes := [{ Execution.blank with targets := [targetA], timestamp := some 10 }] }

/-- The file target `D`. -/
def targetD : Target := ⟨TType.FILE, "D"⟩

/-- The later of two timestamps in the spec's reading: an undefined timestamp is
earlier than every defined one. -/
def Timestamp.later (a b : Timestamp) : Timestamp :=
  match a, b with
  | none, t => t
  | some x, none => some x
  | some x, some y => some (max x y)

/-! ## A finished child about to be unlinked -/

/-- The execution of `A` (node 0), whose dependencies so far have the
timestamp 5, waits for its children `B2` (node 1) and `C` (node 2); `B2` is
finished, has the timestamp 9 and was rebuilt, and is also a child of node 3. -/
def worldU : World :=
  { World.initial 1 with
    nodes :=
      [{ Execution.blank with targets := [targetA], children := [1, 2], timestamp := some 5 },
       { Execution.blank with
          targets := [targetB2], parents := [(0, rootLink), (3, rootLink)], timestamp := some 9,
          need_build := true, exists_ := 1 },
       { Execution.blank with targets := [targetC], parents := [(0, rootLink)] },
       { Execution.blank with targets := [targetD], children := [1] }] }

/-! ## The entry assertion of `execute` -/

/-- The assertion at the entry of `execute`:
`if (targets.size() && targets.front().type == 0)
assert(link.avoid.get_lowest() == (link.flags & ((1 << F_COUNT) - 1)))`.
Modelled from the spec: the comparison of a `Type` with `0` is declared in a
header that is absent from `src/`; it is read as "the dynamic depth is zero". -/
def execute_entry_assertion (F : FlagConsts) (e : Execution) (link : Link) : Bool :=
  match e.targets with
  | [] => true
  | t :: _ =>
    if t.type.get_dynamic_depth = 0 then link.avoid.get_lowest == link.flags &&& F.mask
    else true

/-- The exit status of a process killed by `abort()`, as a failed `assert`
does: 128 + `SIGABRT`. -/
def EXIT_ABORT : Nat := 134

/-- `Execution::execute` compiled without `NDEBUG`, as far as the assertion on
the incoming link is concerned: a call whose link fails the assertion aborts
the program. -/
def execute_checked (env : Env) : Nat → ExecuteFn
  | 0 => fun _ _ _ => M.timeout
  | fuel + 1 => fun self parent link => do
    let e ← getNode self
    if execute_entry_assertion env.F e link then
      execute_body env (execute_checked env fuel) fuel self parent link
    else M.exit EXIT_ABORT

/-! ## A transient target reached twice while its dependency is being built -/

/-- The file target `P`. -/
def targetP : Target := ⟨TType.FILE, "P"⟩

/-- The transient target `@u`. -/
def targetU : Target := ⟨TType.TRANSIENT, "u"⟩

/-- The rule `P: @t !@t { command }`. -/
def ruleP : Rule :=
  { id := 20
    place_param_targets := [targetP]
    dependencies := [Dependency.direct 0 targetT "" true, Dependency.direct 1 targetT "" true]
    has_command := true
    is_hardcode := false
    is_copy := false
    redirect_index := -1 }

/-- The rule `@t: @u;`, without a command. -/
def ruleTU : Rule :=
  { id := 21
    place_param_targets := [targetT]
    dependencies := [Dependency.direct 0 targetU "" true]
    has_command := false
    is_hardcode := false
    is_copy := false
    redirect_index := -1 }

/-- The rule `@u: { command }`. -/
def ruleU : Rule :=
  { id := 22
    place_param_targets := [targetU]
    dependencies := []
    has_command := true
    is_hardcode := false
    is_copy := false
    redirect_index := -1 }

/-- The rule `@t: A;`, without a command. -/
def ruleTA : Rule := { ruleTU with dependencies := [Dependency.direct 0 targetA "" true] }

/-- The rule `A: { command }`. -/
def ruleA0 : Rule := { ruleU with id := 23, place_param_targets := [targetA] }

/-- The rules `P: @t !@t { command }`, `@t: @u;` and `@u: { command }`; no
file exists. -/
def envX : Env :=
  { envA with
    rule_set_get := fun t =>
      if t = targetP then Except.ok (some (ruleP, 20, []))
      else if t = targetT then Except.ok (some (ruleTU, 21, []))
      else if t = targetU then Except.ok (some (ruleU, 22, []))
      else Except.ok none
    job_start := fun _ node => 100 + node }

/-- As `envX`, with the file `A` in the place of the transient `@u`: the rules
`P: @t !@t { command }`, `@t: A;` and `A: { command }`. -/
def envXA : Env :=
  { envX with
    rule_set_get := fun t =>
      if t = targetP then Except.ok (some (ruleP, 20, []))
      else if t = targetT then Except.ok (some (ruleTA, 21, []))
      else if t = targetA then Except.ok (some (ruleA0, 23, []))
      else Except.ok none }

/-- The world of `main` for `stu -j 2 P` before the first call of `execute`. -/
def worldX : World :=
  { World.initial 2 with
    nodes := [Execution.root stuFlags [Dependency.direct 0 targetP "" true]] }

/-! ## A file without a rule -/

/-- The world of `main` for the targets `-o B2` and `B2`, before the first call
of `execute`: the root execution with the two dependencies in its buffer. -/
def worldO : World :=
  { World.initial 1 with
    nodes := [Execution.root stuFlags
      [Dependency.direct 2 targetB2 "" true, Dependency.direct 0 targetB2 "" true]] }

/-! ## A dependency deployed in the second pass -/

/-- The link of the dependency `-t C` as the first pass stores it in
`buf_trivial`: with `F_OVERRIDETRIVIAL` added. -/
def linkCo : Link := ⟨Stack.mk [4], 36, some (Dependency.direct 4 targetC "" true)⟩

/-- The link of the dependency `-t C` as the first pass deploys it. -/
def linkCt : Link := ⟨Stack.mk [4], 4, some (Dependency.direct 4 targetC "" true)⟩

/-- The root execution (node 0) and the execution of the file `C` (node 1)
with the rule `C: { command }`. -/
def worldV : World :=
  { World.initial 1 with
    nodes :=
      [{ Execution.blank with children := [1] },
       { Execution.blank with
          targets := [targetC], rule := some ruleC, param_rule := some 11,
          parents := [(0, linkCt)] }]
    executions_by_target := [(targetC, 1)] }

/-! ## A command with parameters and variables -/

/-- The root execution (node 0) and the execution of the transient `@u`
(node 1) with the rule `@u: { command }`, the parameters `x = 1` and `y = 2`,
and the variables `y = 9` and `z = 3`. -/
def worldM : World :=
  { World.initial 1 with
    nodes :=
      [{ Execution.blank with children := [1] },
       { Execution.blank with
          targets := [targetU], rule := some ruleU, param_rule := some 22,
          parents := [(0, rootLink)],
          mapping_parameter := [("x", "1"), ("y", "2")],
          mapping_variable := [("y", "9"), ("z", "3")] }]
    executions_by_target := [(targetU, 1)] }

/-! ## Atomic steps, as to `need_build` and `buf_trivial` -/

/-- The atomic changes of the world made by `execute` and the functions it
calls, as far as `need_build` and `buf_trivial` are concerned: `need_build` is
only ever set; a link is added to `buf_trivial` only as the copy that the first
pass makes, with `F_OVERRIDETRIVIAL` in its flags and added to the highest
level of its stack; and a link is taken out of `buf_trivial` only at the front
and only on a node whose `need_build` is set. -/
inductive StepN (F : FlagConsts) : World → World → Prop
  | frame (w : World) (i : Nat) (f : Execution → Execution)
      (h : ∀ e, (f e).need_build = e.need_build ∧ (f e).buf_trivial = e.buf_trivial) :
      StepN F w (w.modify i f)
  | statics (w w1 : World) (hn : w1.nodes = w.nodes) : StepN F w w1
  | alloc (w w1 : World) (e0 : Execution) (hn : w1.nodes = w.nodes ++ [e0])
      (hb : e0.buf_trivial = []) : StepN F w w1
  | need_build (w : World) (i : Nat) :
      StepN F w (w.modify i (fun e => { e with need_build := true }))
  | push (w : World) (i : Nat) (l : Link) :
      StepN F w (w.modify i (fun e => { e with
        buf_trivial := e.buf_trivial ++
          [{ l with
            avoid := l.avoid.add_highest F F.F_OVERRIDETRIVIAL
            flags := l.flags ||| F.F_OVERRIDETRIVIAL }] }))
  | pop (w : World) (i : Nat) (l : Link) (rest : List Link)
      (hn : (w.node i).need_build = true) (hb : (w.node i).buf_trivial = l :: rest) :
      StepN F w (w.modify i (fun e => { e with buf_trivial := rest }))

/-- A property of the world that every atomic step keeps. -/
@[reducible] def ClosedN (F : FlagConsts) (I : World → Prop) : Prop :=
  ∀ w w1, StepN F w w1 → I w → I w1

/-! ## A node at the test of `need_build` -/

theorem testBit_flags_not (f : Flags) (i : Nat) :
    (flags_not f).testBit i = (decide (i < 32) && !f.testBit i) := by
  unfold flags_not
  rw [Nat.testBit_xor, Nat.testBit_two_pow_sub_one, Nat.testBit_mod_two_pow]
  by_cases h : i < 32 <;> simp [h]

theorem testBit_mask (F : FlagConsts) (i : Nat) :
    F.mask.testBit i = decide (i < F.F_COUNT) := by
  unfold FlagConsts.mask
  rw [Nat.one_shiftLeft, Nat.testBit_two_pow_sub_one]

theorem testBit_to_do_aggregate (done avoid : Stack) (n i : Nat) :
    (to_do_aggregate done avoid n).testBit i = true ↔
      ∃ j, j < n ∧ i < 32 ∧ (done.get j).testBit i = false ∧
        (avoid.get j).testBit i = false := by
  induction n with
  | zero => simp [to_do_aggregate]
  | succ n ih =>
    simp only [to_do_aggregate, Nat.testBit_or, Nat.testBit_and, Bool.or_eq_true, ih,
      testBit_flags_not, Bool.and_eq_true, decide_eq_true_eq, Bool.not_eq_true']
    constructor
    · rintro (⟨j, hj, h⟩ | ⟨⟨h32, h1⟩, _, h2⟩)
      · exact ⟨j, Nat.lt_succ_of_lt hj, h⟩
      · exact ⟨n, Nat.lt_succ_self n, h32, h1, h2⟩
    · rintro ⟨j, hj, h32, h1, h2⟩
      rcases Nat.lt_succ_iff_lt_or_eq.mp hj with hlt | rfl
      · exact Or.inl ⟨j, hlt, h32, h1, h2⟩
      · exact Or.inr ⟨⟨h32, h1⟩, h32, h2⟩

/-- C3: `finished(avoid)` is true iff at every level `j` from `0` to the depth
of the `done` stack, each flag of the flag set (each bit below `F_COUNT`) is set in
`done.get(j)` or in `avoid.get(j)`. -/
theorem finished_iff (F : FlagConsts) (done avoid : Stack) :
    finished_stack F done avoid = true ↔
      ∀ j, j ≤ done.get_k → ∀ i, i < F.F_COUNT →
        (done.get j).testBit i = true ∨ (avoid.get j).testBit i = true := by
  unfold finished_stack
  rw [beq_iff_eq]
  constructor
  · intro h j hj i hi
    by_contra hcon
    push_neg at hcon
    have hbit : ((to_do_aggregate done avoid (done.get_k + 1)) &&& F.mask).testBit i = true := by
      rw [Nat.testBit_and, testBit_mask, Bool.and_eq_true]
      refine ⟨(testBit_to_do_aggregate _ _ _ _).2 ⟨j, Nat.lt_succ_of_le hj, ?_, ?_, ?_⟩, by simpa using hi⟩
      · have := F.F_COUNT_le; omega
      · simpa using hcon.1
      · simpa using hcon.2
    rw [h] at hbit
    simp at hbit
  · intro h
    apply Nat.eq_of_testBit_eq
    intro i
    rw [Nat.zero_testBit]
    by_contra hcon
    have hbit : ((to_do_aggregate done avoid (done.get_k + 1)) &&& F.mask).testBit i = true := by
      simpa using hcon
    rw [Nat.testBit_and, testBit_mask, Bool.and_eq_true] at hbit
    obtain ⟨j, hj, _, h1, h2⟩ := (testBit_to_do_aggregate _ _ _ _).1 hbit.1
    rcases h j (Nat.lt_succ_iff.mp hj) i (by simpa using hbit.2) with h3 | h3
    · rw [h1] at h3; exact Bool.noConfusion h3
    · rw [h2] at h3; exact Bool.noConfusion h3

/-! ### The monad -/

@[simp] theorem run_pure {α : Type} (a : α) (w : World) :
    (pure a : M α) w = (Outcome.ret a, w) := rfl

theorem run_bind {α β : Type} (m : M α) (f : α → M β) (w : World) :
    (m >>= f) w = match m w with
      | (Outcome.ret a, w1) => f a w1
      | (Outcome.thrown e, w1) => (Outcome.thrown e, w1)
      | (Outcome.exited c, w1) => (Outcome.exited c, w1)
      | (Outcome.undef, w1) => (Outcome.undef, w1)
      | (Outcome.timeout, w1) => (Outcome.timeout, w1) := rfl

@[simp] theorem run_bind_ret {α β : Type} (m : M α) (f : α → M β) (w w1 : World) (a : α)
    (h : m w = (Outcome.ret a, w1)) : (m >>= f) w = f a w1 := by
  rw [run_bind, h]

@[simp] theorem run_get (w : World) : M.get w = (Outcome.ret w, w) := rfl

@[simp] theorem run_update (f : World → World) (w : World) :
    M.update f w = (Outcome.ret (), f w) := rfl

@[simp] theorem run_getNode (i : Nat) (w : World) :
    getNode i w = (Outcome.ret (w.node i), w) := rfl

@[simp] theorem run_modifyNode (i : Nat) (f : Execution → Execution) (w : World) :
    modifyNode i f w = (Outcome.ret (), w.modify i f) := rfl

@[simp] theorem run_throw {α : Type} (e : Nat) (w : World) :
    (M.throw e : M α) w = (Outcome.thrown e, w) := rfl

/-! ### Nodes -/

theorem node_modify (w : World) (i j : Nat) (f : Execution → Execution) :
    (w.modify i f).node j =
      if i = j ∧ j < w.nodes.length then f (w.node j) else w.node j := by
  unfold World.node World.modify
  simp only [List.getD_eq_getElem?_getD, List.getElem?_modify]
  by_cases hj : j < w.nodes.length
  · rw [List.getElem?_eq_getElem hj]
    by_cases hij : i = j <;> simp [hij, hj]
  · rw [List.getElem?_eq_none (Nat.le_of_not_lt hj)]
    simp [hj]

theorem node_modify_self (w : World) (i : Nat) (f : Execution → Execution)
    (h : i < w.nodes.length) : (w.modify i f).node i = f (w.node i) := by
  rw [node_modify]; simp [h]

theorem node_modify_ne (w : World) (i j : Nat) (f : Execution → Execution) (h : i ≠ j) :
    (w.modify i f).node j = w.node j := by
  rw [node_modify]; simp [h]

@[simp] theorem length_modify (w : World) (i : Nat) (f : Execution → Execution) :
    (w.modify i f).nodes.length = w.nodes.length := by
  simp [World.modify]

theorem raise_run (env : Env) (self error_ : Nat) (w : World) :
    raise env self error_ w =
      (if env.option_keep_going then Outcome.ret ()
        else Outcome.thrown ((w.modify self
          (fun e => { e with error := e.error ||| error_ })).node self).error,
       w.modify self (fun e => { e with error := e.error ||| error_ })) := by
  unfold raise
  cases h : env.option_keep_going <;> simp [run_bind]

/-- C5: `raise(e)` sets the node's error to (old error OR `e`); with keep-going
it returns normally, without it throws, and the thrown value is the accumulated
error after the OR. -/
theorem raise_spec (env : Env) (self e : Nat) (w : World) (hself : self < w.nodes.length) :
    ((raise env self e w).2.node self).error = (w.node self).error ||| e ∧
    (env.option_keep_going = true → (raise env self e w).1 = Outcome.ret ()) ∧
    (env.option_keep_going = false →
      (raise env self e w).1 = Outcome.thrown ((w.node self).error ||| e)) := by
  rw [raise_run]
  refine ⟨?_, ?_, ?_⟩
  · simp [node_modify_self _ _ _ hself]
  · intro h; simp [h]
  · intro h; simp [h, node_modify_self _ _ _ hself]

/-! ### Invariants of computations -/

theorem keeps_pure (I : World → Prop) {α : Type} (a : α) : Keeps I (pure a : M α) :=
  ⟨fun _ h => h⟩

theorem keeps_bind {I : World → Prop} {α β : Type} {m : M α} {f : α → M β}
    (hm : Keeps I m) (hf : ∀ a, Keeps I (f a)) : Keeps I (m >>= f) := by
  constructor
  intro w hw
  have h1 := hm.run w hw
  rw [run_bind]
  rcases hmw : m w with ⟨o, w1⟩
  rw [hmw] at h1
  cases o with
  | ret a => exact (hf a).run w1 h1
  | thrown e => exact h1
  | exited c => exact h1
  | undef => exact h1
  | timeout => exact h1

theorem keeps_get (I : World → Prop) : Keeps I M.get := ⟨fun _ h => h⟩

theorem keeps_getNode (I : World → Prop) (i : Nat) : Keeps I (getNode i) := ⟨fun _ h => h⟩

theorem keeps_throw (I : World → Prop) {α : Type} (e : Nat) : Keeps I (M.throw e : M α) :=
  ⟨fun _ h => h⟩

theorem keeps_exit (I : World → Prop) {α : Type} (e : Nat) : Keeps I (M.exit e : M α) :=
  ⟨fun _ h => h⟩

theorem keeps_undef (I : World → Prop) {α : Type} : Keeps I (M.undef : M α) :=
  ⟨fun _ h => h⟩

theorem keeps_timeout (I : World → Prop) {α : Type} : Keeps I (M.timeout : M α) :=
  ⟨fun _ h => h⟩

theorem keeps_update {I : World → Prop} {f : World → World} (h : ∀ w, I w → I (f w)) :
    Keeps I (M.update f) := ⟨h⟩

theorem keeps_modifyNode {I : World → Prop} {i : Nat} {f : Execution → Execution}
    (h : ∀ w, I w → I (w.modify i f)) : Keeps I (modifyNode i f) := ⟨h⟩

theorem keeps_ite {I : World → Prop} {α : Type} {c : Prop} [Decidable c] {a b : M α}
    (ha : Keeps I a) (hb : Keeps I b) : Keeps I (if c then a else b) := by
  split
  · exact ha
  · exact hb

theorem keeps_tryCatch {I : World → Prop} {α : Type} {m : M α} {h : Nat → M α}
    (hm : Keeps I m) (hh : ∀ e, Keeps I (h e)) : Keeps I (M.tryCatch m h) := by
  constructor
  intro w hw
  have h1 := hm.run w hw
  unfold M.tryCatch
  rcases hmw : m w with ⟨o, w1⟩
  rw [hmw] at h1
  cases o with
  | thrown e => exact (hh e).run w1 h1
  | ret a => exact h1
  | exited c => exact h1
  | undef => exact h1
  | timeout => exact h1

theorem keeps_for_each {I : World → Prop} {α : Type} {f : α → M Unit}
    (hf : ∀ a, Keeps I (f a)) (l : List α) : Keeps I (for_each f l) := by
  induction l with
  | nil => exact keeps_pure I ()
  | cons a rest ih => exact keeps_bind (hf a) (fun _ => ih)

theorem keeps_raise {I : World → Prop} (env : Env) (self error_ : Nat)
    (h : ∀ w, I w → I (w.modify self (fun e => { e with error := e.error ||| error_ }))) :
    Keeps I (raise env self error_) := by
  constructor
  intro w hw
  rw [raise_run]
  exact h w hw

/-! ### Every function is a sequence of atomic steps -/

theorem Stack.get_zero (k j : Nat) : (Stack.zero k).get j = 0 := by
  simp only [Stack.zero, Stack.get, List.getD_eq_getElem?_getD, List.getElem?_replicate]
  split <;> rfl

theorem raise_keeps {I : World → Prop} {C : Nat → Prop}
    (hI : ∀ w w1, Step0 C w w1 → I w → I w1)
    (env : Env) (self x : Nat) (hx : C x) : Keeps I (raise env self x) :=
  keeps_raise env self x (fun w hw => hI _ _ (Step0.error_or w self x hx) hw)

theorem constructor_no_rule_keeps {I : World → Prop} {C : Nat → Prop} (hC : C 1 ∧ C 2)
    (hI : ∀ w w1, Step0 C w w1 → I w → I w1)
    (env : Env) (self : Nat) (target_ : Target) (link : Link) :
    Keeps I (constructor_no_rule env self target_ link) := by
  unfold constructor_no_rule
  repeat' first
    | intro _
    | exact keeps_pure _ _
    | exact keeps_get _
    | exact keeps_getNode _ _
    | exact keeps_throw _ _
    | exact keeps_exit _ _
    | exact keeps_undef _
    | exact keeps_timeout _
    | exact keeps_modifyNode (fun w hw => hI _ _ (Step0.frame w _ _ (fun _ => ⟨rfl, rfl, rfl⟩)) hw)
    | exact keeps_modifyNode (fun w hw => hI _ _ (Step0.done_add_neg w _ _ _) hw)
    | exact keeps_modifyNode (fun w hw => hI _ _ (Step0.done_add_highest_neg w _ _ _) hw)
    | exact keeps_modifyNode (fun w hw => hI _ _ (Step0.done_add_one_neg w _ _ _) hw)
    | exact keeps_modifyNode (fun w hw => hI _ _ (Step0.error_or w _ _ hC.1) hw)
    | exact keeps_update (fun w hw => hI _ _ (Step0.statics w _ rfl rfl rfl) hw)
    | exact raise_keeps hI _ _ _ hC.1
    | exact raise_keeps hI _ _ _ hC.2
    | apply keeps_for_each
    | apply keeps_tryCatch
    | apply keeps_bind
    | apply keeps_ite
    | split
    | dsimp only

theorem create_keeps {I : World → Prop} {C : Nat → Prop} (hC : C 1 ∧ C 2)
    (hI : ∀ w w1, Step0 C w w1 → I w → I w1)
    (env : Env) (target_ : Target) (link : Link) (parent : Nat) :
    Keeps I (Execution.create env target_ link parent) := by
  unfold Execution.create
  repeat' first
    | intro _
    | exact keeps_pure _ _
    | exact keeps_get _
    | exact keeps_getNode _ _
    | exact keeps_throw _ _
    | exact keeps_exit _ _
    | exact keeps_undef _
    | exact keeps_timeout _
    | exact keeps_modifyNode (fun w hw => hI _ _ (Step0.frame w _ _ (fun _ => ⟨rfl, rfl, rfl⟩)) hw)
    | exact keeps_modifyNode (fun w hw => hI _ _ (Step0.done_add_neg w _ _ _) hw)
    | exact keeps_modifyNode (fun w hw => hI _ _ (Step0.done_add_highest_neg w _ _ _) hw)
    | exact keeps_modifyNode (fun w hw => hI _ _ (Step0.done_add_one_neg w _ _ _) hw)
    | exact keeps_modifyNode (fun w hw => hI _ _ (Step0.error_or w _ _ hC.1) hw)
    | exact keeps_update (fun w hw => hI _ _ (Step0.statics w _ rfl rfl rfl) hw)
    | exact constructor_no_rule_keeps hC hI _ _ _ _
    | exact keeps_update (fun w hw => hI _ _ (Step0.alloc w _ _ rfl rfl rfl (Stack.get_zero _) rfl rfl) hw)
    | apply keeps_for_each
    | apply keeps_tryCatch
    | apply keeps_bind
    | apply keeps_ite
    | split
    | dsimp only

theorem initialize_execution_keeps {I : World → Prop} {C : Nat → Prop} (hC : C 1 ∧ C 2)
    (hI : ∀ w w1, Step0 C w w1 → I w → I w1)
    (env : Env) (self : Nat) (avoid : Stack) :
    Keeps I (initialize_execution env self avoid) := by
  unfold initialize_execution
  repeat' first
    | intro _
    | exact keeps_pure _ _
    | exact keeps_get _
    | exact keeps_getNode _ _
    | exact keeps_throw _ _
    | exact keeps_exit _ _
    | exact keeps_undef _
    | exact keeps_timeout _
    | exact keeps_modifyNode (fun w hw => hI _ _ (Step0.frame w _ _ (fun _ => ⟨rfl, rfl, rfl⟩)) hw)
    | exact keeps_modifyNode (fun w hw => hI _ _ (Step0.done_add_neg w _ _ _) hw)
    | exact keeps_modifyNode (fun w hw => hI _ _ (Step0.done_add_highest_neg w _ _ _) hw)
    | exact keeps_modifyNode (fun w hw => hI _ _ (Step0.done_add_one_neg w _ _ _) hw)
    | exact keeps_modifyNode (fun w hw => hI _ _ (Step0.error_or w _ _ hC.1) hw)
    | exact keeps_update (fun w hw => hI _ _ (Step0.statics w _ rfl rfl rfl) hw)
    | apply keeps_for_each
    | apply keeps_tryCatch
    | apply keeps_bind
    | apply keeps_ite
    | split
    | dsimp only

theorem get_execution_connect_keeps {I : World → Prop} {C : Nat → Prop} (hC : C 1 ∧ C 2)
    (hI : ∀ w w1, Step0 C w w1 → I w → I w1)
    (env : Env) (target : Target) (link : Link) (parent : Nat) :
    Keeps I (get_execution_connect env target link parent) := by
  unfold get_execution_connect
  repeat' first
    | intro _
    | exact keeps_pure _ _
    | exact keeps_get _
    | exact keeps_getNode _ _
    | exact keeps_throw _ _
    | exact keeps_exit _ _
    | exact keeps_undef _
    | exact keeps_timeout _
    | exact keeps_modifyNode (fun w hw => hI _ _ (Step0.frame w _ _ (fun _ => ⟨rfl, rfl, rfl⟩)) hw)
    | exact keeps_modifyNode (fun w hw => hI _ _ (Step0.done_add_neg w _ _ _) hw)
    | exact keeps_modifyNode (fun w hw => hI _ _ (Step0.done_add_highest_neg w _ _ _) hw)
    | exact keeps_modifyNode (fun w hw => hI _ _ (Step0.done_add_one_neg w _ _ _) hw)
    | exact keeps_modifyNode (fun w hw => hI _ _ (Step0.error_or w _ _ hC.1) hw)
    | exact keeps_update (fun w hw => hI _ _ (Step0.statics w _ rfl rfl rfl) hw)
    | exact create_keeps hC hI _ _ _ _
    | apply keeps_for_each
    | apply keeps_tryCatch
    | apply keeps_bind
    | apply keeps_ite
    | split
    | dsimp only

theorem get_execution_keeps {I : World → Prop} {C : Nat → Prop} (hC : C 1 ∧ C 2)
    (hI : ∀ w w1, Step0 C w w1 → I w → I w1)
    (env : Env) (fuel : Nat) (target : Target) (link : Link) (parent : Nat) :
    Keeps I (get_execution env fuel target link parent) := by
  unfold get_execution
  repeat' first
    | intro _
    | exact keeps_pure _ _
    | exact keeps_get _
    | exact keeps_getNode _ _
    | exact keeps_throw _ _
    | exact keeps_exit _ _
    | exact keeps_undef _
    | exact keeps_timeout _
    | exact keeps_modifyNode (fun w hw => hI _ _ (Step0.frame w _ _ (fun _ => ⟨rfl, rfl, rfl⟩)) hw)
    | exact keeps_modifyNode (fun w hw => hI _ _ (Step0.done_add_neg w _ _ _) hw)
    | exact keeps_modifyNode (fun w hw => hI _ _ (Step0.done_add_highest_neg w _ _ _) hw)
    | exact keeps_modifyNode (fun w hw => hI _ _ (Step0.done_add_one_neg w _ _ _) hw)
    | exact keeps_modifyNode (fun w hw => hI _ _ (Step0.error_or w _ _ hC.1) hw)
    | exact keeps_update (fun w hw => hI _ _ (Step0.statics w _ rfl rfl rfl) hw)
    | exact get_execution_connect_keeps hC hI _ _ _ _
    | exact initialize_execution_keeps hC hI _ _ _
    | exact raise_keeps hI _ _ _ hC.1
    | exact raise_keeps hI _ _ _ hC.2
    | apply keeps_for_each
    | apply keeps_tryCatch
    | apply keeps_bind
    | apply keeps_ite
    | split
    | dsimp only

theorem read_variable_keeps {I : World → Prop} {C : Nat → Prop} (hC : C 1 ∧ C 2)
    (hI : ∀ w w1, Step0 C w w1 → I w → I w1)
    (env : Env) (self : Nat) (dependency : Option Dependency) :
    Keeps I (read_variable env self dependency) := by
  unfold read_variable
  repeat' first
    | intro _
    | exact keeps_pure _ _
    | exact keeps_get _
    | exact keeps_getNode _ _
    | exact keeps_throw _ _
    | exact keeps_exit _ _
    | exact keeps_undef _
    | exact keeps_timeout _
    | exact keeps_modifyNode (fun w hw => hI _ _ (Step0.frame w _ _ (fun _ => ⟨rfl, rfl, rfl⟩)) hw)
    | exact keeps_modifyNode (fun w hw => hI _ _ (Step0.done_add_neg w _ _ _) hw)
    | exact keeps_modifyNode (fun w hw => hI _ _ (Step0.done_add_highest_neg w _ _ _) hw)
    | exact keeps_modifyNode (fun w hw => hI _ _ (Step0.done_add_one_neg w _ _ _) hw)
    | exact keeps_modifyNode (fun w hw => hI _ _ (Step0.error_or w _ _ hC.1) hw)
    | exact keeps_update (fun w hw => hI _ _ (Step0.statics w _ rfl rfl rfl) hw)
    | exact raise_keeps hI _ _ _ hC.1
    | exact raise_keeps hI _ _ _ hC.2
    | apply keeps_for_each
    | apply keeps_tryCatch
    | apply keeps_bind
    | apply keeps_ite
    | split
    | dsimp only

theorem throws_pure (P : Nat → World → Prop) {α : Type} (a : α) : Throws P (pure a : M α) :=
  ⟨fun _ _ h => Outcome.noConfusion h⟩

theorem throws_get (P : Nat → World → Prop) : Throws P M.get :=
  ⟨fun _ _ h => Outcome.noConfusion h⟩

theorem throws_getNode (P : Nat → World → Prop) (i : Nat) : Throws P (getNode i) :=
  ⟨fun _ _ h => Outcome.noConfusion h⟩

theorem throws_modifyNode (P : Nat → World → Prop) (i : Nat) (f : Execution → Execution) :
    Throws P (modifyNode i f) :=
  ⟨fun _ _ h => Outcome.noConfusion h⟩

theorem throws_throw {P : Nat → World → Prop} {α : Type} (e : Nat) (h : ∀ w, P e w) :
    Throws P (M.throw e : M α) := by
  constructor
  intro w e1 he
  have : e = e1 := by
    simp only [run_throw] at he
    exact Outcome.thrown.inj he
  subst this
  exact h w

theorem throws_bind {P : Nat → World → Prop} {α β : Type} {m : M α} {f : α → M β}
    (hm : Throws P m) (hf : ∀ a, Throws P (f a)) : Throws P (m >>= f) := by
  constructor
  intro w e
  have h1 := hm.run w
  rw [run_bind]
  rcases hmw : m w with ⟨o, w1⟩
  rw [hmw] at h1
  cases o with
  | ret a => exact (hf a).run w1 e
  | thrown e1 =>
    intro h
    have he : e1 = e := Outcome.thrown.inj h
    exact h1 e (by rw [he])
  | exited c => exact fun h => Outcome.noConfusion h
  | undef => exact fun h => Outcome.noConfusion h
  | timeout => exact fun h => Outcome.noConfusion h

theorem throws_ite {P : Nat → World → Prop} {α : Type} {c : Prop} [Decidable c] {a b : M α}
    (ha : Throws P a) (hb : Throws P b) : Throws P (if c then a else b) := by
  split
  · exact ha
  · exact hb

theorem throws_for_each {P : Nat → World → Prop} {α : Type} {f : α → M Unit}
    (hf : ∀ a, Throws P (f a)) (l : List α) : Throws P (for_each f l) := by
  induction l with
  | nil => exact throws_pure P ()
  | cons a rest ih => exact throws_bind (hf a) (fun _ => ih)

theorem throws_raise (env : Env) (self error_ : Nat) :
    Throws (fun e w => e = (w.node self).error) (raise env self error_) := by
  constructor
  intro w e
  rw [raise_run]
  cases env.option_keep_going with
  | true => exact fun h => Outcome.noConfusion h
  | false =>
    intro h
    exact (Outcome.thrown.inj h).symm

theorem throws_weaken {P Q : Nat → World → Prop} {α : Type} {m : M α} (hm : Throws P m)
    (h : ∀ e w, P e w → Q e w) : Throws Q m :=
  ⟨fun w e he => h e _ (hm.run w e he)⟩

theorem keeps_tryCatch_of_throws {I : World → Prop} {P : Nat → World → Prop} {α : Type}
    {m : M α} {h : Nat → M α} (hm : Keeps I m) (ht : Throws P m)
    (hh : ∀ e w, P e w → I w → I (h e w).2) : Keeps I (M.tryCatch m h) := by
  constructor
  intro w hw
  have h1 := hm.run w hw
  have h2 := ht.run w
  unfold M.tryCatch
  rcases hmw : m w with ⟨o, w1⟩
  rw [hmw] at h1 h2
  cases o with
  | thrown e => exact hh e w1 (h2 e rfl) h1
  | ret a => exact h1
  | exited c => exact h1
  | undef => exact h1
  | timeout => exact h1

theorem read_dynamics_dependency_keeps {I : World → Prop} {C : Nat → Prop} (hC : C 1 ∧ C 2)
    (hI : ∀ w w1, Step0 C w w1 → I w → I w1) (env : Env) (self : Nat) (target : Target)
    (avoid : Stack) (input : Bool) (j : Dependency) :
    Keeps I (read_dynamics_dependency env self target avoid input j) := by
  unfold read_dynamics_dependency
  repeat' first
    | intro _
    | exact keeps_pure _ _
    | exact keeps_get _
    | exact keeps_getNode _ _
    | exact keeps_throw _ _
    | exact keeps_exit _ _
    | exact keeps_undef _
    | exact keeps_timeout _
    | exact keeps_modifyNode (fun w hw => hI _ _ (Step0.frame w _ _ (fun _ => ⟨rfl, rfl, rfl⟩)) hw)
    | exact keeps_modifyNode (fun w hw => hI _ _ (Step0.done_add_neg w _ _ _) hw)
    | exact keeps_modifyNode (fun w hw => hI _ _ (Step0.done_add_highest_neg w _ _ _) hw)
    | exact keeps_modifyNode (fun w hw => hI _ _ (Step0.done_add_one_neg w _ _ _) hw)
    | exact keeps_modifyNode (fun w hw => hI _ _ (Step0.error_or w _ _ hC.1) hw)
    | exact keeps_update (fun w hw => hI _ _ (Step0.statics w _ rfl rfl rfl) hw)
    | exact raise_keeps hI _ _ _ hC.1
    | exact raise_keeps hI _ _ _ hC.2
    | apply keeps_for_each
    | apply keeps_tryCatch
    | apply keeps_bind
    | apply keeps_ite
    | split
    | dsimp only

theorem read_dynamics_dependency_throws (C : Nat → Prop) (env : Env) (self : Nat) (target : Target)
    (avoid : Stack) (input : Bool) (j : Dependency) :
    Throws (fun e w => C e ∨ e = (w.node self).error)
      (read_dynamics_dependency env self target avoid input j) := by
  unfold read_dynamics_dependency
  repeat' first
    | intro _
    | exact throws_pure _ _
    | exact throws_modifyNode _ _ _
    | exact throws_weaken (throws_raise _ _ _) (fun _ _ h => Or.inr h)
    | apply throws_bind
    | apply throws_ite
    | split
    | dsimp only

theorem read_dynamics_keeps {I : World → Prop} {C : Nat → Prop} (hC : C 1 ∧ C 2)
    (hI : ∀ w w1, Step0 C w w1 → I w → I w1)
    (env : Env) (henv : env.parse_codes C) (self : Nat) (avoid : Stack)
    (dependency_this : Option Dependency) :
    Keeps I (read_dynamics env self avoid dependency_this) := by
  unfold read_dynamics
  split
  · exact keeps_undef _
  · rename_i d
    apply keeps_tryCatch_of_throws (P := fun e w => C e ∨ e = (w.node self).error)
    · apply keeps_bind (keeps_get _)
      intro w
      dsimp only
      split
      · exact keeps_throw _ _
      · split
        · rename_i e he
          exact keeps_bind (raise_keeps hI _ _ _ (henv w _ e (Or.inr he)))
            (fun _ => keeps_for_each (fun j => read_dynamics_dependency_keeps hC hI _ _ _ _ _ j) _)
        · exact keeps_bind (keeps_pure _ _)
            (fun _ => keeps_for_each (fun j => read_dynamics_dependency_keeps hC hI _ _ _ _ _ j) _)
    · apply throws_bind (throws_get _)
      intro w
      dsimp only
      split
      · rename_i e he
        exact throws_throw _ (fun _ => Or.inl (henv w _ e (Or.inl he)))
      · split
        · exact throws_bind (throws_weaken (throws_raise _ _ _) (fun _ _ h => Or.inr h))
            (fun _ => throws_for_each (fun j => read_dynamics_dependency_throws C _ _ _ _ _ j) _)
        · exact throws_bind (throws_pure _ _)
            (fun _ => throws_for_each (fun j => read_dynamics_dependency_throws C _ _ _ _ _ j) _)
    · intro e w he hw
      rw [raise_run]
      rcases he with he | he
      · exact hI _ _ (Step0.error_or w self e he) hw
      · subst he
        exact hI _ _ (Step0.error_from w self self) hw

@[simp] theorem run_bind_getNode {β : Type} (i : Nat) (f : Execution → M β) (w : World) :
    (getNode i >>= f) w = f (w.node i) w := rfl

@[simp] theorem run_bind_get {β : Type} (f : World → M β) (w : World) :
    (M.get >>= f) w = f w w := rfl

@[simp] theorem run_bind_modifyNode {β : Type} (i : Nat) (g : Execution → Execution)
    (f : Unit → M β) (w : World) : (modifyNode i g >>= f) w = f () (w.modify i g) := rfl

@[simp] theorem run_bind_update {β : Type} (g : World → World) (f : Unit → M β) (w : World) :
    (M.update g >>= f) w = f () (g w) := rfl

@[simp] theorem run_bind_pure {α β : Type} (a : α) (f : α → M β) (w : World) :
    ((pure a : M α) >>= f) w = f a w := rfl

theorem Timestamp.le_refl (t : Timestamp) : Timestamp.le t t := by
  cases t <;> simp [Timestamp.le]

theorem Timestamp.le_trans {a b c : Timestamp} (h1 : Timestamp.le a b) (h2 : Timestamp.le b c) :
    Timestamp.le a c := by
  cases a <;> cases b <;> cases c <;> simp_all [Timestamp.le]
  exact Nat.le_trans h1 h2

theorem Timestamp.le_of_not_defined {a : Timestamp} (b : Timestamp)
    (h : (!a.defined) = true) : Timestamp.le a b := by
  cases a <;> simp_all [Timestamp.le, Timestamp.defined]

theorem Timestamp.le_of_lt {a b : Timestamp} (h : Timestamp.lt a b = true) :
    Timestamp.le a b := by
  cases a <;> cases b <;> simp_all [Timestamp.le, Timestamp.lt]
  exact Nat.le_of_lt h

theorem unlink_timestamp_keeps {I : World → Prop} {C : Nat → Prop} (hC : C 1 ∧ C 2)
    (hI : ∀ w w1, Step0 C w w1 → I w → I w1)
    (env : Env) (parent child : Nat) (flags_child : Flags) :
    Keeps I (unlink_timestamp env parent child flags_child) := by
  constructor
  intro w hw
  unfold unlink_timestamp
  split
  · simp only [run_bind_getNode]
    split
    · split
      · rename_i h
        exact hI _ _ (Step0.timestamp w parent _ (Timestamp.le_of_not_defined _ h)) hw
      · split
        · rename_i h
          exact hI _ _ (Step0.timestamp w parent _ (Timestamp.le_of_lt h)) hw
        · exact hw
    · exact hw
  · exact hw

theorem unlink_attributes_keeps {I : World → Prop} {C : Nat → Prop} (hC : C 1 ∧ C 2)
    (hI : ∀ w w1, Step0 C w w1 → I w → I w1)
    (env : Env) (parent child : Nat) (flags_child : Flags) :
    Keeps I (unlink_attributes env parent child flags_child) := by
  constructor
  intro w hw
  unfold unlink_attributes
  simp only [run_bind_getNode, run_bind_modifyNode]
  have hw1 := hI _ _ (Step0.error_from w parent child) hw
  refine Keeps.run (I := I) ?_ _ hw1
  repeat' first
    | intro _
    | exact keeps_pure _ _
    | exact keeps_get _
    | exact keeps_getNode _ _
    | exact keeps_throw _ _
    | exact keeps_exit _ _
    | exact keeps_undef _
    | exact keeps_timeout _
    | exact keeps_modifyNode (fun w hw => hI _ _ (Step0.frame w _ _ (fun _ => ⟨rfl, rfl, rfl⟩)) hw)
    | exact keeps_modifyNode (fun w hw => hI _ _ (Step0.done_add_neg w _ _ _) hw)
    | exact keeps_modifyNode (fun w hw => hI _ _ (Step0.done_add_highest_neg w _ _ _) hw)
    | exact keeps_modifyNode (fun w hw => hI _ _ (Step0.done_add_one_neg w _ _ _) hw)
    | exact keeps_modifyNode (fun w hw => hI _ _ (Step0.error_or w _ _ hC.1) hw)
    | exact keeps_update (fun w hw => hI _ _ (Step0.statics w _ rfl rfl rfl) hw)
    | apply keeps_for_each
    | apply keeps_tryCatch
    | apply keeps_bind
    | apply keeps_ite
    | split
    | dsimp only

theorem unlink_read_keeps {I : World → Prop} {C : Nat → Prop} (hC : C 1 ∧ C 2)
    (hI : ∀ w w1, Step0 C w w1 → I w → I w1)
    (env : Env) (henv : env.parse_codes C) (parent child : Nat)
    (dependency_parent : Option Dependency) (avoid_parent : Stack) (flags_child : Flags) :
    Keeps I (unlink_read env parent child dependency_parent avoid_parent flags_child) := by
  unfold unlink_read
  repeat' first
    | intro _
    | exact keeps_pure _ _
    | exact keeps_get _
    | exact keeps_getNode _ _
    | exact keeps_throw _ _
    | exact keeps_exit _ _
    | exact keeps_undef _
    | exact keeps_timeout _
    | exact keeps_modifyNode (fun w hw => hI _ _ (Step0.frame w _ _ (fun _ => ⟨rfl, rfl, rfl⟩)) hw)
    | exact keeps_modifyNode (fun w hw => hI _ _ (Step0.done_add_neg w _ _ _) hw)
    | exact keeps_modifyNode (fun w hw => hI _ _ (Step0.done_add_highest_neg w _ _ _) hw)
    | exact keeps_modifyNode (fun w hw => hI _ _ (Step0.done_add_one_neg w _ _ _) hw)
    | exact keeps_modifyNode (fun w hw => hI _ _ (Step0.error_or w _ _ hC.1) hw)
    | exact keeps_update (fun w hw => hI _ _ (Step0.statics w _ rfl rfl rfl) hw)
    | exact read_dynamics_keeps hC hI env henv _ _ _
    | apply keeps_for_each
    | apply keeps_tryCatch
    | apply keeps_bind
    | apply keeps_ite
    | split
    | dsimp only

theorem unlink_variable_keeps {I : World → Prop} {C : Nat → Prop} (hC : C 1 ∧ C 2)
    (hI : ∀ w w1, Step0 C w w1 → I w → I w1)
    (env : Env) (parent child : Nat) (dependency_child : Option Dependency)
    (flags_child : Flags) :
    Keeps I (unlink_variable env parent child dependency_child flags_child) := by
  unfold unlink_variable
  repeat' first
    | intro _
    | exact keeps_pure _ _
    | exact keeps_get _
    | exact keeps_getNode _ _
    | exact keeps_throw _ _
    | exact keeps_exit _ _
    | exact keeps_undef _
    | exact keeps_timeout _
    | exact keeps_modifyNode (fun w hw => hI _ _ (Step0.frame w _ _ (fun _ => ⟨rfl, rfl, rfl⟩)) hw)
    | exact keeps_modifyNode (fun w hw => hI _ _ (Step0.done_add_neg w _ _ _) hw)
    | exact keeps_modifyNode (fun w hw => hI _ _ (Step0.done_add_highest_neg w _ _ _) hw)
    | exact keeps_modifyNode (fun w hw => hI _ _ (Step0.done_add_one_neg w _ _ _) hw)
    | exact keeps_modifyNode (fun w hw => hI _ _ (Step0.error_or w _ _ hC.1) hw)
    | exact keeps_update (fun w hw => hI _ _ (Step0.statics w _ rfl rfl rfl) hw)
    | exact read_variable_keeps hC hI _ _ _
    | apply keeps_for_each
    | apply keeps_tryCatch
    | apply keeps_bind
    | apply keeps_ite
    | split
    | dsimp only

theorem unlink_mapping_keeps {I : World → Prop} {C : Nat → Prop} (hC : C 1 ∧ C 2)
    (hI : ∀ w w1, Step0 C w w1 → I w → I w1)
    (parent child : Nat) (dependency_child : Option Dependency) :
    Keeps I (unlink_mapping parent child dependency_child) := by
  unfold unlink_mapping
  repeat' first
    | intro _
    | exact keeps_pure _ _
    | exact keeps_get _
    | exact keeps_getNode _ _
    | exact keeps_throw _ _
    | exact keeps_exit _ _
    | exact keeps_undef _
    | exact keeps_timeout _
    | exact keeps_modifyNode (fun w hw => hI _ _ (Step0.frame w _ _ (fun _ => ⟨rfl, rfl, rfl⟩)) hw)
    | exact keeps_modifyNode (fun w hw => hI _ _ (Step0.done_add_neg w _ _ _) hw)
    | exact keeps_modifyNode (fun w hw => hI _ _ (Step0.done_add_highest_neg w _ _ _) hw)
    | exact keeps_modifyNode (fun w hw => hI _ _ (Step0.done_add_one_neg w _ _ _) hw)
    | exact keeps_modifyNode (fun w hw => hI _ _ (Step0.error_or w _ _ hC.1) hw)
    | exact keeps_update (fun w hw => hI _ _ (Step0.statics w _ rfl rfl rfl) hw)
    | apply keeps_for_each
    | apply keeps_tryCatch
    | apply keeps_bind
    | apply keeps_ite
    | split
    | dsimp only

theorem unlink_keeps {I : World → Prop} {C : Nat → Prop} (hC : C 1 ∧ C 2)
    (hI : ∀ w w1, Step0 C w w1 → I w → I w1)
    (env : Env) (henv : env.parse_codes C) (parent child : Nat)
    (dependency_parent : Option Dependency) (avoid_parent : Stack)
    (dependency_child : Option Dependency) (avoid_child : Stack) (flags_child : Flags) :
    Keeps I (unlink env parent child dependency_parent avoid_parent dependency_child
      avoid_child flags_child) := by
  unfold unlink
  repeat' first
    | intro _
    | exact keeps_pure _ _
    | exact keeps_get _
    | exact keeps_getNode _ _
    | exact keeps_throw _ _
    | exact keeps_exit _ _
    | exact keeps_undef _
    | exact keeps_timeout _
    | exact keeps_modifyNode (fun w hw => hI _ _ (Step0.frame w _ _ (fun _ => ⟨rfl, rfl, rfl⟩)) hw)
    | exact keeps_modifyNode (fun w hw => hI _ _ (Step0.done_add_neg w _ _ _) hw)
    | exact keeps_modifyNode (fun w hw => hI _ _ (Step0.done_add_highest_neg w _ _ _) hw)
    | exact keeps_modifyNode (fun w hw => hI _ _ (Step0.done_add_one_neg w _ _ _) hw)
    | exact keeps_modifyNode (fun w hw => hI _ _ (Step0.error_or w _ _ hC.1) hw)
    | exact keeps_update (fun w hw => hI _ _ (Step0.statics w _ rfl rfl rfl) hw)
    | exact unlink_read_keeps hC hI env henv _ _ _ _ _
    | exact unlink_timestamp_keeps hC hI _ _ _ _
    | exact unlink_variable_keeps hC hI _ _ _ _ _
    | exact unlink_mapping_keeps hC hI _ _ _
    | exact unlink_attributes_keeps hC hI _ _ _ _
    | apply keeps_for_each
    | apply keeps_tryCatch
    | apply keeps_bind
    | apply keeps_ite
    | split
    | dsimp only

theorem remove_if_existing_loop_keeps {I : World → Prop} {C : Nat → Prop} (hC : C 1 ∧ C 2)
    (hI : ∀ w w1, Step0 C w w1 → I w → I w1) (env : Env) (self : Nat) (targets : List Target) :
    ∀ i removed, Keeps I (remove_if_existing_loop env self i targets removed) := by
  induction targets with
  | nil =>
    intro i removed
    exact keeps_pure _ _
  | cons target rest ih =>
    intro i removed
    unfold remove_if_existing_loop
    repeat' first
      | intro _
      | exact keeps_pure _ _
      | exact keeps_get _
      | exact keeps_getNode _ _
      | exact keeps_throw _ _
      | exact keeps_exit _ _
      | exact keeps_undef _
      | exact keeps_timeout _
      | exact keeps_modifyNode (fun w hw => hI _ _ (Step0.frame w _ _ (fun _ => ⟨rfl, rfl, rfl⟩)) hw)
      | exact keeps_modifyNode (fun w hw => hI _ _ (Step0.done_add_neg w _ _ _) hw)
      | exact keeps_modifyNode (fun w hw => hI _ _ (Step0.done_add_highest_neg w _ _ _) hw)
      | exact keeps_modifyNode (fun w hw => hI _ _ (Step0.done_add_one_neg w _ _ _) hw)
      | exact keeps_modifyNode (fun w hw => hI _ _ (Step0.error_or w _ _ hC.1) hw)
      | exact keeps_update (fun w hw => hI _ _ (Step0.statics w _ rfl rfl rfl) hw)
      | exact ih _ _
      | apply keeps_for_each
      | apply keeps_tryCatch
      | apply keeps_bind
      | apply keeps_ite
      | split
      | dsimp only

theorem remove_if_existing_keeps {I : World → Prop} {C : Nat → Prop} (hC : C 1 ∧ C 2)
    (hI : ∀ w w1, Step0 C w w1 → I w → I w1)
    (env : Env) (self : Nat) (output : Bool) :
    Keeps I (remove_if_existing env self output) := by
  unfold remove_if_existing
  repeat' first
    | intro _
    | exact keeps_pure _ _
    | exact keeps_get _
    | exact keeps_getNode _ _
    | exact keeps_throw _ _
    | exact keeps_exit _ _
    | exact keeps_undef _
    | exact keeps_timeout _
    | exact keeps_modifyNode (fun w hw => hI _ _ (Step0.frame w _ _ (fun _ => ⟨rfl, rfl, rfl⟩)) hw)
    | exact keeps_modifyNode (fun w hw => hI _ _ (Step0.done_add_neg w _ _ _) hw)
    | exact keeps_modifyNode (fun w hw => hI _ _ (Step0.done_add_highest_neg w _ _ _) hw)
    | exact keeps_modifyNode (fun w hw => hI _ _ (Step0.done_add_one_neg w _ _ _) hw)
    | exact keeps_modifyNode (fun w hw => hI _ _ (Step0.error_or w _ _ hC.1) hw)
    | exact keeps_update (fun w hw => hI _ _ (Step0.statics w _ rfl rfl rfl) hw)
    | exact remove_if_existing_loop_keeps hC hI _ _ _ _ _
    | apply keeps_for_each
    | apply keeps_tryCatch
    | apply keeps_bind
    | apply keeps_ite
    | split
    | dsimp only

theorem keeps_bind_getNode {I : World → Prop} {β : Type} (i : Nat) (f : Execution → M β)
    (h : ∀ w, I w → I (f (w.node i) w).2) : Keeps I (getNode i >>= f) :=
  ⟨fun w hw => by rw [run_bind_getNode]; exact h w hw⟩

theorem keeps_bind_at {I : World → Prop} {α β : Type} {m : M α} {f : α → M β} (w : World)
    (hm : I (m w).2) (hf : ∀ a, Keeps I (f a)) : I ((m >>= f) w).2 := by
  rw [run_bind]
  rcases hmw : m w with ⟨o, w1⟩
  rw [hmw] at hm
  cases o with
  | ret a => exact (hf a).run w1 hm
  | thrown e => exact hm
  | exited c => exact hm
  | undef => exact hm
  | timeout => exact hm

theorem waited_target_keeps {I : World → Prop} {C : Nat → Prop} (hC : C 1 ∧ C 2)
    (hI : ∀ w w1, Step0 C w w1 → I w → I w1)
    (env : Env) (self : Nat) (target : Target) :
    Keeps I (waited_target env self target) := by
  unfold waited_target
  split
  · exact keeps_pure _ _
  · apply keeps_bind (keeps_get _)
    intro w0
    split
    · rename_i mtime _
      apply keeps_bind_getNode
      intro w hw
      split
      · rename_i h
        rw [run_bind_modifyNode]
        have hts : Timestamp.le (w.node self).timestamp (some mtime) := by
          rcases Bool.or_eq_true_iff.mp h with h | h
          · exact Timestamp.le_of_not_defined _ h
          · exact Timestamp.le_of_lt h
        refine Keeps.run (I := I) ?_ _ (hI _ _ (Step0.timestamp w self _ hts) hw)
        repeat' first
          | intro _
          | exact keeps_pure _ _
          | exact keeps_get _
          | exact keeps_getNode _ _
          | exact keeps_throw _ _
          | exact keeps_exit _ _
          | exact keeps_undef _
          | exact keeps_timeout _
          | exact keeps_modifyNode (fun w hw => hI _ _ (Step0.frame w _ _ (fun _ => ⟨rfl, rfl, rfl⟩)) hw)
          | exact keeps_modifyNode (fun w hw => hI _ _ (Step0.done_add_neg w _ _ _) hw)
          | exact keeps_modifyNode (fun w hw => hI _ _ (Step0.done_add_highest_neg w _ _ _) hw)
          | exact keeps_modifyNode (fun w hw => hI _ _ (Step0.done_add_one_neg w _ _ _) hw)
          | exact keeps_modifyNode (fun w hw => hI _ _ (Step0.error_or w _ _ hC.1) hw)
          | exact keeps_update (fun w hw => hI _ _ (Step0.statics w _ rfl rfl rfl) hw)
          | exact raise_keeps hI _ _ _ hC.1
          | exact raise_keeps hI _ _ _ hC.2
          | apply keeps_for_each
          | apply keeps_tryCatch
          | apply keeps_bind
          | apply keeps_ite
          | split
          | dsimp only
      · rw [run_bind_pure]
        refine Keeps.run (I := I) ?_ _ hw
        repeat' first
          | intro _
          | exact keeps_pure _ _
          | exact keeps_get _
          | exact keeps_getNode _ _
          | exact keeps_throw _ _
          | exact keeps_exit _ _
          | exact keeps_undef _
          | exact keeps_timeout _
          | exact keeps_modifyNode (fun w hw => hI _ _ (Step0.frame w _ _ (fun _ => ⟨rfl, rfl, rfl⟩)) hw)
          | exact keeps_modifyNode (fun w hw => hI _ _ (Step0.done_add_neg w _ _ _) hw)
          | exact keeps_modifyNode (fun w hw => hI _ _ (Step0.done_add_highest_neg w _ _ _) hw)
          | exact keeps_modifyNode (fun w hw => hI _ _ (Step0.done_add_one_neg w _ _ _) hw)
          | exact keeps_modifyNode (fun w hw => hI _ _ (Step0.error_or w _ _ hC.1) hw)
          | exact keeps_update (fun w hw => hI _ _ (Step0.statics w _ rfl rfl rfl) hw)
          | exact raise_keeps hI _ _ _ hC.1
          | exact raise_keeps hI _ _ _ hC.2
          | apply keeps_for_each
          | apply keeps_tryCatch
          | apply keeps_bind
          | apply keeps_ite
          | split
          | dsimp only
    · apply keeps_bind
      repeat' first
        | intro _
        | exact keeps_pure _ _
        | exact keeps_get _
        | exact keeps_getNode _ _
        | exact keeps_throw _ _
        | exact keeps_exit _ _
        | exact keeps_undef _
        | exact keeps_timeout _
        | exact keeps_modifyNode (fun w hw => hI _ _ (Step0.frame w _ _ (fun _ => ⟨rfl, rfl, rfl⟩)) hw)
        | exact keeps_modifyNode (fun w hw => hI _ _ (Step0.done_add_neg w _ _ _) hw)
        | exact keeps_modifyNode (fun w hw => hI _ _ (Step0.done_add_highest_neg w _ _ _) hw)
        | exact keeps_modifyNode (fun w hw => hI _ _ (Step0.done_add_one_neg w _ _ _) hw)
        | exact keeps_modifyNode (fun w hw => hI _ _ (Step0.error_or w _ _ hC.1) hw)
        | exact keeps_update (fun w hw => hI _ _ (Step0.statics w _ rfl rfl rfl) hw)
        | exact raise_keeps hI _ _ _ hC.1
        | exact raise_keeps hI _ _ _ hC.2
        | apply keeps_for_each
        | apply keeps_tryCatch
        | apply keeps_bind
        | apply keeps_ite
        | split
        | dsimp only

theorem execute_fold_timestamps_keeps {I : World → Prop} {C : Nat → Prop} (hC : C 1 ∧ C 2)
    (hI : ∀ w w1, Step0 C w w1 → I w → I w1) (self : Nat) (l : List Timestamp) :
    Keeps I (execute_fold_timestamps self l) := by
  induction l with
  | nil => exact keeps_pure _ _
  | cons t rest ih =>
    unfold execute_fold_timestamps
    apply keeps_bind_getNode
    intro w hw
    split
    · rename_i h
      rw [run_bind_modifyNode]
      have hts : Timestamp.le (w.node self).timestamp t := by
        rcases Bool.and_eq_true_iff.mp h with ⟨_, h⟩
        rcases Bool.or_eq_true_iff.mp h with h | h
        · exact Timestamp.le_of_not_defined _ h
        · exact Timestamp.le_of_lt h
      exact ih.run _ (hI _ _ (Step0.timestamp w self _ hts) hw)
    · rw [run_bind_pure]
      exact ih.run _ hw

theorem write_content_keeps {I : World → Prop} {C : Nat → Prop} (hC : C 1 ∧ C 2)
    (hI : ∀ w w1, Step0 C w w1 → I w → I w1)
    (env : Env) (self : Nat) (filename : String) :
    Keeps I (write_content env self filename) := by
  unfold write_content
  repeat' first
    | intro _
    | exact keeps_pure _ _
    | exact keeps_get _
    | exact keeps_getNode _ _
    | exact keeps_throw _ _
    | exact keeps_exit _ _
    | exact keeps_undef _
    | exact keeps_timeout _
    | exact keeps_modifyNode (fun w hw => hI _ _ (Step0.frame w _ _ (fun _ => ⟨rfl, rfl, rfl⟩)) hw)
    | exact keeps_modifyNode (fun w hw => hI _ _ (Step0.done_add_neg w _ _ _) hw)
    | exact keeps_modifyNode (fun w hw => hI _ _ (Step0.done_add_highest_neg w _ _ _) hw)
    | exact keeps_modifyNode (fun w hw => hI _ _ (Step0.done_add_one_neg w _ _ _) hw)
    | exact keeps_modifyNode (fun w hw => hI _ _ (Step0.error_or w _ _ hC.1) hw)
    | exact keeps_update (fun w hw => hI _ _ (Step0.statics w _ rfl rfl rfl) hw)
    | exact raise_keeps hI _ _ _ hC.1
    | exact raise_keeps hI _ _ _ hC.2
    | apply keeps_for_each
    | apply keeps_tryCatch
    | apply keeps_bind
    | apply keeps_ite
    | split
    | dsimp only

theorem execute_optional_keeps {I : World → Prop} {C : Nat → Prop} (hC : C 1 ∧ C 2)
    (hI : ∀ w w1, Step0 C w w1 → I w → I w1)
    (env : Env) (self : Nat) (link : Link) :
    Keeps I (execute_optional env self link) := by
  unfold execute_optional
  repeat' first
    | intro _
    | exact keeps_pure _ _
    | exact keeps_get _
    | exact keeps_getNode _ _
    | exact keeps_throw _ _
    | exact keeps_exit _ _
    | exact keeps_undef _
    | exact keeps_timeout _
    | exact keeps_modifyNode (fun w hw => hI _ _ (Step0.frame w _ _ (fun _ => ⟨rfl, rfl, rfl⟩)) hw)
    | exact keeps_modifyNode (fun w hw => hI _ _ (Step0.done_add_neg w _ _ _) hw)
    | exact keeps_modifyNode (fun w hw => hI _ _ (Step0.done_add_highest_neg w _ _ _) hw)
    | exact keeps_modifyNode (fun w hw => hI _ _ (Step0.done_add_one_neg w _ _ _) hw)
    | exact keeps_modifyNode (fun w hw => hI _ _ (Step0.error_or w _ _ hC.1) hw)
    | exact keeps_update (fun w hw => hI _ _ (Step0.statics w _ rfl rfl rfl) hw)
    | exact raise_keeps hI _ _ _ hC.1
    | exact raise_keeps hI _ _ _ hC.2
    | apply keeps_for_each
    | apply keeps_tryCatch
    | apply keeps_bind
    | apply keeps_ite
    | split
    | dsimp only

theorem done_return_keeps {I : World → Prop} {C : Nat → Prop} (hC : C 1 ∧ C 2)
    (hI : ∀ w w1, Step0 C w w1 → I w → I w1)
    (env : Env) (self : Nat) (link : Link) :
    Keeps I (done_return env self link) := by
  unfold done_return
  repeat' first
    | intro _
    | exact keeps_pure _ _
    | exact keeps_get _
    | exact keeps_getNode _ _
    | exact keeps_throw _ _
    | exact keeps_exit _ _
    | exact keeps_undef _
    | exact keeps_timeout _
    | exact keeps_modifyNode (fun w hw => hI _ _ (Step0.frame w _ _ (fun _ => ⟨rfl, rfl, rfl⟩)) hw)
    | exact keeps_modifyNode (fun w hw => hI _ _ (Step0.done_add_neg w _ _ _) hw)
    | exact keeps_modifyNode (fun w hw => hI _ _ (Step0.done_add_highest_neg w _ _ _) hw)
    | exact keeps_modifyNode (fun w hw => hI _ _ (Step0.done_add_one_neg w _ _ _) hw)
    | exact keeps_modifyNode (fun w hw => hI _ _ (Step0.error_or w _ _ hC.1) hw)
    | exact keeps_update (fun w hw => hI _ _ (Step0.statics w _ rfl rfl rfl) hw)
    | apply keeps_for_each
    | apply keeps_tryCatch
    | apply keeps_bind
    | apply keeps_ite
    | split
    | dsimp only

theorem execute_probe_target_keeps {I : World → Prop} {C : Nat → Prop} (hC : C 1 ∧ C 2)
    (hI : ∀ w w1, Step0 C w w1 → I w → I w1) (env : Env) (self : Nat) (link : Link)
    (no_execution : Bool) (i : Nat) (target : Target) :
    Keeps I (execute_probe_target env self link no_execution i target) := by
  unfold execute_probe_target
  repeat' first
    | intro _
    | exact keeps_pure _ _
    | exact keeps_get _
    | exact keeps_getNode _ _
    | exact keeps_throw _ _
    | exact keeps_exit _ _
    | exact keeps_undef _
    | exact keeps_timeout _
    | exact keeps_modifyNode (fun w hw => hI _ _ (Step0.frame w _ _ (fun _ => ⟨rfl, rfl, rfl⟩)) hw)
    | exact keeps_modifyNode (fun w hw => hI _ _ (Step0.done_add_neg w _ _ _) hw)
    | exact keeps_modifyNode (fun w hw => hI _ _ (Step0.done_add_highest_neg w _ _ _) hw)
    | exact keeps_modifyNode (fun w hw => hI _ _ (Step0.done_add_one_neg w _ _ _) hw)
    | exact keeps_modifyNode (fun w hw => hI _ _ (Step0.error_or w _ _ hC.1) hw)
    | exact keeps_update (fun w hw => hI _ _ (Step0.statics w _ rfl rfl rfl) hw)
    | exact raise_keeps hI _ _ _ hC.1
    | exact raise_keeps hI _ _ _ hC.2
    | apply keeps_for_each
    | apply keeps_tryCatch
    | apply keeps_bind
    | apply keeps_ite
    | split
    | dsimp only

theorem execute_probe_loop_keeps {I : World → Prop} {C : Nat → Prop} (hC : C 1 ∧ C 2)
    (hI : ∀ w w1, Step0 C w w1 → I w → I w1) (env : Env) (self : Nat) (link : Link)
    (no_execution : Bool) (targets : List Target) :
    ∀ i, Keeps I (execute_probe_loop env self link no_execution i targets) := by
  induction targets with
  | nil =>
    intro i
    exact keeps_pure _ _
  | cons target rest ih =>
    intro i
    unfold execute_probe_loop
    repeat' first
      | intro _
      | exact keeps_pure _ _
      | exact keeps_get _
      | exact keeps_getNode _ _
      | exact keeps_throw _ _
      | exact keeps_exit _ _
      | exact keeps_undef _
      | exact keeps_timeout _
      | exact keeps_modifyNode (fun w hw => hI _ _ (Step0.frame w _ _ (fun _ => ⟨rfl, rfl, rfl⟩)) hw)
      | exact keeps_modifyNode (fun w hw => hI _ _ (Step0.done_add_neg w _ _ _) hw)
      | exact keeps_modifyNode (fun w hw => hI _ _ (Step0.done_add_highest_neg w _ _ _) hw)
      | exact keeps_modifyNode (fun w hw => hI _ _ (Step0.done_add_one_neg w _ _ _) hw)
      | exact keeps_modifyNode (fun w hw => hI _ _ (Step0.error_or w _ _ hC.1) hw)
      | exact keeps_update (fun w hw => hI _ _ (Step0.statics w _ rfl rfl rfl) hw)
      | exact execute_probe_target_keeps hC hI _ _ _ _ _ _
      | exact ih _
      | apply keeps_for_each
      | apply keeps_tryCatch
      | apply keeps_bind
      | apply keeps_ite
      | split
      | dsimp only

theorem execute_probe_keeps {I : World → Prop} {C : Nat → Prop} (hC : C 1 ∧ C 2)
    (hI : ∀ w w1, Step0 C w w1 → I w → I w1)
    (env : Env) (self : Nat) (link : Link) (no_execution : Bool) :
    Keeps I (execute_probe env self link no_execution) := by
  unfold execute_probe
  repeat' first
    | intro _
    | exact keeps_pure _ _
    | exact keeps_get _
    | exact keeps_getNode _ _
    | exact keeps_throw _ _
    | exact keeps_exit _ _
    | exact keeps_undef _
    | exact keeps_timeout _
    | exact keeps_modifyNode (fun w hw => hI _ _ (Step0.frame w _ _ (fun _ => ⟨rfl, rfl, rfl⟩)) hw)
    | exact keeps_modifyNode (fun w hw => hI _ _ (Step0.done_add_neg w _ _ _) hw)
    | exact keeps_modifyNode (fun w hw => hI _ _ (Step0.done_add_highest_neg w _ _ _) hw)
    | exact keeps_modifyNode (fun w hw => hI _ _ (Step0.done_add_one_neg w _ _ _) hw)
    | exact keeps_modifyNode (fun w hw => hI _ _ (Step0.error_or w _ _ hC.1) hw)
    | exact keeps_update (fun w hw => hI _ _ (Step0.statics w _ rfl rfl rfl) hw)
    | exact execute_probe_loop_keeps hC hI _ _ _ _ _ _
    | exact execute_fold_timestamps_keeps hC hI _ _
    | apply keeps_for_each
    | apply keeps_tryCatch
    | apply keeps_bind
    | apply keeps_ite
    | split
    | dsimp only

theorem execute_transients_keeps {I : World → Prop} {C : Nat → Prop} (hC : C 1 ∧ C 2)
    (hI : ∀ w w1, Step0 C w w1 → I w → I w1)
    (self : Nat) (no_execution : Bool) :
    Keeps I (execute_transients self no_execution) := by
  unfold execute_transients
  repeat' first
    | intro _
    | exact keeps_pure _ _
    | exact keeps_get _
    | exact keeps_getNode _ _
    | exact keeps_throw _ _
    | exact keeps_exit _ _
    | exact keeps_undef _
    | exact keeps_timeout _
    | exact keeps_modifyNode (fun w hw => hI _ _ (Step0.frame w _ _ (fun _ => ⟨rfl, rfl, rfl⟩)) hw)
    | exact keeps_modifyNode (fun w hw => hI _ _ (Step0.done_add_neg w _ _ _) hw)
    | exact keeps_modifyNode (fun w hw => hI _ _ (Step0.done_add_highest_neg w _ _ _) hw)
    | exact keeps_modifyNode (fun w hw => hI _ _ (Step0.done_add_one_neg w _ _ _) hw)
    | exact keeps_modifyNode (fun w hw => hI _ _ (Step0.error_or w _ _ hC.1) hw)
    | exact keeps_update (fun w hw => hI _ _ (Step0.statics w _ rfl rfl rfl) hw)
    | apply keeps_for_each
    | apply keeps_tryCatch
    | apply keeps_bind
    | apply keeps_ite
    | split
    | dsimp only

theorem execute_stamp_transients_keeps {I : World → Prop} {C : Nat → Prop} (hC : C 1 ∧ C 2)
    (hI : ∀ w w1, Step0 C w w1 → I w → I w1) (env : Env) (targets : List Target) :
    Keeps I (execute_stamp_transients env targets) := by
  induction targets with
  | nil => exact keeps_pure _ _
  | cons target rest ih =>
    unfold execute_stamp_transients
    repeat' first
      | intro _
      | exact keeps_pure _ _
      | exact keeps_get _
      | exact keeps_getNode _ _
      | exact keeps_throw _ _
      | exact keeps_exit _ _
      | exact keeps_undef _
      | exact keeps_timeout _
      | exact keeps_modifyNode (fun w hw => hI _ _ (Step0.frame w _ _ (fun _ => ⟨rfl, rfl, rfl⟩)) hw)
      | exact keeps_modifyNode (fun w hw => hI _ _ (Step0.done_add_neg w _ _ _) hw)
      | exact keeps_modifyNode (fun w hw => hI _ _ (Step0.done_add_highest_neg w _ _ _) hw)
      | exact keeps_modifyNode (fun w hw => hI _ _ (Step0.done_add_one_neg w _ _ _) hw)
      | exact keeps_modifyNode (fun w hw => hI _ _ (Step0.error_or w _ _ hC.1) hw)
      | exact keeps_update (fun w hw => hI _ _ (Step0.statics w _ rfl rfl rfl) hw)
      | exact ih
      | apply keeps_for_each
      | apply keeps_tryCatch
      | apply keeps_bind
      | apply keeps_ite
      | split
      | dsimp only

theorem or_else_keeps {I : World → Prop} {phase : M (Option Bool)} {rest : M Bool}
    (h1 : Keeps I phase) (h2 : Keeps I rest) : Keeps I (or_else phase rest) := by
  unfold or_else
  apply keeps_bind h1
  intro r
  split
  · exact keeps_pure _ _
  · exact h2

theorem step_of_step0 {I : World → Prop} {C : Nat → Prop}
    (hS : ∀ w w1, Step C w w1 → I w → I w1) :
    ∀ w w1, Step0 C w w1 → I w → I w1 :=
  fun w w1 h => hS w w1 (Step.base w w1 h)

theorem waited_keeps {I : World → Prop} {C : Nat → Prop} (hC : C 1 ∧ C 2)
    (hS : ∀ w w1, Step C w w1 → I w → I w1)
    (env : Env) (self : Nat) (pid status : Int) :
    Keeps I (waited env self pid status) := by
  have hI := step_of_step0 hS
  unfold waited
  repeat' first
    | intro _
    | exact keeps_pure _ _
    | exact keeps_get _
    | exact keeps_getNode _ _
    | exact keeps_throw _ _
    | exact keeps_exit _ _
    | exact keeps_undef _
    | exact keeps_timeout _
    | exact keeps_modifyNode (fun w hw => hI _ _ (Step0.frame w _ _ (fun _ => ⟨rfl, rfl, rfl⟩)) hw)
    | exact keeps_modifyNode (fun w hw => hI _ _ (Step0.done_add_neg w _ _ _) hw)
    | exact keeps_modifyNode (fun w hw => hI _ _ (Step0.done_add_highest_neg w _ _ _) hw)
    | exact keeps_modifyNode (fun w hw => hI _ _ (Step0.done_add_one_neg w _ _ _) hw)
    | exact keeps_modifyNode (fun w hw => hI _ _ (Step0.error_or w _ _ hC.1) hw)
    | exact keeps_update (fun w hw => hI _ _ (Step0.statics w _ rfl rfl rfl) hw)
    | exact keeps_update (fun w hw => hS _ _ (Step.statics w _ rfl) hw)
    | exact raise_keeps hI _ _ _ hC.1
    | exact raise_keeps hI _ _ _ hC.2
    | exact remove_if_existing_keeps hC hI _ _ _
    | exact waited_target_keeps hC hI _ _ _
    | apply keeps_for_each
    | apply keeps_tryCatch
    | apply keeps_bind
    | apply keeps_ite
    | split
    | dsimp only

theorem wait_keeps {I : World → Prop} {C : Nat → Prop} (hC : C 1 ∧ C 2)
    (hS : ∀ w w1, Step C w w1 → I w → I w1) (env : Env) :
    Keeps I (wait env) := by
  have hI := step_of_step0 hS
  unfold wait
  repeat' first
    | intro _
    | exact keeps_pure _ _
    | exact keeps_get _
    | exact keeps_getNode _ _
    | exact keeps_throw _ _
    | exact keeps_exit _ _
    | exact keeps_undef _
    | exact keeps_timeout _
    | exact keeps_modifyNode (fun w hw => hI _ _ (Step0.frame w _ _ (fun _ => ⟨rfl, rfl, rfl⟩)) hw)
    | exact keeps_modifyNode (fun w hw => hI _ _ (Step0.done_add_neg w _ _ _) hw)
    | exact keeps_modifyNode (fun w hw => hI _ _ (Step0.done_add_highest_neg w _ _ _) hw)
    | exact keeps_modifyNode (fun w hw => hI _ _ (Step0.done_add_one_neg w _ _ _) hw)
    | exact keeps_modifyNode (fun w hw => hI _ _ (Step0.error_or w _ _ hC.1) hw)
    | exact keeps_update (fun w hw => hI _ _ (Step0.statics w _ rfl rfl rfl) hw)
    | exact keeps_update (fun w hw => hS _ _ (Step.statics w _ rfl) hw)
    | exact waited_keeps hC hS _ _ _ _
    | apply keeps_for_each
    | apply keeps_tryCatch
    | apply keeps_bind
    | apply keeps_ite
    | split
    | dsimp only

theorem execute_run_keeps {I : World → Prop} {C : Nat → Prop} (hC : C 1 ∧ C 2)
    (hS : ∀ w w1, Step C w w1 → I w → I w1)
    (env : Env) (self : Nat) (link : Link) :
    Keeps I (execute_run env self link) := by
  have hI := step_of_step0 hS
  unfold execute_run
  repeat' first
    | intro _
    | exact keeps_pure _ _
    | exact keeps_get _
    | exact keeps_getNode _ _
    | exact keeps_throw _ _
    | exact keeps_exit _ _
    | exact keeps_undef _
    | exact keeps_timeout _
    | exact keeps_modifyNode (fun w hw => hI _ _ (Step0.frame w _ _ (fun _ => ⟨rfl, rfl, rfl⟩)) hw)
    | exact keeps_modifyNode (fun w hw => hI _ _ (Step0.done_add_neg w _ _ _) hw)
    | exact keeps_modifyNode (fun w hw => hI _ _ (Step0.done_add_highest_neg w _ _ _) hw)
    | exact keeps_modifyNode (fun w hw => hI _ _ (Step0.done_add_one_neg w _ _ _) hw)
    | exact keeps_modifyNode (fun w hw => hI _ _ (Step0.error_or w _ _ hC.1) hw)
    | exact keeps_update (fun w hw => hI _ _ (Step0.statics w _ rfl rfl rfl) hw)
    | exact keeps_update (fun w hw => hS _ _ (Step.statics w _ rfl) hw)
    | exact raise_keeps hI _ _ _ hC.1
    | exact raise_keeps hI _ _ _ hC.2
    | exact write_content_keeps hC hI _ _ _
    | exact execute_stamp_transients_keeps hC hI _ _
    | apply keeps_for_each
    | apply keeps_tryCatch
    | apply keeps_bind
    | apply keeps_ite
    | split
    | dsimp only

theorem after_child_keeps {I : World → Prop} {C : Nat → Prop} (hC : C 1 ∧ C 2)
    (hI : ∀ w w1, Step0 C w w1 → I w → I w1)
    (env : Env) (henv : env.parse_codes C) (self child : Nat) (link : Link)
    (dependency_child : Option Dependency) (avoid_child : Stack) (flags_child : Flags) :
    Keeps I (after_child env self child link dependency_child avoid_child flags_child) := by
  unfold after_child
  repeat' first
    | intro _
    | exact keeps_pure _ _
    | exact keeps_get _
    | exact keeps_getNode _ _
    | exact keeps_throw _ _
    | exact keeps_exit _ _
    | exact keeps_undef _
    | exact keeps_timeout _
    | exact keeps_modifyNode (fun w hw => hI _ _ (Step0.frame w _ _ (fun _ => ⟨rfl, rfl, rfl⟩)) hw)
    | exact keeps_modifyNode (fun w hw => hI _ _ (Step0.done_add_neg w _ _ _) hw)
    | exact keeps_modifyNode (fun w hw => hI _ _ (Step0.done_add_highest_neg w _ _ _) hw)
    | exact keeps_modifyNode (fun w hw => hI _ _ (Step0.done_add_one_neg w _ _ _) hw)
    | exact keeps_modifyNode (fun w hw => hI _ _ (Step0.error_or w _ _ hC.1) hw)
    | exact keeps_update (fun w hw => hI _ _ (Step0.statics w _ rfl rfl rfl) hw)
    | exact unlink_keeps hC hI env henv _ _ _ _ _ _ _
    | apply keeps_for_each
    | apply keeps_tryCatch
    | apply keeps_bind
    | apply keeps_ite
    | split
    | dsimp only

theorem deploy_keeps {I : World → Prop} {C : Nat → Prop} (hC : C 1 ∧ C 2)
    (hI : ∀ w w1, Step0 C w w1 → I w → I w1)
    (env : Env) (henv : env.parse_codes C) (execute : ExecuteFn)
    (hexec : ∀ child parent link, Keeps I (execute child parent link))
    (fuel self : Nat) (link link_child : Link) :
    Keeps I (deploy env execute fuel self link link_child) := by
  unfold deploy
  repeat' first
    | intro _
    | exact keeps_pure _ _
    | exact keeps_get _
    | exact keeps_getNode _ _
    | exact keeps_throw _ _
    | exact keeps_exit _ _
    | exact keeps_undef _
    | exact keeps_timeout _
    | exact keeps_modifyNode (fun w hw => hI _ _ (Step0.frame w _ _ (fun _ => ⟨rfl, rfl, rfl⟩)) hw)
    | exact keeps_modifyNode (fun w hw => hI _ _ (Step0.done_add_neg w _ _ _) hw)
    | exact keeps_modifyNode (fun w hw => hI _ _ (Step0.done_add_highest_neg w _ _ _) hw)
    | exact keeps_modifyNode (fun w hw => hI _ _ (Step0.done_add_one_neg w _ _ _) hw)
    | exact keeps_modifyNode (fun w hw => hI _ _ (Step0.error_or w _ _ hC.1) hw)
    | exact keeps_update (fun w hw => hI _ _ (Step0.statics w _ rfl rfl rfl) hw)
    | exact hexec _ _ _
    | exact raise_keeps hI _ _ _ hC.1
    | exact raise_keeps hI _ _ _ hC.2
    | exact get_execution_keeps hC hI _ _ _ _ _
    | exact after_child_keeps hC hI env henv _ _ _ _ _ _
    | apply keeps_for_each
    | apply keeps_tryCatch
    | apply keeps_bind
    | apply keeps_ite
    | split
    | dsimp only

theorem execute_children_loop_keeps {I : World → Prop} {C : Nat → Prop} (hC : C 1 ∧ C 2)
    (hI : ∀ w w1, Step0 C w w1 → I w → I w1) (env : Env) (henv : env.parse_codes C)
    (execute : ExecuteFn) (hexec : ∀ child parent link, Keeps I (execute child parent link))
    (self : Nat) (link : Link) (n : Nat) :
    ∀ v, Keeps I (execute_children_loop env execute self link n v) := by
  induction n with
  | zero =>
    intro v
    exact keeps_pure _ _
  | succ n ih =>
    intro v
    unfold execute_children_loop
    repeat' first
      | intro _
      | exact keeps_pure _ _
      | exact keeps_get _
      | exact keeps_getNode _ _
      | exact keeps_throw _ _
      | exact keeps_exit _ _
      | exact keeps_undef _
      | exact keeps_timeout _
      | exact keeps_modifyNode (fun w hw => hI _ _ (Step0.frame w _ _ (fun _ => ⟨rfl, rfl, rfl⟩)) hw)
      | exact keeps_modifyNode (fun w hw => hI _ _ (Step0.done_add_neg w _ _ _) hw)
      | exact keeps_modifyNode (fun w hw => hI _ _ (Step0.done_add_highest_neg w _ _ _) hw)
      | exact keeps_modifyNode (fun w hw => hI _ _ (Step0.done_add_one_neg w _ _ _) hw)
      | exact keeps_modifyNode (fun w hw => hI _ _ (Step0.error_or w _ _ hC.1) hw)
      | exact keeps_update (fun w hw => hI _ _ (Step0.statics w _ rfl rfl rfl) hw)
      | exact hexec _ _ _
      | exact ih _
      | exact after_child_keeps hC hI env henv _ _ _ _ _ _
      | apply keeps_for_each
      | apply keeps_tryCatch
      | apply keeps_bind
      | apply keeps_ite
      | split
      | dsimp only

theorem execute_children_keeps {I : World → Prop} {C : Nat → Prop} (hC : C 1 ∧ C 2)
    (hI : ∀ w w1, Step0 C w w1 → I w → I w1)
    (env : Env) (henv : env.parse_codes C) (execute : ExecuteFn)
    (hexec : ∀ child parent link, Keeps I (execute child parent link))
    (self : Nat) (link : Link) :
    Keeps I (execute_children env execute self link) := by
  unfold execute_children
  repeat' first
    | intro _
    | exact keeps_pure _ _
    | exact keeps_get _
    | exact keeps_getNode _ _
    | exact keeps_throw _ _
    | exact keeps_exit _ _
    | exact keeps_undef _
    | exact keeps_timeout _
    | exact keeps_modifyNode (fun w hw => hI _ _ (Step0.frame w _ _ (fun _ => ⟨rfl, rfl, rfl⟩)) hw)
    | exact keeps_modifyNode (fun w hw => hI _ _ (Step0.done_add_neg w _ _ _) hw)
    | exact keeps_modifyNode (fun w hw => hI _ _ (Step0.done_add_highest_neg w _ _ _) hw)
    | exact keeps_modifyNode (fun w hw => hI _ _ (Step0.done_add_one_neg w _ _ _) hw)
    | exact keeps_modifyNode (fun w hw => hI _ _ (Step0.error_or w _ _ hC.1) hw)
    | exact keeps_update (fun w hw => hI _ _ (Step0.statics w _ rfl rfl rfl) hw)
    | exact execute_children_loop_keeps hC hI env henv execute hexec _ _ _ _
    | apply keeps_for_each
    | apply keeps_tryCatch
    | apply keeps_bind
    | apply keeps_ite
    | split
    | dsimp only

theorem execute_continue_keeps {I : World → Prop} {C : Nat → Prop} (hC : C 1 ∧ C 2)
    (hI : ∀ w w1, Step0 C w w1 → I w → I w1)
    (env : Env) (henv : env.parse_codes C) (execute : ExecuteFn)
    (hexec : ∀ child parent link, Keeps I (execute child parent link))
    (self : Nat) (link : Link) :
    Keeps I (execute_continue env execute self link) := by
  unfold execute_continue
  repeat' first
    | intro _
    | exact keeps_pure _ _
    | exact keeps_get _
    | exact keeps_getNode _ _
    | exact keeps_throw _ _
    | exact keeps_exit _ _
    | exact keeps_undef _
    | exact keeps_timeout _
    | exact keeps_modifyNode (fun w hw => hI _ _ (Step0.frame w _ _ (fun _ => ⟨rfl, rfl, rfl⟩)) hw)
    | exact keeps_modifyNode (fun w hw => hI _ _ (Step0.done_add_neg w _ _ _) hw)
    | exact keeps_modifyNode (fun w hw => hI _ _ (Step0.done_add_highest_neg w _ _ _) hw)
    | exact keeps_modifyNode (fun w hw => hI _ _ (Step0.done_add_one_neg w _ _ _) hw)
    | exact keeps_modifyNode (fun w hw => hI _ _ (Step0.error_or w _ _ hC.1) hw)
    | exact keeps_update (fun w hw => hI _ _ (Step0.statics w _ rfl rfl rfl) hw)
    | exact execute_children_keeps hC hI env henv execute hexec _ _
    | apply keeps_for_each
    | apply keeps_tryCatch
    | apply keeps_bind
    | apply keeps_ite
    | split
    | dsimp only

theorem execute_pass1_keeps {I : World → Prop} {C : Nat → Prop} (hC : C 1 ∧ C 2)
    (hI : ∀ w w1, Step0 C w w1 → I w → I w1)
    (env : Env) (deploy_child : Link → M Bool) (hdeploy : ∀ l, Keeps I (deploy_child l))
    (self : Nat) (n : Nat) :
    Keeps I (execute_pass1 env deploy_child self n) := by
  induction n with
  | zero =>
    unfold execute_pass1
    repeat' first
      | intro _
      | exact keeps_pure _ _
      | exact keeps_get _
      | exact keeps_getNode _ _
      | exact keeps_throw _ _
      | exact keeps_exit _ _
      | exact keeps_undef _
      | exact keeps_timeout _
      | exact keeps_modifyNode (fun w hw => hI _ _ (Step0.frame w _ _ (fun _ => ⟨rfl, rfl, rfl⟩)) hw)
      | exact keeps_modifyNode (fun w hw => hI _ _ (Step0.done_add_neg w _ _ _) hw)
      | exact keeps_modifyNode (fun w hw => hI _ _ (Step0.done_add_highest_neg w _ _ _) hw)
      | exact keeps_modifyNode (fun w hw => hI _ _ (Step0.done_add_one_neg w _ _ _) hw)
      | exact keeps_modifyNode (fun w hw => hI _ _ (Step0.error_or w _ _ hC.1) hw)
      | exact keeps_update (fun w hw => hI _ _ (Step0.statics w _ rfl rfl rfl) hw)
      | apply keeps_for_each
      | apply keeps_tryCatch
      | apply keeps_bind
      | apply keeps_ite
      | split
      | dsimp only
  | succ n ih =>
    unfold execute_pass1
    repeat' first
      | intro _
      | exact keeps_pure _ _
      | exact keeps_get _
      | exact keeps_getNode _ _
      | exact keeps_throw _ _
      | exact keeps_exit _ _
      | exact keeps_undef _
      | exact keeps_timeout _
      | exact keeps_modifyNode (fun w hw => hI _ _ (Step0.frame w _ _ (fun _ => ⟨rfl, rfl, rfl⟩)) hw)
      | exact keeps_modifyNode (fun w hw => hI _ _ (Step0.done_add_neg w _ _ _) hw)
      | exact keeps_modifyNode (fun w hw => hI _ _ (Step0.done_add_highest_neg w _ _ _) hw)
      | exact keeps_modifyNode (fun w hw => hI _ _ (Step0.done_add_one_neg w _ _ _) hw)
      | exact keeps_modifyNode (fun w hw => hI _ _ (Step0.error_or w _ _ hC.1) hw)
      | exact keeps_update (fun w hw => hI _ _ (Step0.statics w _ rfl rfl rfl) hw)
      | exact hdeploy _
      | exact ih
      | apply keeps_for_each
      | apply keeps_tryCatch
      | apply keeps_bind
      | apply keeps_ite
      | split
      | dsimp only

theorem execute_pass2_keeps {I : World → Prop} {C : Nat → Prop} (hC : C 1 ∧ C 2)
    (hI : ∀ w w1, Step0 C w w1 → I w → I w1)
    (deploy_child : Link → M Bool) (hdeploy : ∀ l, Keeps I (deploy_child l))
    (self : Nat) (n : Nat) :
    Keeps I (execute_pass2 deploy_child self n) := by
  induction n with
  | zero =>
    unfold execute_pass2
    repeat' first
      | intro _
      | exact keeps_pure _ _
      | exact keeps_get _
      | exact keeps_getNode _ _
      | exact keeps_throw _ _
      | exact keeps_exit _ _
      | exact keeps_undef _
      | exact keeps_timeout _
      | exact keeps_modifyNode (fun w hw => hI _ _ (Step0.frame w _ _ (fun _ => ⟨rfl, rfl, rfl⟩)) hw)
      | exact keeps_modifyNode (fun w hw => hI _ _ (Step0.done_add_neg w _ _ _) hw)
      | exact keeps_modifyNode (fun w hw => hI _ _ (Step0.done_add_highest_neg w _ _ _) hw)
      | exact keeps_modifyNode (fun w hw => hI _ _ (Step0.done_add_one_neg w _ _ _) hw)
      | exact keeps_modifyNode (fun w hw => hI _ _ (Step0.error_or w _ _ hC.1) hw)
      | exact keeps_update (fun w hw => hI _ _ (Step0.statics w _ rfl rfl rfl) hw)
      | apply keeps_for_each
      | apply keeps_tryCatch
      | apply keeps_bind
      | apply keeps_ite
      | split
      | dsimp only
  | succ n ih =>
    unfold execute_pass2
    repeat' first
      | intro _
      | exact keeps_pure _ _
      | exact keeps_get _
      | exact keeps_getNode _ _
      | exact keeps_throw _ _
      | exact keeps_exit _ _
      | exact keeps_undef _
      | exact keeps_timeout _
      | exact keeps_modifyNode (fun w hw => hI _ _ (Step0.frame w _ _ (fun _ => ⟨rfl, rfl, rfl⟩)) hw)
      | exact keeps_modifyNode (fun w hw => hI _ _ (Step0.done_add_neg w _ _ _) hw)
      | exact keeps_modifyNode (fun w hw => hI _ _ (Step0.done_add_highest_neg w _ _ _) hw)
      | exact keeps_modifyNode (fun w hw => hI _ _ (Step0.done_add_one_neg w _ _ _) hw)
      | exact keeps_modifyNode (fun w hw => hI _ _ (Step0.error_or w _ _ hC.1) hw)
      | exact keeps_update (fun w hw => hI _ _ (Step0.statics w _ rfl rfl rfl) hw)
      | exact hdeploy _
      | exact ih
      | apply keeps_for_each
      | apply keeps_tryCatch
      | apply keeps_bind
      | apply keeps_ite
      | split
      | dsimp only

theorem execute_build_keeps {I : World → Prop} {C : Nat → Prop} (hC : C 1 ∧ C 2)
    (hS : ∀ w w1, Step C w w1 → I w → I w1)
    (env : Env) (deploy_child : Link → M Bool) (hdeploy : ∀ l, Keeps I (deploy_child l))
    (fuel self : Nat) (link : Link) :
    Keeps I (execute_build env deploy_child fuel self link) := by
  have hI := step_of_step0 hS
  unfold execute_build execute_rebuild
  repeat' first
    | intro _
    | exact keeps_pure _ _
    | exact keeps_get _
    | exact keeps_getNode _ _
    | exact keeps_throw _ _
    | exact keeps_exit _ _
    | exact keeps_undef _
    | exact keeps_timeout _
    | exact keeps_modifyNode (fun w hw => hI _ _ (Step0.frame w _ _ (fun _ => ⟨rfl, rfl, rfl⟩)) hw)
    | exact keeps_modifyNode (fun w hw => hI _ _ (Step0.done_add_neg w _ _ _) hw)
    | exact keeps_modifyNode (fun w hw => hI _ _ (Step0.done_add_highest_neg w _ _ _) hw)
    | exact keeps_modifyNode (fun w hw => hI _ _ (Step0.done_add_one_neg w _ _ _) hw)
    | exact keeps_modifyNode (fun w hw => hI _ _ (Step0.error_or w _ _ hC.1) hw)
    | exact keeps_update (fun w hw => hI _ _ (Step0.statics w _ rfl rfl rfl) hw)
    | exact done_return_keeps hC hI _ _ _
    | exact execute_probe_keeps hC hI _ _ _ _
    | exact execute_transients_keeps hC hI _ _
    | exact execute_pass2_keeps hC hI _ hdeploy _ _
    | exact execute_run_keeps hC hS _ _ _
    | apply or_else_keeps
    | apply keeps_for_each
    | apply keeps_tryCatch
    | apply keeps_bind
    | apply keeps_ite
    | split
    | dsimp only

theorem execute_body_keeps {I : World → Prop} {C : Nat → Prop} (hC : C 1 ∧ C 2)
    (hS : ∀ w w1, Step C w w1 → I w → I w1)
    (env : Env) (henv : env.parse_codes C) (execute : ExecuteFn)
    (hexec : ∀ child parent link, Keeps I (execute child parent link))
    (fuel self : Nat) (parent : Option Nat) (link0 : Link) :
    Keeps I (execute_body env execute fuel self parent link0) := by
  have hI := step_of_step0 hS
  unfold execute_body
  repeat' first
    | intro _
    | exact keeps_pure _ _
    | exact keeps_get _
    | exact keeps_getNode _ _
    | exact keeps_throw _ _
    | exact keeps_exit _ _
    | exact keeps_undef _
    | exact keeps_timeout _
    | exact keeps_modifyNode (fun w hw => hI _ _ (Step0.frame w _ _ (fun _ => ⟨rfl, rfl, rfl⟩)) hw)
    | exact keeps_modifyNode (fun w hw => hI _ _ (Step0.done_add_neg w _ _ _) hw)
    | exact keeps_modifyNode (fun w hw => hI _ _ (Step0.done_add_highest_neg w _ _ _) hw)
    | exact keeps_modifyNode (fun w hw => hI _ _ (Step0.done_add_one_neg w _ _ _) hw)
    | exact keeps_modifyNode (fun w hw => hI _ _ (Step0.error_or w _ _ hC.1) hw)
    | exact keeps_update (fun w hw => hI _ _ (Step0.statics w _ rfl rfl rfl) hw)
    | exact done_return_keeps hC hI _ _ _
    | exact execute_optional_keeps hC hI _ _ _
    | exact execute_continue_keeps hC hI env henv execute hexec _ _
    | exact execute_pass1_keeps hC hI _ _ (fun l => deploy_keeps hC hI env henv execute hexec _ _ _ l) _ _
    | exact execute_build_keeps hC hS _ _ (fun l => deploy_keeps hC hI env henv execute hexec _ _ _ l) _ _ _
    | apply or_else_keeps
    | apply keeps_for_each
    | apply keeps_tryCatch
    | apply keeps_bind
    | apply keeps_ite
    | split
    | dsimp only

theorem execute_keeps {I : World → Prop} {C : Nat → Prop} (hC : C 1 ∧ C 2)
    (hS : ∀ w w1, Step C w w1 → I w → I w1)
    (env : Env) (henv : env.parse_codes C) (fuel : Nat) :
    ∀ self parent link, Keeps I (execute env fuel self parent link) := by
  induction fuel with
  | zero =>
    intro self parent link
    exact keeps_timeout _
  | succ fuel ih =>
    intro self parent link
    exact execute_body_keeps hC hS env henv _ ih _ _ _ _

theorem job_terminate_all_keeps {I : World → Prop} {C : Nat → Prop} (hC : C 1 ∧ C 2)
    (hI : ∀ w w1, Step0 C w w1 → I w → I w1)
    (env : Env) : Keeps I (job_terminate_all env) := by
  unfold job_terminate_all
  repeat' first
    | intro _
    | exact keeps_pure _ _
    | exact keeps_get _
    | exact keeps_getNode _ _
    | exact keeps_throw _ _
    | exact keeps_exit _ _
    | exact keeps_undef _
    | exact keeps_timeout _
    | exact keeps_modifyNode (fun w hw => hI _ _ (Step0.frame w _ _ (fun _ => ⟨rfl, rfl, rfl⟩)) hw)
    | exact keeps_modifyNode (fun w hw => hI _ _ (Step0.done_add_neg w _ _ _) hw)
    | exact keeps_modifyNode (fun w hw => hI _ _ (Step0.done_add_highest_neg w _ _ _) hw)
    | exact keeps_modifyNode (fun w hw => hI _ _ (Step0.done_add_one_neg w _ _ _) hw)
    | exact keeps_modifyNode (fun w hw => hI _ _ (Step0.error_or w _ _ hC.1) hw)
    | exact keeps_update (fun w hw => hI _ _ (Step0.statics w _ rfl rfl rfl) hw)
    | exact remove_if_existing_keeps hC hI _ _ _
    | apply keeps_for_each
    | apply keeps_tryCatch
    | apply keeps_bind
    | apply keeps_ite
    | split
    | dsimp only

theorem main_execute_keeps {I : World → Prop} {C : Nat → Prop} (hC : C 1 ∧ C 2)
    (hS : ∀ w w1, Step C w w1 → I w → I w1)
    (env : Env) (henv : env.parse_codes C) (fuel root : Nat) (link : Link) (n : Nat) :
    Keeps I (main_execute env fuel root link n) := by
  induction n with
  | zero => exact keeps_timeout _
  | succ n ih =>
    unfold main_execute
    repeat' first
      | intro _
      | exact keeps_pure _ _
      | exact keeps_get _
      | exact keeps_getNode _ _
      | exact keeps_throw _ _
      | exact keeps_exit _ _
      | exact keeps_undef _
      | exact keeps_timeout _
      | exact keeps_modifyNode (fun w hw => hI _ _ (Step0.frame w _ _ (fun _ => ⟨rfl, rfl, rfl⟩)) hw)
      | exact keeps_modifyNode (fun w hw => hI _ _ (Step0.done_add_neg w _ _ _) hw)
      | exact keeps_modifyNode (fun w hw => hI _ _ (Step0.done_add_highest_neg w _ _ _) hw)
      | exact keeps_modifyNode (fun w hw => hI _ _ (Step0.done_add_one_neg w _ _ _) hw)
      | exact keeps_modifyNode (fun w hw => hI _ _ (Step0.error_or w _ _ hC.1) hw)
      | exact keeps_update (fun w hw => hI _ _ (Step0.statics w _ rfl rfl rfl) hw)
      | exact execute_keeps hC hS env henv _ _ _ _
      | exact ih
      | apply keeps_for_each
      | apply keeps_tryCatch
      | apply keeps_bind
      | apply keeps_ite
      | split
      | dsimp only

theorem main_loop_keeps {I : World → Prop} {C : Nat → Prop} (hC : C 1 ∧ C 2)
    (hS : ∀ w w1, Step C w w1 → I w → I w1)
    (env : Env) (henv : env.parse_codes C) (fuel root : Nat) (n : Nat) :
    Keeps I (main_loop env fuel root n) := by
  induction n with
  | zero => exact keeps_timeout _
  | succ n ih =>
    unfold main_loop
    repeat' first
      | intro _
      | exact keeps_pure _ _
      | exact keeps_get _
      | exact keeps_getNode _ _
      | exact keeps_throw _ _
      | exact keeps_exit _ _
      | exact keeps_undef _
      | exact keeps_timeout _
      | exact keeps_modifyNode (fun w hw => hI _ _ (Step0.frame w _ _ (fun _ => ⟨rfl, rfl, rfl⟩)) hw)
      | exact keeps_modifyNode (fun w hw => hI _ _ (Step0.done_add_neg w _ _ _) hw)
      | exact keeps_modifyNode (fun w hw => hI _ _ (Step0.done_add_highest_neg w _ _ _) hw)
      | exact keeps_modifyNode (fun w hw => hI _ _ (Step0.done_add_one_neg w _ _ _) hw)
      | exact keeps_modifyNode (fun w hw => hI _ _ (Step0.error_or w _ _ hC.1) hw)
      | exact keeps_update (fun w hw => hI _ _ (Step0.statics w _ rfl rfl rfl) hw)
      | exact main_execute_keeps hC hS env henv _ _ _ _
      | exact wait_keeps hC hS _
      | exact ih
      | apply keeps_for_each
      | apply keeps_tryCatch
      | apply keeps_bind
      | apply keeps_ite
      | split
      | dsimp only

theorem Stack.get_empty (j : Nat) : Stack.empty.get j = 0 := by
  cases j <;> rfl

theorem main_keeps {I : World → Prop} {C : Nat → Prop} (hC : C 1 ∧ C 2)
    (hS : ∀ w w1, Step C w w1 → I w → I w1)
    (env : Env) (henv : env.parse_codes C) (fuel : Nat) (dependencies : List Dependency) :
    Keeps I (main env fuel dependencies) := by
  have hI := step_of_step0 hS
  unfold main
  repeat' first
    | intro _
    | exact keeps_pure _ _
    | exact keeps_get _
    | exact keeps_getNode _ _
    | exact keeps_throw _ _
    | exact keeps_exit _ _
    | exact keeps_undef _
    | exact keeps_timeout _
    | exact keeps_modifyNode (fun w hw => hI _ _ (Step0.frame w _ _ (fun _ => ⟨rfl, rfl, rfl⟩)) hw)
    | exact keeps_modifyNode (fun w hw => hI _ _ (Step0.done_add_neg w _ _ _) hw)
    | exact keeps_modifyNode (fun w hw => hI _ _ (Step0.done_add_highest_neg w _ _ _) hw)
    | exact keeps_modifyNode (fun w hw => hI _ _ (Step0.done_add_one_neg w _ _ _) hw)
    | exact keeps_modifyNode (fun w hw => hI _ _ (Step0.error_or w _ _ hC.1) hw)
    | exact keeps_update (fun w hw => hI _ _ (Step0.statics w _ rfl rfl rfl) hw)
    | exact main_loop_keeps hC hS env henv _ _ _
    | exact job_terminate_all_keeps hC hI _
    | exact keeps_update (fun w hw => hI _ _ (Step0.alloc w _ _ rfl rfl rfl Stack.get_empty rfl rfl) hw)
    | apply keeps_for_each
    | apply keeps_tryCatch
    | apply keeps_bind
    | apply keeps_ite
    | split
    | dsimp only

/-! ### What the atomic steps preserve -/

theorem node_of_nodes_eq {w w1 : World} (h : w1.nodes = w.nodes) (j : Nat) :
    w1.node j = w.node j := by
  unfold World.node
  rw [h]

theorem node_alloc {w w1 : World} {e0 : Execution} (h : w1.nodes = w.nodes ++ [e0]) (j : Nat) :
    (w1.node j = w.node j) ∨ (w.node j = Execution.blank ∧ w1.node j = e0) := by
  unfold World.node
  rw [h]
  rcases Nat.lt_trichotomy j w.nodes.length with hlt | heq | hgt
  · left
    exact List.getD_append _ _ _ _ hlt
  · right
    subst heq
    constructor
    · simp [List.getD_eq_getElem?_getD]
    · simp [List.getD_eq_getElem?_getD]
  · left
    simp only [List.getD_eq_getElem?_getD]
    rw [List.getElem?_eq_none (by simp; omega), List.getElem?_eq_none (by omega)]

/-- Every node's error is one of 0, 1, 2, 3. -/
theorem or_le_three {a b : Nat} (ha : a ≤ 3) (hb : b ≤ 3) : a ||| b ≤ 3 := by
  have h : a ||| b < 2 ^ 2 := Nat.or_lt_two_pow (by omega) (by omega)
  omega

theorem step0_error {w w1 : World} (h : Step0 (fun x => x ≤ 3) w w1) (hw : ∀ i, (w.node i).error ≤ 3) :
    ∀ i, (w1.node i).error ≤ 3 := by
  intro j
  cases h with
  | frame i f hf =>
    rw [node_modify]
    split
    · rw [(hf _).1]; exact hw j
    · exact hw j
  | statics _ hn _ _ => rw [node_of_nodes_eq hn]; exact hw j
  | alloc _ e0 hn he _ _ _ _ =>
    rcases node_alloc hn j with h | ⟨_, h⟩
    · rw [h]; exact hw j
    · rw [h, he]; omega
  | error_or i x hx =>
    rw [node_modify]
    split
    · exact or_le_three (hw j) hx
    · exact hw j
  | error_from i k =>
    rw [node_modify]
    split
    · exact or_le_three (hw j) (hw k)
    · exact hw j
  | done_add_neg i F avoid =>
    rw [node_modify]
    split <;> exact hw j
  | done_add_highest_neg i F flags =>
    rw [node_modify]
    split <;> exact hw j
  | done_add_one_neg i F flags =>
    rw [node_modify]
    split <;> exact hw j
  | timestamp i t _ =>
    rw [node_modify]
    split <;> exact hw j

theorem step_error {w w1 : World} (h : Step (fun x => x ≤ 3) w w1) (hw : ∀ i, (w.node i).error ≤ 3) :
    ∀ i, (w1.node i).error ≤ 3 := by
  cases h with
  | base h0 => exact step0_error h0 hw
  | statics hn => intro j; rw [node_of_nodes_eq hn]; exact hw j

theorem step0_timestamp {C : Nat → Prop} {w w1 : World} (h : Step0 C w w1) (i : Nat) :
    Timestamp.le (w.node i).timestamp (w1.node i).timestamp := by
  cases h with
  | frame k f hf =>
    rw [node_modify]
    split
    · rw [(hf _).2.2]; exact Timestamp.le_refl _
    · exact Timestamp.le_refl _
  | statics _ hn _ _ => rw [node_of_nodes_eq hn]; exact Timestamp.le_refl _
  | alloc _ e0 hn _ ht _ _ _ =>
    rcases node_alloc hn i with h | ⟨h, _⟩
    · rw [h]; exact Timestamp.le_refl _
    · rw [h]; simp [Execution.blank, Timestamp.le]
  | error_or k x hx =>
    rw [node_modify]
    split <;> exact Timestamp.le_refl _
  | error_from k j =>
    rw [node_modify]
    split <;> exact Timestamp.le_refl _
  | done_add_neg k F avoid =>
    rw [node_modify]
    split <;> exact Timestamp.le_refl _
  | done_add_highest_neg k F flags =>
    rw [node_modify]
    split <;> exact Timestamp.le_refl _
  | done_add_one_neg k F flags =>
    rw [node_modify]
    split <;> exact Timestamp.le_refl _
  | timestamp k t ht =>
    rw [node_modify]
    split
    · rename_i hk
      rw [← hk.1]
      exact ht
    · exact Timestamp.le_refl _

theorem step_timestamp {C : Nat → Prop} {w w1 : World} (h : Step C w w1) (i : Nat) :
    Timestamp.le (w.node i).timestamp (w1.node i).timestamp := by
  cases h with
  | base h0 => exact step0_timestamp h0 i
  | statics hn => rw [node_of_nodes_eq hn]; exact Timestamp.le_refl _

theorem Stack.get_modifyLevel (s : Stack) (j k : Nat) (f : Flags → Flags) :
    (s.modifyLevel j f).get k =
      if j = k ∧ k < s.levels.length then f (s.get k) else s.get k := by
  unfold Stack.get Stack.modifyLevel
  simp only [List.getD_eq_getElem?_getD, List.getElem?_modify]
  by_cases hk : k < s.levels.length
  · rw [List.getElem?_eq_getElem hk]
    by_cases hjk : j = k <;> simp [hjk, hk]
  · rw [List.getElem?_eq_none (Nat.le_of_not_lt hk)]
    simp [hk]

theorem Stack.get_of_length_le (s : Stack) (k : Nat) (h : s.levels.length ≤ k) :
    s.get k = 0 := by
  unfold Stack.get
  rw [List.getD_eq_getElem?_getD, List.getElem?_eq_none h]
  rfl

theorem Stack.get_add_neg (F : FlagConsts) (s t : Stack) (k : Nat) :
    (s.add_neg F t).get k =
      if k < s.levels.length then s.get k ||| (flags_not (t.get k) &&& F.mask) else 0 := by
  unfold Stack.add_neg
  simp only [Stack.get, List.getD_eq_getElem?_getD, List.getElem?_map, List.getElem?_range]
  by_cases hk : k < s.levels.length
  · simp [hk, List.getElem?_range hk]
  · simp [hk, List.getElem?_eq_none (l := List.range s.levels.length) (by simpa using hk)]

theorem testBit_add_neg (F : FlagConsts) (s t : Stack) (k b : Nat)
    (h : (s.get k).testBit b = true) : ((s.add_neg F t).get k).testBit b = true := by
  rw [Stack.get_add_neg]
  split
  · rw [Nat.testBit_or, h]; rfl
  · rename_i hk
    rw [Stack.get_of_length_le s k (Nat.le_of_not_lt hk)] at h
    simp at h

theorem testBit_modifyLevel_or (s : Stack) (j k b : Nat) (x : Flags)
    (h : (s.get k).testBit b = true) :
    ((s.modifyLevel j (fun y => y ||| x)).get k).testBit b = true := by
  rw [Stack.get_modifyLevel]
  split
  · rw [Nat.testBit_or, h]; rfl
  · exact h

theorem step0_done {C : Nat → Prop} {w w1 : World} (h : Step0 C w w1) (i k b : Nat)
    (hb : ((w.node i).done.get k).testBit b = true) :
    ((w1.node i).done.get k).testBit b = true := by
  cases h with
  | frame j f hf =>
    rw [node_modify]
    split
    · rw [(hf _).2.1]; exact hb
    · exact hb
  | statics _ hn _ _ => rw [node_of_nodes_eq hn]; exact hb
  | alloc _ e0 hn _ _ hd _ _ =>
    rcases node_alloc hn i with h | ⟨h, _⟩
    · rw [h]; exact hb
    · rw [h] at hb
      have : Execution.blank.done.get k = 0 := Stack.get_empty k
      rw [this] at hb
      simp at hb
  | error_or j x hx =>
    rw [node_modify]
    split <;> exact hb
  | error_from j l =>
    rw [node_modify]
    split <;> exact hb
  | done_add_neg j F avoid =>
    rw [node_modify]
    split
    · exact testBit_add_neg F _ _ k b hb
    · exact hb
  | done_add_highest_neg j F flags =>
    rw [node_modify]
    split
    · exact testBit_modifyLevel_or _ _ k b _ hb
    · exact hb
  | done_add_one_neg j F flags =>
    rw [node_modify]
    split
    · exact testBit_modifyLevel_or _ _ k b _ hb
    · exact hb
  | timestamp j t _ =>
    rw [node_modify]
    split <;> exact hb

theorem step_done {C : Nat → Prop} {w w1 : World} (h : Step C w w1) (i k b : Nat)
    (hb : ((w.node i).done.get k).testBit b = true) :
    ((w1.node i).done.get k).testBit b = true := by
  cases h with
  | base h0 => exact step0_done h0 i k b hb
  | statics hn => rw [node_of_nodes_eq hn]; exact hb

/-! ### Invariants of the execution graph -/

theorem parse_codes_true (env : Env) : env.parse_codes (fun _ => True) :=
  fun _ _ _ _ => trivial

theorem Timestamp.defined_of_le {a b : Timestamp} (h : Timestamp.le a b)
    (ha : a.defined = true) : b.defined = true := by
  cases a <;> cases b <;> simp_all [Timestamp.le, Timestamp.defined]

theorem keeps_timestamp (w : World) (i : Nat) {α : Type} (m : M α)
    (h : ∀ I : World → Prop, (∀ w0 w1, Step (fun _ => True) w0 w1 → I w0 → I w1) → Keeps I m) :
    Timestamp.le (w.node i).timestamp ((m w).2.node i).timestamp :=
  (h (fun w1 => Timestamp.le (w.node i).timestamp (w1.node i).timestamp)
    (fun _ _ hs h0 => Timestamp.le_trans h0 (step_timestamp hs i))).run w (Timestamp.le_refl _)

theorem keeps_done (w : World) (i k b : Nat) {α : Type} (m : M α)
    (h : ∀ I : World → Prop, (∀ w0 w1, Step (fun _ => True) w0 w1 → I w0 → I w1) → Keeps I m)
    (hb : ((w.node i).done.get k).testBit b = true) :
    (((m w).2.node i).done.get k).testBit b = true :=
  (h (fun w1 => ((w1.node i).done.get k).testBit b = true)
    (fun _ _ hs h0 => step_done hs i k b h0)).run w hb

theorem keeps_error (w : World) {α : Type} (m : M α)
    (h : ∀ I : World → Prop, (∀ w0 w1, Step (fun x => x ≤ 3) w0 w1 → I w0 → I w1) → Keeps I m)
    (hw : ∀ i, (w.node i).error ≤ 3) : ∀ i, ((m w).2.node i).error ≤ 3 :=
  (h (fun w1 => ∀ i, (w1.node i).error ≤ 3) (fun _ _ hs h0 => step_error hs h0)).run w hw

/-- C4: the error of every execution stays one of 0, 1, 2, 3 (so the bit of
`ERROR_FATAL` is never set): the constructors give an error of at most 3, and
`raise` with a code from 1 to 3, `unlink`, `execute`, `wait` and `main` keep
every node's error at most 3, the parser throwing codes from 1 to 3. -/
theorem error_at_most_three (env : Env) (henv : env.parse_codes (fun x => x ≤ 3))
    (w : World) (hw : ∀ i, (w.node i).error ≤ 3) :
    (∀ dependencies, (Execution.root env.F dependencies).error ≤ 3) ∧
    (∀ target link parent i,
      ((Execution.create env target link parent w).2.node i).error ≤ 3) ∧
    (∀ self e i, 1 ≤ e → e ≤ 3 → ((raise env self e w).2.node i).error ≤ 3) ∧
    (∀ parent child dependency_parent avoid_parent dependency_child avoid_child flags_child i,
      ((unlink env parent child dependency_parent avoid_parent dependency_child avoid_child
        flags_child w).2.node i).error ≤ 3) ∧
    (∀ fuel self parent link i, ((execute env fuel self parent link w).2.node i).error ≤ 3) ∧
    (∀ i, ((wait env w).2.node i).error ≤ 3) ∧
    (∀ fuel dependencies i, ((main env fuel dependencies w).2.node i).error ≤ 3) ∧
    (∀ i, (w.node i).error &&& ERROR_FATAL = 0) := by
  have hC : (fun x => x ≤ 3) 1 ∧ (fun x => x ≤ 3) 2 := ⟨by decide, by decide⟩
  refine ⟨fun _ => Nat.zero_le _, ?_, ?_, ?_, ?_, ?_, ?_, ?_⟩
  · intro target link parent
    exact keeps_error w _ (fun I hS => create_keeps hC (step_of_step0 hS) _ _ _ _) hw
  · intro self e i _ he
    exact keeps_error w _ (fun I hS => raise_keeps (step_of_step0 hS) _ _ _ he) hw i
  · intro parent child dp ap dc ac fc
    exact keeps_error w _ (fun I hS => unlink_keeps hC (step_of_step0 hS) env henv _ _ _ _ _ _ _) hw
  · intro fuel self parent link
    exact keeps_error w _ (fun I hS => execute_keeps hC hS env henv _ _ _ _) hw
  · exact keeps_error w _ (fun I hS => wait_keeps hC hS _) hw
  · intro fuel dependencies
    exact keeps_error w _ (fun I hS => main_keeps hC hS env henv _ _) hw
  · intro i
    have h := hw i
    have h4 : ERROR_FATAL = 4 := rfl
    rw [h4]
    interval_cases (w.node i).error <;> rfl

/-- C7: the timestamp of an execution is monotone.  Every call of `execute`
(with its fold of `timestamps_old`), of `waited` (with its fold of the built
file's modification time) and of `unlink` (with its propagation into the parent)
leaves the timestamp of every node at an instant that is not earlier than before,
an undefined timestamp counting as earlier than every defined one; in particular
a defined timestamp stays defined. -/
theorem timestamp_monotone (env : Env) (w : World) (i : Nat) :
    (∀ fuel self parent link,
      Timestamp.le (w.node i).timestamp
        ((execute env fuel self parent link w).2.node i).timestamp ∧
      ((w.node i).timestamp.defined = true →
        ((execute env fuel self parent link w).2.node i).timestamp.defined = true)) ∧
    (∀ self pid status,
      Timestamp.le (w.node i).timestamp ((waited env self pid status w).2.node i).timestamp ∧
      ((w.node i).timestamp.defined = true →
        ((waited env self pid status w).2.node i).timestamp.defined = true)) ∧
    (∀ parent child dependency_parent avoid_parent dependency_child avoid_child flags_child,
      Timestamp.le (w.node i).timestamp
        ((unlink env parent child dependency_parent avoid_parent dependency_child avoid_child
          flags_child w).2.node i).timestamp ∧
      ((w.node i).timestamp.defined = true →
        ((unlink env parent child dependency_parent avoid_parent dependency_child avoid_child
          flags_child w).2.node i).timestamp.defined = true)) := by
  have hC : (fun _ : Nat => True) 1 ∧ (fun _ : Nat => True) 2 := ⟨trivial, trivial⟩
  refine ⟨?_, ?_, ?_⟩
  · intro fuel self parent link
    have h := keeps_timestamp w i (execute env fuel self parent link)
      (fun I hS => execute_keeps hC hS env (parse_codes_true env) _ _ _ _)
    exact ⟨h, Timestamp.defined_of_le h⟩
  · intro self pid status
    have h := keeps_timestamp w i (waited env self pid status)
      (fun I hS => waited_keeps hC hS _ _ _ _)
    exact ⟨h, Timestamp.defined_of_le h⟩
  · intro parent child dp ap dc ac fc
    have h := keeps_timestamp w i (unlink env parent child dp ap dc ac fc)
      (fun I hS => unlink_keeps hC (step_of_step0 hS) env (parse_codes_true env) _ _ _ _ _ _ _)
    exact ⟨h, Timestamp.defined_of_le h⟩

/-- C8: the `done` stack of an execution only grows.  For every call of
`execute` or `waited`, every node, every level `k` and every bit, a bit that is
set in `done.get(k)` before the call is set after the call. -/
theorem done_only_grows (env : Env) (w : World) (i k b : Nat)
    (hb : ((w.node i).done.get k).testBit b = true) :
    (∀ fuel self parent link,
      (((execute env fuel self parent link w).2.node i).done.get k).testBit b = true) ∧
    (∀ self pid status,
      (((waited env self pid status w).2.node i).done.get k).testBit b = true) := by
  have hC : (fun _ : Nat => True) 1 ∧ (fun _ : Nat => True) 2 := ⟨trivial, trivial⟩
  refine ⟨?_, ?_⟩
  · intro fuel self parent link
    exact keeps_done w i k b (execute env fuel self parent link)
      (fun I hS => execute_keeps hC hS env (parse_codes_true env) _ _ _ _) hb
  · intro self pid status
    exact keeps_done w i k b (waited env self pid status)
      (fun I hS => waited_keeps hC hS _ _ _ _) hb

/-! ### Cycles: `get_execution` -/

theorem node_worldA (i : Nat) :
    (worldA.node i).parents = [] ∧ (worldA.node i).children = [] := by
  cases i with
  | zero => exact ⟨rfl, rfl⟩
  | succ n => exact ⟨rfl, rfl⟩

/-- C1, the code at the failing input.  With the rule `A: A` and keep-going
set, the first call of `execute` on the root (which deploys `A`, and from `A`
the dependency `A` again, rejected as a cycle) returns normally from a world in
which edge symmetry holds, and leaves a world in which it does not: the
execution of `A` (node 1) is a key of its own `parents`, and is not a member of
its own `children`. -/
theorem edge_symmetry_broken_by_cycle :
    edge_symmetric worldA ∧
    (execute envA 3 0 none rootLink worldA).1 = Outcome.ret false ∧
    amap_has (worldA1.node 1).parents 1 = true ∧
    ¬ (1 ∈ (worldA1.node 1).children) ∧
    ¬ edge_symmetric worldA1 := by
  have h1 : amap_has (worldA1.node 1).parents 1 = true := by decide
  have h2 : ¬ (1 ∈ (worldA1.node 1).children) := by decide
  refine ⟨?_, by decide, h1, h2, ?_⟩
  · intro E C
    rw [(node_worldA C).1, (node_worldA E).2]
    simp [amap_has, amap_find]
  · intro h
    exact h2 ((h 1 1).1 h1)

theorem find_cycle_parent_allocated {fuel : Nat} {w : World} {parent child : Nat}
    (h : find_cycle fuel w parent child = some true) : parent < w.nodes.length := by
  by_contra hlt
  have hblank : w.node parent = Execution.blank := by
    unfold World.node
    rw [List.getD_eq_getElem?_getD, List.getElem?_eq_none (Nat.le_of_not_lt hlt)]
    rfl
  unfold find_cycle at h
  rw [hblank] at h
  simp [Execution.blank] at h

/-- C2: when `find_cycle` reports a cycle for the edge from `parent` to the
execution `child` that `get_execution` found or created (in the world `w1`
after connecting it), `get_execution` ORs `ERROR_LOGICAL` into the parent's
error and changes nothing else (so `initialize` is not run on the child: its
`buf_default` is as before); with keep-going it returns the null pointer,
without keep-going it throws the parent's error. -/
theorem get_execution_cycle (env : Env) (fuel : Nat) (target : Target) (link : Link)
    (parent child : Nat) (w w1 : World)
    (hconnect : get_execution_connect env target link parent w = (Outcome.ret child, w1))
    (hcycle : find_cycle fuel w1 parent child = some true) :
    (get_execution env fuel target link parent w).2 =
      w1.modify parent (fun e => { e with error := e.error ||| ERROR_LOGICAL }) ∧
    ((get_execution env fuel target link parent w).2.node parent).error =
      (w1.node parent).error ||| ERROR_LOGICAL ∧
    ((get_execution env fuel target link parent w).2.node child).buf_default =
      (w1.node child).buf_default ∧
    (env.option_keep_going = true →
      (get_execution env fuel target link parent w).1 = Outcome.ret none) ∧
    (env.option_keep_going = false →
      (get_execution env fuel target link parent w).1 =
        Outcome.thrown ((w1.node parent).error ||| ERROR_LOGICAL)) := by
  have hp := find_cycle_parent_allocated hcycle
  have hrun : get_execution env fuel target link parent w =
      (if env.option_keep_going then Outcome.ret none
        else Outcome.thrown ((w1.node parent).error ||| ERROR_LOGICAL),
       w1.modify parent (fun e => { e with error := e.error ||| ERROR_LOGICAL })) := by
    unfold get_execution
    rw [run_bind_ret _ _ _ _ _ hconnect, run_bind_get]
    simp only [hcycle]
    rw [run_bind, raise_run]
    cases hk : env.option_keep_going <;> simp [node_modify_self _ _ _ hp]
  rw [hrun]
  refine ⟨rfl, ?_, ?_, ?_, ?_⟩
  · simp [node_modify_self _ _ _ hp]
  · simp only [node_modify]
    split <;> rfl
  · intro h; simp [h]
  · intro h; simp [h]

/-! ### `remove_if_existing` -/

/-- C10, the loop: every file deleted by the loop of `remove_if_existing` from
index `i` on is a file target `targets[j]` whose `stat` succeeded at that moment
and whose modification time is later than `timestamps_old[i + j]` (an undefined
old timestamp, the file having been absent, counting as earlier). -/
theorem remove_if_existing_loop_spec (env : Env) (self : Nat) (targets : List Target) :
    ∀ (i : Nat) (removed : Bool) (w : World), ∃ l : List Action,
      (remove_if_existing_loop env self i targets removed w).2.actions = w.actions ++ l ∧
      (remove_if_existing_loop env self i targets removed w).2.nodes = w.nodes ∧
      ∀ a ∈ l, ∃ (j : Nat) (w1 : World) (mtime : Nat) (name : String),
        a = Action.remove_file name ∧
        targets.get? j = some ⟨TType.FILE, name⟩ ∧
        w1.nodes = w.nodes ∧
        env.stat w1 name = Stat.ok mtime ∧
        Timestamp.earlier ((w.node self).timestamps_old.getD (i + j) none) (some mtime) := by
  induction targets with
  | nil =>
    intro i removed w
    exact ⟨[], by simp [remove_if_existing_loop], rfl, by simp⟩
  | cons target rest ih =>
    intro i removed w
    have shift : ∀ (removed1 : Bool) (w0 : World) (l0 : List Action),
        w0.nodes = w.nodes → w0.actions = w.actions ++ l0 →
        (∀ a ∈ l0, ∃ (j : Nat) (w1 : World) (mtime : Nat) (name : String),
          a = Action.remove_file name ∧
          (target :: rest).get? j = some ⟨TType.FILE, name⟩ ∧
          w1.nodes = w.nodes ∧
          env.stat w1 name = Stat.ok mtime ∧
          Timestamp.earlier ((w.node self).timestamps_old.getD (i + j) none) (some mtime)) →
        ∃ l : List Action,
          (remove_if_existing_loop env self (i + 1) rest removed1 w0).2.actions =
            w.actions ++ l ∧
          (remove_if_existing_loop env self (i + 1) rest removed1 w0).2.nodes = w.nodes ∧
          ∀ a ∈ l, ∃ (j : Nat) (w1 : World) (mtime : Nat) (name : String),
            a = Action.remove_file name ∧
            (target :: rest).get? j = some ⟨TType.FILE, name⟩ ∧
            w1.nodes = w.nodes ∧
            env.stat w1 name = Stat.ok mtime ∧
            Timestamp.earlier ((w.node self).timestamps_old.getD (i + j) none)
              (some mtime) := by
      intro removed1 w0 l0 hn ha hl0
      obtain ⟨l, h1, h2, h3⟩ := ih (i + 1) removed1 w0
      refine ⟨l0 ++ l, ?_, ?_, ?_⟩
      · rw [h1, ha, List.append_assoc]
      · rw [h2, hn]
      · intro a ha1
        rcases List.mem_append.mp ha1 with hmem | hmem
        · exact hl0 a hmem
        · obtain ⟨j, w1, mtime, name, e1, e2, e3, e4, e5⟩ := h3 a hmem
          refine ⟨j + 1, w1, mtime, name, e1, ?_, ?_, e4, ?_⟩
          · simpa using e2
          · rw [e3, hn]
          · have hnode : w0.node self = w.node self := node_of_nodes_eq hn self
            rw [hnode] at e5
            have : i + (j + 1) = i + 1 + j := by omega
            rw [this]
            exact e5
    unfold remove_if_existing_loop
    split
    · exact shift removed w [] rfl (by simp) (by simp)
    · rename_i hfile
      rw [run_bind_get]
      cases hstat : env.stat w target.name with
      | enoent => exact shift removed w [] rfl (by simp) (by simp)
      | failure => exact shift removed w [] rfl (by simp) (by simp)
      | ok mtime =>
        simp only []
        cases hold : (w.node self).timestamps_old.get? i with
        | none => exact ⟨[], by simp [M.undef], rfl, by simp⟩
        | some timestamp_old =>
          simp only []
          split
          · rename_i hnewer
            rw [run_bind_update]
            refine shift true _ [Action.remove_file target.name] rfl rfl ?_
            intro a ha
            rw [List.mem_singleton] at ha
            refine ⟨0, w, mtime, target.name, ha, ?_, rfl, hstat, ?_⟩
            · have ht : target.type = TType.FILE := by
                by_contra hne
                exact hfile hne
              cases target with
              | mk type name =>
                simp only at ht
                subst ht
                rfl
            · have hget : (w.node self).timestamps_old.getD (i + 0) none = timestamp_old := by
                rw [Nat.add_zero, List.getD_eq_getElem?_getD, ← List.get?_eq_getElem?, hold]
                rfl
              rw [hget]
              cases timestamp_old with
              | none => exact trivial
              | some t0 =>
                simp only [Timestamp.defined, Option.isSome_some, Bool.not_true, Bool.false_or,
                  Timestamp.lt, decide_eq_true_eq] at hnewer
                exact hnewer
          · exact shift removed w [] rfl (by simp) (by simp)

/-- C10: `remove_if_existing` only adds deletions to the record of actions, and
every file it deletes is a file target `i` of the node that exists at that
moment (`stat` succeeds) with a modification time strictly later than
`timestamps_old[i]`, an undefined `timestamps_old[i]` (the target was absent
before the command) counting as earlier than every instant; nothing is deleted
under the no-delete option.  So a file target whose modification time is not
later than `timestamps_old[i]` is never deleted. -/
theorem remove_if_existing_only_newer (env : Env) (self : Nat) (output : Bool) (w : World) :
    ∃ l : List Action,
      (remove_if_existing env self output w).2.actions = w.actions ++ l ∧
      (env.option_no_delete = true → l = []) ∧
      ∀ a ∈ l, ∃ (i : Nat) (w1 : World) (mtime : Nat) (name : String),
        a = Action.remove_file name ∧
        (w.node self).targets.get? i = some ⟨TType.FILE, name⟩ ∧
        w1.nodes = w.nodes ∧
        env.stat w1 name = Stat.ok mtime ∧
        Timestamp.earlier ((w.node self).timestamps_old.getD i none) (some mtime) := by
  unfold remove_if_existing
  cases hnd : env.option_no_delete with
  | true => exact ⟨[], by simp, fun _ => rfl, by simp⟩
  | false =>
    obtain ⟨l, h1, _, h3⟩ := remove_if_existing_loop_spec env self (w.node self).targets 0 false w
    refine ⟨l, ?_, fun h => Bool.noConfusion h, ?_⟩
    · simpa using h1
    · intro a ha
      obtain ⟨j, w1, mtime, name, e1, e2, e3, e4, e5⟩ := h3 a ha
      exact ⟨j, w1, mtime, name, e1, e2, e3, e4, by simpa using e5⟩

/-! ### Variable dependencies: `read_variable` and `unlink` -/

theorem first_not_space_spec (s : List Char) :
    match first_not_space s with
    | some i => i < s.length ∧ s.drop i = s.dropWhile is_space
    | none => s.dropWhile is_space = [] := by
  induction s with
  | nil => simp [first_not_space]
  | cons c rest ih =>
    unfold first_not_space
    by_cases hc : is_space c = true
    · simp only [hc, if_true, List.dropWhile_cons]
      cases h : first_not_space rest with
      | none =>
        rw [h] at ih
        simpa using ih
      | some i =>
        rw [h] at ih
        simpa using ih
    · simp [hc, List.dropWhile_cons]

theorem string_erase_zero (s : List Char) (n : Nat) :
    string_erase s 0 n = s.drop (min n s.length) := by
  simp [string_erase]

theorem erase_first (s : List Char) (h : s.length < 2 ^ 64) :
    string_erase s 0 (find_first_not_of s) = s.dropWhile is_space := by
  rw [string_erase_zero]
  unfold find_first_not_of
  have hs := first_not_space_spec s
  cases hf : first_not_space s with
  | none =>
    rw [hf] at hs
    simp only [hs]
    rw [Nat.min_eq_right (by unfold npos; omega)]
    simp
  | some i =>
    rw [hf] at hs
    simp only []
    rw [Nat.min_eq_left (Nat.le_of_lt hs.1)]
    exact hs.2

theorem erase_last (s : List Char) (h : s.length < 2 ^ 64) :
    string_erase s ((find_last_not_of s + 1) % 2 ^ 64) npos =
      (s.reverse.dropWhile is_space).reverse := by
  unfold find_last_not_of
  have hs := first_not_space_spec s.reverse
  cases hf : first_not_space s.reverse with
  | none =>
    rw [hf] at hs
    simp only [hs]
    have h0 : (npos + 1) % 2 ^ 64 = 0 := by decide
    rw [h0, string_erase_zero, Nat.min_eq_right (by unfold npos; omega)]
    simp
  | some i =>
    rw [hf] at hs
    simp only []
    rw [← hs.2, List.drop_reverse, List.reverse_reverse]
    have hi : i < s.length := by simpa using hs.1
    have h1 : (s.length - 1 - i + 1) % 2 ^ 64 = s.length - i := by
      rw [Nat.mod_eq_of_lt (by omega)]
      omega
    rw [h1]
    unfold string_erase
    have h2 : s.length - i + min npos (s.length - (s.length - i)) = s.length := by
      rw [Nat.min_eq_right (by unfold npos; omega)]
      omega
    rw [h2]
    simp

/-- The two `erase` calls of `read_variable` compute the spec's
`trim_ascii_ws` (for a content whose length is a `size_t`). -/
theorem read_variable_trim_eq (s : List Char) (h : s.length < 2 ^ 64) :
    read_variable_trim s = trim_ascii_ws s := by
  unfold read_variable_trim trim_ascii_ws
  simp only []
  rw [erase_first s h]
  apply erase_last
  exact Nat.lt_of_le_of_lt (List.dropWhile_suffix is_space).length_le h
theorem amap_find_set_self {κ ν : Type} [DecidableEq κ] (m : List (κ × ν)) (k : κ) (v : ν) :
    amap_find (amap_set m k v) k = some v := by
  induction m with
  | nil => simp [amap_set, amap_find]
  | cons p rest ih =>
    rcases p with ⟨k1, v1⟩
    unfold amap_set
    by_cases h : k1 = k
    · simp [h, amap_find]
    · simp [h, amap_find, ih]

theorem amap_find_append_of_some {κ ν : Type} [DecidableEq κ] (m l : List (κ × ν)) (k : κ)
    (v : ν) (h : amap_find m k = some v) : amap_find (m ++ l) k = some v := by
  induction m with
  | nil => simp [amap_find] at h
  | cons p rest ih =>
    rcases p with ⟨k1, v1⟩
    simp only [List.cons_append, amap_find] at h ⊢
    by_cases hk : k1 = k
    · simpa [hk] using h
    · simp only [hk, if_false] at h ⊢
      exact ih h

theorem amap_find_insert_of_some {κ ν : Type} [DecidableEq κ] (m : List (κ × ν)) (k k2 : κ)
    (v v2 : ν) (h : amap_find m k = some v) : amap_find (amap_insert m k2 v2) k = some v := by
  unfold amap_insert
  split
  · exact h
  · exact amap_find_append_of_some _ _ _ _ h

theorem amap_find_insert_all_of_some {κ ν : Type} [DecidableEq κ] (l : List (κ × ν)) :
    ∀ (m : List (κ × ν)) (k : κ) (v : ν), amap_find m k = some v →
      amap_find (amap_insert_all m l) k = some v := by
  induction l with
  | nil => intro m k v h; exact h
  | cons p rest ih =>
    intro m k v h
    rcases p with ⟨k2, v2⟩
    exact ih _ _ _ (amap_find_insert_of_some _ _ _ _ _ h)

theorem read_dynamics_keeps_fields {I : World → Prop} (env : Env) (self : Nat) (avoid : Stack)
    (d : Option Dependency)
    (h1 : ∀ w i x, I w → I (w.modify i (fun e => { e with error := e.error ||| x })))
    (h2 : ∀ w i x, I w →
      I (w.modify i (fun e => { e with buf_default := e.buf_default ++ x }))) :
    Keeps I (read_dynamics env self avoid d) := by
  unfold read_dynamics
  repeat' first
    | intro _
    | exact keeps_pure _ _
    | exact keeps_get _
    | exact keeps_throw _ _
    | exact keeps_undef _
    | exact keeps_raise _ _ _ (fun w => h1 w _ _)
    | exact keeps_modifyNode (fun w => h2 w _ _)
    | apply keeps_for_each
    | apply keeps_tryCatch
    | apply keeps_bind
    | apply keeps_ite
    | split
    | unfold read_dynamics_dependency
    | dsimp only

/-- `unlink_read` and `unlink_timestamp` leave the `exists` state of every node
and the number of nodes as they are. -/
theorem unlink_read_timestamp_frame (env : Env) (parent child : Nat)
    (dependency_parent : Option Dependency) (avoid_parent : Stack) (flags_child : Flags)
    (j : Nat) (x : Int) (n : Nat) :
    Keeps (fun w => (w.node j).exists_ = x ∧ w.nodes.length = n)
      (unlink_read env parent child dependency_parent avoid_parent flags_child) ∧
    Keeps (fun w => (w.node j).exists_ = x ∧ w.nodes.length = n)
      (unlink_timestamp env parent child flags_child) := by
  have hmod : ∀ (f : Execution → Execution) (w : World) (i : Nat),
      ((w.node j).exists_ = x ∧ w.nodes.length = n) → (∀ e, (f e).exists_ = e.exists_) →
        (((w.modify i f).node j).exists_ = x ∧ (w.modify i f).nodes.length = n) := by
    intro f w i hw hf
    refine ⟨?_, by simpa using hw.2⟩
    rw [node_modify]
    split
    · rw [hf]; exact hw.1
    · exact hw.1
  constructor
  · unfold unlink_read
    repeat' first
      | intro _
      | exact keeps_pure _ _
      | exact keeps_getNode _ _
      | (refine read_dynamics_keeps_fields _ _ _ _ (fun w i x hw => ?_) (fun w i x hw => ?_)
         · exact hmod _ w i hw (fun _ => rfl)
         · exact hmod _ w i hw (fun _ => rfl))
      | apply keeps_bind
      | apply keeps_ite
      | split
      | dsimp only
  · unfold unlink_timestamp
    repeat' first
      | intro _
      | exact keeps_pure _ _
      | exact keeps_getNode _ _
      | (refine keeps_modifyNode (fun w hw => ?_)
         exact hmod _ w _ hw (fun _ => rfl))
      | apply keeps_bind
      | apply keeps_ite
      | split
      | dsimp only

/-- `unlink_mapping` and `unlink_attributes` leave a binding of the parent's
`mapping_variable` as it is. -/
theorem unlink_mapping_attributes_frame (env : Env) (parent child : Nat)
    (dependency_child : Option Dependency) (flags_child : Flags) (k v : String) :
    Keeps (fun w => amap_find (w.node parent).mapping_variable k = some v)
      (unlink_mapping parent child dependency_child) ∧
    Keeps (fun w => amap_find (w.node parent).mapping_variable k = some v)
      (unlink_attributes env parent child flags_child) := by
  have hmod : ∀ (f : Execution → Execution) (w : World) (i : Nat),
      amap_find (w.node parent).mapping_variable k = some v →
      (∀ e, amap_find e.mapping_variable k = some v →
        amap_find (f e).mapping_variable k = some v) →
        amap_find ((w.modify i f).node parent).mapping_variable k = some v := by
    intro f w i hw hf
    rw [node_modify]
    split
    · exact hf _ hw
    · exact hw
  constructor
  · unfold unlink_mapping
    repeat' first
      | intro _
      | exact keeps_pure _ _
      | exact keeps_getNode _ _
      | (refine keeps_modifyNode (fun w hw => ?_)
         exact hmod _ w _ hw (fun _ h => amap_find_insert_all_of_some _ _ _ _ h))
      | apply keeps_bind
      | apply keeps_ite
      | split
      | dsimp only
  · unfold unlink_attributes
    repeat' first
      | intro _
      | exact keeps_pure _ _
      | exact keeps_getNode _ _
      | (refine keeps_modifyNode (fun w hw => ?_)
         exact hmod _ w _ hw (fun _ h => h))
      | apply keeps_bind
      | apply keeps_ite
      | split
      | dsimp only
theorem unlink_variable_run (env : Env) (parent child : Nat) (flags : Flags) (target : Target)
    (name : String) (u : Bool) (flags_child : Flags) (s : List Char) (w : World)
    (hvar : flags_child &&& env.F.F_VARIABLE ≠ 0)
    (hexists : (w.node child).exists_ > 0)
    (hread : env.read_file w target.name = some s) :
    unlink_variable env parent child (some (Dependency.direct flags target name u))
        flags_child w =
      (Outcome.ret (), w.modify parent (fun e => { e with
        mapping_variable := amap_set e.mapping_variable
          (if name = "" then target.name else name) (String.mk (read_variable_trim s)) })) := by
  unfold unlink_variable
  rw [run_bind_getNode]
  rw [if_pos ⟨hvar, hexists⟩]
  have hrv : read_variable env child (some (Dependency.direct flags target name u)) w =
      (Outcome.ret (some (if name = "" then target.name else name,
        String.mk (read_variable_trim s))), w) := by
    unfold read_variable
    simp only [Dependency.get_single_target, Dependency.base_target, run_bind_get, hread]
    rfl
  rw [run_bind_ret _ _ _ _ _ hrv]
  rfl

/-- C9: when `unlink` runs to its end over an edge that carries the variable
flag, whose child is known to exist (`exists > 0`) and whose file is read with
content `s`, the parent's `mapping_variable` binds the variable name (the
explicit name of the dependency when it is not empty, the name of the
dependency's target otherwise) to `s` with all leading and trailing white space
removed. -/
theorem unlink_sets_variable (env : Env) (parent child : Nat)
    (dependency_parent : Option Dependency) (avoid_parent : Stack)
    (flags : Flags) (target : Target) (name : String) (u : Bool)
    (avoid_child : Stack) (flags_child : Flags) (s : List Char) (w : World)
    (hvar : flags_child &&& env.F.F_VARIABLE ≠ 0)
    (hexists : (w.node child).exists_ > 0)
    (hread : ∀ w1, env.read_file w1 target.name = some s)
    (hsize : s.length < 2 ^ 64)
    (hparent : parent < w.nodes.length)
    (hret : (unlink env parent child dependency_parent avoid_parent
      (some (Dependency.direct flags target name u)) avoid_child flags_child w).1 =
        Outcome.ret ()) :
    amap_find ((unlink env parent child dependency_parent avoid_parent
      (some (Dependency.direct flags target name u)) avoid_child flags_child w).2.node
        parent).mapping_variable (if name = "" then target.name else name) =
      some (String.mk (trim_ascii_ws s)) := by
  rw [← read_variable_trim_eq s hsize]
  unfold unlink at hret ⊢
  have hf := unlink_read_timestamp_frame env parent child dependency_parent avoid_parent
    flags_child child (w.node child).exists_ w.nodes.length
  have hg := unlink_mapping_attributes_frame env parent child
    (some (Dependency.direct flags target name u)) flags_child
    (if name = "" then target.name else name) (String.mk (read_variable_trim s))
  -- unlink_read
  have h1 := hf.1.run w ⟨rfl, rfl⟩
  rw [run_bind] at hret ⊢
  rcases hr1 : unlink_read env parent child dependency_parent avoid_parent flags_child w
    with ⟨o1, w1⟩
  rw [hr1] at hret h1
  cases o1 with
  | thrown e => exact absurd hret (by simp)
  | exited e => exact absurd hret (by simp)
  | undef => exact absurd hret (by simp)
  | timeout => exact absurd hret (by simp)
  | ret a1 =>
    simp only [] at hret h1 ⊢
    -- unlink_timestamp
    have h2 := hf.2.run w1 h1
    rw [run_bind] at hret ⊢
    rcases hr2 : unlink_timestamp env parent child flags_child w1 with ⟨o2, w2⟩
    rw [hr2] at hret h2
    cases o2 with
    | thrown e => exact absurd hret (by simp)
    | exited e => exact absurd hret (by simp)
    | undef => exact absurd hret (by simp)
    | timeout => exact absurd hret (by simp)
    | ret a2 =>
      simp only [] at hret h2 ⊢
      -- unlink_variable
      have hr3 := unlink_variable_run env parent child flags target name u flags_child s w2
        hvar (by rw [h2.1]; exact hexists) (hread w2)
      rw [run_bind_ret _ _ _ _ _ hr3]
      have hp2 : parent < w2.nodes.length := by rw [h2.2]; exact hparent
      refine (keeps_bind hg.1 (fun _ => hg.2)).run _ ?_
      rw [node_modify_self _ _ _ hp2]
      exact amap_find_set_self _ _ _

/-! ### Hoare triples -/

theorem triple_pure {α : Type} {P : World → Prop} {Q : α → World → Prop} {E : World → Prop}
    (a : α) (h : ∀ w, P w → Q a w) : Triple P (pure a : M α) Q E :=
  ⟨fun w hw => h w hw⟩

theorem triple_bind {α β : Type} {P : World → Prop} {R : α → World → Prop}
    {Q : β → World → Prop} {E : World → Prop} {m : M α} {f : α → M β}
    (hm : Triple P m R E) (hf : ∀ a, Triple (R a) (f a) Q E) : Triple P (m >>= f) Q E := by
  constructor
  intro w hw
  have h1 := hm.run w hw
  rw [run_bind]
  rcases hmw : m w with ⟨o, w1⟩
  rw [hmw] at h1
  cases o with
  | ret a => exact (hf a).run w1 h1
  | thrown e => exact h1
  | exited c => exact h1
  | undef => exact h1
  | timeout => exact h1

theorem triple_weaken {α : Type} {P P1 : World → Prop} {Q Q1 : α → World → Prop}
    {E E1 : World → Prop} {m : M α} (h : Triple P m Q E) (hP : ∀ w, P1 w → P w)
    (hQ : ∀ a w, Q a w → Q1 a w) (hE : ∀ w, E w → E1 w) : Triple P1 m Q1 E1 := by
  constructor
  intro w hw
  have h1 := h.run w (hP w hw)
  unfold post at h1 ⊢
  rcases hmw : m w with ⟨o, w1⟩
  rw [hmw] at h1
  cases o with
  | ret a => exact hQ a w1 h1
  | thrown e => exact hE w1 h1
  | exited c => exact hE w1 h1
  | undef => exact hE w1 h1
  | timeout => exact hE w1 h1

theorem triple_of_keeps {α : Type} {P : World → Prop} {Q : α → World → Prop}
    {E : World → Prop} {m : M α} (h : Keeps P m) (hQ : ∀ a w, P w → Q a w)
    (hE : ∀ w, P w → E w) : Triple P m Q E := by
  constructor
  intro w hw
  have h1 := h.run w hw
  unfold post
  rcases hmw : m w with ⟨o, w1⟩
  rw [hmw] at h1
  cases o with
  | ret a => exact hQ a w1 h1
  | thrown e => exact hE w1 h1
  | exited c => exact hE w1 h1
  | undef => exact hE w1 h1
  | timeout => exact hE w1 h1

theorem triple_get {P : World → Prop} {E : World → Prop} :
    Triple P M.get (fun a w => P w ∧ a = w) E :=
  ⟨fun _ hw => ⟨hw, rfl⟩⟩

theorem triple_getNode {P : World → Prop} {E : World → Prop} (i : Nat) :
    Triple P (getNode i) (fun _ w => P w) E :=
  ⟨fun _ hw => hw⟩

theorem triple_ite {α : Type} {P : World → Prop} {Q : α → World → Prop} {E : World → Prop}
    {c : Prop} [Decidable c] {a b : M α} (ha : c → Triple P a Q E) (hb : ¬c → Triple P b Q E) :
    Triple P (if c then a else b) Q E := by
  split
  · rename_i h; exact ha h
  · rename_i h; exact hb h

theorem triple_end {α : Type} {P : World → Prop} {Q : α → World → Prop} {E : World → Prop}
    (m : M α) (hm : ∀ w, ∃ o, m w = (o, w) ∧ ∀ a, o ≠ Outcome.ret a) (hE : ∀ w, P w → E w) :
    Triple P m Q E := by
  constructor
  intro w hw
  obtain ⟨o, h1, h2⟩ := hm w
  unfold post
  rw [h1]
  cases o with
  | ret a => exact absurd rfl (h2 a)
  | thrown e => exact hE w hw
  | exited c => exact hE w hw
  | undef => exact hE w hw
  | timeout => exact hE w hw

theorem triple_undef {α : Type} {P : World → Prop} {Q : α → World → Prop} {E : World → Prop}
    (hE : ∀ w, P w → E w) : Triple P (M.undef : M α) Q E :=
  triple_end _ (fun w => ⟨Outcome.undef, rfl, fun _ h => Outcome.noConfusion h⟩) hE

theorem triple_timeout {α : Type} {P : World → Prop} {Q : α → World → Prop}
    {E : World → Prop} (hE : ∀ w, P w → E w) : Triple P (M.timeout : M α) Q E :=
  triple_end _ (fun w => ⟨Outcome.timeout, rfl, fun _ h => Outcome.noConfusion h⟩) hE

theorem triple_exit {α : Type} {P : World → Prop} {Q : α → World → Prop} {E : World → Prop}
    (c : Nat) (hE : ∀ w, P w → E w) : Triple P (M.exit c : M α) Q E :=
  triple_end _ (fun w => ⟨Outcome.exited c, rfl, fun _ h => Outcome.noConfusion h⟩) hE

/-! ### The job budget -/

theorem step0_jobs {C : Nat → Prop} {I : World → Prop} (hI : JobsPred I) :
    ∀ w w1, Step0 C w w1 → I w → I w1 := by
  intro w w1 h
  cases h with
  | frame i f hf => exact hI _ _ rfl rfl
  | statics _ hn hj hp => exact hI _ _ hj hp
  | alloc _ e0 hn he ht hd hj hp => exact hI _ _ hj hp
  | error_or i x hx => exact hI _ _ rfl rfl
  | error_from i k => exact hI _ _ rfl rfl
  | done_add_neg i F avoid => exact hI _ _ rfl rfl
  | done_add_highest_neg i F flags => exact hI _ _ rfl rfl
  | done_add_one_neg i F flags => exact hI _ _ rfl rfl
  | timestamp i t _ => exact hI _ _ rfl rfl

theorem job_budget_pred (J : Int) : JobsPred (job_budget J) := by
  intro w w1 hj hp h
  unfold job_budget at h ⊢
  rw [hj, hp]
  exact h

theorem job_ready_pred (J : Int) : JobsPred (job_ready J) := by
  intro w w1 hj hp h
  unfold job_ready at h ⊢
  rw [hj]
  exact ⟨job_budget_pred J w w1 hj hp h.1, h.2⟩

theorem ready_of_budget {J : Int} {w : World} (h : job_budget J w) (h0 : ¬ w.jobs = 0) :
    job_ready J w := by
  refine ⟨h, ?_⟩
  have := h.1
  omega
theorem triple_quiet {J : Int} {α : Type} {m : M α} {Q : α → World → Prop}
    (h : Keeps (job_ready J) m) (hQ : ∀ a w, job_ready J w → Q a w) :
    Triple (job_ready J) m Q (job_budget J) :=
  triple_of_keeps h hQ (fun _ hw => hw.1)

theorem after_child_spec (J : Int) (env : Env) (self child : Nat) (link : Link)
    (dependency_child : Option Dependency) (avoid_child : Stack) (flags_child : Flags) :
    Triple (job_budget J)
      (after_child env self child link dependency_child avoid_child flags_child)
      (fun stop w => job_budget J w ∧ (stop = false → job_ready J w)) (job_budget J) := by
  have hC : (fun _ : Nat => True) 1 ∧ (fun _ : Nat => True) 2 := ⟨trivial, trivial⟩
  have hI := step0_jobs (C := fun _ => True) (job_ready_pred J)
  unfold after_child
  apply triple_bind triple_get
  intro w0
  apply triple_ite
  · intro _
    exact triple_pure _ (fun w hw => ⟨hw.1, fun h => Bool.noConfusion h⟩)
  · intro h0
    refine triple_weaken (P := job_ready J) ?_
      (fun w hw => ready_of_budget hw.1 (by rw [← hw.2]; exact h0))
      (fun _ _ h => h) (fun _ h => h)
    refine triple_quiet ?_ (fun _ w hw => ⟨hw.1, fun _ => hw⟩)
    repeat' first
      | intro _
      | exact keeps_pure _ _
      | exact keeps_get _
      | exact keeps_getNode _ _
      | exact keeps_throw _ _
      | exact keeps_exit _ _
      | exact keeps_undef _
      | exact keeps_timeout _
      | exact keeps_modifyNode (fun w hw => hI _ _ (Step0.frame w _ _ (fun _ => ⟨rfl, rfl, rfl⟩)) hw)
      | exact keeps_modifyNode (fun w hw => hI _ _ (Step0.done_add_neg w _ _ _) hw)
      | exact keeps_modifyNode (fun w hw => hI _ _ (Step0.done_add_highest_neg w _ _ _) hw)
      | exact keeps_modifyNode (fun w hw => hI _ _ (Step0.done_add_one_neg w _ _ _) hw)
      | exact keeps_modifyNode (fun w hw => hI _ _ (Step0.error_or w _ _ hC.1) hw)
      | exact keeps_update (fun w hw => hI _ _ (Step0.statics w _ rfl rfl rfl) hw)
      | exact unlink_keeps hC hI env (parse_codes_true env) _ _ _ _ _ _ _
      | apply keeps_for_each
      | apply keeps_tryCatch
      | apply keeps_bind
      | apply keeps_ite
      | split
      | dsimp only

theorem deploy_spec (J : Int) (env : Env) (execute : ExecuteFn)
    (hexec : ∀ child parent link, ExecSpec J (execute child parent link))
    (fuel self : Nat) (link link_child : Link) :
    ExecSpec J (deploy env execute fuel self link link_child) := by
  have hC : (fun _ : Nat => True) 1 ∧ (fun _ : Nat => True) 2 := ⟨trivial, trivial⟩
  have hI := step0_jobs (C := fun _ => True) (job_ready_pred J)
  have hfalse : ∀ (m : M Unit), Keeps (job_ready J) m →
      Triple (job_ready J) (m >>= fun _ => (pure false : M Bool))
        (fun r w => job_budget J w ∧ (r = true → job_ready J w)) (job_budget J) := by
    intro m hm
    exact triple_bind (triple_quiet hm (fun _ _ h => h))
      (fun _ => triple_pure _ (fun w hw => ⟨hw.1, fun _ => hw⟩))
  unfold ExecSpec deploy
  split
  · exact triple_undef (fun _ hw => hw.1)
  · apply triple_bind (triple_getNode _)
    intro e
    dsimp only
    split
    · exact triple_undef (fun _ hw => hw.1)
    · apply triple_ite
      · intro _
        exact hfalse _ (raise_keeps hI _ _ _ hC.2)
      · intro _
        apply triple_ite
        · intro _
          exact hfalse _ (raise_keeps hI _ _ _ hC.2)
        · intro _
          apply triple_bind
            (triple_quiet (get_execution_keeps hC hI _ _ _ _ _) (fun _ _ h => h))
          intro found
          split
          · exact triple_pure _ (fun w hw => ⟨hw.1, fun _ => hw⟩)
          · refine triple_bind (triple_quiet (Q := fun _ => job_ready J) ?_
              (fun _ _ h => h)) ?_
            · exact keeps_modifyNode (fun w hw => hI _ _
                (Step0.frame w _ _ (fun _ => ⟨rfl, rfl, rfl⟩)) hw)
            intro _
            apply triple_bind (hexec _ _ _)
            intro r
            cases r with
            | true =>
              exact triple_pure _ (fun w hw => hw)
            | false =>
              refine triple_bind (triple_weaken (after_child_spec J env _ _ _ _ _ _)
                (fun w hw => hw.1) (fun _ _ h => h) (fun _ h => h)) ?_
              intro _
              exact triple_pure _ (fun w hw => ⟨hw.1, fun h => Bool.noConfusion h⟩)
theorem execute_children_loop_spec (J : Int) (env : Env) (execute : ExecuteFn)
    (hexec : ∀ child parent link, ExecSpec J (execute child parent link))
    (self : Nat) (link : Link) (n : Nat) :
    ∀ v, Triple (job_ready J) (execute_children_loop env execute self link n v)
      (fun ret w => job_budget J w ∧ (ret ≠ 0 → job_ready J w)) (job_budget J) := by
  induction n with
  | zero =>
    intro v
    exact triple_pure _ (fun w hw => ⟨hw.1, fun _ => hw⟩)
  | succ n ih =>
    intro v
    unfold execute_children_loop
    apply triple_bind (triple_quiet (keeps_get _) (fun _ _ h => h))
    intro w0
    dsimp only
    split
    · exact triple_pure _ (fun w hw => ⟨hw.1, fun _ => hw⟩)
    · apply triple_bind (triple_getNode _)
      intro c
      split
      · exact triple_undef (fun _ hw => hw.1)
      · apply triple_bind (hexec _ _ _)
        intro r
        cases r with
        | true =>
          exact triple_pure _ (fun w hw => ⟨hw.1, fun _ => hw.2 rfl⟩)
        | false =>
          refine triple_bind (triple_weaken (after_child_spec J env _ _ _ _ _ _)
            (fun w hw => hw.1) (fun _ _ h => h) (fun _ h => h)) ?_
          intro stop
          cases stop with
          | true => exact triple_pure _ (fun w hw => ⟨hw.1, fun h => absurd rfl h⟩)
          | false =>
            exact triple_weaken (ih _) (fun w hw => hw.2 rfl) (fun _ _ h => h) (fun _ h => h)

theorem execute_continue_spec (J : Int) (env : Env) (execute : ExecuteFn)
    (hexec : ∀ child parent link, ExecSpec J (execute child parent link))
    (self : Nat) (link : Link) :
    PhaseSpec J (execute_continue env execute self link) := by
  unfold PhaseSpec execute_continue execute_children
  apply triple_bind
  · apply triple_bind (triple_getNode _)
    intro e
    exact execute_children_loop_spec J env execute hexec self link _ _
  · intro ret
    apply triple_ite
    · intro _
      refine triple_pure _ (fun w hw => ⟨hw.1, fun h => hw.2 ?_⟩)
      intro h0
      apply h
      rw [h0]
      rfl
    · intro hneg
      refine triple_pure _ (fun w hw => ⟨hw.1, fun _ => hw.2 ?_⟩)
      intro h0
      apply hneg
      rw [h0]

theorem execute_pass1_spec (J : Int) (env : Env) (deploy_child : Link → M Bool)
    (hdeploy : ∀ l, ExecSpec J (deploy_child l)) (self : Nat) (n : Nat) :
    PhaseSpec J (execute_pass1 env deploy_child self n) := by
  have hI := step0_jobs (C := fun _ => True) (job_ready_pred J)
  unfold PhaseSpec
  induction n with
  | zero =>
    unfold execute_pass1
    apply triple_bind (triple_getNode _)
    intro e
    apply triple_ite
    · intro _
      exact triple_pure _ (fun w hw => ⟨hw.1, fun _ => hw⟩)
    · intro _
      exact triple_timeout (fun _ hw => hw.1)
  | succ n ih =>
    unfold execute_pass1
    apply triple_bind (triple_getNode _)
    intro e
    split
    · exact triple_pure _ (fun w hw => ⟨hw.1, fun _ => hw⟩)
    · refine triple_bind (triple_quiet (Q := fun _ => job_ready J) ?_ (fun _ _ h => h)) ?_
      · exact keeps_modifyNode (fun w hw => hI _ _
          (Step0.frame w _ _ (fun _ => ⟨rfl, rfl, rfl⟩)) hw)
      intro _
      dsimp only
      refine triple_bind (triple_quiet (Q := fun _ => job_ready J) ?_ (fun _ _ h => h)) ?_
      · exact keeps_modifyNode (fun w hw => hI _ _
          (Step0.frame w _ _ (fun _ => ⟨rfl, rfl, rfl⟩)) hw)
      intro _
      apply triple_bind (hdeploy _)
      intro r
      cases r with
      | true => exact triple_pure _ (fun w hw => ⟨hw.1, fun _ => hw.2 rfl⟩)
      | false =>
        apply triple_bind triple_get
        intro w0
        apply triple_ite
        · intro _
          exact triple_pure _ (fun w hw => ⟨hw.1.1, fun h => absurd rfl h⟩)
        · intro h0
          exact triple_weaken ih
            (fun w hw => ready_of_budget hw.1.1 (by rw [← hw.2]; exact h0))
            (fun _ _ h => h) (fun _ h => h)

theorem execute_pass2_spec (J : Int) (deploy_child : Link → M Bool)
    (hdeploy : ∀ l, ExecSpec J (deploy_child l)) (self : Nat) (n : Nat) :
    PhaseSpec J (execute_pass2 deploy_child self n) := by
  have hI := step0_jobs (C := fun _ => True) (job_ready_pred J)
  unfold PhaseSpec
  induction n with
  | zero =>
    unfold execute_pass2
    apply triple_bind (triple_getNode _)
    intro e
    apply triple_ite
    · intro _
      exact triple_pure _ (fun w hw => ⟨hw.1, fun _ => hw⟩)
    · intro _
      exact triple_timeout (fun _ hw => hw.1)
  | succ n ih =>
    unfold execute_pass2
    apply triple_bind (triple_getNode _)
    intro e
    split
    · exact triple_pure _ (fun w hw => ⟨hw.1, fun _ => hw⟩)
    · refine triple_bind (triple_quiet (Q := fun _ => job_ready J) ?_ (fun _ _ h => h)) ?_
      · exact keeps_modifyNode (fun w hw => hI _ _
          (Step0.frame w _ _ (fun _ => ⟨rfl, rfl, rfl⟩)) hw)
      intro _
      apply triple_bind (hdeploy _)
      intro r
      cases r with
      | true => exact triple_pure _ (fun w hw => ⟨hw.1, fun _ => hw.2 rfl⟩)
      | false =>
        apply triple_bind triple_get
        intro w0
        apply triple_ite
        · intro _
          exact triple_pure _ (fun w hw => ⟨hw.1.1, fun h => absurd rfl h⟩)
        · intro h0
          exact triple_weaken ih
            (fun w hw => ready_of_budget hw.1.1 (by rw [← hw.2]; exact h0))
            (fun _ _ h => h) (fun _ h => h)
theorem triple_update {P : World → Prop} {Q : World → Prop} {E : World → Prop}
    (f : World → World) (h : ∀ w, P w → Q (f w)) :
    Triple P (M.update f) (fun _ w => Q w) E :=
  ⟨fun _ hw => h _ hw⟩

theorem triple_modifyNode {P : World → Prop} {Q : World → Prop} {E : World → Prop}
    (i : Nat) (f : Execution → Execution) (h : ∀ w, P w → Q (w.modify i f)) :
    Triple P (modifyNode i f) (fun _ w => Q w) E :=
  ⟨fun _ hw => h _ hw⟩

theorem exec_quiet {J : Int} {m : M Bool} (h : Keeps (job_ready J) m) : ExecSpec J m :=
  triple_quiet h (fun _ _ hw => ⟨hw.1, fun _ => hw⟩)

theorem phase_quiet {J : Int} {m : M (Option Bool)} (h : Keeps (job_ready J) m) :
    PhaseSpec J m :=
  triple_quiet h (fun _ _ hw => ⟨hw.1, fun _ => hw⟩)

theorem or_else_spec {J : Int} {phase : M (Option Bool)} {rest : M Bool}
    (h1 : PhaseSpec J phase) (h2 : ExecSpec J rest) : ExecSpec J (or_else phase rest) := by
  unfold ExecSpec or_else
  apply triple_bind h1
  intro r
  cases r with
  | none =>
    refine triple_weaken (P := job_ready J) h2 ?_ (fun _ _ h => h) (fun _ h => h)
    intro w hw
    exact hw.2 (fun h => Option.noConfusion h)
  | some b =>
    refine triple_pure _ (fun w hw => ⟨hw.1, fun hb => hw.2 ?_⟩)
    rw [hb]
    decide

theorem amap_find_none_not_mem {κ ν : Type} [DecidableEq κ] (m : List (κ × ν)) (k : κ)
    (h : amap_find m k = none) : k ∉ m.map Prod.fst := by
  induction m with
  | nil => simp
  | cons p rest ih =>
    obtain ⟨k1, v1⟩ := p
    unfold amap_find at h
    split at h
    · exact Option.noConfusion h
    · rename_i hne
      simp only [List.map_cons, List.mem_cons, not_or]
      exact ⟨fun hk => hne hk.symm, ih h⟩

theorem amap_set_fresh {κ ν : Type} [DecidableEq κ] (m : List (κ × ν)) (k : κ) (v : ν)
    (h : amap_find m k = none) : amap_set m k v = m ++ [(k, v)] := by
  induction m with
  | nil => rfl
  | cons p rest ih =>
    obtain ⟨k1, v1⟩ := p
    unfold amap_find at h
    split at h
    · exact Option.noConfusion h
    · rename_i hne
      unfold amap_set
      rw [if_neg hne, ih h]
      rfl

theorem job_budget_spawn {J : Int} {w : World} (pid : Int) (self : Nat)
    (hw : job_ready J w) (hfresh : amap_find w.executions_by_pid pid = none) :
    job_budget J { w with
      executions_by_pid := amap_set w.executions_by_pid pid self, jobs := w.jobs - 1 } := by
  obtain ⟨⟨h0, hsum, hnd⟩, h1⟩ := hw
  unfold job_budget
  dsimp only
  rw [amap_set_fresh _ _ _ hfresh]
  refine ⟨by omega, ?_, ?_⟩
  · rw [List.length_append, List.length_singleton]
    push_cast
    omega
  · rw [List.map_append, List.map_singleton]
    apply List.Nodup.append hnd (List.nodup_singleton _)
    intro a ha hb
    rw [List.mem_singleton] at hb
    rw [hb] at ha
    exact amap_find_none_not_mem _ _ hfresh ha
theorem execute_run_spec (J : Int) (env : Env) (hfresh : env.fresh_pids) (self : Nat)
    (link : Link) : ExecSpec J (execute_run env self link) := by
  have hC : (fun _ : Nat => True) 1 ∧ (fun _ : Nat => True) 2 := ⟨trivial, trivial⟩
  have hI := step0_jobs (C := fun _ => True) (job_ready_pred J)
  have hfalse : ∀ (m : M Unit), Keeps (job_ready J) m →
      ExecSpec J (m >>= fun _ => pure false) := by
    intro m hm
    exact exec_quiet (keeps_bind hm (fun _ => keeps_pure _ _))
  unfold ExecSpec execute_run
  refine triple_bind (triple_quiet (Q := fun _ => job_ready J) ?_ (fun _ _ h => h)) ?_
  · exact keeps_update (fun w hw => hI _ _ (Step0.statics w _ rfl rfl rfl) hw)
  intro _
  apply triple_bind (triple_getNode _)
  intro e
  split
  · exact triple_undef (fun _ hw => hw.1)
  · rename_i rule _
    apply triple_ite
    · intro _
      refine triple_bind (triple_quiet (Q := fun _ => job_ready J) ?_ (fun _ _ h => h)) ?_
      · exact keeps_modifyNode (fun w hw => hI _ _ (Step0.done_add_one_neg w _ _ _) hw)
      intro _
      split
      · exact triple_undef (fun _ hw => hw.1)
      · exact hfalse _ (write_content_keeps hC hI _ _ _)
    · intro _
      refine triple_bind (triple_quiet (Q := fun _ => job_ready J) ?_ (fun _ _ h => h)) ?_
      · exact execute_stamp_transients_keeps hC hI _ _
      intro _
      dsimp only
      refine triple_bind (triple_quiet (Q := fun _ => job_ready J) ?_ (fun _ _ h => h)) ?_
      · exact keeps_modifyNode (fun w hw => hI _ _
          (Step0.frame w _ _ (fun _ => ⟨rfl, rfl, rfl⟩)) hw)
      intro _
      apply triple_ite
      · intro _
        exact triple_undef (fun _ hw => hw.1)
      · intro _
        apply triple_bind triple_get
        intro w0
        dsimp only
        refine triple_bind (R := fun _ w => job_ready J w ∧
          (env.job_start w0 self < 0 ∨
            amap_find w.executions_by_pid (env.job_start w0 self) = none)) ?_ ?_
        · refine triple_update _ ?_
          intro w hw
          refine ⟨hI _ _ (Step0.statics w _ rfl rfl rfl) hw.1, ?_⟩
          have h := hfresh w0 self
          rw [hw.2] at h
          rw [hw.2]
          exact h
        intro _
        apply triple_ite
        · intro _
          refine triple_weaken (P := job_ready J) ?_ (fun w hw => hw.1)
            (fun _ _ h => h) (fun _ h => h)
          refine exec_quiet ?_
          repeat' first
            | intro _
            | exact keeps_pure _ _
            | exact keeps_get _
            | exact keeps_getNode _ _
            | exact keeps_throw _ _
            | exact keeps_exit _ _
            | exact keeps_undef _
            | exact keeps_timeout _
            | exact keeps_modifyNode (fun w hw => hI _ _ (Step0.frame w _ _ (fun _ => ⟨rfl, rfl, rfl⟩)) hw)
            | exact keeps_modifyNode (fun w hw => hI _ _ (Step0.done_add_neg w _ _ _) hw)
            | exact keeps_modifyNode (fun w hw => hI _ _ (Step0.done_add_highest_neg w _ _ _) hw)
            | exact keeps_modifyNode (fun w hw => hI _ _ (Step0.done_add_one_neg w _ _ _) hw)
            | exact keeps_modifyNode (fun w hw => hI _ _ (Step0.error_or w _ _ hC.1) hw)
            | exact keeps_update (fun w hw => hI _ _ (Step0.statics w _ rfl rfl rfl) hw)
            | exact raise_keeps hI _ _ _ hC.1
            | exact keeps_modifyNode (fun w hw => hI _ _ (Step0.done_add_neg w _ _ _) hw)
            | apply keeps_for_each
            | apply keeps_tryCatch
            | apply keeps_bind
            | apply keeps_ite
            | split
            | dsimp only
        · intro hpid
          refine triple_bind (R := fun _ w => job_ready J w ∧
            amap_find w.executions_by_pid (env.job_start w0 self) = none) ?_ ?_
          · refine triple_modifyNode _ _ ?_
            intro w hw
            refine ⟨hI _ _ (Step0.frame w _ _ (fun _ => ⟨rfl, rfl, rfl⟩)) hw.1, ?_⟩
            cases hw.2 with
            | inl h => exact absurd h hpid
            | inr h => exact h
          intro _
          refine triple_bind (R := fun _ w => job_budget J { w with jobs := w.jobs - 1 })
            ?_ ?_
          · refine triple_update _ ?_
            intro w hw
            exact job_budget_spawn _ self hw.1 hw.2
          intro _
          refine triple_bind (R := fun _ w => job_budget J w) ?_ ?_
          · exact triple_update _ (fun w hw => hw)
          intro _
          apply triple_bind triple_get
          intro w1
          apply triple_ite
          · intro _
            refine triple_pure _ (fun w hw => ⟨hw.1, fun h => ⟨hw.1, ?_⟩⟩)
            have h2 := of_decide_eq_true h
            rw [← hw.2]
            omega
          · intro _
            exact triple_pure _ (fun w hw => ⟨hw.1, fun h => Bool.noConfusion h⟩)
theorem done_return_spec (J : Int) (env : Env) (self : Nat) (link : Link) :
    ExecSpec J (or_else (done_return env self link) (pure false)) :=
  or_else_spec
    (phase_quiet (done_return_keeps (C := fun _ => True) ⟨trivial, trivial⟩
      (step0_jobs (job_ready_pred J)) env self link))
    (triple_pure _ (fun _ hw => ⟨hw.1, fun h => Bool.noConfusion h⟩))

theorem execute_build_spec (J : Int) (env : Env) (hfresh : env.fresh_pids)
    (deploy_child : Link → M Bool) (hdeploy : ∀ l, ExecSpec J (deploy_child l))
    (fuel self : Nat) (link : Link) :
    ExecSpec J (execute_build env deploy_child fuel self link) := by
  have hC : (fun _ : Nat => True) 1 ∧ (fun _ : Nat => True) 2 := ⟨trivial, trivial⟩
  have hI := step0_jobs (C := fun _ => True) (job_ready_pred J)
  have hpure : ExecSpec J (pure false) :=
    triple_pure _ (fun _ hw => ⟨hw.1, fun h => Bool.noConfusion h⟩)
  unfold execute_build execute_rebuild
  refine triple_bind (triple_getNode _) ?_
  intro e
  refine triple_ite (fun _ => hpure) (fun _ => ?_)
  refine triple_ite (fun _ => done_return_spec J env self link) (fun _ => ?_)
  refine triple_ite (fun _ => done_return_spec J env self link) (fun _ => ?_)
  refine triple_ite (fun _ => hpure) (fun _ => ?_)
  dsimp only
  refine or_else_spec (phase_quiet (execute_probe_keeps hC hI _ _ _ _)) ?_
  refine triple_bind (triple_quiet (Q := fun _ => job_ready J)
    (execute_transients_keeps hC hI _ _) (fun _ _ h => h)) ?_
  intro _
  refine triple_bind (triple_getNode _) ?_
  intro e1
  refine triple_ite (fun _ => done_return_spec J env self link) (fun _ => ?_)
  refine or_else_spec (execute_pass2_spec J deploy_child hdeploy self fuel) ?_
  refine triple_ite (fun _ => done_return_spec J env self link) (fun _ => ?_)
  refine triple_ite (fun _ => triple_exit _ (fun _ hw => hw.1)) (fun _ => ?_)
  exact execute_run_spec J env hfresh self link

theorem execute_body_spec (J : Int) (env : Env) (hfresh : env.fresh_pids)
    (execute : ExecuteFn) (hexec : ∀ child parent link, ExecSpec J (execute child parent link))
    (fuel self : Nat) (parent : Option Nat) (link0 : Link) :
    ExecSpec J (execute_body env execute fuel self parent link0) := by
  have hC : (fun _ : Nat => True) 1 ∧ (fun _ : Nat => True) 2 := ⟨trivial, trivial⟩
  have hI := step0_jobs (C := fun _ => True) (job_ready_pred J)
  have hpure : ExecSpec J (pure false) :=
    triple_pure _ (fun _ hw => ⟨hw.1, fun h => Bool.noConfusion h⟩)
  have hnone : PhaseSpec J (pure none) :=
    triple_pure _ (fun _ hw => ⟨hw.1, fun _ => hw⟩)
  unfold execute_body
  dsimp only
  refine triple_bind (triple_getNode _) ?_
  intro e
  refine triple_ite (fun _ => hpure) (fun _ => ?_)
  refine or_else_spec ?_ ?_
  · exact triple_ite (fun _ => execute_continue_spec J env execute hexec self _)
      (fun _ => hnone)
  refine or_else_spec (phase_quiet (execute_optional_keeps hC hI _ _ _)) ?_
  refine triple_ite (fun _ => done_return_spec J env self _) (fun _ => ?_)
  refine or_else_spec (execute_pass1_spec J env _
    (fun l => deploy_spec J env execute hexec fuel self _ l) self fuel) ?_
  refine or_else_spec ?_ ?_
  · exact triple_ite (fun _ => execute_continue_spec J env execute hexec self _)
      (fun _ => hnone)
  exact execute_build_spec J env hfresh _
    (fun l => deploy_spec J env execute hexec fuel self _ l) fuel self _

theorem execute_spec (J : Int) (env : Env) (hfresh : env.fresh_pids) (fuel : Nat) :
    ∀ self parent link, ExecSpec J (execute env fuel self parent link) := by
  induction fuel with
  | zero =>
    intro self parent link
    exact triple_timeout (fun _ hw => hw.1)
  | succ n ih =>
    intro self parent link
    exact execute_body_spec J env hfresh (execute env n) ih n self parent link
theorem amap_erase_absent {κ ν : Type} [DecidableEq κ] (m : List (κ × ν)) (k : κ)
    (h : k ∉ m.map Prod.fst) : amap_erase m k = m := by
  unfold amap_erase
  rw [List.filter_eq_self]
  intro p hp
  apply decide_eq_true
  intro hk
  exact h (List.mem_map.mpr ⟨p, hp, hk⟩)

theorem amap_erase_length {κ ν : Type} [DecidableEq κ] (m : List (κ × ν)) (k : κ) (v : ν)
    (hnd : (m.map Prod.fst).Nodup) (h : amap_find m k = some v) :
    (amap_erase m k).length + 1 = m.length := by
  induction m with
  | nil => exact Option.noConfusion h
  | cons p rest ih =>
    obtain ⟨k1, v1⟩ := p
    rw [List.map_cons, List.nodup_cons] at hnd
    unfold amap_find at h
    by_cases hk : k1 = k
    · have h1 : amap_erase ((k1, v1) :: rest) k = amap_erase rest k := by
        unfold amap_erase
        rw [List.filter_cons_of_neg]
        simp [hk]
      rw [h1, amap_erase_absent rest k (by rw [← hk]; exact hnd.1)]
      rfl
    · rw [if_neg hk] at h
      have h1 : amap_erase ((k1, v1) :: rest) k = (k1, v1) :: amap_erase rest k := by
        unfold amap_erase
        rw [List.filter_cons_of_pos]
        simp [hk]
      rw [h1, List.length_cons, List.length_cons, ih hnd.2 h]

theorem amap_erase_nodup {κ ν : Type} [DecidableEq κ] (m : List (κ × ν)) (k : κ)
    (hnd : (m.map Prod.fst).Nodup) : ((amap_erase m k).map Prod.fst).Nodup :=
  List.Nodup.sublist (List.Sublist.map _ (List.filter_sublist _)) hnd

theorem job_budget_reap {J : Int} {w : World} (pid : Int) (execution : Nat)
    (hw : job_budget J w) (h : amap_find w.executions_by_pid pid = some execution) :
    job_budget (J - 1)
      { w with executions_by_pid := amap_erase w.executions_by_pid pid } := by
  obtain ⟨h0, hsum, hnd⟩ := hw
  have hlen := amap_erase_length _ _ _ hnd h
  refine ⟨h0, ?_, amap_erase_nodup _ _ hnd⟩
  dsimp only
  omega

theorem waited_spec (J : Int) (env : Env) (self : Nat) (pid status : Int) (execution : Nat) :
    Triple (fun w => job_budget J w ∧ amap_find w.executions_by_pid pid = some execution)
      (waited env self pid status) (fun _ w => job_budget (J - 1) w) (job_budget (J - 1)) := by
  have hC : (fun _ : Nat => True) 1 ∧ (fun _ : Nat => True) 2 := ⟨trivial, trivial⟩
  have hP : JobsPred (fun w => job_budget J w ∧
      amap_find w.executions_by_pid pid = some execution) := by
    intro w w1 hj hp h
    refine ⟨job_budget_pred J w w1 hj hp h.1, ?_⟩
    rw [hp]
    exact h.2
  have hI0 := step0_jobs (C := fun _ => True) hP
  have hI := step0_jobs (C := fun _ => True) (job_budget_pred (J - 1))
  unfold waited
  refine triple_bind (R := fun _ w => job_budget J w ∧
    amap_find w.executions_by_pid pid = some execution) ?_ ?_
  · exact triple_modifyNode _ _ (fun w hw => hI0 _ _ (Step0.done_add_one_neg w _ _ _) hw)
  intro _
  refine triple_bind (R := fun _ w => job_budget (J - 1) w) ?_ ?_
  · exact triple_update _ (fun w hw => job_budget_reap pid execution hw.1 hw.2)
  intro _
  refine triple_of_keeps ?_ (fun _ _ h => h) (fun _ h => h)
  repeat' first
    | intro _
    | exact keeps_pure _ _
    | exact keeps_get _
    | exact keeps_getNode _ _
    | exact keeps_throw _ _
    | exact keeps_exit _ _
    | exact keeps_undef _
    | exact keeps_timeout _
    | exact keeps_modifyNode (fun w hw => hI _ _ (Step0.frame w _ _ (fun _ => ⟨rfl, rfl, rfl⟩)) hw)
    | exact keeps_modifyNode (fun w hw => hI _ _ (Step0.done_add_neg w _ _ _) hw)
    | exact keeps_modifyNode (fun w hw => hI _ _ (Step0.done_add_highest_neg w _ _ _) hw)
    | exact keeps_modifyNode (fun w hw => hI _ _ (Step0.done_add_one_neg w _ _ _) hw)
    | exact keeps_modifyNode (fun w hw => hI _ _ (Step0.error_or w _ _ hC.1) hw)
    | exact keeps_update (fun w hw => hI _ _ (Step0.statics w _ rfl rfl rfl) hw)
    | exact raise_keeps hI _ _ _ hC.1
    | exact remove_if_existing_keeps hC hI _ _ _
    | exact waited_target_keeps hC hI _ _ _
    | apply keeps_for_each
    | apply keeps_tryCatch
    | apply keeps_bind
    | apply keeps_ite
    | split
    | dsimp only

theorem wait_spec (J : Int) (env : Env) (hwait : env.wait_registered) :
    Triple (fun w => job_budget J w ∧ w.executions_by_pid ≠ []) (wait env)
      (fun _ w => job_ready J w) (job_budget (J - 1)) := by
  unfold wait
  apply triple_bind triple_get
  intro w0
  dsimp only
  refine triple_bind (R := fun _ w => job_budget J w ∧
    amap_has w.executions_by_pid (env.job_wait w0).1 = true) ?_ ?_
  · refine triple_update _ ?_
    intro w hw
    refine ⟨job_budget_pred J w _ rfl rfl hw.1.1, ?_⟩
    rw [hw.2]
    exact hwait w hw.1.2
  intro _
  apply triple_bind triple_get
  intro w1
  cases hfind : amap_find w1.executions_by_pid (env.job_wait w0).1 with
  | none =>
    refine ⟨fun w hw => ?_⟩
    have h := hw.1.2
    rw [← hw.2] at h
    unfold amap_has at h
    rw [hfind] at h
    exact Bool.noConfusion h
  | some execution =>
    dsimp only
    refine triple_bind (triple_weaken (waited_spec J env execution _ _ execution) ?_
      (fun _ _ h => h) (fun _ h => h)) ?_
    · intro w hw
      refine ⟨hw.1.1, ?_⟩
      rw [← hw.2]
      exact hfind
    · intro _
      refine triple_update _ ?_
      intro w hw
      obtain ⟨h0, hsum, hnd⟩ := hw
      refine ⟨⟨?_, ?_, hnd⟩, ?_⟩
      · dsimp only
        omega
      · dsimp only
        omega
      · dsimp only
        omega
theorem main_execute_spec (J : Int) (env : Env) (hfresh : env.fresh_pids)
    (fuel root : Nat) (link : Link) (n : Nat) :
    Triple (job_ready J) (main_execute env fuel root link n)
      (fun _ w => job_budget J w) (job_budget J) := by
  induction n with
  | zero => exact triple_timeout (fun _ hw => hw.1)
  | succ n ih =>
    unfold main_execute
    refine triple_bind (execute_spec J env hfresh fuel root none link) ?_
    intro r
    cases r with
    | true => exact triple_weaken ih (fun w hw => hw.2 rfl) (fun _ _ h => h) (fun _ h => h)
    | false => exact triple_pure _ (fun w hw => hw.1)

theorem main_loop_spec (J : Int) (hJ : 1 ≤ J) (env : Env) (hfresh : env.fresh_pids)
    (hwait : env.wait_registered) (fuel root : Nat) (n : Nat) :
    Triple (job_ready J) (main_loop env fuel root n)
      (fun _ w => job_ready J w) (fun w => job_budget J w ∨ job_budget (J - 1) w) := by
  induction n with
  | zero => exact triple_timeout (fun _ hw => Or.inl hw.1)
  | succ n ih =>
    unfold main_loop
    refine triple_bind (triple_getNode _) ?_
    intro r
    refine triple_ite (fun _ => triple_pure _ (fun _ hw => hw)) (fun _ => ?_)
    refine triple_bind (triple_weaken (main_execute_spec J env hfresh fuel root _ fuel)
      (fun _ hw => hw) (fun _ _ h => h) (fun _ h => Or.inl h)) ?_
    intro _
    refine triple_bind triple_get ?_
    intro w0
    dsimp only
    refine triple_ite (fun hlen => ?_) (fun hlen => ?_)
    · refine triple_bind (R := fun _ w => job_ready J w) ?_ (fun _ => ih)
      refine triple_weaken (wait_spec J env hwait) ?_ (fun _ _ h => h) (fun _ h => Or.inr h)
      intro w hw
      refine ⟨hw.1, ?_⟩
      rw [← hw.2]
      intro h0
      apply hlen
      rw [h0]
      rfl
    · refine triple_bind (R := fun _ w => job_ready J w) ?_ (fun _ => ih)
      refine triple_pure _ ?_
      intro w hw
      refine ⟨hw.1, ?_⟩
      have hl : w.executions_by_pid.length = 0 := by
        rw [← hw.2]
        exact not_not.mp hlen
      have hsum := hw.1.2.1
      rw [hl] at hsum
      simp only [Nat.cast_zero, add_zero] at hsum
      omega


theorem next_pid_bound (m : List (Int × Nat)) : ∀ p ∈ m, p.1 < next_pid m := by
  induction m with
  | nil => intro p hp; exact absurd hp (List.not_mem_nil p)
  | cons q rest ih =>
    intro p hp
    unfold next_pid at ih ⊢
    rw [List.foldr_cons]
    rcases List.mem_cons.mp hp with h | h
    · rw [h]
      have := le_max_left q.1 (List.foldr (fun p a => max p.1 a) 0 rest)
      omega
    · have h1 := ih p h
      have := le_max_right q.1 (List.foldr (fun p a => max p.1 a) 0 rest)
      omega

theorem amap_find_of_lt (m : List (Int × Nat)) (k : Int) (h : ∀ p ∈ m, p.1 < k) :
    amap_find m k = none := by
  induction m with
  | nil => rfl
  | cons q rest ih =>
    obtain ⟨k1, v1⟩ := q
    unfold amap_find
    have h1 : k1 < k := h (k1, v1) (List.mem_cons_self _ _)
    rw [if_neg (by omega)]
    exact ih (fun p hp => h p (List.mem_cons_of_mem _ hp))

theorem envB_fresh_pids : envB.fresh_pids := by
  intro w i
  right
  exact amap_find_of_lt _ _ (next_pid_bound _)

theorem envB_wait_registered : envB.wait_registered := by
  intro w hne
  unfold envB
  dsimp only
  cases h : w.executions_by_pid with
  | nil => exact absurd h hne
  | cons p rest =>
    obtain ⟨k1, v1⟩ := p
    simp [amap_has, amap_find]

/-- C6, counterexample.  With `-j 1`, keep-going off and the rule
`B: { command }`: the first call of `execute` starts the job and returns
`false` with `jobs = 0` and one entry in `executions_by_pid`; the command fails,
`wait` leaves by the thrown error 1, and then `jobs = 0` with no entry, so
`jobs + |executions_by_pid| = 0`, not `J = 1`. -/
theorem job_budget_broken_by_failed_wait :
    worldB.jobs = 1 ∧ worldB.executions_by_pid = [] ∧
    (execute envB 3 0 none rootLink worldB).1 = Outcome.ret false ∧
    worldB1.jobs = 0 ∧ worldB1.executions_by_pid = [(1, 1)] ∧
    (wait envB worldB1).1 = Outcome.thrown 1 ∧
    (wait envB worldB1).2.jobs = 0 ∧ (wait envB worldB1).2.executions_by_pid = [] ∧
    (wait envB worldB1).2.jobs + (wait envB worldB1).2.executions_by_pid.length ≠ 1 := by
  decide

/-- C6 (amended).  Let `J ≥ 1`, let the spawner return an error or a pid that is
not registered, and let `Job::wait` return a registered pid.  (a) A call of
`execute` from a world where the job budget holds (`jobs ≥ 0`,
`jobs + |executions_by_pid| = J`, distinct pids) and a slot is free ends,
whatever the outcome, in a world where the budget holds, and a slot is free
when it returns `true`.  (b) A call of `wait` from a world where the budget
holds and a job is registered returns in a world where the budget holds and a slot
is free; when it does not return (the error thrown by `waited`), `jobs ≥ 0`
and `jobs + |executions_by_pid| = J - 1`: the pid is erased and `++jobs` is
not reached.  (c) The loop of `main`, entered with the budget and a free
slot, calls `execute` and `wait` only from such worlds, and is left with the
budget for `J`, or after an error with the budget for `J` or for `J - 1`. -/
theorem job_budget_invariant (J : Int) (hJ : 1 ≤ J) (env : Env) (hfresh : env.fresh_pids)
    (hwait : env.wait_registered) (fuel : Nat) :
    (∀ self parent link, Triple (job_ready J) (execute env fuel self parent link)
      (fun r w => job_budget J w ∧ (r = true → job_ready J w)) (job_budget J)) ∧
    Triple (fun w => job_budget J w ∧ w.executions_by_pid ≠ []) (wait env)
      (fun _ w => job_ready J w) (job_budget (J - 1)) ∧
    (∀ root n, Triple (job_ready J) (main_loop env fuel root n)
      (fun _ w => job_ready J w) (fun w => job_budget J w ∨ job_budget (J - 1) w)) :=
  ⟨execute_spec J env hfresh fuel, wait_spec J env hwait,
    main_loop_spec J hJ env hfresh hwait fuel⟩

/-! ### The theorems at concrete inputs -/

theorem envA_parse_codes : envA.parse_codes (fun x => x ≤ 3) := by
  intro w name e h
  rcases h with h | h <;> simp [envA] at h

theorem worldA_error (i : Nat) : (worldA.node i).error ≤ 3 := by
  cases i with
  | zero => decide
  | succ n => exact Nat.zero_le _

theorem raise_spec_witness :
    0 < worldA.nodes.length ∧
    ((raise envA 0 1 worldA).2.node 0).error = (worldA.node 0).error ||| 1 ∧
    (envA.option_keep_going = true → (raise envA 0 1 worldA).1 = Outcome.ret ()) ∧
    (envA.option_keep_going = false →
      (raise envA 0 1 worldA).1 = Outcome.thrown ((worldA.node 0).error ||| 1)) :=
  ⟨by decide, raise_spec envA 0 1 worldA (by decide)⟩

theorem get_execution_cycle_witness :
    get_execution_connect envA targetA linkA 1 worldA2 = (Outcome.ret 1, worldA3) ∧
    find_cycle 3 worldA3 1 1 = some true ∧
    (get_execution envA 3 targetA linkA 1 worldA2).1 = Outcome.ret none ∧
    ((get_execution envA 3 targetA linkA 1 worldA2).2.node 1).error = 2 :=
  ⟨by decide, by decide,
    (get_execution_cycle envA 3 targetA linkA 1 1 worldA2 worldA3 (by decide)
      (by decide)).2.2.2.1 (by decide),
    (get_execution_cycle envA 3 targetA linkA 1 1 worldA2 worldA3 (by decide)
      (by decide)).2.1⟩

theorem error_at_most_three_witness :
    envA.parse_codes (fun x => x ≤ 3) ∧ (∀ i, (worldA.node i).error ≤ 3) ∧
    ((execute envA 3 0 none rootLink worldA).2.node 1).error ≤ 3 ∧
    ((execute envA 3 0 none rootLink worldA).2.node 1).error = 2 :=
  ⟨envA_parse_codes, worldA_error,
    (error_at_most_three envA envA_parse_codes worldA worldA_error).2.2.2.2.1 3 0 none
      rootLink 1,
    by decide⟩

theorem done_only_grows_witness :
    ((worldA1.node 0).done.get 0).testBit 0 = true ∧
    (((execute envA 3 0 none rootLink worldA1).2.node 0).done.get 0).testBit 0 = true :=
  ⟨by decide, (done_only_grows envA worldA1 0 0 0 (by decide)).1 3 0 none rootLink⟩

/-- The job budget on the run of the rule `B: { command }` with `-j 1`. -/
theorem job_budget_invariant_witness :
    ((1 : Int) ≤ 1 ∧ envB.fresh_pids ∧ envB.wait_registered) ∧
    job_ready 1 worldB ∧
    post (fun r w => job_budget 1 w ∧ (r = true → job_ready 1 w)) (job_budget 1)
      (execute envB 3 0 none rootLink worldB) ∧
    post (fun _ w => job_ready 1 w) (job_budget (1 - 1)) (wait envB worldB1) :=
  have hready : job_ready 1 worldB := ⟨⟨by decide, by decide, by decide⟩, by decide⟩
  have hT := job_budget_invariant 1 (by decide) envB envB_fresh_pids envB_wait_registered 3
  have h1 := (hT.1 0 none rootLink).run worldB hready
  ⟨⟨by decide, envB_fresh_pids, envB_wait_registered⟩, hready, h1,
    hT.2.1.run worldB1 ⟨⟨by decide, by decide, by decide⟩, by decide⟩⟩

/-- The variable `f` is bound to the trimmed content of the file `f`. -/
theorem unlink_sets_variable_witness :
    ((16 : Flags) &&& envF.F.F_VARIABLE ≠ 0 ∧ (worldF.node 1).exists_ > 0 ∧
      (∀ w1, envF.read_file w1 targetF.name = some "  hello world\t\n".toList) ∧
      "  hello world\t\n".toList.length < 2 ^ 64 ∧ 0 < worldF.nodes.length ∧
      (unlink envF 0 1 none Stack.empty (some depF) Stack.empty 16 worldF).1 =
        Outcome.ret ()) ∧
    amap_find ((unlink envF 0 1 none Stack.empty (some depF) Stack.empty 16 worldF).2.node
      0).mapping_variable "f" = some "hello world" :=
  ⟨⟨by decide, by decide, fun _ => rfl, by decide, by decide, by decide⟩,
    unlink_sets_variable envF 0 1 none Stack.empty 16 targetF "" true Stack.empty 16
      "  hello world\t\n".toList worldF (by decide) (by decide) (fun _ => rfl) (by decide)
      (by decide) (by decide)⟩

/-! ### Values returned in DFS mode -/

theorem returns_pure {α : Type} {P : α → Prop} (a : α) (h : P a) :
    Returns P (pure a : M α) := by
  constructor
  intro w b hb
  have : a = b := Outcome.ret.inj hb
  rw [← this]
  exact h

theorem returns_of {α β : Type} {P : β → Prop} {Q : α → Prop} {m : M α} {f : α → M β}
    (hm : Returns Q m) (hf : ∀ a, Q a → Returns P (f a)) : Returns P (m >>= f) := by
  constructor
  intro w b hb
  rw [run_bind] at hb
  rcases hmw : m w with ⟨o, w1⟩
  rw [hmw] at hb
  cases o with
  | ret a => exact (hf a (hm.run w a (by rw [hmw]))).run w1 b hb
  | thrown e => exact Outcome.noConfusion hb
  | exited c => exact Outcome.noConfusion hb
  | undef => exact Outcome.noConfusion hb
  | timeout => exact Outcome.noConfusion hb

theorem returns_any {α : Type} (m : M α) : Returns (fun _ => True) m :=
  ⟨fun _ _ _ => trivial⟩

theorem returns_bind {α β : Type} {P : β → Prop} {m : M α} {f : α → M β}
    (hf : ∀ a, Returns P (f a)) : Returns P (m >>= f) :=
  returns_of (returns_any m) (fun a _ => hf a)

theorem returns_ite {α : Type} {P : α → Prop} {c : Prop} [Decidable c] {a b : M α}
    (ha : Returns P a) (hb : Returns P b) : Returns P (if c then a else b) := by
  split
  · exact ha
  · exact hb

theorem returns_throw {α : Type} {P : α → Prop} (e : Nat) : Returns P (M.throw e : M α) :=
  ⟨fun _ _ h => Outcome.noConfusion h⟩

theorem returns_exit {α : Type} {P : α → Prop} (c : Nat) : Returns P (M.exit c : M α) :=
  ⟨fun _ _ h => Outcome.noConfusion h⟩

theorem returns_undef {α : Type} {P : α → Prop} : Returns P (M.undef : M α) :=
  ⟨fun _ _ h => Outcome.noConfusion h⟩

theorem returns_timeout {α : Type} {P : α → Prop} : Returns P (M.timeout : M α) :=
  ⟨fun _ _ h => Outcome.noConfusion h⟩

theorem or_else_returns {phase : M (Option Bool)} {rest : M Bool}
    (h1 : Returns (fun r => r ≠ some true) phase) (h2 : Returns (fun r => r = false) rest) :
    Returns (fun r => r = false) (or_else phase rest) := by
  unfold or_else
  refine returns_of h1 ?_
  intro r hr
  cases r with
  | none => exact h2
  | some b =>
    cases b with
    | true => exact absurd rfl hr
    | false => exact returns_pure _ rfl

theorem done_return_returns (env : Env) (self : Nat) (link : Link) :
    Returns (fun r => r ≠ some true) (done_return env self link) := by
  unfold done_return
  repeat' first
    | intro _
    | exact returns_pure _ rfl
    | exact returns_pure _ (by decide)
    | exact returns_throw _
    | exact returns_exit _
    | exact returns_undef
    | exact returns_timeout
    | apply returns_bind
    | apply returns_ite
    | split
    | dsimp only

theorem execute_optional_returns (env : Env) (self : Nat) (link : Link) :
    Returns (fun r => r ≠ some true) (execute_optional env self link) := by
  unfold execute_optional
  repeat' first
    | intro _
    | exact returns_pure _ rfl
    | exact returns_pure _ (by decide)
    | exact returns_throw _
    | exact returns_exit _
    | exact returns_undef
    | exact returns_timeout
    | apply returns_bind
    | apply returns_ite
    | split
    | dsimp only

theorem execute_probe_target_returns (env : Env) (self : Nat) (link : Link)
    (no_execution : Bool) (i : Nat) (target : Target) :
    Returns (fun r => r ≠ some true)
      (execute_probe_target env self link no_execution i target) := by
  unfold execute_probe_target
  repeat' first
    | intro _
    | exact returns_pure _ rfl
    | exact returns_pure _ (by decide)
    | exact returns_throw _
    | exact returns_exit _
    | exact returns_undef
    | exact returns_timeout
    | apply returns_bind
    | apply returns_ite
    | split
    | dsimp only

theorem execute_probe_loop_returns (env : Env) (self : Nat) (link : Link)
    (no_execution : Bool) (targets : List Target) :
    ∀ i, Returns (fun r => r ≠ some true)
      (execute_probe_loop env self link no_execution i targets) := by
  induction targets with
  | nil =>
    intro i
    exact returns_pure _ (by decide)
  | cons target rest ih =>
    intro i
    unfold execute_probe_loop
    refine returns_of (execute_probe_target_returns env self link no_execution i target) ?_
    intro r hr
    cases r with
    | none => exact ih _
    | some b => exact returns_pure _ hr

theorem execute_probe_returns (env : Env) (self : Nat) (link : Link) (no_execution : Bool) :
    Returns (fun r => r ≠ some true) (execute_probe env self link no_execution) := by
  unfold execute_probe
  refine returns_bind (fun _ => ?_)
  refine returns_bind (fun e => ?_)
  refine returns_ite ?_ (returns_pure _ (by decide))
  refine returns_bind (fun _ => ?_)
  refine returns_bind (fun _ => ?_)
  refine returns_of (execute_probe_loop_returns env self link no_execution _ 0) ?_
  intro r hr
  cases r with
  | none =>
    dsimp only
    repeat' first
      | intro _
      | exact returns_pure _ rfl
      | exact returns_pure _ (by decide)
      | exact returns_throw _
      | exact returns_exit _
      | exact returns_undef
      | exact returns_timeout
      | apply returns_bind
      | apply returns_ite
      | split
      | dsimp only
  | some b => exact returns_pure _ hr

theorem deploy_returns (env : Env) (execute : ExecuteFn)
    (hexec : ∀ child parent link, Returns (fun r => r = false) (execute child parent link))
    (fuel self : Nat) (link link_child : Link) :
    Returns (fun r => r = false) (deploy env execute fuel self link link_child) := by
  unfold deploy
  split
  · exact returns_undef
  · refine returns_bind (fun e => ?_)
    dsimp only
    split
    · exact returns_undef
    · refine returns_ite ?_ (returns_ite ?_ ?_)
      · exact returns_bind (fun _ => returns_pure _ rfl)
      · exact returns_bind (fun _ => returns_pure _ rfl)
      · refine returns_bind (fun found => ?_)
        split
        · exact returns_pure _ rfl
        · refine returns_bind (fun _ => ?_)
          refine returns_of (hexec _ _ _) ?_
          intro r hr
          rw [hr]
          exact returns_bind (fun _ => returns_pure _ rfl)

theorem execute_children_loop_returns (env : Env) (execute : ExecuteFn)
    (hexec : ∀ child parent link, Returns (fun r => r = false) (execute child parent link))
    (self : Nat) (link : Link) (n : Nat) :
    ∀ v, Returns (fun r => r = -1 ∨ r = 0) (execute_children_loop env execute self link n v) := by
  induction n with
  | zero =>
    intro v
    exact returns_pure _ (Or.inl rfl)
  | succ n ih =>
    intro v
    unfold execute_children_loop
    refine returns_bind (fun w0 => ?_)
    dsimp only
    split
    · exact returns_pure _ (Or.inl rfl)
    · refine returns_bind (fun c => ?_)
      split
      · exact returns_undef
      · refine returns_of (hexec _ _ _) ?_
        intro r hr
        rw [hr]
        refine returns_bind (fun stop => ?_)
        cases stop with
        | true => exact returns_pure _ (Or.inr rfl)
        | false => exact ih _

theorem execute_continue_returns (env : Env) (execute : ExecuteFn)
    (hexec : ∀ child parent link, Returns (fun r => r = false) (execute child parent link))
    (self : Nat) (link : Link) :
    Returns (fun r => r ≠ some true) (execute_continue env execute self link) := by
  unfold execute_continue execute_children
  refine returns_of (Q := fun r => r = -1 ∨ r = 0) ?_ ?_
  · exact returns_bind (fun e => execute_children_loop_returns env execute hexec self link _ _)
  · intro ret hret
    rcases hret with h | h
    · rw [h]
      exact returns_pure _ (by decide)
    · rw [h]
      exact returns_pure _ (by decide)

theorem execute_pass1_returns (env : Env) (deploy_child : Link → M Bool)
    (hdeploy : ∀ l, Returns (fun r => r = false) (deploy_child l)) (self : Nat) (n : Nat) :
    Returns (fun r => r ≠ some true) (execute_pass1 env deploy_child self n) := by
  induction n with
  | zero =>
    unfold execute_pass1
    exact returns_bind (fun e => returns_ite (returns_pure _ (by decide)) returns_timeout)
  | succ n ih =>
    unfold execute_pass1
    refine returns_bind (fun e => ?_)
    split
    · exact returns_pure _ (by decide)
    · refine returns_bind (fun _ => ?_)
      dsimp only
      refine returns_bind (fun _ => ?_)
      refine returns_of (hdeploy _) ?_
      intro r hr
      rw [hr]
      exact returns_bind (fun w => returns_ite (returns_pure _ (by decide)) ih)

theorem execute_pass2_returns (deploy_child : Link → M Bool)
    (hdeploy : ∀ l, Returns (fun r => r = false) (deploy_child l)) (self : Nat) (n : Nat) :
    Returns (fun r => r ≠ some true) (execute_pass2 deploy_child self n) := by
  induction n with
  | zero =>
    unfold execute_pass2
    exact returns_bind (fun e => returns_ite (returns_pure _ (by decide)) returns_timeout)
  | succ n ih =>
    unfold execute_pass2
    refine returns_bind (fun e => ?_)
    split
    · exact returns_pure _ (by decide)
    · refine returns_bind (fun _ => ?_)
      refine returns_of (hdeploy _) ?_
      intro r hr
      rw [hr]
      exact returns_bind (fun w => returns_ite (returns_pure _ (by decide)) ih)

theorem execute_run_returns (env : Env) (horder : env.order_random = false) (self : Nat)
    (link : Link) : Returns (fun r => r = false) (execute_run env self link) := by
  unfold execute_run
  rw [horder]
  repeat' first
    | intro _
    | exact returns_pure _ rfl
    | exact returns_pure _ (by decide)
    | exact returns_throw _
    | exact returns_exit _
    | exact returns_undef
    | exact returns_timeout
    | apply returns_bind
    | apply returns_ite
    | split
    | dsimp only

theorem done_returns (env : Env) (self : Nat) (link : Link) :
    Returns (fun r => r = false) (or_else (done_return env self link) (pure false)) :=
  or_else_returns (done_return_returns env self link) (returns_pure _ rfl)

theorem execute_rebuild_returns (env : Env) (horder : env.order_random = false)
    (deploy_child : Link → M Bool)
    (hdeploy : ∀ l, Returns (fun r => r = false) (deploy_child l))
    (fuel self : Nat) (link : Link) (no_execution : Bool) :
    Returns (fun r => r = false)
      (execute_rebuild env deploy_child fuel self link no_execution) := by
  unfold execute_rebuild
  refine returns_bind (fun e => ?_)
  refine returns_ite (done_returns env self link) ?_
  refine or_else_returns (execute_pass2_returns deploy_child hdeploy self fuel) ?_
  refine returns_ite (done_returns env self link) ?_
  exact returns_ite (returns_exit _) (execute_run_returns env horder self link)

theorem execute_build_returns (env : Env) (horder : env.order_random = false)
    (deploy_child : Link → M Bool)
    (hdeploy : ∀ l, Returns (fun r => r = false) (deploy_child l))
    (fuel self : Nat) (link : Link) :
    Returns (fun r => r = false) (execute_build env deploy_child fuel self link) := by
  unfold execute_build
  refine returns_bind (fun e => ?_)
  refine returns_ite (returns_pure _ rfl) ?_
  refine returns_ite (done_returns env self link) ?_
  refine returns_ite (done_returns env self link) ?_
  refine returns_ite (returns_pure _ rfl) ?_
  dsimp only
  refine or_else_returns (execute_probe_returns env self link _) ?_
  exact returns_bind (fun _ =>
    execute_rebuild_returns env horder deploy_child hdeploy fuel self link _)

theorem execute_body_returns (env : Env) (horder : env.order_random = false)
    (execute : ExecuteFn)
    (hexec : ∀ child parent link, Returns (fun r => r = false) (execute child parent link))
    (fuel self : Nat) (parent : Option Nat) (link0 : Link) :
    Returns (fun r => r = false) (execute_body env execute fuel self parent link0) := by
  unfold execute_body
  dsimp only
  refine returns_bind (fun e => ?_)
  refine returns_ite (returns_pure _ rfl) ?_
  refine or_else_returns ?_ ?_
  · exact returns_ite (execute_continue_returns env execute hexec self _)
      (returns_pure _ (by decide))
  refine or_else_returns (execute_optional_returns env self _) ?_
  refine returns_ite (done_returns env self _) ?_
  refine or_else_returns (execute_pass1_returns env _
    (fun l => deploy_returns env execute hexec fuel self _ l) self fuel) ?_
  refine or_else_returns ?_ ?_
  · exact returns_ite (execute_continue_returns env execute hexec self _)
      (returns_pure _ (by decide))
  exact execute_build_returns env horder _
    (fun l => deploy_returns env execute hexec fuel self _ l) fuel self _

theorem execute_returns (env : Env) (horder : env.order_random = false) (fuel : Nat) :
    ∀ self parent link, Returns (fun r => r = false) (execute env fuel self parent link) := by
  induction fuel with
  | zero =>
    intro self parent link
    exact returns_timeout
  | succ n ih =>
    intro self parent link
    exact execute_body_returns env horder (execute env n) ih n self parent link

/-- C14: when the order is not random (`order_random = false`, the DFS mode),
every call of `execute` that returns returns `false`, every call of `deploy`
that returns returns `false`, and `execute_children` never returns 1.  So
`execute` can return `true` only in random mode. -/
theorem dfs_returns_false (env : Env) (horder : env.order_random = false) (fuel : Nat)
    (self : Nat) (parent : Option Nat) (link link_child : Link) (w : World) :
    (∀ r, (execute env fuel self parent link w).1 = Outcome.ret r → r = false) ∧
    (∀ r, (deploy env (execute env fuel) fuel self link link_child w).1 = Outcome.ret r →
      r = false) ∧
    (∀ r, (execute_children env (execute env fuel) self link w).1 = Outcome.ret r → r ≠ 1) :=
  ⟨fun r h => (execute_returns env horder fuel self parent link).run w r h,
    fun r h => (deploy_returns env (execute env fuel) (execute_returns env horder fuel)
      fuel self link link_child).run w r h,
    fun r h => by
      have h1 := (returns_bind (P := fun r : Int => r = -1 ∨ r = 0) (m := getNode self)
        (fun e => execute_children_loop_returns env (execute env fuel)
          (execute_returns env horder fuel) self link e.children.length e.children)).run w r h
      rcases h1 with h1 | h1
      · rw [h1]; decide
      · rw [h1]; decide⟩

/-! ### The comparison of the probe -/

theorem execute_probe_target_ok (env : Env) (self : Nat) (link : Link) (no_execution : Bool)
    (i : Nat) (target : Target) (w : World) (mtime : Nat)
    (hfile : target.type = TType.FILE) (hstat : env.stat w target.name = Stat.ok mtime) :
    execute_probe_target env self link no_execution i target w =
      (Outcome.ret none,
        if (!(w.node self).need_build && (w.node self).timestamp.defined
            && Timestamp.lt (some mtime) (w.node self).timestamp && !no_execution) = true then
          (w.modify self (fun e => { e with
            timestamps_old := e.timestamps_old.set i (some mtime) })).modify self
              (fun e => { e with need_build := true })
        else
          w.modify self (fun e => { e with
            timestamps_old := e.timestamps_old.set i (some mtime) })) := by
  unfold execute_probe_target
  rw [if_neg (not_not.mpr hfile), run_bind_get]
  simp only [hstat]
  rw [run_bind_modifyNode, run_bind_getNode]
  have hn : (w.modify self (fun e => { e with
      timestamps_old := e.timestamps_old.set i (some mtime) })).node self =
      { w.node self with timestamps_old := (w.node self).timestamps_old.set i (some mtime) } ∨
      (w.modify self (fun e => { e with
      timestamps_old := e.timestamps_old.set i (some mtime) })).node self = w.node self := by
    rw [node_modify]
    by_cases h : self < w.nodes.length
    · left; simp [h]
    · right; simp [h]
  have hnb : ((w.modify self (fun e => { e with
      timestamps_old := e.timestamps_old.set i (some mtime) })).node self).need_build =
      (w.node self).need_build := by
    rcases hn with h | h <;> rw [h]
  have hts : ((w.modify self (fun e => { e with
      timestamps_old := e.timestamps_old.set i (some mtime) })).node self).timestamp =
      (w.node self).timestamp := by
    rcases hn with h | h <;> rw [h]
  rw [hnb, hts]
  split
  · rw [run_bind_modifyNode]
    rfl
  · rfl

/-- C16: in the probe of `execute`, for a file target that exists with
modification time `mtime`, `need_build` after the step is `need_build` before
OR (`timestamp` defined AND `mtime < timestamp` AND not `no_execution`): the
comparison is strict.  When `mtime` equals the node's `timestamp` (a tie),
`need_build` is left as it was; and when the step sets `need_build`, the
target is strictly older than `timestamp`. -/
theorem probe_tie_is_up_to_date (env : Env) (self : Nat) (link : Link) (no_execution : Bool)
    (i : Nat) (target : Target) (w : World) (mtime : Nat)
    (hself : self < w.nodes.length)
    (hfile : target.type = TType.FILE) (hstat : env.stat w target.name = Stat.ok mtime) :
    (((execute_probe_target env self link no_execution i target w).2.node self).need_build =
      ((w.node self).need_build || ((w.node self).timestamp.defined &&
        Timestamp.lt (some mtime) (w.node self).timestamp && !no_execution))) ∧
    ((w.node self).timestamp = some mtime →
      ((execute_probe_target env self link no_execution i target w).2.node self).need_build =
        (w.node self).need_build) ∧
    ((w.node self).need_build = false →
      ((execute_probe_target env self link no_execution i target w).2.node self).need_build =
        true →
      ∃ t, (w.node self).timestamp = some t ∧ mtime < t) := by
  have key : ((execute_probe_target env self link no_execution i target w).2.node
      self).need_build =
      ((w.node self).need_build || ((w.node self).timestamp.defined &&
        Timestamp.lt (some mtime) (w.node self).timestamp && !no_execution)) := by
    rw [execute_probe_target_ok env self link no_execution i target w mtime hfile hstat]
    dsimp only
    split
    · rename_i hc
      rw [node_modify_self _ _ _ (by rw [length_modify]; exact hself)]
      dsimp only
      simp only [Bool.and_eq_true, Bool.not_eq_true'] at hc
      obtain ⟨⟨⟨h1, h2⟩, h3⟩, h4⟩ := hc
      rw [h1, h2, h3, h4]
      rfl
    · rename_i hc
      rw [node_modify_self _ _ _ hself]
      dsimp only
      cases hnb : (w.node self).need_build with
      | true => rfl
      | false =>
        rw [hnb] at hc
        simp only [Bool.not_false, Bool.true_and] at hc
        rw [Bool.false_or]
        exact (Bool.eq_false_iff.mpr hc).symm
  refine ⟨key, ?_, ?_⟩
  · intro htie
    rw [key, htie]
    simp [Timestamp.lt]
  · intro hnb h1
    rw [key, hnb, Bool.false_or] at h1
    simp only [Bool.and_eq_true] at h1
    obtain ⟨⟨_, hlt⟩, _⟩ := h1
    cases hts : (w.node self).timestamp with
    | none =>
      rw [hts] at hlt
      simp [Timestamp.lt] at hlt
    | some t =>
      rw [hts] at hlt
      simp only [Timestamp.lt, decide_eq_true_eq] at hlt
      exact ⟨t, rfl, hlt⟩

/-! ### The two passes -/

theorem execute_pass2_step (d : Link → M Bool) (fuel self : Nat) (w : World)
    (l : Link) (rest : List Link) (h : (w.node self).buf_trivial = l :: rest) :
    execute_pass2 d self (fuel + 1) w =
      (d l >>= fun r =>
        if r then pure (some true)
        else M.get >>= fun w1 =>
          if w1.jobs = 0 then pure (some false) else execute_pass2 d self fuel)
        (w.modify self (fun e => { e with buf_trivial := rest })) := by
  conv_lhs => unfold execute_pass2
  rw [run_bind_getNode]
  simp only [h]
  rfl

theorem execute_rebuild_done (env : Env) (d : Link → M Bool) (fuel self : Nat) (link : Link)
    (no_execution : Bool) (w : World) (h : (w.node self).need_build = false) :
    execute_rebuild env d fuel self link no_execution w =
      (Outcome.ret false,
        w.modify self (fun e => { e with done := e.done.add_neg env.F link.avoid })) := by
  conv_lhs => unfold execute_rebuild
  rw [run_bind_getNode, h]
  rfl

theorem execute_rebuild_pass2 (env : Env) (d : Link → M Bool) (fuel self : Nat) (link : Link)
    (no_execution : Bool) (w : World) (h : (w.node self).need_build = true) :
    execute_rebuild env d fuel self link no_execution w =
      or_else (execute_pass2 d self fuel)
        (if no_execution then or_else (done_return env self link) (pure false)
          else if env.option_question then M.exit ERROR_BUILD
          else execute_run env self link) w := by
  conv_lhs => unfold execute_rebuild
  rw [run_bind_getNode, h]
  rfl

theorem find_cycle_loop_spec (recurse : List Nat → Option Bool) (w : World) (path : List Nat)
    (Q : Nat → Prop) (ps : List (Nat × Link))
    (hrec : ∀ p ∈ ps, (w.node p.1).param_rule ≠ none →
      ∃ b, recurse (path ++ [p.1]) = some b ∧ (b = true ↔ Q p.1)) :
    ∃ b, find_cycle_loop recurse w path ps = some b ∧
      (b = true ↔ ∃ p ∈ ps, (w.node p.1).param_rule ≠ none ∧ Q p.1) := by
  induction ps with
  | nil =>
    refine ⟨false, rfl, ?_⟩
    constructor
    · intro h; exact Bool.noConfusion h
    · rintro ⟨p, hp, _⟩; exact absurd hp (List.not_mem_nil p)
  | cons p rest ih =>
    obtain ⟨next, l⟩ := p
    have ih2 := ih (fun p hp => hrec p (List.mem_cons_of_mem _ hp))
    obtain ⟨b, hb, hiff⟩ := ih2
    unfold find_cycle_loop
    by_cases hnull : (w.node next).param_rule = none
    · rw [if_pos hnull]
      refine ⟨b, hb, ?_⟩
      rw [hiff]
      constructor
      · rintro ⟨p, hp, h⟩
        exact ⟨p, List.mem_cons_of_mem _ hp, h⟩
      · rintro ⟨p, hp, h⟩
        rcases List.mem_cons.mp hp with h1 | h1
        · rw [h1] at h
          exact absurd hnull h.1
        · exact ⟨p, h1, h⟩
    · rw [if_neg hnull]
      obtain ⟨b1, hb1, hiff1⟩ := hrec (next, l) (List.mem_cons_self _ _) hnull
      dsimp only at hb1 hiff1
      rw [hb1]
      cases b1 with
      | true =>
        refine ⟨true, rfl, ?_⟩
        constructor
        · intro _
          exact ⟨(next, l), List.mem_cons_self _ _, hnull, hiff1.mp rfl⟩
        · intro _; rfl
      | false =>
        refine ⟨b, hb, ?_⟩
        rw [hiff]
        constructor
        · rintro ⟨p, hp, h⟩
          exact ⟨p, List.mem_cons_of_mem _ hp, h⟩
        · rintro ⟨p, hp, h⟩
          rcases List.mem_cons.mp hp with h1 | h1
          · rw [h1] at h
            have := hiff1.mpr h.2
            exact Bool.noConfusion this
          · exact ⟨p, h1, h⟩

theorem param_rule_allocated (w : World) (n : Nat) (h : (w.node n).param_rule ≠ none) :
    n < w.nodes.length := by
  by_contra hn
  apply h
  unfold World.node
  rw [List.getD_eq_default _ _ (Nat.le_of_not_lt hn)]
  rfl

theorem chain_nodup (w : World) (hacyc : parents_acyclic w) (path : List Nat)
    (hchain : List.Chain' (parent_edge w) path) : path.Nodup := by
  have h1 : List.Chain' (Relation.TransGen (parent_edge w)) path :=
    hchain.imp (fun _ _ h => Relation.TransGen.single h)
  have h2 : List.Pairwise (Relation.TransGen (parent_edge w)) path :=
    List.chain'_iff_pairwise.mp h1
  unfold List.Nodup
  refine h2.imp ?_
  intro a b h hab
  rw [← hab] at h
  exact hacyc a h

theorem path_length_le (w : World) (path : List Nat) (hnd : path.Nodup)
    (hall : ∀ n ∈ path, n < w.nodes.length) : path.length ≤ w.nodes.length := by
  have hsub : path ⊆ List.range w.nodes.length := by
    intro n hn
    exact List.mem_range.mpr (hall n hn)
  have := (List.subperm_of_subset hnd hsub).length_le
  rw [List.length_range] at this
  exact this

theorem find_cycle_path_spec (w : World) (hacyc : parents_acyclic w) (child : Nat) :
    ∀ fuel path, path ≠ [] → List.Chain' (parent_edge w) path →
      (∀ n ∈ path, (w.node n).param_rule ≠ none) → w.nodes.length - path.length < fuel →
      ∃ b, find_cycle_path w child fuel path = some b ∧
        (b = true ↔ ∃ n, Relation.ReflTransGen (cycle_edge w) (path.getLastD 0) n ∧
          same_rule w n child = true) := by
  intro fuel
  induction fuel with
  | zero =>
    intro path _ _ _ hf
    exact absurd hf (Nat.not_lt_zero _)
  | succ f ih =>
    intro path hne hchain hnonnull hf
    unfold find_cycle_path
    by_cases hsame : same_rule w (path.getLastD 0) child = true
    · rw [if_pos hsame]
      exact ⟨true, rfl, fun _ => ⟨_, Relation.ReflTransGen.refl, hsame⟩, fun _ => rfl⟩
    · rw [if_neg hsame]
      have hlast : path.getLastD 0 ∈ path := by
        rw [List.getLastD_eq_getLast?]
        cases hl : path.getLast? with
        | none => exact absurd (List.getLast?_eq_none_iff.mp hl) hne
        | some x => exact List.mem_of_getLast?_eq_some hl
      have hloop := find_cycle_loop_spec (find_cycle_path w child f) w path
        (fun next => ∃ n, Relation.ReflTransGen (cycle_edge w) next n ∧
          same_rule w n child = true)
        (w.node (path.getLastD 0)).parents ?_
      · obtain ⟨b, hb, hiff⟩ := hloop
        refine ⟨b, hb, ?_⟩
        rw [hiff]
        constructor
        · rintro ⟨p, hp, hnn, n, hreach, hs⟩
          refine ⟨n, Relation.ReflTransGen.head ⟨?_, hnn⟩ hreach, hs⟩
          exact List.mem_map.mpr ⟨p, hp, rfl⟩
        · rintro ⟨n, hreach, hs⟩
          rcases Relation.ReflTransGen.cases_head hreach with h | ⟨c, hedge, hrest⟩
          · rw [← h] at hs
            exact absurd hs hsame
          · obtain ⟨p, hp, hpc⟩ := List.mem_map.mp hedge.1
            refine ⟨p, hp, ?_, n, ?_, hs⟩
            · rw [hpc]; exact hedge.2
            · rw [hpc]; exact hrest
      · intro p hp hnn
        have hedge : parent_edge w (path.getLastD 0) p.1 := List.mem_map.mpr ⟨p, hp, rfl⟩
        have hchain2 : List.Chain' (parent_edge w) (path ++ [p.1]) := by
          apply List.Chain'.append hchain (List.chain'_singleton _)
          intro x hx y hy
          simp only [List.head?_cons, Option.mem_def, Option.some.injEq] at hy
          rw [← hy]
          have : path.getLastD 0 = x := by
            rw [List.getLastD_eq_getLast?]
            rw [Option.mem_def] at hx
            rw [hx]
            rfl
          rw [← this]
          exact hedge
        have hnonnull2 : ∀ n ∈ path ++ [p.1], (w.node n).param_rule ≠ none := by
          intro n hn
          rcases List.mem_append.mp hn with h | h
          · exact hnonnull n h
          · rw [List.mem_singleton.mp h]; exact hnn
        have hlen := path_length_le w (path ++ [p.1]) (chain_nodup w hacyc _ hchain2)
          (fun n hn => param_rule_allocated w n (hnonnull2 n hn))
        rw [List.length_append, List.length_singleton] at hlen
        have := ih (path ++ [p.1]) (by simp) hchain2 hnonnull2
          (by rw [List.length_append, List.length_singleton]; omega)
        rw [List.getLastD_concat] at this
        exact this

/-- C20: when the parents relation has no cycle, `find_cycle(parent, child,
link)` terminates (the recursion needs no more fuel than there are nodes), and
it returns `true` if and only if `parent` and `child` both have a non-null
`param_rule` and some node reachable from `parent` by zero or more parent
back-edges to nodes with a non-null `param_rule` has the `param_rule` and the
dynamic depth of `child`. -/
theorem find_cycle_spec (w : World) (hacyc : parents_acyclic w) (parent child : Nat)
    (fuel : Nat) (hfuel : w.nodes.length ≤ fuel) :
    ∃ b, find_cycle fuel w parent child = some b ∧
      (b = true ↔
        ((w.node parent).param_rule ≠ none ∧ (w.node child).param_rule ≠ none ∧
          ∃ n, Relation.ReflTransGen (cycle_edge w) parent n ∧
            (w.node n).param_rule = (w.node child).param_rule ∧
            (w.node n).get_dynamic_depth = (w.node child).get_dynamic_depth)) := by
  unfold find_cycle
  by_cases hp : (w.node parent).param_rule = none
  · rw [if_pos hp]
    exact ⟨false, rfl, fun h => Bool.noConfusion h, fun h => absurd hp h.1⟩
  · rw [if_neg hp]
    by_cases hc : (w.node child).param_rule = none
    · rw [if_pos hc]
      exact ⟨false, rfl, fun h => Bool.noConfusion h, fun h => absurd hc h.2.1⟩
    · rw [if_neg hc]
      have hlen := param_rule_allocated w parent hp
      obtain ⟨b, hb, hiff⟩ := find_cycle_path_spec w hacyc child fuel [parent] (by simp)
        (List.chain'_singleton _)
        (fun n hn => by rw [List.mem_singleton.mp hn]; exact hp)
        (by rw [List.length_singleton]; omega)
      refine ⟨b, hb, ?_⟩
      rw [hiff]
      have hnn : ∀ n, Relation.ReflTransGen (cycle_edge w) parent n →
          (w.node n).param_rule ≠ none := by
        intro n hreach
        rcases Relation.ReflTransGen.cases_tail hreach with h | ⟨c, _, hedge⟩
        · rw [h]; exact hp
        · exact hedge.2
      constructor
      · rintro ⟨n, hreach, hs⟩
        refine ⟨hp, hc, n, hreach, ?_⟩
        unfold same_rule at hs
        simp only [Bool.and_eq_true, beq_iff_eq] at hs
        exact ⟨hs.2, hs.1.2⟩
      · rintro ⟨_, _, n, hreach, h1, h2⟩
        refine ⟨n, hreach, ?_⟩
        unfold same_rule
        simp only [Bool.and_eq_true, beq_iff_eq, bne_iff_ne, ne_eq]
        exact ⟨⟨⟨hnn n hreach, hc⟩, h2⟩, h1⟩

/-! ### The rule set -/

theorem amap_has_set {κ ν : Type} [DecidableEq κ] (m : List (κ × ν)) (k k2 : κ) (v : ν) :
    amap_has (amap_set m k v) k2 = (decide (k = k2) || amap_has m k2) := by
  unfold amap_has
  induction m with
  | nil =>
    unfold amap_set amap_find
    by_cases h : k = k2
    · simp [h, amap_find]
    · simp [h, amap_find]
  | cons p rest ih =>
    obtain ⟨k1, v1⟩ := p
    unfold amap_set
    by_cases h1 : k1 = k
    · rw [if_pos h1]
      unfold amap_find
      by_cases h : k = k2
      · simp [h, h1]
      · have h3 : ¬ k1 = k2 := by rw [h1]; exact h
        simp [h, h3]
    · rw [if_neg h1]
      unfold amap_find
      by_cases h3 : k1 = k2
      · simp [h3]
      · rw [if_neg h3, if_neg h3]
        exact ih

theorem amap_find_set_ne {κ ν : Type} [DecidableEq κ] (m : List (κ × ν)) (k k2 : κ) (v : ν)
    (h : k ≠ k2) : amap_find (amap_set m k v) k2 = amap_find m k2 := by
  induction m with
  | nil => simp [amap_set, amap_find, h]
  | cons p rest ih =>
    obtain ⟨k1, v1⟩ := p
    unfold amap_set
    by_cases h1 : k1 = k
    · rw [if_pos h1]
      unfold amap_find
      have h3 : ¬ k1 = k2 := by rw [h1]; exact h
      rw [if_neg h, if_neg h3]
    · rw [if_neg h1]
      unfold amap_find
      by_cases h3 : k1 = k2
      · rw [if_pos h3, if_pos h3]
      · rw [if_neg h3, if_neg h3]
        exact ih

namespace Rules

theorem add_outcome (batch : List Rule) : ∀ rs : Rule_Set,
    (Rule_Set.add rs batch).1 = none ∨ (Rule_Set.add rs batch).1 = some ERROR_LOGICAL := by
  induction batch with
  | nil => intro rs; exact Or.inl rfl
  | cons rule rest ih =>
    intro rs
    unfold Rule_Set.add
    split
    · dsimp only
      split
      · exact Or.inr rfl
      · exact ih _
    · exact ih _

theorem add_keeps_entries (batch : List Rule) : ∀ rs : Rule_Set,
    (Rule_Set.add rs batch).1 = none → ∀ k v, amap_find rs.rules_unparametrized k = some v →
      amap_find (Rule_Set.add rs batch).2.rules_unparametrized k = some v := by
  induction batch with
  | nil => intro rs _ k v h; exact h
  | cons rule rest ih =>
    intro rs hno k v h
    unfold Rule_Set.add at hno ⊢
    split
    · rename_i hn
      rw [if_pos hn] at hno
      dsimp only at hno ⊢
      split
      · rename_i hhas
        rw [if_pos hhas] at hno
        exact Option.noConfusion hno
      · rename_i hhas
        rw [if_neg hhas] at hno
        refine ih _ hno k v ?_
        dsimp only
        rw [amap_find_set_ne]
        · exact h
        · intro hk
          apply hhas
          unfold amap_has
          rw [hk, h]
          rfl
    · rename_i hn
      rw [if_neg hn] at hno
      exact ih _ hno k v h

theorem add_stores (batch : List Rule) : ∀ rs : Rule_Set,
    (Rule_Set.add rs batch).1 = none →
      (Rule_Set.add rs batch).2.rules_parametrized =
        rs.rules_parametrized ++
          batch.filter (fun r => decide (r.place_param_target.place_param_name.get_n ≠ 0)) ∧
      ∀ r ∈ batch, r.place_param_target.place_param_name.get_n = 0 →
        amap_find (Rule_Set.add rs batch).2.rules_unparametrized
          r.place_param_target.unparametrized = some r := by
  induction batch with
  | nil =>
    intro rs _
    exact ⟨by simp [Rule_Set.add], fun r hr => absurd hr (List.not_mem_nil r)⟩
  | cons rule rest ih =>
    intro rs hno
    have hkeep := add_keeps_entries rest
    unfold Rule_Set.add at hno ⊢
    by_cases hn : rule.place_param_target.place_param_name.get_n = 0
    · rw [if_pos hn] at hno ⊢
      dsimp only at hno ⊢
      by_cases hhas : amap_has rs.rules_unparametrized rule.place_param_target.unparametrized = true
      · rw [if_pos hhas] at hno
        exact Option.noConfusion hno
      · rw [if_neg hhas] at hno ⊢
        obtain ⟨h1, h2⟩ := ih _ hno
        refine ⟨?_, ?_⟩
        · rw [h1, List.filter_cons_of_neg (by simp [hn])]
        · intro r hr hrn
          rcases List.mem_cons.mp hr with h | h
          · rw [h]
            exact hkeep _ hno _ _ (amap_find_set_self _ _ _)
          · exact h2 r h hrn
    · rw [if_neg hn] at hno ⊢
      obtain ⟨h1, h2⟩ := ih _ hno
      refine ⟨?_, ?_⟩
      · rw [h1, List.filter_cons_of_pos (by simp [hn])]
        simp
      · intro r hr hrn
        rcases List.mem_cons.mp hr with h | h
        · rw [h] at hrn
          exact absurd hrn hn
        · exact h2 r h hrn

theorem add_throws_iff (batch : List Rule) : ∀ rs : Rule_Set,
    (Rule_Set.add rs batch).1 = some ERROR_LOGICAL ↔
      ∃ pre r post, batch = pre ++ r :: post ∧
        r.place_param_target.place_param_name.get_n = 0 ∧
        (amap_has rs.rules_unparametrized r.place_param_target.unparametrized = true ∨
          ∃ r2 ∈ pre, r2.place_param_target.place_param_name.get_n = 0 ∧
            r2.place_param_target.unparametrized = r.place_param_target.unparametrized) := by
  induction batch with
  | nil =>
    intro rs
    constructor
    · intro h
      exact Option.noConfusion h
    · rintro ⟨pre, r, post, h, _⟩
      exact absurd h (by simp)
  | cons rule rest ih =>
    intro rs
    unfold Rule_Set.add
    by_cases hn : rule.place_param_target.place_param_name.get_n = 0
    · rw [if_pos hn]
      dsimp only
      by_cases hhas : amap_has rs.rules_unparametrized rule.place_param_target.unparametrized = true
      · rw [if_pos hhas]
        constructor
        · intro _
          exact ⟨[], rule, rest, rfl, hn, Or.inl hhas⟩
        · intro _
          rfl
      · rw [if_neg hhas, ih]
        dsimp only
        constructor
        · rintro ⟨pre, r, post, hb, hrn, hc⟩
          refine ⟨rule :: pre, r, post, by rw [hb]; rfl, hrn, ?_⟩
          rcases hc with hc | ⟨r2, hr2, h2⟩
          · rw [amap_has_set] at hc
            rcases Bool.or_eq_true _ _ ▸ hc with hc | hc
            · exact Or.inr ⟨rule, List.mem_cons_self _ _, hn, of_decide_eq_true hc⟩
            · exact Or.inl hc
          · exact Or.inr ⟨r2, List.mem_cons_of_mem _ hr2, h2⟩
        · rintro ⟨pre, r, post, hb, hrn, hc⟩
          cases pre with
          | nil =>
            simp only [List.nil_append, List.cons.injEq] at hb
            rcases hc with hc | ⟨r2, hr2, _⟩
            · rw [← hb.1] at hc
              exact absurd hc hhas
            · exact absurd hr2 (List.not_mem_nil r2)
          | cons p0 pre2 =>
            simp only [List.cons_append, List.cons.injEq] at hb
            refine ⟨pre2, r, post, hb.2, hrn, ?_⟩
            rw [amap_has_set]
            rcases hc with hc | ⟨r2, hr2, h2⟩
            · left
              rw [hc]
              simp
            · rcases List.mem_cons.mp hr2 with h | h
              · left
                rw [h, ← hb.1] at h2
                rw [h2.2]
                simp
              · exact Or.inr ⟨r2, h, h2⟩
    · rw [if_neg hn, ih]
      dsimp only
      constructor
      · rintro ⟨pre, r, post, hb, hrn, hc⟩
        refine ⟨rule :: pre, r, post, by rw [hb]; rfl, hrn, ?_⟩
        rcases hc with hc | ⟨r2, hr2, h2⟩
        · exact Or.inl hc
        · exact Or.inr ⟨r2, List.mem_cons_of_mem _ hr2, h2⟩
      · rintro ⟨pre, r, post, hb, hrn, hc⟩
        cases pre with
        | nil =>
          simp only [List.nil_append, List.cons.injEq] at hb
          rw [← hb.1] at hrn
          exact absurd hrn hn
        | cons p0 pre2 =>
          simp only [List.cons_append, List.cons.injEq] at hb
          refine ⟨pre2, r, post, hb.2, hrn, ?_⟩
          rcases hc with hc | ⟨r2, hr2, h2⟩
          · exact Or.inl hc
          · rcases List.mem_cons.mp hr2 with h | h
            · rw [h, ← hb.1] at h2
              exact absurd h2.1 hn
            · exact Or.inr ⟨r2, h, h2⟩

end Rules

namespace Rules

/-- C13: `Rule_Set::add` throws `ERROR_LOGICAL` if and only if some rule of the
batch without parameters has the target of a rule that is already stored in
`rules_unparametrized` or of an earlier rule of the batch without parameters;
it throws nothing else.  When it does not throw, the parametrized rules of the
batch are appended to `rules_parametrized` in the order of the batch, and every
rule of the batch without parameters is stored under its target. -/
theorem add_spec (rs : Rule_Set) (batch : List Rule) :
    ((Rule_Set.add rs batch).1 = some ERROR_LOGICAL ↔
      ∃ pre r post, batch = pre ++ r :: post ∧
        r.place_param_target.place_param_name.get_n = 0 ∧
        (amap_has rs.rules_unparametrized r.place_param_target.unparametrized = true ∨
          ∃ r2 ∈ pre, r2.place_param_target.place_param_name.get_n = 0 ∧
            r2.place_param_target.unparametrized = r.place_param_target.unparametrized)) ∧
    ((Rule_Set.add rs batch).1 = none ∨ (Rule_Set.add rs batch).1 = some ERROR_LOGICAL) ∧
    ((Rule_Set.add rs batch).1 = none →
      (Rule_Set.add rs batch).2.rules_parametrized =
        rs.rules_parametrized ++
          batch.filter (fun r => decide (r.place_param_target.place_param_name.get_n ≠ 0)) ∧
      ∀ r ∈ batch, r.place_param_target.place_param_name.get_n = 0 →
        amap_find (Rule_Set.add rs batch).2.rules_unparametrized
          r.place_param_target.unparametrized = some r) :=
  ⟨add_throws_iff batch rs, add_outcome batch rs, add_stores batch rs⟩

end Rules

namespace Rules

/-- A strict order given as a boolean relation. -/
theorem exists_max_above {β : Type} (d : β → β → Bool) (hirr : ∀ a, d a a = false)
    (htr : ∀ a b c, d a b = true → d b c = true → d a c = true) (l : List β) :
    ∀ c ∈ l, ∃ e ∈ l, (∀ y ∈ l, d y e = false) ∧ (e = c ∨ d e c = true) := by
  induction l with
  | nil => intro c hc; exact absurd hc (List.not_mem_nil c)
  | cons x rest ih =>
    have key : ∀ c ∈ rest, ∃ e ∈ x :: rest,
        (∀ y ∈ x :: rest, d y e = false) ∧ (e = c ∨ d e c = true) := by
      intro c hc
      obtain ⟨e, he, hmax, habove⟩ := ih c hc
      by_cases hxe : d x e = true
      · refine ⟨x, List.mem_cons_self _ _, ?_, Or.inr ?_⟩
        · intro y hy
          rcases List.mem_cons.mp hy with h | h
          · rw [h]; exact hirr x
          · cases hyx : d y x with
            | false => rfl
            | true =>
              have := htr y x e hyx hxe
              rw [hmax y h] at this
              exact Bool.noConfusion this
        · rcases habove with h | h
          · rw [← h]; exact hxe
          · exact htr x e c hxe h
      · refine ⟨e, List.mem_cons_of_mem _ he, ?_, habove⟩
        intro y hy
        rcases List.mem_cons.mp hy with h | h
        · rw [h]
          exact Bool.eq_false_iff.mpr hxe
        · exact hmax y h
    intro c hc
    rcases List.mem_cons.mp hc with h | h
    · by_cases hx : ∀ y ∈ rest, d y x = false
      · refine ⟨x, List.mem_cons_self _ _, ?_, Or.inl h.symm⟩
        intro y hy
        rcases List.mem_cons.mp hy with h2 | h2
        · rw [h2]; exact hirr x
        · exact hx y h2
      · push_neg at hx
        obtain ⟨y, hy, hyx⟩ := hx
        have hyx2 : d y x = true := by
          cases h3 : d y x with
          | false => exact absurd h3 hyx
          | true => rfl
        obtain ⟨e, he, hmax, habove⟩ := key y hy
        refine ⟨e, he, hmax, Or.inr ?_⟩
        rw [h]
        rcases habove with h4 | h4
        · rw [h4]; exact hyx2
        · exact htr e y x h4 hyx2
    · exact key c h

theorem nondominated_append {β : Type} (d : β → β → Bool) (p : List β) (x : β) :
    nondominated d (p ++ [x]) =
      p.filter (fun e => (p ++ [x]).all (fun y => !d y e)) ++
        [x].filter (fun e => (p ++ [x]).all (fun y => !d y e)) := by
  unfold nondominated
  rw [List.filter_append]

theorem nondominated_part_sublist {β : Type} (d : β → β → Bool) (p : List β) (x : β) :
    List.Sublist (p.filter (fun e => (p ++ [x]).all (fun y => !d y e))) (nondominated d p) := by
  unfold nondominated
  apply List.monotone_filter_right
  intro e he
  rw [List.all_append, Bool.and_eq_true] at he
  exact he.1

theorem mem_nondominated {β : Type} (d : β → β → Bool) (l : List β) (e : β) :
    e ∈ nondominated d l ↔ e ∈ l ∧ ∀ y ∈ l, d y e = false := by
  unfold nondominated
  rw [List.mem_filter, List.all_eq_true]
  constructor
  · rintro ⟨h1, h2⟩
    refine ⟨h1, fun y hy => ?_⟩
    have := h2 y hy
    simpa using this
  · rintro ⟨h1, h2⟩
    refine ⟨h1, fun y hy => ?_⟩
    simp [h2 y hy]

theorem bestInv_nil {β : Type} (d : β → β → Bool) : BestInv d [] [] :=
  ⟨List.Sublist.refl _, fun b hb => hb, fun y hy => absurd hy (List.not_mem_nil y),
    fun h => absurd h (by simp)⟩

theorem bestInv_step {β : Type} (d : β → β → Bool) (hirr : ∀ a, d a a = false)
    (htr : ∀ a b c, d a b = true → d b c = true → d a c = true) (p best : List β) (x : β)
    (h : BestInv d p best) : BestInv d (p ++ [x]) (best_step d best x) := by
  have hmemx : ∀ y, y ∈ p ++ [x] ↔ y ∈ p ∨ y = x := by
    intro y
    rw [List.mem_append, List.mem_singleton]
  unfold best_step
  by_cases hany : best.any (fun b => d b x) = true
  · -- a best rule dominates `x`
    rw [if_pos hany]
    rw [List.any_eq_true] at hany
    obtain ⟨z, hz, hzx⟩ := hany
    have hxnot : [x].filter (fun e => (p ++ [x]).all (fun y => !d y e)) = [] := by
      rw [List.filter_eq_nil_iff]
      intro e he
      rw [List.mem_singleton] at he
      rw [he]
      intro hall
      rw [List.all_eq_true] at hall
      have := hall z ((hmemx z).mpr (Or.inl (h.mem z hz)))
      rw [hzx] at this
      exact Bool.noConfusion this
    have hsame : p.filter (fun e => (p ++ [x]).all (fun y => !d y e)) = nondominated d p := by
      unfold nondominated
      apply List.filter_congr
      intro e he
      rw [List.all_append]
      cases hall : p.all (fun y => !d y e) with
      | false => rfl
      | true =>
        rw [Bool.true_and]
        rw [List.all_eq_true] at hall
        have hxe : d x e = false := by
          cases hxe : d x e with
          | false => rfl
          | true =>
            have h1 := htr z x e hzx hxe
            have h2 := hall z (h.mem z hz)
            rw [h1] at h2
            exact Bool.noConfusion h2
        simp [hxe]
    refine ⟨?_, ?_, ?_, ?_⟩
    · rw [nondominated_append, hxnot, List.append_nil, hsame]
      exact h.sub
    · intro b hb
      exact (hmemx b).mpr (Or.inl (h.mem b hb))
    · intro y hy
      rcases (hmemx y).mp hy with hy | hy
      · exact h.cover y hy
      · rw [hy]
        exact Or.inr ⟨z, hz, hzx⟩
    · intro h2
      rw [nondominated_append, hxnot, List.append_nil, hsame]
      exact h.two h2
  · rw [if_neg hany]
    have hnone : ∀ b ∈ best, d b x = false := by
      intro b hb
      cases hbx : d b x with
      | false => rfl
      | true => exact absurd (List.any_eq_true.mpr ⟨b, hb, hbx⟩) hany
    -- `x` is not dominated by a match processed so far
    have hxmax : ∀ y ∈ p ++ [x], d y x = false := by
      intro y hy
      rcases (hmemx y).mp hy with hy | hy
      · rcases h.cover y hy with hb | ⟨z, hz, hzy⟩
        · exact hnone y hb
        · cases hyx : d y x with
          | false => rfl
          | true =>
            have := htr z y x hzy hyx
            rw [hnone z hz] at this
            exact Bool.noConfusion this
      · rw [hy]; exact hirr x
    have hxin : [x].filter (fun e => (p ++ [x]).all (fun y => !d y e)) = [x] := by
      rw [List.filter_eq_self]
      intro e he
      rw [List.mem_singleton] at he
      rw [he, List.all_eq_true]
      intro y hy
      simp [hxmax y hy]
    by_cases hall : best.all (fun b => d x b) = true
    · -- `x` dominates all best rules
      rw [if_pos hall]
      rw [List.all_eq_true] at hall
      have hpart : p.filter (fun e => (p ++ [x]).all (fun y => !d y e)) = [] := by
        rw [List.filter_eq_nil_iff]
        intro e he hc
        rw [List.all_eq_true] at hc
        have hmax : e ∈ nondominated d p := by
          rw [mem_nondominated]
          refine ⟨he, fun y hy => ?_⟩
          have := hc y ((hmemx y).mpr (Or.inl hy))
          simpa using this
        have hb := h.sub.subset hmax
        have h1 := hall e hb
        have h2 := hc x ((hmemx x).mpr (Or.inr rfl))
        rw [h1] at h2
        exact Bool.noConfusion h2
      refine ⟨?_, ?_, ?_, ?_⟩
      · rw [nondominated_append, hpart, hxin]
        exact List.Sublist.refl _
      · intro b hb
        rw [List.mem_singleton] at hb
        exact (hmemx b).mpr (Or.inr hb)
      · intro y hy
        rcases (hmemx y).mp hy with hy | hy
        · right
          refine ⟨x, List.mem_singleton.mpr rfl, ?_⟩
          rcases h.cover y hy with hb | ⟨z, hz, hzy⟩
          · exact hall y hb
          · exact htr x z y (hall z hz) hzy
        · left
          rw [hy]
          exact List.mem_singleton.mpr rfl
      · intro h2
        exact absurd h2 (by simp)
    · -- `x` is added after the best rules
      rw [if_neg hall]
      have hc : ∃ c ∈ best, d x c = false := by
        by_contra hcon
        push_neg at hcon
        apply hall
        rw [List.all_eq_true]
        intro b hb
        cases hxb : d x b with
        | true => rfl
        | false => exact absurd hxb (hcon b hb)
      obtain ⟨c, hcb, hxc⟩ := hc
      obtain ⟨e, hep, hemax, heabove⟩ := exists_max_above d hirr htr p c (h.mem c hcb)
      have hxe : d x e = false := by
        cases hxe : d x e with
        | false => rfl
        | true =>
          rcases heabove with h1 | h1
          · rw [h1, hxc] at hxe
            exact Bool.noConfusion hxe
          · have := htr x e c hxe h1
            rw [hxc] at this
            exact Bool.noConfusion this
      have hein : e ∈ p.filter (fun e => (p ++ [x]).all (fun y => !d y e)) := by
        rw [List.mem_filter, List.all_eq_true]
        refine ⟨hep, fun y hy => ?_⟩
        rcases (hmemx y).mp hy with hy | hy
        · simp [hemax y hy]
        · rw [hy]
          simp [hxe]
      refine ⟨?_, ?_, ?_, ?_⟩
      · rw [nondominated_append, hxin]
        exact List.Sublist.append ((nondominated_part_sublist d p x).trans h.sub)
          (List.Sublist.refl _)
      · intro b hb
        rcases List.mem_append.mp hb with hb | hb
        · exact (hmemx b).mpr (Or.inl (h.mem b hb))
        · exact (hmemx b).mpr (Or.inr (List.mem_singleton.mp hb))
      · intro y hy
        rcases (hmemx y).mp hy with hy | hy
        · rcases h.cover y hy with hb | ⟨z, hz, hzy⟩
          · exact Or.inl (List.mem_append_left _ hb)
          · exact Or.inr ⟨z, List.mem_append_left _ hz, hzy⟩
        · left
          rw [hy]
          exact List.mem_append_right _ (List.mem_singleton.mpr rfl)
      · intro _
        rw [nondominated_append, hxin, List.length_append, List.length_singleton]
        have := List.length_pos_of_mem hein
        omega

theorem bestInv_foldl {β : Type} (d : β → β → Bool) (hirr : ∀ a, d a a = false)
    (htr : ∀ a b c, d a b = true → d b c = true → d a c = true) (l : List β) :
    ∀ p best, BestInv d p best → BestInv d (p ++ l) (l.foldl (best_step d) best) := by
  induction l with
  | nil =>
    intro p best h
    rw [List.append_nil]
    exact h
  | cons x rest ih =>
    intro p best h
    have := ih (p ++ [x]) (best_step d best x) (bestInv_step d hirr htr p best x h)
    rw [List.append_assoc] at this
    exact this

theorem get_loop_eq_foldl (ops : NameOps) (target : Target) (rules : List Rule) :
    ∀ best, Rule_Set.get_loop ops target rules best =
      (matching ops target rules).foldl (best_step (dominates ops)) best := by
  induction rules with
  | nil => intro best; rfl
  | cons i rest ih =>
    intro best
    unfold Rule_Set.get_loop matching
    rw [List.filterMap_cons]
    by_cases ht : target.type = i.place_param_target.type
    · rw [if_neg (not_not.mpr ht), if_pos ht]
      cases hm : ops.name_match i.place_param_target.place_param_name target.name with
      | none =>
        simp only [Option.map_none']
        exact ih best
      | some m =>
        obtain ⟨mapping, anchoring⟩ := m
        simp only [Option.map_some', List.foldl_cons]
        exact ih _
    · rw [if_pos ht, if_neg ht]
      exact ih best

end Rules

namespace Rules

theorem dominates_irrefl (ops : NameOps) (hord : ops.strict_order) (a : Best) :
    dominates ops a a = false := hord.1 _

theorem dominates_trans (ops : NameOps) (hord : ops.strict_order) (a b c : Best)
    (h1 : dominates ops a b = true) (h2 : dominates ops b c = true) :
    dominates ops a c = true := hord.2 _ _ _ h1 h2

theorem nondominated_eq_nil {β : Type} (d : β → β → Bool) (hirr : ∀ a, d a a = false)
    (htr : ∀ a b c, d a b = true → d b c = true → d a c = true) (l : List β) :
    nondominated d l = [] ↔ l = [] := by
  constructor
  · intro h
    cases l with
    | nil => rfl
    | cons x rest =>
      obtain ⟨e, he, hmax, _⟩ := exists_max_above d hirr htr (x :: rest) x
        (List.mem_cons_self _ _)
      have : e ∈ nondominated d (x :: rest) := (mem_nondominated d _ e).mpr ⟨he, hmax⟩
      rw [h] at this
      exact absurd this (List.not_mem_nil e)
  · intro h
    rw [h]
    rfl

/-- C12: for a target without an unparametrized rule, and anchoring dominance
a strict partial order, `Rule_Set::get` is decided by the matching rules (the
parametrized rules of the target's type whose name matches) that no matching
rule dominates.  When there is exactly one, `r`, it returns the instantiation
of `r` with its mapping, and sets `rule_original` to `r` and `mapping_out` to
that mapping; when there are two or more it throws `ERROR_LOGICAL`; when there
is none it returns null and leaves `rule_original` and `mapping_out` as they
were, and this is the case exactly when no rule matches. -/
theorem get_spec (ops : NameOps) (hord : ops.strict_order) (rs : Rule_Set) (target : Target)
    (rule_original : Option Rule) (mapping_out : Mapping)
    (hno : amap_find rs.rules_unparametrized target = none) :
    (Rule_Set.get ops rs target rule_original mapping_out =
      match nondominated (dominates ops) (matching ops target rs.rules_parametrized) with
      | [] => Except.ok (none, rule_original, mapping_out)
      | [b] => Except.ok (some (Rule.instantiate ops b.1 b.2.1), some b.1, b.2.1)
      | _ :: _ :: _ => Except.error ERROR_LOGICAL) ∧
    (nondominated (dominates ops) (matching ops target rs.rules_parametrized) = [] ↔
      matching ops target rs.rules_parametrized = []) := by
  have hirr := dominates_irrefl ops hord
  have htr := dominates_trans ops hord
  refine ⟨?_, nondominated_eq_nil _ hirr htr _⟩
  have inv := bestInv_foldl (dominates ops) hirr htr
    (matching ops target rs.rules_parametrized) [] [] (bestInv_nil _)
  rw [List.nil_append] at inv
  unfold Rule_Set.get
  rw [hno]
  dsimp only
  rw [get_loop_eq_foldl]
  generalize hb : (matching ops target rs.rules_parametrized).foldl
    (best_step (dominates ops)) [] = best at inv
  generalize matching ops target rs.rules_parametrized = ms at inv
  match best, inv with
  | [], inv =>
    have hms : ms = [] := by
      cases ms with
      | nil => rfl
      | cons x rest =>
        rcases inv.cover x (List.mem_cons_self _ _) with h | ⟨z, hz, _⟩
        · exact absurd h (List.not_mem_nil x)
        · exact absurd hz (List.not_mem_nil z)
    rw [hms]
    rfl
  | [b], inv =>
    have hne : nondominated (dominates ops) ms ≠ [] := by
      intro h
      have := (nondominated_eq_nil _ hirr htr ms).mp h
      have hb := inv.mem b (List.mem_singleton.mpr rfl)
      rw [this] at hb
      exact absurd hb (List.not_mem_nil b)
    have hsub := inv.sub
    cases hnd : nondominated (dominates ops) ms with
    | nil => exact absurd hnd hne
    | cons x rest =>
      rw [hnd] at hsub
      have hlen := hsub.length_le
      cases rest with
      | nil =>
        have hx : x = b := by
          have := hsub.subset (List.mem_singleton.mpr rfl)
          exact List.mem_singleton.mp this
        rw [hx]
      | cons y rest2 =>
        simp only [List.length_cons, List.length_nil] at hlen
        omega
  | b1 :: b2 :: rest, inv =>
    have h2 := inv.two (by simp)
    cases hnd : nondominated (dominates ops) ms with
    | nil => rw [hnd] at h2; simp at h2
    | cons x r1 =>
      cases r1 with
      | nil => rw [hnd] at h2; simp at h2
      | cons y r2 => rfl

end Rules

/-! ### Flags and places -/

/-- C18, what the code does.  The characters `p`, `o` and `t` are displayed as
themselves, but `flag_get_index` sends `n` to index 7, where `FLAGS_CHARS` holds
`0`, and `0` to index 8, where it holds the terminating NUL: the newline flag is
displayed as `-0 ` and the NUL flag as `-`. -/
theorem flags_chars_mismatch :
    FLAGS_CHARS_at (flag_get_index 'p') = some 'p' ∧
    FLAGS_CHARS_at (flag_get_index 'o') = some 'o' ∧
    FLAGS_CHARS_at (flag_get_index 't') = some 't' ∧
    flag_get_index 'n' = 7 ∧ FLAGS_CHARS_at 7 = some '0' ∧
    flag_get_index '0' = 8 ∧ FLAGS_CHARS_at 8 = some (Char.ofNat 0) ∧
    flags_format (1 <<< flag_get_index 'p') = "-p ".toList ∧
    flags_format (1 <<< flag_get_index 'n') = "-0 ".toList ∧
    flags_format (1 <<< flag_get_index '0') = "-".toList := by
  decide

/-- C19: for a place of type `ARGUMENT`, `as_argv0` returns the empty
string.  For a place of type `INPUT_FILE` it returns a string that does not
begin with a dash: the name, a colon and the line number in decimal, with
`file ` in front exactly when the name begins with a dash.  The name is
`<stdin>` for the empty filename and the filename otherwise (as a C string: up to
its first NUL, if it has one). -/
theorem as_argv0_spec (p : Place) :
    (p.type = PlaceType.ARGUMENT → p.as_argv0 = []) ∧
    (p.type = PlaceType.INPUT_FILE →
      p.as_argv0.head? ≠ some '-' ∧
      p.as_argv0 =
        (if p.get_filename_str.head? = some '-' then "file ".toList else []) ++
          p.get_filename_str ++ ":".toList ++ Nat.toDigits 10 (p.line % 2 ^ 32)) ∧
    (p.text = [] → p.get_filename_str = "<stdin>".toList) ∧
    (p.text ≠ [] → (∀ c ∈ p.text, c ≠ Char.ofNat 0) → p.get_filename_str = p.text) := by
  refine ⟨?_, ?_, ?_, ?_⟩
  · intro h
    unfold Place.as_argv0
    rw [h]
  · intro h
    have heq : p.as_argv0 =
        (if p.get_filename_str.head? = some '-' then "file ".toList else []) ++
          p.get_filename_str ++ ":".toList ++ Nat.toDigits 10 (p.line % 2 ^ 32) := by
      unfold Place.as_argv0 frmt_argv0
      rw [h]
      rfl
    refine ⟨?_, heq⟩
    rw [heq]
    cases hs : p.get_filename_str with
    | nil => simp
    | cons c rest =>
      by_cases hc : c = '-'
      · simp [hc]
      · simp [hc]
  · intro h
    unfold Place.get_filename_str
    rw [if_pos h]
  · intro h hn
    unfold Place.get_filename_str c_str
    rw [if_neg h]
    rw [List.takeWhile_eq_self_iff]
    intro c hc
    simp [hn c hc]

/-! ### Evaluated runs -/

/-- C11, what the code does.  With one job, the rule `A: B2 -t C { command }`,
the files `A` (modification time 10) and `B2` (20) present and `C` absent: the
first call of `execute` probes `A`, stores `timestamps_old = [10]`, sets
`checked`, and returns while the command of `C`, started in the second pass,
runs.  After that command has been waited for, the next call of `execute`
starts the command of `A`; it has run `timestamps_old.assign` again, and the
probe, guarded by `checked`, has not filled it: `timestamps_old = [undefined]`
when the command of `A` starts, although `A` was present.  The command fails
without touching `A` (its modification time is still 10), and
`remove_if_existing` deletes `A`. -/
theorem timestamps_old_lost_on_reentry :
    (execute envC 5 0 none rootLink worldA).1 = Outcome.ret false ∧
    envC.stat worldA "A" = Stat.ok 10 ∧
    (worldC1.node 1).targets = [targetA] ∧
    (worldC1.node 1).timestamps_old = [some 10] ∧
    (worldC1.node 1).checked = true ∧
    (worldC1.node 1).job = Job.fresh ∧
    worldC1.executions_by_pid = [(103, 3)] ∧
    (wait envC worldC1).1 = Outcome.ret () ∧
    (execute envC 5 0 none rootLink worldC2).1 = Outcome.ret false ∧
    (worldC3.node 1).job = Job.started 101 ∧
    worldC3.actions = [Action.start_job 3 [], Action.start_job 1 []] ∧
    envC.stat worldC3 "A" = Stat.ok 10 ∧
    (worldC3.node 1).timestamps_old = [none] ∧
    (wait envC worldC3).1 = Outcome.ret () ∧
    envC.stat worldC3 "A" = Stat.ok 10 ∧
    worldC4.actions =
      [Action.start_job 3 [], Action.start_job 1 [], Action.remove_file "A"] := by
  decide!

/-- C17, what the code does.  The rule set holds `@t: A`, and the execution of
`@t` is constructed for the link of the dependency `-o @t`.  The rule looked up
has the dependency `A` without flags; after the constructor, the dependency `A`
of the node's rule, the same object, has the flag `-o` (bit 2), which
`dep->add_flags(link.avoid.get_lowest())` has ORed into it. -/
theorem constructor_changes_rule_flags :
    envT.rule_set_get targetT = Except.ok (some (ruleT, 9, [])) ∧
    ruleT.dependencies.map Dependency.get_flags = [0] ∧
    (Link.ofDependency stuFlags depT).avoid.get_lowest = 2 ∧
    (Execution.create envT targetT (Link.ofDependency stuFlags depT) 0 worldT).1 =
      Outcome.ret 1 ∧
    (((Execution.create envT targetT (Link.ofDependency stuFlags depT) 0 worldT).2.node
      1).rule.map (fun r => r.dependencies.map Dependency.get_flags)) = some [2] :=
  ⟨rfl, by decide, by decide, by decide, by decide⟩

/-! ### Concrete instances, continued -/

namespace Rules

theorem opsP_strict_order : opsP.strict_order := by
  constructor
  · intro a
    simp [opsP]
  · intro a b c h1 h2
    simp only [opsP, decide_eq_true_eq] at h1 h2 ⊢
    omega

theorem get_spec_witness :
    (opsP.strict_order ∧ amap_find rulesP.rules_unparametrized ⟨TType.FILE, "abc"⟩ = none) ∧
    Rule_Set.get opsP rulesP ⟨TType.FILE, "abc"⟩ none [] =
      Except.ok (some ruleP2, some ruleP2, [("x", "c")]) ∧
    nondominated (dominates opsP) (matching opsP ⟨TType.FILE, "abc"⟩ rulesP.rules_parametrized) =
      [(ruleP2, [("x", "c")], [2])] ∧
    (Rule_Set.get opsP rulesP ⟨TType.FILE, "abc"⟩ none [] =
      match nondominated (dominates opsP)
        (matching opsP ⟨TType.FILE, "abc"⟩ rulesP.rules_parametrized) with
      | [] => Except.ok (none, none, [])
      | [b] => Except.ok (some (Rule.instantiate opsP b.1 b.2.1), some b.1, b.2.1)
      | _ :: _ :: _ => Except.error ERROR_LOGICAL) :=
  ⟨⟨opsP_strict_order, rfl⟩, rfl, by decide,
    (get_spec opsP opsP_strict_order rulesP ⟨TType.FILE, "abc"⟩ none [] rfl).1⟩

end Rules

theorem dfs_returns_false_witness :
    envA.order_random = false ∧
    (execute envA 3 0 none rootLink worldA).1 = Outcome.ret false ∧
    (∀ r, (execute envA 3 0 none rootLink worldA).1 = Outcome.ret r → r = false) :=
  ⟨rfl, by decide, (dfs_returns_false envA rfl 3 0 none rootLink rootLink worldA).1⟩

theorem probe_tie_is_up_to_date_witness :
    (0 < worldTie.nodes.length ∧ targetA.type = TType.FILE ∧
      envC.stat worldTie targetA.name = Stat.ok 10 ∧
      (worldTie.node 0).timestamp = some 10) ∧
    (worldTie.node 0).need_build = false ∧
    ((execute_probe_target envC 0 rootLink false 0 targetA worldTie).2.node 0).need_build =
      (worldTie.node 0).need_build :=
  ⟨⟨by decide, rfl, rfl, rfl⟩, rfl,
    (probe_tie_is_up_to_date envC 0 rootLink false 0 targetA worldTie 10 (by decide) rfl
      rfl).2.1 rfl⟩

theorem as_argv0_spec_witness :
    placeX.type = PlaceType.INPUT_FILE ∧
    placeX.as_argv0 = "file -x:12".toList ∧
    placeX.as_argv0.head? ≠ some '-' ∧
    placeX.as_argv0 =
      (if placeX.get_filename_str.head? = some '-' then "file ".toList else []) ++
        placeX.get_filename_str ++ ":".toList ++ Nat.toDigits 10 (placeX.line % 2 ^ 32) :=
  ⟨rfl, by decide, (as_argv0_spec placeX).2.1 rfl⟩

theorem worldA2_edges (a b : Nat) (h : parent_edge worldA2 a b) : b < a := by
  unfold parent_edge at h
  have hlen : worldA2.nodes.length = 2 := by decide
  match a with
  | 0 =>
    have h0 : (worldA2.node 0).parents = [] := by decide
    rw [h0] at h
    exact absurd h (List.not_mem_nil b)
  | 1 =>
    have h1 : (worldA2.node 1).parents.map Prod.fst = [0] := by decide
    rw [h1] at h
    rw [List.mem_singleton.mp h]
    exact Nat.zero_lt_one
  | n + 2 =>
    have h2 : worldA2.node (n + 2) = Execution.blank := by
      unfold World.node
      rw [List.getD_eq_default _ _ (by rw [hlen]; omega)]
    rw [h2] at h
    exact absurd h (List.not_mem_nil b)

theorem worldA2_acyclic : parents_acyclic worldA2 := by
  intro n h
  have key : ∀ a b, Relation.TransGen (parent_edge worldA2) a b → b < a := by
    intro a b hab
    induction hab with
    | single h1 => exact worldA2_edges _ _ h1
    | tail _ h2 ih => exact Nat.lt_trans (worldA2_edges _ _ h2) ih
  exact Nat.lt_irrefl n (key n n h)

theorem find_cycle_spec_witness :
    (parents_acyclic worldA2 ∧ worldA2.nodes.length ≤ 3) ∧
    find_cycle 3 worldA2 1 1 = some true ∧
    ∃ b, find_cycle 3 worldA2 1 1 = some b ∧
      (b = true ↔
        ((worldA2.node 1).param_rule ≠ none ∧ (worldA2.node 1).param_rule ≠ none ∧
          ∃ n, Relation.ReflTransGen (cycle_edge worldA2) 1 n ∧
            (worldA2.node n).param_rule = (worldA2.node 1).param_rule ∧
            (worldA2.node n).get_dynamic_depth = (worldA2.node 1).get_dynamic_depth)) :=
  ⟨⟨worldA2_acyclic, by decide⟩, by decide,
    find_cycle_spec worldA2 worldA2_acyclic 1 1 3 (by decide)⟩

/-! ### `finished()` and `finished(avoid)` -/

theorem flags_not_lt (f : Flags) : flags_not f < 2 ^ 32 := by
  unfold flags_not
  exact Nat.xor_lt_two_pow (Nat.mod_lt _ (by decide)) (by decide)

theorem and_flags_not_zero (x : Flags) (hx : x < 2 ^ 32) : x &&& flags_not 0 = x := by
  have h : flags_not 0 = 2 ^ 32 - 1 := by decide
  rw [h]
  apply Nat.eq_of_testBit_eq
  intro i
  rw [Nat.testBit_and, Nat.testBit_two_pow_sub_one]
  by_cases hi : i < 32
  · simp [hi]
  · have hlt : x < 2 ^ i :=
      Nat.lt_of_lt_of_le hx (Nat.pow_le_pow_right (by decide) (Nat.le_of_not_lt hi))
    rw [Nat.testBit_lt_two_pow hlt]
    simp

theorem to_do_aggregate_zero (done : Stack) (k n : Nat) :
    to_do_aggregate done (Stack.zero k) n = to_do_aggregate_all done n := by
  induction n with
  | zero => rfl
  | succ n ih =>
    unfold to_do_aggregate to_do_aggregate_all
    rw [ih, Stack.get_zero, and_flags_not_zero _ (flags_not_lt _)]

/-- C21: for every node, `finished()` equals `finished(avoid)` for the stack
`avoid` of the depth of `done` (and of any other depth) whose levels are all
zero. -/
theorem finished_all_eq_finished_zero (F : FlagConsts) (e : Execution) (k : Nat) :
    e.finished_all F = e.finished F (Stack.zero e.done.get_k) ∧
    e.finished_all F = e.finished F (Stack.zero k) := by
  unfold Execution.finished_all Execution.finished finished_stack
  rw [to_do_aggregate_zero, to_do_aggregate_zero]
  exact ⟨rfl, rfl⟩

/-! ### `unlink` -/

theorem node_blank (w : World) (j : Nat) (h : ¬ j < w.nodes.length) :
    w.node j = Execution.blank := by
  unfold World.node
  rw [List.getD_eq_default _ _ (Nat.le_of_not_lt h)]

theorem node_modify_proj {α : Type} (π : Execution → α) (w : World) (i j : Nat)
    (f : Execution → Execution) (hblank : π (f Execution.blank) = π Execution.blank) :
    π ((w.modify i f).node j) = if i = j then π (f (w.node j)) else π (w.node j) := by
  rw [node_modify]
  by_cases hj : j < w.nodes.length
  · by_cases hij : i = j
    · rw [if_pos ⟨hij, hj⟩, if_pos hij]
    · rw [if_neg (fun h => hij h.1), if_neg hij]
  · rw [if_neg (fun h => hj h.2), node_blank w j hj]
    split
    · exact hblank.symm
    · rfl

theorem node_modify_same {α : Type} (π : Execution → α) (w : World) (i j : Nat)
    (f : Execution → Execution) (h : ∀ e, π (f e) = π e) :
    π ((w.modify i f).node j) = π (w.node j) := by
  rw [node_modify]
  split
  · exact h _
  · rfl

/-- The parts of `unlink` before "Propagate attributes", except the propagation
of the timestamp, only change `error`, `buf_default` and `mapping_variable`. -/
theorem unlink_parts_keep {I : World → Prop} (env : Env) (parent child : Nat)
    (dependency_parent : Option Dependency) (avoid_parent : Stack)
    (dependency_child : Option Dependency) (flags_child : Flags)
    (hE : ∀ w i x, I w → I (w.modify i (fun e => { e with error := e.error ||| x })))
    (hB : ∀ w i x, I w →
      I (w.modify i (fun e => { e with buf_default := e.buf_default ++ x })))
    (hS : ∀ w i k v, I w →
      I (w.modify i (fun e => { e with mapping_variable := amap_set e.mapping_variable k v })))
    (hA : ∀ w i m, I w →
      I (w.modify i (fun e => { e with
        mapping_variable := amap_insert_all e.mapping_variable m }))) :
    Keeps I (unlink_read env parent child dependency_parent avoid_parent flags_child) ∧
    Keeps I (unlink_variable env parent child dependency_child flags_child) ∧
    Keeps I (unlink_mapping parent child dependency_child) := by
  refine ⟨?_, ?_, ?_⟩
  · unfold unlink_read
    repeat' first
      | intro _
      | exact keeps_pure _ _
      | exact keeps_getNode _ _
      | exact read_dynamics_keeps_fields _ _ _ _ hE hB
      | apply keeps_bind
      | apply keeps_ite
      | split
      | dsimp only
  · unfold unlink_variable read_variable
    repeat' first
      | intro _
      | exact keeps_pure _ _
      | exact keeps_get _
      | exact keeps_getNode _ _
      | exact keeps_undef _
      | exact keeps_raise _ _ _ (fun w => hE w _ _)
      | exact keeps_modifyNode (fun w => hS w _ _ _)
      | apply keeps_bind
      | apply keeps_ite
      | split
      | dsimp only
  · unfold unlink_mapping
    repeat' first
      | intro _
      | exact keeps_pure _ _
      | exact keeps_getNode _ _
      | exact keeps_modifyNode (fun w => hA w _ _)
      | apply keeps_bind
      | apply keeps_ite
      | split
      | dsimp only

theorem unlink_timestamp_keep {I : World → Prop} (env : Env) (parent child : Nat)
    (flags_child : Flags)
    (hT : ∀ w i t, I w → I (w.modify i (fun e => { e with timestamp := t }))) :
    Keeps I (unlink_timestamp env parent child flags_child) := by
  unfold unlink_timestamp
  repeat' first
    | intro _
    | exact keeps_pure _ _
    | exact keeps_getNode _ _
    | exact keeps_modifyNode (fun w => hT w _ _)
    | apply keeps_bind
    | apply keeps_ite
    | split
    | dsimp only

theorem unlink_attributes_keep {I : World → Prop} (env : Env) (parent child : Nat)
    (flags_child : Flags)
    (hE : ∀ w i x, I w → I (w.modify i (fun e => { e with error := e.error ||| x })))
    (hN : ∀ w i, I w → I (w.modify i (fun e => { e with need_build := true })))
    (hC : ∀ w i c, I w → I (w.modify i (fun e => { e with children := e.children.erase c })))
    (hP : ∀ w i p, I w →
      I (w.modify i (fun e => { e with parents := amap_erase e.parents p }))) :
    Keeps I (unlink_attributes env parent child flags_child) := by
  unfold unlink_attributes
  repeat' first
    | intro _
    | exact keeps_pure _ _
    | exact keeps_getNode _ _
    | exact keeps_modifyNode (fun w => hE w _ _)
    | exact keeps_modifyNode (fun w => hN w _)
    | exact keeps_modifyNode (fun w => hC w _ _)
    | exact keeps_modifyNode (fun w => hP w _ _)
    | apply keeps_bind
    | apply keeps_ite
    | split
    | dsimp only

theorem unlink_attributes_run (env : Env) (parent child : Nat) (flags_child : Flags)
    (w : World) :
    unlink_attributes env parent child flags_child w =
      (Outcome.ret (),
        (((if (w.node child).need_build = true ∧ flags_child &&& env.F.F_EXISTENCE = 0 ∧
              flags_child &&& env.F.F_READ = 0 then
            (w.modify parent (fun e => { e with error := e.error ||| (w.node child).error })).modify
              parent (fun e => { e with need_build := true })
          else
            w.modify parent (fun e => { e with error := e.error ||| (w.node child).error })).modify
          parent (fun e => { e with children := e.children.erase child })).modify
          child (fun e => { e with parents := amap_erase e.parents parent }))) := by
  unfold unlink_attributes
  rw [run_bind_getNode, run_bind_modifyNode]
  split
  · rfl
  · rfl

theorem unlink_timestamp_run (env : Env) (parent child : Nat) (flags_child : Flags)
    (w : World) :
    unlink_timestamp env parent child flags_child w =
      (Outcome.ret (),
        if (flags_child &&& env.F.F_EXISTENCE = 0 ∧ flags_child &&& env.F.F_READ = 0) ∧
            (w.node child).timestamp.defined = true ∧
            ((w.node parent).timestamp.defined = false ∨
              Timestamp.lt (w.node parent).timestamp (w.node child).timestamp = true) then
          w.modify parent (fun e => { e with timestamp := (w.node child).timestamp })
        else w) := by
  unfold unlink_timestamp
  by_cases hc : flags_child &&& env.F.F_EXISTENCE = 0 ∧ flags_child &&& env.F.F_READ = 0
  · rw [if_pos hc, run_bind_getNode, run_bind_getNode]
    cases hcd : (w.node child).timestamp.defined with
    | false => simp [hc]
    | true =>
      cases hpd : (w.node parent).timestamp.defined with
      | false => simp [hc]
      | true =>
        cases hlt : Timestamp.lt (w.node parent).timestamp (w.node child).timestamp with
        | false => simp [hc]
        | true => simp [hc]
  · rw [if_neg hc, if_neg (fun h => hc h.1)]
    rfl

theorem unlink_read_run (env : Env) (parent child : Nat)
    (dependency_parent : Option Dependency) (avoid_parent : Stack) (flags_child : Flags)
    (w : World) :
    unlink_read env parent child dependency_parent avoid_parent flags_child w =
      if flags_child &&& env.F.F_READ ≠ 0 ∧ (w.node child).error = 0 ∧
          (flags_child &&& env.F.F_OPTIONAL = 0 ∨ 0 < (w.node child).exists_) then
        read_dynamics env parent avoid_parent dependency_parent w
      else (Outcome.ret (), w) := by
  unfold unlink_read
  by_cases hr : flags_child &&& env.F.F_READ ≠ 0
  · rw [if_pos hr, run_bind_getNode]
    by_cases he : (w.node child).error = 0
    · by_cases ho : flags_child &&& env.F.F_OPTIONAL = 0
      · simp [hr, he, ho]
      · by_cases hx : 0 < (w.node child).exists_
        · have : ¬ (w.node child).exists_ ≤ 0 := by omega
          simp [hr, he, ho, hx, this]
        · have : (w.node child).exists_ ≤ 0 := by omega
          simp [hr, he, ho, hx, this]
    · simp [hr, he]
  · rw [if_neg hr, if_neg (fun h => hr h.1)]
    rfl

/-- `unlink` is its four propagations, which keep every property `I` that the
changes of `error`, `buf_default`, `mapping_variable` and `timestamp` keep,
followed by `unlink_attributes`, which always returns. -/
theorem unlink_triple {I : World → Prop} (env : Env) (parent child : Nat)
    (dependency_parent : Option Dependency) (avoid_parent : Stack)
    (dependency_child : Option Dependency) (avoid_child : Stack) (flags_child : Flags)
    (hE : ∀ w i x, I w → I (w.modify i (fun e => { e with error := e.error ||| x })))
    (hB : ∀ w i x, I w →
      I (w.modify i (fun e => { e with buf_default := e.buf_default ++ x })))
    (hS : ∀ w i k v, I w →
      I (w.modify i (fun e => { e with mapping_variable := amap_set e.mapping_variable k v })))
    (hA : ∀ w i m, I w →
      I (w.modify i (fun e => { e with
        mapping_variable := amap_insert_all e.mapping_variable m })))
    (hT : ∀ w i t, I w → I (w.modify i (fun e => { e with timestamp := t }))) :
    Triple I
      (unlink env parent child dependency_parent avoid_parent dependency_child avoid_child
        flags_child)
      (fun _ w2 => ∃ w1, I w1 ∧ w2 = (unlink_attributes env parent child flags_child w1).2) I := by
  obtain ⟨h1, h3, h4⟩ := unlink_parts_keep env parent child dependency_parent avoid_parent
    dependency_child flags_child hE hB hS hA
  have h2 := unlink_timestamp_keep env parent child flags_child hT
  unfold unlink
  refine triple_bind (triple_of_keeps h1 (fun _ _ h => h) (fun _ h => h)) (fun _ => ?_)
  refine triple_bind (triple_of_keeps h2 (fun _ _ h => h) (fun _ h => h)) (fun _ => ?_)
  refine triple_bind (triple_of_keeps h3 (fun _ _ h => h) (fun _ h => h)) (fun _ => ?_)
  refine triple_bind (triple_of_keeps h4 (fun _ _ h => h) (fun _ h => h)) (fun _ => ?_)
  constructor
  intro w1 hw1
  unfold post
  rw [unlink_attributes_run]
  exact ⟨w1, hw1, by rw [unlink_attributes_run]⟩

theorem triple_ret {α : Type} {P : World → Prop} {Q : α → World → Prop} {E : World → Prop}
    {m : M α} (h : Triple P m Q E) (w : World) (hw : P w) (a : α)
    (hret : (m w).1 = Outcome.ret a) : Q a (m w).2 := by
  have h1 := h.run w hw
  unfold post at h1
  rw [hret] at h1
  exact h1

theorem triple_not_ret {α : Type} {P : World → Prop} {Q : α → World → Prop}
    {E : World → Prop} {m : M α} (h : Triple P m Q E) (w : World) (hw : P w)
    (hret : ∀ a, (m w).1 ≠ Outcome.ret a) : E (m w).2 := by
  have h1 := h.run w hw
  unfold post at h1
  cases ho : (m w).1 with
  | ret a => exact absurd ho (hret a)
  | thrown e => rw [ho] at h1; exact h1
  | exited c => rw [ho] at h1; exact h1
  | undef => rw [ho] at h1; exact h1
  | timeout => rw [ho] at h1; exact h1

theorem amap_has_erase_self {κ ν : Type} [DecidableEq κ] (m : List (κ × ν)) (k : κ) :
    amap_has (amap_erase m k) k = false := by
  unfold amap_has
  have : amap_find (amap_erase m k) k = none := by
    induction m with
    | nil => rfl
    | cons p rest ih =>
      obtain ⟨k1, v1⟩ := p
      unfold amap_erase at ih ⊢
      by_cases h : k1 = k
      · rw [List.filter_cons_of_neg (by simp [h])]
        exact ih
      · rw [List.filter_cons_of_pos (by simp [h])]
        unfold amap_find
        rw [if_neg h]
        exact ih
  rw [this]
  rfl

theorem amap_find_erase_ne {κ ν : Type} [DecidableEq κ] (m : List (κ × ν)) (k k2 : κ)
    (hne : k2 ≠ k) : amap_find (amap_erase m k) k2 = amap_find m k2 := by
  induction m with
  | nil => rfl
  | cons p rest ih =>
    obtain ⟨k1, v1⟩ := p
    unfold amap_erase at ih ⊢
    by_cases h : k1 = k
    · rw [List.filter_cons_of_neg (by simp [h])]
      rw [ih]
      conv_rhs => unfold amap_find
      rw [if_neg (by rw [h]; exact fun h2 => hne h2.symm)]
    · rw [List.filter_cons_of_pos (by simp [h])]
      unfold amap_find
      by_cases h2 : k1 = k2
      · rw [if_pos h2, if_pos h2]
      · rw [if_neg h2, if_neg h2]
        exact ih

/-- C22: when `unlink(parent, child, ...)` returns, `child` has been erased
from `parent.children` and the key `parent` from `child.parents`, and no other
edge has changed: for every node `j`, `children` is the old set, without
`child` when `j` is the parent, and `parents` is the old map, without the key
`parent` when `j` is the child.  So `child` is no longer in `parent.children`
(a set), every other member is kept, `parent` is no longer a key of
`child.parents`, and every other key keeps its link.  When `unlink` does not
return (an error is thrown while the dynamic dependencies or the variable are
read), no edge has changed. -/
theorem unlink_removes_one_edge (env : Env) (parent child : Nat)
    (dependency_parent : Option Dependency) (avoid_parent : Stack)
    (dependency_child : Option Dependency) (avoid_child : Stack) (flags_child : Flags)
    (w : World) :
    ((unlink env parent child dependency_parent avoid_parent dependency_child avoid_child
        flags_child w).1 = Outcome.ret () →
      (∀ j, ((unlink env parent child dependency_parent avoid_parent dependency_child
            avoid_child flags_child w).2.node j).children =
          (if j = parent then (w.node j).children.erase child else (w.node j).children) ∧
        ((unlink env parent child dependency_parent avoid_parent dependency_child
            avoid_child flags_child w).2.node j).parents =
          (if j = child then amap_erase (w.node j).parents parent else (w.node j).parents)) ∧
      ((w.node parent).children.Nodup →
        child ∉ ((unlink env parent child dependency_parent avoid_parent dependency_child
          avoid_child flags_child w).2.node parent).children) ∧
      (∀ c, c ≠ child →
        (c ∈ ((unlink env parent child dependency_parent avoid_parent dependency_child
          avoid_child flags_child w).2.node parent).children ↔
            c ∈ (w.node parent).children)) ∧
      amap_has ((unlink env parent child dependency_parent avoid_parent dependency_child
        avoid_child flags_child w).2.node child).parents parent = false ∧
      (∀ p, p ≠ parent →
        amap_find ((unlink env parent child dependency_parent avoid_parent dependency_child
          avoid_child flags_child w).2.node child).parents p =
            amap_find (w.node child).parents p)) ∧
    ((unlink env parent child dependency_parent avoid_parent dependency_child avoid_child
        flags_child w).1 ≠ Outcome.ret () →
      ∀ j, ((unlink env parent child dependency_parent avoid_parent dependency_child
            avoid_child flags_child w).2.node j).children = (w.node j).children ∧
        ((unlink env parent child dependency_parent avoid_parent dependency_child
            avoid_child flags_child w).2.node j).parents = (w.node j).parents) := by
  have hmod : ∀ (f : Execution → Execution) (w1 : World) (i : Nat),
      (∀ e, (f e).children = e.children ∧ (f e).parents = e.parents) →
      (∀ j, (w1.node j).children = (w.node j).children ∧
        (w1.node j).parents = (w.node j).parents) →
      ∀ j, ((w1.modify i f).node j).children = (w.node j).children ∧
        ((w1.modify i f).node j).parents = (w.node j).parents := by
    intro f w1 i hf h j
    rw [node_modify_same (fun e => e.children) w1 i j f (fun e => (hf e).1),
      node_modify_same (fun e => e.parents) w1 i j f (fun e => (hf e).2)]
    exact h j
  have ht := unlink_triple (I := fun w1 => ∀ j, (w1.node j).children = (w.node j).children ∧
      (w1.node j).parents = (w.node j).parents) env parent child dependency_parent avoid_parent
    dependency_child avoid_child flags_child
    (fun w1 i x h => hmod _ w1 i (fun _ => ⟨rfl, rfl⟩) h)
    (fun w1 i x h => hmod _ w1 i (fun _ => ⟨rfl, rfl⟩) h)
    (fun w1 i k v h => hmod _ w1 i (fun _ => ⟨rfl, rfl⟩) h)
    (fun w1 i m h => hmod _ w1 i (fun _ => ⟨rfl, rfl⟩) h)
    (fun w1 i t h => hmod _ w1 i (fun _ => ⟨rfl, rfl⟩) h)
  constructor
  · intro hret
    obtain ⟨w1, hw1, heq⟩ := triple_ret ht w (fun j => ⟨rfl, rfl⟩) () hret
    have key : ∀ j, ((unlink env parent child dependency_parent avoid_parent dependency_child
            avoid_child flags_child w).2.node j).children =
          (if j = parent then (w.node j).children.erase child else (w.node j).children) ∧
        ((unlink env parent child dependency_parent avoid_parent dependency_child
            avoid_child flags_child w).2.node j).parents =
          (if j = child then amap_erase (w.node j).parents parent else (w.node j).parents) := by
      intro j
      rw [heq, unlink_attributes_run]
      dsimp only
      have hpre : ∀ (w2 : World), (∀ j, (w2.node j).children = (w.node j).children ∧
          (w2.node j).parents = (w.node j).parents) →
          (((w2.modify parent (fun e => { e with children := e.children.erase child })).modify
            child (fun e => { e with parents := amap_erase e.parents parent })).node j).children =
            (if j = parent then (w.node j).children.erase child else (w.node j).children) ∧
          (((w2.modify parent (fun e => { e with children := e.children.erase child })).modify
            child (fun e => { e with parents := amap_erase e.parents parent })).node j).parents =
            (if j = child then amap_erase (w.node j).parents parent else (w.node j).parents) := by
        intro w2 h2
        constructor
        · rw [node_modify_same (fun e => e.children) _ child j
              (fun e => { e with parents := amap_erase e.parents parent }) (fun _ => rfl),
            node_modify_proj (fun e => e.children) w2 parent j _ rfl]
          dsimp only
          rw [(h2 j).1]
          by_cases hj : j = parent
          · rw [if_pos hj, if_pos hj.symm]
          · rw [if_neg hj, if_neg (fun h => hj h.symm)]
        · rw [node_modify_proj (fun e => e.parents) _ child j _ rfl]
          dsimp only
          rw [node_modify_same (fun e => e.parents) w2 parent j
            (fun e => { e with children := e.children.erase child }) (fun _ => rfl)]
          rw [(h2 j).2]
          by_cases hj : j = child
          · rw [if_pos hj, if_pos hj.symm]
          · rw [if_neg hj, if_neg (fun h => hj h.symm)]
      split
      · refine hpre _ ?_
        apply hmod
        · intro e
          exact ⟨rfl, rfl⟩
        · apply hmod
          · intro e
            exact ⟨rfl, rfl⟩
          · exact hw1
      · refine hpre _ ?_
        apply hmod
        · intro e
          exact ⟨rfl, rfl⟩
        · exact hw1
    refine ⟨key, ?_, ?_, ?_, ?_⟩
    · intro hnd
      rw [(key parent).1, if_pos rfl]
      exact hnd.not_mem_erase
    · intro c hc
      rw [(key parent).1, if_pos rfl]
      exact List.mem_erase_of_ne hc
    · rw [(key child).2, if_pos rfl]
      exact amap_has_erase_self _ _
    · intro p hp
      rw [(key child).2, if_pos rfl]
      exact amap_find_erase_ne _ _ _ hp
  · intro hret
    exact triple_not_ret ht w (fun j => ⟨rfl, rfl⟩) (fun a h => hret h)

theorem Timestamp.later_eq (a b : Timestamp) :
    Timestamp.later a b =
      if b.defined = true ∧ (a.defined = false ∨ Timestamp.lt a b = true) then b else a := by
  cases a with
  | none => cases b <;> simp [Timestamp.later, Timestamp.defined]
  | some x =>
    cases b with
    | none => simp [Timestamp.later, Timestamp.defined]
    | some y =>
      simp only [Timestamp.later, Timestamp.defined, Timestamp.lt, Option.isSome_some,
        true_and, false_or, decide_eq_true_eq, Bool.true_eq_false]
      by_cases h : x < y
      · rw [if_pos h, max_eq_right (Nat.le_of_lt h)]
      · rw [if_neg h, max_eq_left (Nat.le_of_not_lt h)]

theorem Timestamp.later_spec (a b : Timestamp) :
    Timestamp.le a (Timestamp.later a b) ∧ Timestamp.le b (Timestamp.later a b) ∧
      (Timestamp.later a b = a ∨ Timestamp.later a b = b) := by
  cases a with
  | none => cases b <;> simp [Timestamp.later, Timestamp.le]
  | some x =>
    cases b with
    | none => simp [Timestamp.later, Timestamp.le]
    | some y =>
      simp only [Timestamp.later, Timestamp.le, Option.some.injEq]
      refine ⟨le_max_left x y, le_max_right x y, ?_⟩
      rcases le_total x y with h | h
      · right
        exact max_eq_right h
      · left
        exact max_eq_left h

/-- C23: after `unlink` (however it ends), for a parent that is an `Execution`
object: when the flags of the edge contain neither `F_EXISTENCE` nor `F_READ`,
`parent.timestamp` is the later of the old `parent.timestamp` and
`child.timestamp`, an undefined timestamp being earlier than every defined
one; when they contain one of the two, `parent.timestamp` is unchanged.  The
later of two timestamps is one of the two, and neither is later than it. -/
theorem unlink_timestamp_later (env : Env) (parent child : Nat)
    (dependency_parent : Option Dependency) (avoid_parent : Stack)
    (dependency_child : Option Dependency) (avoid_child : Stack) (flags_child : Flags)
    (w : World) (hp : parent < w.nodes.length) :
    ((unlink env parent child dependency_parent avoid_parent dependency_child avoid_child
        flags_child w).2.node parent).timestamp =
      (if flags_child &&& env.F.F_EXISTENCE = 0 ∧ flags_child &&& env.F.F_READ = 0 then
        Timestamp.later (w.node parent).timestamp (w.node child).timestamp
      else (w.node parent).timestamp) ∧
    Timestamp.le (w.node parent).timestamp
      (Timestamp.later (w.node parent).timestamp (w.node child).timestamp) ∧
    Timestamp.le (w.node child).timestamp
      (Timestamp.later (w.node parent).timestamp (w.node child).timestamp) ∧
    (Timestamp.later (w.node parent).timestamp (w.node child).timestamp =
        (w.node parent).timestamp ∨
      Timestamp.later (w.node parent).timestamp (w.node child).timestamp =
        (w.node child).timestamp) := by
  refine ⟨?_, Timestamp.later_spec _ _⟩
  have hkeep : ∀ (t : Timestamp) (f : Execution → Execution) (w1 : World) (i : Nat),
      (∀ e, (f e).timestamp = e.timestamp) → (w1.node parent).timestamp = t →
      ((w1.modify i f).node parent).timestamp = t := by
    intro t f w1 i hf h
    rw [node_modify_same (fun e => e.timestamp) w1 i parent f hf]
    exact h
  have hparts : ∀ t : Timestamp,
      Keeps (fun w1 => (w1.node parent).timestamp = t)
        (unlink_read env parent child dependency_parent avoid_parent flags_child) ∧
      Keeps (fun w1 => (w1.node parent).timestamp = t)
        (unlink_variable env parent child dependency_child flags_child) ∧
      Keeps (fun w1 => (w1.node parent).timestamp = t)
        (unlink_mapping parent child dependency_child) :=
    fun t => unlink_parts_keep env parent child dependency_parent avoid_parent
      dependency_child flags_child
      (fun w1 i x h => hkeep t _ w1 i (fun _ => rfl) h)
      (fun w1 i x h => hkeep t _ w1 i (fun _ => rfl) h)
      (fun w1 i k v h => hkeep t _ w1 i (fun _ => rfl) h)
      (fun w1 i m h => hkeep t _ w1 i (fun _ => rfl) h)
  have hattr : ∀ t : Timestamp,
      Keeps (fun w1 => (w1.node parent).timestamp = t)
        (unlink_attributes env parent child flags_child) :=
    fun t => unlink_attributes_keep env parent child flags_child
      (fun w1 i x h => hkeep t _ w1 i (fun _ => rfl) h)
      (fun w1 i h => hkeep t _ w1 i (fun _ => rfl) h)
      (fun w1 i c h => hkeep t _ w1 i (fun _ => rfl) h)
      (fun w1 i p h => hkeep t _ w1 i (fun _ => rfl) h)
  by_cases hc : flags_child &&& env.F.F_EXISTENCE = 0 ∧ flags_child &&& env.F.F_READ = 0
  · rw [if_pos hc]
    have hrest : Keeps (fun w1 => (w1.node parent).timestamp =
        Timestamp.later (w.node parent).timestamp (w.node child).timestamp)
        (unlink_variable env parent child dependency_child flags_child >>= fun _ =>
          unlink_mapping parent child dependency_child >>= fun _ =>
          unlink_attributes env parent child flags_child) :=
      keeps_bind (hparts _).2.1 (fun _ => keeps_bind (hparts _).2.2 (fun _ => hattr _))
    have hread : unlink_read env parent child dependency_parent avoid_parent flags_child w =
        (Outcome.ret (), w) := by
      rw [unlink_read_run, if_neg (fun h => h.1 hc.2)]
    unfold unlink
    rw [run_bind_ret _ _ w w () hread, run_bind_ret _ _ w _ () (unlink_timestamp_run _ _ _ _ _)]
    refine hrest.run _ ?_
    rw [Timestamp.later_eq]
    by_cases hd : (w.node child).timestamp.defined = true ∧
        ((w.node parent).timestamp.defined = false ∨
          Timestamp.lt (w.node parent).timestamp (w.node child).timestamp = true)
    · rw [if_pos ⟨hc, hd⟩, if_pos hd, node_modify_self _ _ _ hp]
    · rw [if_neg (fun h => hd h.2), if_neg hd]
  · rw [if_neg hc]
    have hts : Keeps (fun w1 => (w1.node parent).timestamp = (w.node parent).timestamp)
        (unlink_timestamp env parent child flags_child) :=
      ⟨fun w1 h => by rw [unlink_timestamp_run, if_neg (fun h => hc h.1)]; exact h⟩
    unfold unlink
    exact (keeps_bind (hparts _).1 (fun _ => keeps_bind hts (fun _ =>
      keeps_bind (hparts _).2.1 (fun _ => keeps_bind (hparts _).2.2 (fun _ => hattr _))))).run
        w rfl

/-- C24: when `unlink` returns, `parent.need_build` is true if and only if it
was true before the call, or `child.need_build` is true and the flags of the
edge contain neither `F_EXISTENCE` nor `F_READ`; and however `unlink` ends, a
`parent.need_build` that was true is still true. -/
theorem unlink_need_build (env : Env) (parent child : Nat)
    (dependency_parent : Option Dependency) (avoid_parent : Stack)
    (dependency_child : Option Dependency) (avoid_child : Stack) (flags_child : Flags)
    (w : World) (hp : parent < w.nodes.length) :
    ((unlink env parent child dependency_parent avoid_parent dependency_child avoid_child
        flags_child w).1 = Outcome.ret () →
      (((unlink env parent child dependency_parent avoid_parent dependency_child avoid_child
          flags_child w).2.node parent).need_build = true ↔
        ((w.node parent).need_build = true ∨
          ((w.node child).need_build = true ∧
            flags_child &&& env.F.F_EXISTENCE = 0 ∧ flags_child &&& env.F.F_READ = 0)))) ∧
    ((w.node parent).need_build = true →
      ((unlink env parent child dependency_parent avoid_parent dependency_child avoid_child
          flags_child w).2.node parent).need_build = true) := by
  have hmod : ∀ (f : Execution → Execution) (w1 : World) (i : Nat),
      (∀ e, (f e).need_build = e.need_build) →
      ((∀ j, (w1.node j).need_build = (w.node j).need_build) ∧
        w1.nodes.length = w.nodes.length) →
      ((∀ j, ((w1.modify i f).node j).need_build = (w.node j).need_build) ∧
        (w1.modify i f).nodes.length = w.nodes.length) := by
    intro f w1 i hf h
    refine ⟨fun j => ?_, by rw [length_modify]; exact h.2⟩
    rw [node_modify_same (fun e => e.need_build) w1 i j f hf]
    exact h.1 j
  have ht := unlink_triple (I := fun w1 => (∀ j, (w1.node j).need_build = (w.node j).need_build) ∧
      w1.nodes.length = w.nodes.length) env parent child dependency_parent avoid_parent
    dependency_child avoid_child flags_child
    (fun w1 i x h => hmod _ w1 i (fun _ => rfl) h)
    (fun w1 i x h => hmod _ w1 i (fun _ => rfl) h)
    (fun w1 i k v h => hmod _ w1 i (fun _ => rfl) h)
    (fun w1 i m h => hmod _ w1 i (fun _ => rfl) h)
    (fun w1 i t h => hmod _ w1 i (fun _ => rfl) h)
  have hret : (unlink env parent child dependency_parent avoid_parent dependency_child
        avoid_child flags_child w).1 = Outcome.ret () →
      ((unlink env parent child dependency_parent avoid_parent dependency_child avoid_child
          flags_child w).2.node parent).need_build =
        if (w.node child).need_build = true ∧
            flags_child &&& env.F.F_EXISTENCE = 0 ∧ flags_child &&& env.F.F_READ = 0 then true
        else (w.node parent).need_build := by
    intro hr
    obtain ⟨w1, hw1, heq⟩ := triple_ret ht w ⟨fun j => rfl, rfl⟩ () hr
    rw [heq, unlink_attributes_run]
    dsimp only
    rw [node_modify_same (fun e => e.need_build) _ child parent
        (fun e => { e with parents := amap_erase e.parents parent }) (fun _ => rfl),
      node_modify_same (fun e => e.need_build) _ parent parent
        (fun e => { e with children := e.children.erase child }) (fun _ => rfl),
      hw1.1 child]
    split
    · rw [node_modify_self _ _ _ (by rw [length_modify, hw1.2]; exact hp)]
    · rw [node_modify_same (fun e => e.need_build) _ parent parent
        (fun e => { e with error := e.error ||| (w1.node child).error }) (fun _ => rfl)]
      exact hw1.1 parent
  constructor
  · intro hr
    rw [hret hr]
    by_cases hc : (w.node child).need_build = true ∧
        flags_child &&& env.F.F_EXISTENCE = 0 ∧ flags_child &&& env.F.F_READ = 0
    · rw [if_pos hc]
      exact ⟨fun _ => Or.inr hc, fun _ => rfl⟩
    · rw [if_neg hc]
      exact ⟨fun h => Or.inl h, fun h => h.elim id (fun h2 => absurd h2 hc)⟩
  · intro hn
    by_cases hr : (unlink env parent child dependency_parent avoid_parent dependency_child
        avoid_child flags_child w).1 = Outcome.ret ()
    · rw [hret hr]
      split
      · rfl
      · exact hn
    · rw [(triple_not_ret ht w ⟨fun j => rfl, rfl⟩ (fun a h => hr h)).1 parent]
      exact hn

/-- C25: `unlink` calls `read_dynamics` on the parent if and only if the flags
of the edge contain `F_READ`, the error of the child is 0, and the edge is not
optional or `child.exists` is +1.  Under the condition `unlink` is
`read_dynamics(avoid_parent, dependency_parent)` on the parent followed by the
other propagations; otherwise it is the other propagations alone, and its
result does not depend on what the parser of dynamic dependencies would
return. -/
theorem unlink_reads_dynamics (env : Env) (parent child : Nat)
    (dependency_parent : Option Dependency) (avoid_parent : Stack)
    (dependency_child : Option Dependency) (avoid_child : Stack) (flags_child : Flags)
    (w : World)
    (hx : (w.node child).exists_ = -1 ∨ (w.node child).exists_ = 0 ∨
      (w.node child).exists_ = 1) :
    ((flags_child &&& env.F.F_READ ≠ 0 ∧ (w.node child).error = 0 ∧
        (flags_child &&& env.F.F_OPTIONAL = 0 ∨ (w.node child).exists_ = 1)) →
      unlink env parent child dependency_parent avoid_parent dependency_child avoid_child
          flags_child w =
        (read_dynamics env parent avoid_parent dependency_parent >>= fun _ =>
          unlink_timestamp env parent child flags_child >>= fun _ =>
          unlink_variable env parent child dependency_child flags_child >>= fun _ =>
          unlink_mapping parent child dependency_child >>= fun _ =>
          unlink_attributes env parent child flags_child) w) ∧
    (¬ (flags_child &&& env.F.F_READ ≠ 0 ∧ (w.node child).error = 0 ∧
        (flags_child &&& env.F.F_OPTIONAL = 0 ∨ (w.node child).exists_ = 1)) →
      unlink env parent child dependency_parent avoid_parent dependency_child avoid_child
          flags_child w =
        (unlink_timestamp env parent child flags_child >>= fun _ =>
          unlink_variable env parent child dependency_child flags_child >>= fun _ =>
          unlink_mapping parent child dependency_child >>= fun _ =>
          unlink_attributes env parent child flags_child) w ∧
      ∀ parse, unlink { env with parse_dynamic := parse } parent child dependency_parent
          avoid_parent dependency_child avoid_child flags_child w =
        unlink env parent child dependency_parent avoid_parent dependency_child avoid_child
          flags_child w) := by
  have hiff : (flags_child &&& env.F.F_READ ≠ 0 ∧ (w.node child).error = 0 ∧
        (flags_child &&& env.F.F_OPTIONAL = 0 ∨ (w.node child).exists_ = 1)) ↔
      (flags_child &&& env.F.F_READ ≠ 0 ∧ (w.node child).error = 0 ∧
        (flags_child &&& env.F.F_OPTIONAL = 0 ∨ 0 < (w.node child).exists_)) := by
    constructor
    · rintro ⟨h1, h2, h3⟩
      exact ⟨h1, h2, h3.imp id (fun h => by omega)⟩
    · rintro ⟨h1, h2, h3⟩
      exact ⟨h1, h2, h3.imp id (fun h => by omega)⟩
  have hno : ∀ env2 : Env, env2.F = env.F →
      ¬ (flags_child &&& env.F.F_READ ≠ 0 ∧ (w.node child).error = 0 ∧
        (flags_child &&& env.F.F_OPTIONAL = 0 ∨ (w.node child).exists_ = 1)) →
      unlink env2 parent child dependency_parent avoid_parent dependency_child avoid_child
          flags_child w =
        (unlink_timestamp env2 parent child flags_child >>= fun _ =>
          unlink_variable env2 parent child dependency_child flags_child >>= fun _ =>
          unlink_mapping parent child dependency_child >>= fun _ =>
          unlink_attributes env2 parent child flags_child) w := by
    intro env2 hF hc
    have hread : unlink_read env2 parent child dependency_parent avoid_parent flags_child w =
        (Outcome.ret (), w) := by
      rw [unlink_read_run, hF, if_neg (fun h => hc (hiff.2 h))]
    unfold unlink
    rw [run_bind_ret _ _ w w () hread]
  constructor
  · intro hc
    unfold unlink
    rw [run_bind, unlink_read_run, if_pos (hiff.1 hc)]
    rfl
  · intro hc
    refine ⟨hno env rfl hc, fun parse => ?_⟩
    rw [hno env rfl hc, hno { env with parse_dynamic := parse } rfl hc]
    rfl

/-! ### Overriding the trivial flag -/

theorem and_flags_not_and (x t : Flags) : (x &&& flags_not t) &&& t = 0 := by
  apply Nat.eq_of_testBit_eq
  intro i
  unfold flags_not
  rw [Nat.testBit_and, Nat.testBit_and, Nat.testBit_xor, Nat.testBit_mod_two_pow,
    Nat.testBit_two_pow_sub_one, Nat.zero_testBit]
  by_cases hi : i < 32
  · cases t.testBit i <;> simp [hi]
  · simp [hi]

theorem and_flags_not_idem (x t : Flags) : (x &&& flags_not t) &&& flags_not t = x &&& flags_not t := by
  rw [Nat.land_assoc, Nat.and_self]

theorem Stack.rem_highest_get_highest (s : Stack) (t : Flags) :
    (s.rem_highest t).get_highest &&& t = 0 := by
  unfold Stack.rem_highest Stack.get_highest Stack.modifyLevel Stack.get Stack.get_k
  simp only [List.length_modify, List.getD_eq_getElem?_getD, List.getElem?_modify]
  cases h : s.levels[s.levels.length - 1]? with
  | none => simp
  | some x => simp [and_flags_not_and]

theorem Stack.rem_highest_idem (s : Stack) (t : Flags) :
    (s.rem_highest t).rem_highest t = s.rem_highest t := by
  unfold Stack.rem_highest Stack.modifyLevel Stack.get_k
  simp only [List.length_modify]
  congr 1
  apply List.ext_getElem?
  intro i
  simp only [List.getElem?_modify]
  cases h : s.levels[i]? with
  | none => simp
  | some x =>
    by_cases hi : s.levels.length - 1 = i
    · simp [hi, and_flags_not_idem]
    · simp [hi]

/-- C26: when the flags of the incoming link contain `F_OVERRIDETRIVIAL`,
`execute` works with the link `link` whose flags are those of the incoming
link without `F_TRIVIAL` and whose `avoid` has `F_TRIVIAL` removed from its
highest level: the trivial bit is in neither, `finished` is tested with
`link.avoid`, and the test `if (link.flags & F_TRIVIAL)` that marks the node
done and returns is not taken, so `execute` goes from the optional check
straight on to the first pass.  The call behaves as a call with `link`
itself. -/
theorem execute_override_trivial (env : Env) (fuel self : Nat) (parent : Option Nat)
    (link0 link : Link) (h : link0.flags &&& env.F.F_OVERRIDETRIVIAL ≠ 0)
    (hl : link = { link0 with
      flags := link0.flags &&& flags_not env.F.F_TRIVIAL
      avoid := link0.avoid.rem_highest env.F.F_TRIVIAL }) :
    link.flags &&& env.F.F_TRIVIAL = 0 ∧ link.avoid.get_highest &&& env.F.F_TRIVIAL = 0 ∧
    execute env (fuel + 1) self parent link0 =
      (getNode self >>= fun e =>
        if e.finished env.F link.avoid then pure false
        else
          or_else
            (if !env.order_random then execute_continue env (execute env fuel) self link
              else pure none)
            (or_else (execute_optional env self link)
              (or_else
                (execute_pass1 env (deploy env (execute env fuel) fuel self link) self fuel)
                (or_else
                  (if env.order_random then execute_continue env (execute env fuel) self link
                    else pure none)
                  (execute_build env (deploy env (execute env fuel) fuel self link) fuel self
                    link))))) ∧
    execute env (fuel + 1) self parent link0 = execute env (fuel + 1) self parent link := by
  subst hl
  have h1 : (link0.flags &&& flags_not env.F.F_TRIVIAL) &&& env.F.F_TRIVIAL = 0 :=
    and_flags_not_and _ _
  refine ⟨h1, Stack.rem_highest_get_highest _ _, ?_, ?_⟩
  · conv_lhs => unfold execute execute_body
    simp only [if_pos h, h1, ne_eq, not_true_eq_false, if_false]
  · conv_lhs => unfold execute execute_body
    conv_rhs => unfold execute execute_body
    by_cases h3 : (link0.flags &&& flags_not env.F.F_TRIVIAL) &&& env.F.F_OVERRIDETRIVIAL ≠ 0
    · simp only [if_pos h, if_pos h3, h1, and_flags_not_idem, Stack.rem_highest_idem, ne_eq,
        not_true_eq_false, if_false]
    · simp only [if_pos h, if_neg h3, h1, ne_eq, not_true_eq_false, if_false]

/-! ### A node without a rule -/

theorem modify_modify (w : World) (i : Nat) (f g : Execution → Execution) :
    (w.modify i f).modify i g = w.modify i (fun e => g (f e)) := by
  unfold World.modify
  simp only [List.modify_modify_eq]
  rfl

theorem modify_congr (w : World) (i : Nat) (f g : Execution → Execution)
    (h : f (w.node i) = g (w.node i)) : w.modify i f = w.modify i g := by
  unfold World.modify
  congr 1
  apply List.ext_getElem?
  intro j
  rw [List.getElem?_modify, List.getElem?_modify]
  by_cases hj : i = j
  · subst hj
    cases hn : w.nodes[i]? with
    | none => rfl
    | some e =>
      have : w.node i = e := by
        unfold World.node
        rw [List.getD_eq_getElem?_getD, hn]
        rfl
      rw [this] at h
      simp [h]
  · simp [hj]

/-- A node without a rule whose file exists: the probe records the
modification time, and the node is marked done. -/
theorem execute_build_null_rule_exists (env : Env) (d : Link → M Bool) (fuel self : Nat)
    (link : Link) (w : World) (name : String) (mtime : Nat)
    (hself : self < w.nodes.length)
    (hrule : (w.node self).rule = none)
    (htargets : (w.node self).targets = [⟨TType.FILE, name⟩])
    (hchildren : (w.node self).children = [])
    (herror : (w.node self).error = 0)
    (hjob : (w.node self).job = Job.fresh)
    (hchecked : (w.node self).checked = false)
    (hneed : (w.node self).need_build = false)
    (hts : (w.node self).timestamp = none)
    (hstat : ∀ w1, env.stat w1 name = Stat.ok mtime) :
    execute_build env d fuel self link w =
      (Outcome.ret false,
        w.modify self (fun e => { e with
          timestamps_old := [some mtime], checked := true, exists_ := 1,
          timestamp := some mtime, done := e.done.add_neg env.F link.avoid })) := by
  unfold execute_build
  rw [run_bind_getNode]
  simp only [hchildren, herror, htargets, hjob, hrule, Execution.get_dynamic_depth,
    TType.get_dynamic_depth, TType.FILE, Job.started_or_waited, List.length_nil, ne_eq,
    not_true_eq_false, if_false, List.isEmpty_cons, Bool.false_eq_true, or_self,
    Nat.cast_zero]
  have hprobe : execute_probe env self link false w =
      (Outcome.ret none, w.modify self (fun e => { e with
          timestamps_old := [some mtime], checked := true, exists_ := 1,
          timestamp := some mtime })) := by
    unfold execute_probe
    rw [run_bind_modifyNode, run_bind_getNode]
    simp only [node_modify_self, length_modify, hself, hchecked, htargets, Bool.not_false,
      if_true, run_bind_modifyNode, execute_probe_loop]
    have ht : ∀ w3, execute_probe_target env self link false 0 ⟨TType.FILE, name⟩ w3 = _ :=
      fun w3 => execute_probe_target_ok env self link false 0 ⟨TType.FILE, name⟩ w3 mtime rfl
        (hstat w3)
    rw [run_bind, run_bind, ht]
    simp only [node_modify_self, length_modify, hself, hneed, hts, Timestamp.defined,
      Option.isSome_none, Bool.and_false, Bool.false_and, Bool.false_eq_true, if_false,
      run_bind_pure, run_bind_getNode, htargets, List.length_singleton, List.replicate_one,
      List.set_cons_zero, execute_fold_timestamps, Option.isSome_some, Bool.not_false,
      Bool.true_or, Bool.and_self, if_true, run_bind_modifyNode, modify_modify, run_pure]
    rw [run_bind, run_bind_getNode]
    simp only [node_modify_self, length_modify, hself, hts, Option.isSome_none, Bool.not_false,
      Bool.true_or, Bool.and_self, if_true, run_bind_modifyNode, modify_modify, run_pure]
    refine congrArg (Prod.mk (Outcome.ret none)) (modify_congr _ _ _ _ ?_)
    simp only [htargets, List.length_singleton, List.replicate_one, List.set_cons_zero]
  have htr : ∀ w5 : World, (w5.node self).need_build = false →
      (w5.node self).targets = [⟨TType.FILE, name⟩] →
      execute_transients self false w5 = (Outcome.ret (), w5) := by
    intro w5 h1 h2
    unfold execute_transients
    rw [run_bind_getNode, run_bind_get]
    have hb : ((⟨Base.FILE, 0⟩ : TType) == ⟨Base.TRANSIENT, 0⟩) = false := by decide
    simp only [h1, h2, Bool.not_false, if_true, List.find?, TType.FILE, TType.TRANSIENT, hb,
      Bool.false_and]
    rfl
  unfold or_else
  rw [run_bind_ret _ _ w _ none hprobe]
  dsimp only
  rw [run_bind_ret _ _ _ _ () (htr _ (by rw [node_modify_self _ _ _ hself]; exact hneed)
    (by rw [node_modify_self _ _ _ hself]; exact htargets))]
  rw [execute_rebuild_done _ _ _ _ _ _ _ (by rw [node_modify_self _ _ _ hself]; exact hneed),
    modify_modify]

/-- A node without a rule that was checked by an earlier call is marked done
without a new probe. -/
theorem execute_build_null_rule_checked (env : Env) (d : Link → M Bool) (fuel self : Nat)
    (link : Link) (w : World) (name : String)
    (hself : self < w.nodes.length)
    (hrule : (w.node self).rule = none)
    (htargets : (w.node self).targets = [⟨TType.FILE, name⟩])
    (hchildren : (w.node self).children = [])
    (herror : (w.node self).error = 0)
    (hjob : (w.node self).job = Job.fresh)
    (hchecked : (w.node self).checked = true)
    (hneed : (w.node self).need_build = false) :
    execute_build env d fuel self link w =
      (Outcome.ret false,
        w.modify self (fun e => { e with
          timestamps_old := [none], done := e.done.add_neg env.F link.avoid })) := by
  unfold execute_build
  rw [run_bind_getNode]
  simp only [hchildren, herror, htargets, hjob, hrule, Execution.get_dynamic_depth,
    TType.get_dynamic_depth, TType.FILE, Job.started_or_waited, List.length_nil, ne_eq,
    not_true_eq_false, if_false, List.isEmpty_cons, Bool.false_eq_true, or_self,
    Nat.cast_zero]
  have hprobe : execute_probe env self link false w =
      (Outcome.ret none, w.modify self (fun e => { e with timestamps_old := [none] })) := by
    unfold execute_probe
    rw [run_bind_modifyNode, run_bind_getNode]
    simp only [node_modify_self, length_modify, hself, hchecked, Bool.not_true,
      Bool.false_eq_true, if_false, run_pure]
    refine congrArg (Prod.mk (Outcome.ret none)) (modify_congr _ _ _ _ ?_)
    simp only [htargets, List.length_singleton, List.replicate_one]
  have htr : execute_transients self false
      (w.modify self (fun e => { e with timestamps_old := [none] })) =
      (Outcome.ret (), w.modify self (fun e => { e with timestamps_old := [none] })) := by
    unfold execute_transients
    rw [run_bind_getNode, run_bind_get]
    have hb : ((⟨Base.FILE, 0⟩ : TType) == ⟨Base.TRANSIENT, 0⟩) = false := by decide
    simp only [node_modify_self, hself, hneed, htargets, Bool.not_false, if_true, List.find?,
      TType.FILE, TType.TRANSIENT, hb, Bool.false_and]
    rfl
  unfold or_else
  rw [run_bind_ret _ _ w _ none hprobe]
  dsimp only
  rw [run_bind_ret _ _ _ _ () htr]
  rw [execute_rebuild_done _ _ _ _ _ _ _ (by rw [node_modify_self _ _ _ hself]; exact hneed),
    modify_modify]

/-- A node without a rule whose file does not exist, reached through a link
that is not optional: the probe sets `need_build` and the start of the command
is reached with the null rule. -/
theorem execute_build_null_rule_missing (env : Env) (d : Link → M Bool) (fuel self : Nat)
    (link : Link) (w : World) (name : String)
    (hself : self < w.nodes.length)
    (hrule : (w.node self).rule = none)
    (htargets : (w.node self).targets = [⟨TType.FILE, name⟩])
    (hchildren : (w.node self).children = [])
    (herror : (w.node self).error = 0)
    (hjob : (w.node self).job = Job.fresh)
    (hchecked : (w.node self).checked = false)
    (hneed : (w.node self).need_build = false)
    (htrivial : (w.node self).buf_trivial = [])
    (hopt : link.flags &&& env.F.F_OPTIONAL = 0)
    (hq : env.option_question = false)
    (hstat : ∀ w1, env.stat w1 name = Stat.enoent) :
    execute_build env d fuel self link w =
      (Outcome.undef,
        { w.modify self (fun e => { e with
            timestamps_old := [none], checked := true, exists_ := -1, need_build := true }) with
          worked := true }) := by
  unfold execute_build
  rw [run_bind_getNode]
  simp only [hchildren, herror, htargets, hjob, hrule, Execution.get_dynamic_depth,
    TType.get_dynamic_depth, TType.FILE, Job.started_or_waited, List.length_nil, ne_eq,
    not_true_eq_false, if_false, List.isEmpty_cons, Bool.false_eq_true, or_self,
    Nat.cast_zero]
  have ht : ∀ w3, (w3.node self).need_build = false → self < w3.nodes.length →
      execute_probe_target env self link false 0 ⟨TType.FILE, name⟩ w3 =
        (Outcome.ret none, (w3.modify self (fun e => { e with exists_ := -1 })).modify self
          (fun e => { e with need_build := true })) := by
    intro w3 h3 hl
    unfold execute_probe_target
    rw [if_neg (not_not.mpr rfl), run_bind_get]
    simp only [hstat, run_bind_modifyNode, run_bind_getNode, node_modify_self, hl, h3,
      Bool.not_false, if_true, hopt, run_bind_pure, Bool.not_true, Bool.false_eq_true,
      if_false, run_pure]
  have hprobe : execute_probe env self link false w =
      (Outcome.ret none, w.modify self (fun e => { e with
        timestamps_old := [none], checked := true, exists_ := -1, need_build := true })) := by
    unfold execute_probe
    rw [run_bind_modifyNode, run_bind_getNode]
    simp only [node_modify_self, length_modify, hself, hchecked, htargets, Bool.not_false,
      if_true, run_bind_modifyNode, execute_probe_loop]
    rw [run_bind, run_bind, ht _ (by
      simp only [node_modify_self, length_modify, hself]
      exact hneed) (by simp only [length_modify]; exact hself)]
    simp only [node_modify_self, length_modify, hself, run_bind_pure, run_bind_getNode,
      htargets, List.length_singleton, List.replicate_one, execute_fold_timestamps,
      Timestamp.defined, Option.isSome_none, Bool.false_and, Bool.false_eq_true, if_false,
      modify_modify, run_pure]
    change (Outcome.ret none, _) = _
    refine congrArg (Prod.mk (Outcome.ret none)) (modify_congr _ _ _ _ ?_)
    simp only [htargets, List.length_singleton, List.replicate_one]
  have htr : ∀ w5 : World, (w5.node self).need_build = true →
      execute_transients self false w5 = (Outcome.ret (), w5) := by
    intro w5 h1
    unfold execute_transients
    rw [run_bind_getNode, run_bind_get]
    simp only [h1, Bool.not_true, Bool.false_eq_true, if_false]
    rfl
  have hp2 : ∀ w5 : World, (w5.node self).buf_trivial = [] →
      execute_pass2 d self fuel w5 = (Outcome.ret none, w5) := by
    intro w5 h1
    cases fuel with
    | zero =>
      unfold execute_pass2
      rw [run_bind_getNode, h1]
      rfl
    | succ n =>
      unfold execute_pass2
      rw [run_bind_getNode, h1]
      rfl
  unfold or_else
  rw [run_bind_ret _ _ w _ none hprobe]
  dsimp only
  rw [run_bind_ret _ _ _ _ () (htr _ (by rw [node_modify_self _ _ _ hself]))]
  rw [execute_rebuild_pass2 _ _ _ _ _ _ _ (by rw [node_modify_self _ _ _ hself])]
  unfold or_else
  rw [run_bind_ret _ _ _ _ none (hp2 _ (by rw [node_modify_self _ _ _ hself]; exact htrivial))]
  simp only [Bool.false_eq_true, if_false, hq]
  unfold execute_run
  rw [run_bind_update, run_bind_getNode]
  have hr : (({ w.modify self (fun e => { e with
            timestamps_old := [none], checked := true, exists_ := -1, need_build := true }) with
          worked := true } : World).node self).rule = none := by
    have : ∀ w6 : World, ({ w6 with worked := true } : World).node self = w6.node self :=
      fun _ => rfl
    rw [this, node_modify_self _ _ _ hself]
    exact hrule
  rw [hr]
  rfl

/-- C27: a node without a rule can reach the code that starts the command,
where the null `rule` is dereferenced.  The targets are `-o B2` and `B2`; the
file `B2` does not exist and there is no rule for it.  For the optional
dependency the constructor skips the test of the file, so no error "no rule to
build" is raised, and `execute` returns at the optional check with the file
absent, leaving `checked` false.  For the second dependency `get_execution`
finds the execution of `B2`; `execute` is called with a link that is not
optional, the node is not finished for it, its buffers are empty, it has no
children and its error is 0.  The return for nodes without a command is only
taken for the root and for dynamic executions, so the probe runs, finds the
file absent and sets `need_build`; `worked` is set and the start of the command
is reached with `rule == nullptr`.  With the single target `B2` the constructor
raises the error and the run ends with it. -/
theorem null_rule_dereferenced :
    (execute envA 4 0 none rootLink worldO).1 = Outcome.undef ∧
    ((execute envA 4 0 none rootLink worldO).2.node 1).targets = [targetB2] ∧
    ((execute envA 4 0 none rootLink worldO).2.node 1).rule = none ∧
    ((execute envA 4 0 none rootLink worldO).2.node 1).error = 0 ∧
    ((execute envA 4 0 none rootLink worldO).2.node 1).buf_default = [] ∧
    ((execute envA 4 0 none rootLink worldO).2.node 1).children = [] ∧
    ((execute envA 4 0 none rootLink worldO).2.node 1).checked = true ∧
    ((execute envA 4 0 none rootLink worldO).2.node 1).need_build = true ∧
    (execute envA 4 0 none rootLink worldO).2.worked = true ∧
    (execute envA 4 0 none rootLink worldO).2.actions = [] ∧
    (main envA 4 [Dependency.direct 2 targetB2 "" true, Dependency.direct 0 targetB2 "" true]
      (World.initial 1)).1 = Outcome.undef ∧
    (main { envA with option_keep_going := false } 4
      [Dependency.direct 2 targetB2 "" true, Dependency.direct 0 targetB2 "" true]
      (World.initial 1)).1 = Outcome.undef ∧
    (main envA 4 [Dependency.direct 0 targetB2 "" true] (World.initial 1)).1 =
      Outcome.thrown 1 := by
  decide

/-! ### Transient targets that were not yet executed -/

theorem execute_transients_run (self : Nat) (no_execution : Bool) (w : World) :
    execute_transients self no_execution w =
      (Outcome.ret (),
        if (w.node self).need_build = false ∧ no_execution = false ∧
            (w.node self).targets.any (fun t => t.type == TType.FILE) = false ∧
            (w.node self).targets.any
              (fun t => t.type == TType.TRANSIENT && !amap_has w.transients t.name) = true then
          w.modify self (fun e => { e with need_build := true })
        else w) := by
  unfold execute_transients
  rw [run_bind_getNode, run_bind_get]
  cases hn : (w.node self).need_build with
  | true => simp
  | false =>
    simp only [Bool.not_false, if_true, true_and]
    cases hf : (w.node self).targets.find?
        (fun t => t.type == TType.TRANSIENT && !amap_has w.transients t.name) with
    | none =>
      have hany : (w.node self).targets.any
          (fun t => t.type == TType.TRANSIENT && !amap_has w.transients t.name) = false := by
        rw [List.find?_eq_none] at hf
        rw [List.any_eq_false]
        intro x hx
        exact hf x hx
      rw [hany]
      simp
    | some t =>
      have hany : (w.node self).targets.any
          (fun t => t.type == TType.TRANSIENT && !amap_has w.transients t.name) = true := by
        rw [List.any_eq_true]
        exact ⟨t, List.mem_of_find?_eq_some hf, @List.find?_some _ _ t _ hf⟩
      rw [hany]
      cases no_execution <;>
        cases (w.node self).targets.any (fun t => t.type == TType.FILE) <;> simp

/-- C28: for a node with a rule whose `need_build` is still false after the
existence check, the check of the transient targets always returns, and it
sets `need_build` if and only if no target of the node is a file, the rule has
a command or is a copy rule (`no_execution` is false), and some transient
target of the node is not yet in `transients`.  In every other case the rest
of `execute` marks the node done for the link and returns false, changing
nothing else: no command is started. -/
theorem transient_freshness (env : Env) (d : Link → M Bool) (fuel self : Nat) (link : Link)
    (no_execution : Bool) (w : World) (r : Rule)
    (hself : self < w.nodes.length)
    (hneed : (w.node self).need_build = false)
    (hrule : (w.node self).rule = some r)
    (hne : no_execution = (!r.has_command && !r.is_copy)) :
    (execute_transients self no_execution w).1 = Outcome.ret () ∧
    (((execute_transients self no_execution w).2.node self).need_build = true ↔
      ((¬ ∃ t ∈ (w.node self).targets, t.type = TType.FILE) ∧
        (r.has_command = true ∨ r.is_copy = true) ∧
        ∃ t ∈ (w.node self).targets,
          t.type = TType.TRANSIENT ∧ amap_has w.transients t.name = false)) ∧
    (¬ ((¬ ∃ t ∈ (w.node self).targets, t.type = TType.FILE) ∧
        (r.has_command = true ∨ r.is_copy = true) ∧
        ∃ t ∈ (w.node self).targets,
          t.type = TType.TRANSIENT ∧ amap_has w.transients t.name = false) →
      (execute_transients self no_execution >>= fun _ =>
          execute_rebuild env d fuel self link no_execution) w =
        (Outcome.ret false,
          w.modify self (fun e => { e with done := e.done.add_neg env.F link.avoid }))) := by
  have hiff : ((w.node self).need_build = false ∧ no_execution = false ∧
        (w.node self).targets.any (fun t => t.type == TType.FILE) = false ∧
        (w.node self).targets.any
          (fun t => t.type == TType.TRANSIENT && !amap_has w.transients t.name) = true) ↔
      ((¬ ∃ t ∈ (w.node self).targets, t.type = TType.FILE) ∧
        (r.has_command = true ∨ r.is_copy = true) ∧
        ∃ t ∈ (w.node self).targets,
          t.type = TType.TRANSIENT ∧ amap_has w.transients t.name = false) := by
    rw [hne, List.any_eq_false, List.any_eq_true]
    constructor
    · rintro ⟨_, h2, h3, t, ht, h4⟩
      refine ⟨?_, ?_, t, ht, ?_⟩
      · rintro ⟨x, hx, hxt⟩
        exact h3 x hx (by rw [hxt]; decide)
      · cases hc : r.has_command <;> cases hk : r.is_copy <;> simp [hc, hk] at h2 ⊢
      · simp only [Bool.and_eq_true, beq_iff_eq, Bool.not_eq_true'] at h4
        exact h4
    · rintro ⟨h1, h2, t, ht, h4⟩
      refine ⟨hneed, ?_, ?_, t, ht, ?_⟩
      · rcases h2 with h | h <;> simp [h]
      · intro x hx hxt
        exact h1 ⟨x, hx, by simpa using hxt⟩
      · simp only [Bool.and_eq_true, beq_iff_eq, Bool.not_eq_true']
        exact h4
  refine ⟨by rw [execute_transients_run], ?_, ?_⟩
  · rw [execute_transients_run, ← hiff]
    dsimp only
    split
    · rename_i h
      rw [node_modify_self _ _ _ hself]
      exact ⟨fun _ => h, fun _ => rfl⟩
    · rename_i h
      exact ⟨fun h2 => absurd (hneed.symm.trans h2) (by decide), fun h2 => absurd h2 h⟩
  · intro hc
    rw [run_bind_ret _ _ w _ () (execute_transients_run self no_execution w),
      if_neg (fun h => hc (hiff.1 h))]
    exact execute_rebuild_done env d fuel self link no_execution w hneed

/-! ### The variables passed to the command -/

theorem amap_find_append_of_none {κ ν : Type} [DecidableEq κ] (m l : List (κ × ν)) (k : κ)
    (h : amap_find m k = none) : amap_find (m ++ l) k = amap_find l k := by
  induction m with
  | nil => rfl
  | cons p rest ih =>
    rcases p with ⟨k1, v1⟩
    simp only [List.cons_append, amap_find] at h ⊢
    by_cases hk : k1 = k
    · simp [hk] at h
    · simp only [hk, if_false] at h ⊢
      exact ih h

theorem amap_find_insert_all_of_none {κ ν : Type} [DecidableEq κ] (l : List (κ × ν)) :
    ∀ (m : List (κ × ν)) (k : κ), amap_find m k = none →
      amap_find (amap_insert_all m l) k = amap_find l k := by
  induction l with
  | nil => intro m k h; exact h
  | cons p rest ih =>
    intro m k h
    rcases p with ⟨k2, v2⟩
    show amap_find (amap_insert_all (amap_insert m k2 v2) rest) k = amap_find ((k2, v2) :: rest) k
    by_cases hk : k2 = k
    · have h1 : amap_find (amap_insert m k2 v2) k = some v2 := by
        unfold amap_insert amap_has
        rw [hk, h]
        simp only [Option.isSome_none, Bool.false_eq_true, if_false]
        rw [amap_find_append_of_none _ _ _ h]
        simp [amap_find]
      rw [amap_find_insert_all_of_some _ _ _ _ h1]
      simp [amap_find, hk]
    · have h1 : amap_find (amap_insert m k2 v2) k = none := by
        unfold amap_insert
        split
        · exact h
        · rw [amap_find_append_of_none _ _ _ h]
          simp [amap_find, hk]
      rw [ih _ _ h1]
      simp [amap_find, hk]

theorem execute_stamp_transients_run (env : Env) (targets : List Target) :
    ∀ w : World, ∃ tr, execute_stamp_transients env targets w =
      (Outcome.ret (), { w with transients := tr }) := by
  induction targets with
  | nil => intro w; exact ⟨w.transients, rfl⟩
  | cons t rest ih =>
    intro w
    unfold execute_stamp_transients
    by_cases ht : t.type ≠ TType.TRANSIENT
    · rw [if_pos ht]
      exact ih w
    · rw [if_neg ht, run_bind_update]
      obtain ⟨tr, htr⟩ := ih { w with transients := amap_set w.transients t.name (some (env.now w)) }
      exact ⟨tr, htr⟩

/-- C29: when `execute` starts the command of a rule (not hardcoded content,
not a copy), the job is started with a `mapping` in which every name bound in
`mapping_parameter` has the value of the parameter, also when
`mapping_variable` binds the name too, and every other name has what
`mapping_variable` binds to it (its value, or nothing); afterwards
`mapping_parameter` and `mapping_variable` of the node are empty. -/
theorem execute_run_mapping (env : Env) (self : Nat) (link : Link) (w : World) (r : Rule)
    (hself : self < w.nodes.length)
    (hrule : (w.node self).rule = some r)
    (hhard : r.is_hardcode = false) (hcopy : r.is_copy = false)
    (hcommand : r.has_command = true) :
    ∃ mapping : List (String × String),
      (execute_run env self link w).2.actions = w.actions ++ [Action.start_job self mapping] ∧
      (∀ k v, amap_find (w.node self).mapping_parameter k = some v →
        amap_find mapping k = some v) ∧
      (∀ k, amap_find (w.node self).mapping_parameter k = none →
        amap_find mapping k = amap_find (w.node self).mapping_variable k) ∧
      ((execute_run env self link w).2.node self).mapping_parameter = [] ∧
      ((execute_run env self link w).2.node self).mapping_variable = [] := by
  have hrun : ∃ w2 : World,
      (execute_run env self link w).2 = w2 ∧
      w2.actions = w.actions ++ [Action.start_job self
        (amap_insert_all (amap_insert_all [] (w.node self).mapping_parameter)
          (w.node self).mapping_variable)] ∧
      (w2.node self).mapping_parameter = [] ∧ (w2.node self).mapping_variable = [] := by
    unfold execute_run
    rw [run_bind_update, run_bind_getNode]
    have hn : ({ w with worked := true } : World).node self = w.node self := rfl
    rw [hn]
    simp only [hrule, hhard, Bool.false_eq_true, if_false]
    obtain ⟨tr, htr⟩ := execute_stamp_transients_run env (w.node self).targets
      { w with worked := true }
    rw [run_bind_ret _ _ _ _ () htr, run_bind_modifyNode]
    simp only [hcopy, hcommand, Bool.not_false, Bool.not_true, Bool.and_false,
      Bool.false_eq_true, if_false, run_bind_get, run_bind_update]
    have hmod : ∀ (f : Execution → Execution) (w1 : World) (i : Nat),
        (∀ e, (f e).mapping_parameter = e.mapping_parameter ∧
          (f e).mapping_variable = e.mapping_variable) →
        (w1.actions = w.actions ++ [Action.start_job self
            (amap_insert_all (amap_insert_all [] (w.node self).mapping_parameter)
              (w.node self).mapping_variable)] ∧
          (w1.node self).mapping_parameter = [] ∧ (w1.node self).mapping_variable = []) →
        ((w1.modify i f).actions = w.actions ++ [Action.start_job self
            (amap_insert_all (amap_insert_all [] (w.node self).mapping_parameter)
              (w.node self).mapping_variable)] ∧
          ((w1.modify i f).node self).mapping_parameter = [] ∧
          ((w1.modify i f).node self).mapping_variable = []) := by
      intro f w1 i hf h
      refine ⟨h.1, ?_, ?_⟩
      · rw [node_modify_same (fun e => e.mapping_parameter) w1 i self f (fun e => (hf e).1)]
        exact h.2.1
      · rw [node_modify_same (fun e => e.mapping_variable) w1 i self f (fun e => (hf e).2)]
        exact h.2.2
    refine ⟨_, rfl, ?_⟩
    refine Keeps.run (I := fun w1 : World =>
      w1.actions = w.actions ++ [Action.start_job self
            (amap_insert_all (amap_insert_all [] (w.node self).mapping_parameter)
              (w.node self).mapping_variable)] ∧
          (w1.node self).mapping_parameter = [] ∧ (w1.node self).mapping_variable = []) ?_ _ ?_
    · repeat' first
        | intro _
        | exact keeps_pure _ _
        | exact keeps_get _
        | exact keeps_raise _ _ _ (fun w1 h => hmod _ w1 _ (fun _ => ⟨rfl, rfl⟩) h)
        | exact keeps_modifyNode (fun w1 h => hmod _ w1 _ (fun _ => ⟨rfl, rfl⟩) h)
        | exact keeps_update (fun w1 h => h)
        | apply keeps_bind
        | apply keeps_ite
        | split
        | dsimp only
    · refine ⟨rfl, ?_, ?_⟩
      · exact congrArg Execution.mapping_parameter (node_modify_self _ _ _ hself)
      · exact congrArg Execution.mapping_variable (node_modify_self _ _ _ hself)
  obtain ⟨w2, h2, hact, hmp, hmv⟩ := hrun
  refine ⟨amap_insert_all (amap_insert_all [] (w.node self).mapping_parameter)
    (w.node self).mapping_variable, ?_, ?_, ?_, ?_⟩
  · rw [h2]
    exact hact
  · intro k v h
    apply amap_find_insert_all_of_some
    rw [amap_find_insert_all_of_none (w.node self).mapping_parameter [] k rfl]
    exact h
  · intro k h
    rw [amap_find_insert_all_of_none (w.node self).mapping_variable _ k]
    rw [amap_find_insert_all_of_none (w.node self).mapping_parameter [] k rfl]
    exact h
  · rw [h2]
    exact ⟨hmp, hmv⟩

/-! ### The link built by `execute_children` -/

/-- C30: the link that `execute_children` builds can fail the assertion at the
entry of `execute` although the link stored on the back-edge passes it.  With
`-j 2` and the rules `P: @t !@t { command }`, `@t: @u;`, `@u: { command }`,
the first pass of `P` deploys `@t`, which deploys `@u` and starts its command;
one job slot is left, so `P` deploys `!@t` next.  `@t` is called again, now
with the flag of `!` in its link, and its `execute_children` ORs that flag into
the flags of the link for `@u` but takes `avoid` from the back-edge as it is:
`avoid.get_lowest()` is 0 and the low bits of the flags are 1.  With the
assertion compiled in the run aborts; without it the run goes on.  On the
world that the first call of `execute` leaves, the back-edge of `@u` (node 3)
to `@t` (node 2) passes the assertion, the link `!@t` passes it for `@t`, and
`execute_children` of `@t` with that link calls `execute` on `@u` with a link
that fails it.  The same happens with the file `A` in the place of `@u`. -/
theorem execute_children_link_breaks_assertion :
    (execute_checked envX 8 0 none rootLink worldX).1 = Outcome.exited EXIT_ABORT ∧
    (execute envX 8 0 none rootLink worldX).1 = Outcome.ret false ∧
    ((execute envX 8 0 none rootLink worldX).2.node 3).targets = [targetU] ∧
    ((execute envX 8 0 none rootLink worldX).2.node 2).children = [3] ∧
    amap_find ((execute envX 8 0 none rootLink worldX).2.node 3).parents 2 =
      some ⟨Stack.mk [0], 0, some (Dependency.direct 0 targetU "" true)⟩ ∧
    execute_entry_assertion envX.F ((execute envX 8 0 none rootLink worldX).2.node 3)
      ⟨Stack.mk [0], 0, some (Dependency.direct 0 targetU "" true)⟩ = true ∧
    execute_entry_assertion envX.F ((execute envX 8 0 none rootLink worldX).2.node 2)
      ⟨Stack.mk [1], 1, some (Dependency.direct 1 targetT "" true)⟩ = true ∧
    (execute_children envX
      (fun child _ l w =>
        if execute_entry_assertion envX.F (w.node child) l then (Outcome.ret false, w)
        else (Outcome.exited EXIT_ABORT, w))
      2 ⟨Stack.mk [1], 1, some (Dependency.direct 1 targetT "" true)⟩
      (execute envX 8 0 none rootLink worldX).2).1 = Outcome.exited EXIT_ABORT ∧
    (execute_checked envXA 8 0 none rootLink worldX).1 = Outcome.exited EXIT_ABORT ∧
    (execute envXA 8 0 none rootLink worldX).1 = Outcome.ret false := by
  decide!

/-! ### `need_build` and `buf_trivial` through `execute` -/

theorem raise_keepsN {I : World → Prop} {F : FlagConsts} (hN : ClosedN F I)
    (env : Env) (self x : Nat) : Keeps I (raise env self x) :=
  keeps_raise env self x (fun w hw => hN _ _ (StepN.frame w _ _ (fun _ => ⟨rfl, rfl⟩)) hw)

/-- The edge between `A` (node 0) and `B2` (node 1) is removed; the edge from
`A` to `C` (node 2) and the edge from node 3 to `B2` stay. -/
theorem unlink_removes_one_edge_witness :
    (unlink envA 0 1 none Stack.empty (some (Dependency.direct 0 targetB2 "" true))
      Stack.empty 0 worldU).1 = Outcome.ret () ∧
    ((unlink envA 0 1 none Stack.empty (some (Dependency.direct 0 targetB2 "" true))
      Stack.empty 0 worldU).2.node 0).children = [2] ∧
    ((unlink envA 0 1 none Stack.empty (some (Dependency.direct 0 targetB2 "" true))
      Stack.empty 0 worldU).2.node 1).parents = [(3, rootLink)] ∧
    ((unlink envA 0 1 none Stack.empty (some (Dependency.direct 0 targetB2 "" true))
      Stack.empty 0 worldU).2.node 3).children = [1] ∧
    ((unlink envA 0 1 none Stack.empty (some (Dependency.direct 0 targetB2 "" true))
      Stack.empty 0 worldU).2.node 2).parents = [(0, rootLink)] := by
  have h := (unlink_removes_one_edge envA 0 1 none Stack.empty
    (some (Dependency.direct 0 targetB2 "" true)) Stack.empty 0 worldU).1 (by decide)
  exact ⟨by decide, (h.1 0).1.trans (by decide), (h.1 1).2.trans (by decide),
    (h.1 3).1.trans (by decide), (h.1 2).2.trans (by decide)⟩

/-- The timestamp 9 of `B2` replaces the timestamp 5 of `A` over a plain edge,
and does not over an edge with the existence flag. -/
theorem unlink_timestamp_later_witness :
    0 < worldU.nodes.length ∧
    ((unlink envA 0 1 none Stack.empty (some (Dependency.direct 0 targetB2 "" true))
      Stack.empty 0 worldU).2.node 0).timestamp = some 9 ∧
    ((unlink envA 0 1 none Stack.empty (some (Dependency.direct 1 targetB2 "" true))
      (Stack.mk [1]) 1 worldU).2.node 0).timestamp = some 5 :=
  ⟨by decide,
    (unlink_timestamp_later envA 0 1 none Stack.empty
      (some (Dependency.direct 0 targetB2 "" true)) Stack.empty 0 worldU
      (by decide)).1.trans (by decide),
    (unlink_timestamp_later envA 0 1 none Stack.empty
      (some (Dependency.direct 1 targetB2 "" true)) (Stack.mk [1]) 1 worldU
      (by decide)).1.trans (by decide)⟩

/-- The rebuilt `B2` makes `A` need a build over a plain edge, and does not over
an edge with the existence flag. -/
theorem unlink_need_build_witness :
    0 < worldU.nodes.length ∧
    (worldU.node 0).need_build = false ∧ (worldU.node 1).need_build = true ∧
    ((unlink envA 0 1 none Stack.empty (some (Dependency.direct 0 targetB2 "" true))
      Stack.empty 0 worldU).2.node 0).need_build = true ∧
    ¬ ((unlink envA 0 1 none Stack.empty (some (Dependency.direct 1 targetB2 "" true))
      (Stack.mk [1]) 1 worldU).2.node 0).need_build = true :=
  ⟨by decide, by decide, by decide,
    ((unlink_need_build envA 0 1 none Stack.empty
      (some (Dependency.direct 0 targetB2 "" true)) Stack.empty 0 worldU
      (by decide)).1 (by decide)).2 (Or.inr ⟨by decide, by decide, by decide⟩),
    fun h => (((unlink_need_build envA 0 1 none Stack.empty
      (some (Dependency.direct 1 targetB2 "" true)) (Stack.mk [1]) 1 worldU
      (by decide)).1 (by decide)).1 h).elim (fun h1 => absurd h1 (by decide))
        (fun h2 => absurd h2.2.1 (by decide))⟩

/-- Over an edge with the read flag from the dynamic dependency `[B2]` to the
file `B2`, which exists and has no error, `unlink` starts with
`read_dynamics`; over a plain edge it does not call it. -/
theorem unlink_reads_dynamics_witness :
    ((worldU.node 1).exists_ = -1 ∨ (worldU.node 1).exists_ = 0 ∨
      (worldU.node 1).exists_ = 1) ∧
    unlink envA 0 1 (some (Dependency.direct 0 ⟨TType.DYNAMIC_FILE, "B2"⟩ "" true))
        (Stack.zero 1) (some (Dependency.direct 8 targetB2 "" true)) Stack.empty 8 worldU =
      (read_dynamics envA 0 (Stack.zero 1)
          (some (Dependency.direct 0 ⟨TType.DYNAMIC_FILE, "B2"⟩ "" true)) >>= fun _ =>
        unlink_timestamp envA 0 1 8 >>= fun _ =>
        unlink_variable envA 0 1 (some (Dependency.direct 8 targetB2 "" true)) 8 >>= fun _ =>
        unlink_mapping 0 1 (some (Dependency.direct 8 targetB2 "" true)) >>= fun _ =>
        unlink_attributes envA 0 1 8) worldU ∧
    unlink envA 0 1 none Stack.empty (some (Dependency.direct 0 targetB2 "" true))
        Stack.empty 0 worldU =
      (unlink_timestamp envA 0 1 0 >>= fun _ =>
        unlink_variable envA 0 1 (some (Dependency.direct 0 targetB2 "" true)) 0 >>= fun _ =>
        unlink_mapping 0 1 (some (Dependency.direct 0 targetB2 "" true)) >>= fun _ =>
        unlink_attributes envA 0 1 0) worldU :=
  ⟨by decide,
    (unlink_reads_dynamics envA 0 1
      (some (Dependency.direct 0 ⟨TType.DYNAMIC_FILE, "B2"⟩ "" true)) (Stack.zero 1)
      (some (Dependency.direct 8 targetB2 "" true)) Stack.empty 8 worldU (by decide)).1
        ⟨by decide, by decide, Or.inl (by decide)⟩,
    ((unlink_reads_dynamics envA 0 1 none Stack.empty
      (some (Dependency.direct 0 targetB2 "" true)) Stack.empty 0 worldU (by decide)).2
        (fun h => absurd rfl h.1)).1⟩

/-- The link of `-t C` in the second pass: the command of `C` is started and
the node is not marked done, as with the link without the trivial flag; with
the link of the first pass the node is marked done and nothing is started. -/
theorem execute_override_trivial_witness :
    (linkCo.flags &&& envC.F.F_OVERRIDETRIVIAL ≠ 0 ∧
      (⟨Stack.mk [0], 32, linkCo.dependency⟩ : Link) =
        { linkCo with
          flags := linkCo.flags &&& flags_not envC.F.F_TRIVIAL
          avoid := linkCo.avoid.rem_highest envC.F.F_TRIVIAL }) ∧
    execute envC 1 1 (some 0) linkCo =
      execute envC 1 1 (some 0) ⟨Stack.mk [0], 32, linkCo.dependency⟩ ∧
    (execute envC 1 1 (some 0) linkCo worldV).2.actions = [Action.start_job 1 []] ∧
    ((execute envC 1 1 (some 0) linkCo worldV).2.node 1).done = Stack.mk [0] ∧
    (execute envC 1 1 (some 0) linkCt worldV).2.actions = [] ∧
    ((execute envC 1 1 (some 0) linkCt worldV).2.node 1).done = Stack.mk [3] :=
  ⟨⟨by decide, by decide⟩,
    (execute_override_trivial envC 0 1 (some 0) linkCo
      ⟨Stack.mk [0], 32, linkCo.dependency⟩ (by decide) (by decide)).2.2.2,
    by decide, by decide, by decide, by decide⟩

/-- The transient `@u` with the rule `@u: { command }` has not been executed:
the check sets `need_build`. -/
theorem transient_freshness_witness :
    (1 < worldM.nodes.length ∧ (worldM.node 1).need_build = false ∧
      (worldM.node 1).rule = some ruleU ∧
      false = (!ruleU.has_command && !ruleU.is_copy)) ∧
    ((execute_transients 1 false worldM).2.node 1).need_build = true :=
  ⟨⟨by decide, by decide, by decide, by decide⟩,
    (transient_freshness envX (fun _ => pure false) 0 1 rootLink false worldM ruleU (by decide)
      (by decide) (by decide) (by decide)).2.1.2
        ⟨by decide, Or.inl (by decide), ⟨targetU, by decide, by decide, by decide⟩⟩⟩

/-- The parameters `x = 1`, `y = 2` and the variables `y = 9`, `z = 3`: the
command gets `x = 1`, `y = 2`, `z = 3`. -/
theorem execute_run_mapping_witness :
    (1 < worldM.nodes.length ∧ (worldM.node 1).rule = some ruleU ∧
      ruleU.is_hardcode = false ∧ ruleU.is_copy = false ∧ ruleU.has_command = true) ∧
    (∃ mapping : List (String × String),
      (execute_run envC 1 rootLink worldM).2.actions =
        worldM.actions ++ [Action.start_job 1 mapping] ∧
      (∀ k v, amap_find (worldM.node 1).mapping_parameter k = some v →
        amap_find mapping k = some v) ∧
      (∀ k, amap_find (worldM.node 1).mapping_parameter k = none →
        amap_find mapping k = amap_find (worldM.node 1).mapping_variable k) ∧
      ((execute_run envC 1 rootLink worldM).2.node 1).mapping_parameter = [] ∧
      ((execute_run envC 1 rootLink worldM).2.node 1).mapping_variable = []) ∧
    (execute_run envC 1 rootLink worldM).2.actions =
      [Action.start_job 1 [("x", "1"), ("y", "2"), ("z", "3")]] :=
  ⟨⟨by decide, by decide, by decide, by decide, by decide⟩,
    execute_run_mapping envC 1 rootLink worldM ruleU (by decide) (by decide) (by decide)
      (by decide) (by decide),
    by decide⟩

end Stu
